import Mathlib

/-!
# ASCII plotter: raster canvas, shape plotter and brightness plotter

A shallow embedding of `Canvas.cpp`, `CanvasIterators.hpp`, `Plotter.cpp` and
`GrayscalePlotter.cpp`.

Conventions of the embedding.

* `int` values are mathematical integers (`Int`): signed overflow is undefined
  behaviour in the source and is not modelled.
* The conversion of an `int` offset to `size_t` in `Canvas::CalculateShift` is
  modelled explicitly as reduction modulo `2 ^ 64`.
* `std::vector<char>` is a `List Char`; the canvas is row-major, cell `(x, y)`
  at offset `x + y * width`.
* A `while` loop whose trip count is not evident from its header takes a fuel
  argument and returns `none` when the fuel runs out.
* `double` values are exact rationals (`ℚ`): rounding is not modelled, and the
  conversion of a `double` to `int` is truncation toward zero.
* The brightness plotter is a canvas together with a palette; its methods are
  functions of both.
-/

namespace plotter

/-! ## Canvas -/

/-- The raster canvas of `Canvas.hpp`: `width_`, `height_`, `background_`, `data_`. -/
structure Canvas where
  width_ : Int
  height_ : Int
  background_ : Char
  data_ : List Char
deriving DecidableEq, Repr

namespace Canvas

/-- Constructor `Canvas::Canvas(width, height, background_char)`: the buffer holds
`width * height` copies of the background character. A negative product, for which the
allocation fails in the source, is not modelled (the buffer is empty then). -/
def new (width height : Int) (background_char : Char) : Canvas :=
  ⟨width, height, background_char, List.replicate (width * height).toNat background_char⟩

/-- Accessor `Canvas::Width`. -/
def Width (c : Canvas) : Int := c.width_

/-- Accessor `Canvas::Height`. -/
def Height (c : Canvas) : Int := c.height_

/-- Accessor `Canvas::Size`. -/
def Size (c : Canvas) : Int := c.Width * c.Height

/-- Conversion of an `int` to `size_t` (64 bit). -/
def toSizeT (i : Int) : Nat := (i % 2 ^ 64).toNat

/-- Conversion of a `size_t` to `int` (32 bit, two's complement). -/
def toInt32 (n : Nat) : Int := ((n : Int) + 2 ^ 31) % 2 ^ 32 - 2 ^ 31

/-- Offset `Canvas::CalculateShift`: `x + y * Width()` computed in `int`, returned as `size_t`. -/
def CalculateShift (c : Canvas) (x y : Int) : Nat := toSizeT (x + y * c.Width)

/-- Predicate `Canvas::InBounds`. -/
def InBounds (c : Canvas) (x y : Int) : Bool :=
  decide (x ≥ 0) && decide (x < c.Width) && decide (y ≥ 0) && decide (y < c.Height)

/-- The errors a canvas operation can raise. -/
inductive Error where
  | out_of_range
deriving DecidableEq, Repr

/-- The `const` overload of `Canvas::at`: `data_.at(CalculateShift(x, y))`, which throws
`std::out_of_range` exactly when the offset is not below `data_.size()`. -/
def atConst (c : Canvas) (x y : Int) : Except Error Char :=
  match c.data_[c.CalculateShift x y]? with
  | some v => .ok v
  | none => .error .out_of_range

/-- The non-`const` overload of `Canvas::at`, read through: `data_[CalculateShift(x, y)]`,
no check at all. `none` stands for an access outside the buffer (undefined behaviour in
the source); the overload never raises an error. -/
def atMut (c : Canvas) (x y : Int) : Option Char :=
  c.data_[c.CalculateShift x y]?

/-- Unchecked read `operator()(x, y)` (and the non-`const` `at`, which has the same body):
`data_[CalculateShift(x, y)]`. Outside the buffer the source is undefined; the embedding
reads the background there. Every read in the plotter is inside the buffer. -/
def get (c : Canvas) (x y : Int) : Char :=
  c.data_.getD (c.CalculateShift x y) c.background_

/-- Unchecked write `operator()(x, y) = v` (and `at(x, y) = v`). Outside the buffer the
source is undefined; the embedding writes nothing there. -/
def set (c : Canvas) (x y : Int) (v : Char) : Canvas :=
  { c with data_ := c.data_.set (c.CalculateShift x y) v }

/-- Bulk overwrite `Canvas::Clear`. -/
def Clear (c : Canvas) (fill_char : Char) : Canvas :=
  { c with data_ := c.data_.map (fun _ => fill_char) }

/-- The call `std::fill(data_.begin() + first, data_.begin() + last, v)`. The iterators
must satisfy `0 ≤ first ≤ last ≤ size`; otherwise the call reads or writes outside the
buffer, which is `none`. -/
def fillRange (data : List Char) (first last : Int) (v : Char) : Option (List Char) :=
  if 0 ≤ first ∧ first ≤ last ∧ last ≤ data.length then
    some (data.take first.toNat ++ List.replicate (last - first).toNat v ++ data.drop last.toNat)
  else none

/-- Loop of `Canvas::FillRegion`, `n` iterations: each one fills from
`CalculateShift(x1, y1)` up to and including `CalculateShift(x2, y2)` and then
increments `y1`. -/
def FillRegionLoop : Nat → Canvas → Int → Int → Int → Int → Char → Option Canvas
  | 0, c, _, _, _, _, _ => some c
  | n + 1, c, x1, y1, x2, y2, fill_char =>
    let shift_left : Int := toInt32 (c.CalculateShift x1 y1)
    let shift_right : Int := toInt32 (c.CalculateShift x2 y2 + 1)
    (fillRange c.data_ shift_left shift_right fill_char).bind
      (fun d => FillRegionLoop n { c with data_ := d } x1 (y1 + 1) x2 y2 fill_char)

/-- Region fill `Canvas::FillRegion`: `while (y1 < y2) { ...; ++y1; }` runs exactly
`y2 - y1` times when `y1 < y2` and not at all otherwise. `none` is an access outside
the buffer. -/
def FillRegion (c : Canvas) (x1 y1 x2 y2 : Int) (fill_char : Char) : Option Canvas :=
  FillRegionLoop (y2 - y1).toNat c x1 y1 x2 y2 fill_char

/-- Well-formed canvas: non-negative dimensions, a size that fits an `int`, and a
buffer of `width * height` cells. -/
structure WF (c : Canvas) : Prop where
  width_nonneg : 0 ≤ c.width_
  height_nonneg : 0 ≤ c.height_
  size_lt : c.width_ * c.height_ < 2 ^ 31
  length_eq : (c.data_.length : Int) = c.width_ * c.height_

end Canvas

/-! ## Shape plotter -/

/-- The values of a `for (int i = lo; i <= hi; ++i)` loop, in order. -/
def intRange (lo hi : Int) : List Int :=
  (List.range (hi + 1 - lo).toNat).map (fun (k : Nat) => lo + (k : Int))

/-- Pending horizontal run of the scanline fill: the triple `(y, x_start, x_end)`. The
struct is declared in `Plotter.hpp`; the order of its members is that of the structured
binding `[y, x_start, x_end]` and of the `emplace` calls in `Plotter::ScanlineFill`. -/
structure ScanlineSegment where
  y : Int
  x_start : Int
  x_end : Int
deriving DecidableEq, Repr

namespace Plotter

/-- The guarded write `if (canvas_->InBounds(x, y)) (*canvas_)(x, y) = brush;`. -/
def plot (c : Canvas) (x y : Int) (brush : Char) : Canvas :=
  if c.InBounds x y then c.set x y brush else c

/-- The `while (true)` loop of `Plotter::DrawLineBresenham`; `none` when the fuel
runs out before the loop breaks. -/
def DrawLineLoop : Nat → Canvas → Int → Int → Int → Int → Int → Int → Int → Int → Int →
    Char → Option Canvas
  | 0, _, _, _, _, _, _, _, _, _, _, _ => none
  | fuel + 1, c, x1, y1, x2, y2, dx, dy, sx, sy, err, brush =>
    let c := plot c x1 y1 brush
    if x1 = x2 ∧ y1 = y2 then some c
    else
      let e2 := 2 * err
      let err1 := if e2 > -dy then err - dy else err
      let x1 := if e2 > -dy then x1 + sx else x1
      let err2 := if e2 < dx then err1 + dx else err1
      let y1 := if e2 < dx then y1 + sy else y1
      DrawLineLoop fuel c x1 y1 x2 y2 dx dy sx sy err2 brush

/-- Line rasteriser `Plotter::DrawLineBresenham`. -/
def DrawLineBresenham (fuel : Nat) (c : Canvas) (x1 y1 x2 y2 : Int) (brush : Char) :
    Option Canvas :=
  let dx := |x2 - x1|
  let dy := |y2 - y1|
  let sx : Int := if x1 < x2 then 1 else -1
  let sy : Int := if y1 < y2 then 1 else -1
  let err := dx - dy
  DrawLineLoop fuel c x1 y1 x2 y2 dx dy sx sy err brush

/-- Line `Plotter::DrawLine`. -/
def DrawLine (fuel : Nat) (c : Canvas) (x1 y1 x2 y2 : Int) (brush : Char) : Option Canvas :=
  DrawLineBresenham fuel c x1 y1 x2 y2 brush

/-- Rectangle `Plotter::DrawRectangle`: `FillRegion` when `fill` (`none` is then an access
outside the buffer), else four lines (`none` is then a line loop out of fuel). -/
def DrawRectangle (fuel : Nat) (c : Canvas) (x1 y1 x2 y2 : Int) (brush : Char) (fill : Bool) :
    Option Canvas :=
  if fill then c.FillRegion x1 y1 x2 y2 brush
  else
    (DrawLine fuel c x1 y1 x2 y1 brush).bind fun c =>
    (DrawLine fuel c x2 y1 x2 y2 brush).bind fun c =>
    (DrawLine fuel c x2 y2 x1 y2 brush).bind fun c =>
    DrawLine fuel c x1 y2 x1 y1 brush

/-- The lambda `edge_function` of `Plotter::FillTriangle`. -/
def edge_function (x1_ y1_ x2_ y2_ x y : Int) : Int :=
  (x - x1_) * (y2_ - y1_) - (y - y1_) * (x2_ - x1_)

/-- Body of the inner loop of `Plotter::FillTriangle` at pixel `(x, y)`. -/
def FillTriangleStep (x1 y1 x2 y2 x3 y3 : Int) (brush : Char) (y : Int) (c : Canvas) (x : Int) :
    Canvas :=
  if !c.InBounds x y then c
  else
    let inside := true
    let inside := inside && decide (edge_function x1 y1 x2 y2 x y ≥ 0)
    let inside := inside && decide (edge_function x2 y2 x3 y3 x y ≥ 0)
    let inside := inside && decide (edge_function x3 y3 x1 y1 x y ≥ 0)
    if inside then c.set x y brush else c

/-- Triangle fill `Plotter::FillTriangle`: scan of the bounding box, rows outermost. -/
def FillTriangle (c : Canvas) (x1 y1 x2 y2 x3 y3 : Int) (brush : Char) : Canvas :=
  let min_x := min x1 (min x2 x3)
  let max_x := max x1 (max x2 x3)
  let min_y := min y1 (min y2 y3)
  let max_y := max y1 (max y2 y3)
  (intRange min_y max_y).foldl
    (fun c y => (intRange min_x max_x).foldl (FillTriangleStep x1 y1 x2 y2 x3 y3 brush y) c) c

/-- Triangle `Plotter::DrawTriangle`. -/
def DrawTriangle (fuel : Nat) (c : Canvas) (x1 y1 x2 y2 x3 y3 : Int) (brush : Char)
    (fill : Bool) : Option Canvas :=
  if fill then some (FillTriangle c x1 y1 x2 y2 x3 y3 brush)
  else
    (DrawLine fuel c x1 y1 x2 y2 brush).bind fun c =>
    (DrawLine fuel c x2 y2 x3 y3 brush).bind fun c =>
    DrawLine fuel c x3 y3 x1 y1 brush

/-- The `while (!pixels.empty())` loop of `Plotter::FloodFill`; the queue is a list,
front first; `none` when the fuel runs out with the queue not empty. -/
def FloodFillLoop : Nat → Canvas → List (Int × Int) → Char → Char → Option Canvas
  | _, c, [], _, _ => some c
  | 0, _, _ :: _, _, _ => none
  | fuel + 1, c, (cx, cy) :: pixels, target_brush, fill_brush =>
    if !c.InBounds cx cy || c.get cx cy != target_brush then
      FloodFillLoop fuel c pixels target_brush fill_brush
    else
      FloodFillLoop fuel (c.set cx cy fill_brush)
        (pixels ++ [(cx + 1, cy), (cx - 1, cy), (cx, cy + 1), (cx, cy - 1)])
        target_brush fill_brush

/-- Breadth-first fill `Plotter::FloodFill`. -/
def FloodFill (fuel : Nat) (c : Canvas) (x y : Int) (fill_brush : Char) : Option Canvas :=
  if !c.InBounds x y then some c
  else
    let target_brush := c.get x y
    if target_brush = fill_brush then some c
    else FloodFillLoop fuel c [(x, y)] target_brush fill_brush

/-- Loop `while (x_start >= 0 && canvas_->at(x_start, y) == target_brush) x_start--;`. -/
def seedLeftLoop : Nat → Canvas → Int → Char → Int → Option Int
  | 0, _, _, _, _ => none
  | fuel + 1, c, y, target_brush, x_start =>
    if x_start ≥ 0 ∧ c.get x_start y = target_brush then
      seedLeftLoop fuel c y target_brush (x_start - 1)
    else some x_start

/-- Loop `while (x_end < Width() && canvas_->at(x_end, y) == target_brush) x_end++;`. -/
def seedRightLoop : Nat → Canvas → Int → Char → Int → Option Int
  | 0, _, _, _, _ => none
  | fuel + 1, c, y, target_brush, x_end =>
    if x_end < c.Width ∧ c.get x_end y = target_brush then
      seedRightLoop fuel c y target_brush (x_end + 1)
    else some x_end

/-- Loop `for (int i = lo; i <= hi; i++) canvas_->at(i, y) = fill_brush;`. -/
def fillSpan (c : Canvas) (y lo hi : Int) (fill_brush : Char) : Canvas :=
  (intRange lo hi).foldl (fun c i => c.set i y fill_brush) c

/-- Loop `while (new_x_start > 0 && canvas_->at(new_x_start - 1, y) == target_brush)
new_x_start--;`. -/
def extendLeftLoop : Nat → Canvas → Int → Char → Int → Option Int
  | 0, _, _, _, _ => none
  | fuel + 1, c, y, target_brush, new_x_start =>
    if new_x_start > 0 ∧ c.get (new_x_start - 1) y = target_brush then
      extendLeftLoop fuel c y target_brush (new_x_start - 1)
    else some new_x_start

/-- Loop `while (new_x_end < Width() - 1 && canvas_->at(new_x_end + 1, y) == target_brush)
new_x_end++;`. -/
def extendRightLoop : Nat → Canvas → Int → Char → Int → Option Int
  | 0, _, _, _, _ => none
  | fuel + 1, c, y, target_brush, new_x_end =>
    if new_x_end < c.Width - 1 ∧ c.get (new_x_end + 1) y = target_brush then
      extendRightLoop fuel c y target_brush (new_x_end + 1)
    else some new_x_end

/-- Loop `while (above_x <= new_x_end && canvas_->at(above_x, above_y) == target_brush)
above_x++;` (the same loop serves the row below). -/
def runEndLoop : Nat → Canvas → Int → Char → Int → Int → Option Int
  | 0, _, _, _, _, _ => none
  | fuel + 1, c, row, target_brush, new_x_end, above_x =>
    if above_x ≤ new_x_end ∧ c.get above_x row = target_brush then
      runEndLoop fuel c row target_brush new_x_end (above_x + 1)
    else some above_x

/-- Scan of a neighbouring row, `while (above_x <= new_x_end) { ... }`: every maximal
run of the target colour inside `[above_x, new_x_end]` is pushed on the stack (a list,
top first). `budget` is the fuel of the inner loop. -/
def scanRowLoop (budget : Nat) : Nat → Canvas → Int → Char → Int → Int →
    List ScanlineSegment → Option (List ScanlineSegment)
  | 0, _, _, _, _, _, _ => none
  | fuel + 1, c, row, target_brush, new_x_end, above_x, segments =>
    if above_x ≤ new_x_end then
      if c.get above_x row = target_brush then
        let above_start := above_x
        match runEndLoop budget c row target_brush new_x_end above_x with
        | none => none
        | some above_x =>
          scanRowLoop budget fuel c row target_brush new_x_end above_x
            (⟨row, above_start, above_x - 1⟩ :: segments)
      else
        scanRowLoop budget fuel c row target_brush new_x_end (above_x + 1) segments
    else some segments

/-- Loop `while (current_x <= x_end) { ... }` over one popped segment of
`Plotter::ScanlineFill`. `budget` is the fuel of the inner loops. -/
def segmentLoop (budget : Nat) : Nat → Canvas → Char → Char → Int → Int → Int →
    List ScanlineSegment → Option (Canvas × List ScanlineSegment)
  | 0, _, _, _, _, _, _, _ => none
  | fuel + 1, c, target_brush, fill_brush, current_y, x_end, current_x, segments =>
    if current_x ≤ x_end then
      if c.get current_x current_y ≠ target_brush then
        segmentLoop budget fuel c target_brush fill_brush current_y x_end (current_x + 1) segments
      else
        match extendLeftLoop budget c current_y target_brush current_x with
        | none => none
        | some new_x_start =>
        match extendRightLoop budget c current_y target_brush current_x with
        | none => none
        | some new_x_end =>
        let c := fillSpan c current_y new_x_start new_x_end fill_brush
        let above :=
          if current_y > 0 then
            scanRowLoop budget budget c (current_y - 1) target_brush new_x_end new_x_start segments
          else some segments
        match above with
        | none => none
        | some segments =>
        let below :=
          if current_y < c.Height - 1 then
            scanRowLoop budget budget c (current_y + 1) target_brush new_x_end new_x_start segments
          else some segments
        match below with
        | none => none
        | some segments =>
          segmentLoop budget fuel c target_brush fill_brush current_y x_end (new_x_end + 1)
            segments
    else some (c, segments)

/-- Loop `while (!segments.empty()) { ... }` of `Plotter::ScanlineFill`. -/
def segmentsLoop (budget : Nat) : Nat → Canvas → Char → Char → List ScanlineSegment →
    Option Canvas
  | _, c, _, _, [] => some c
  | 0, _, _, _, _ :: _ => none
  | fuel + 1, c, target_brush, fill_brush, seg :: segments =>
    match segmentLoop budget budget c target_brush fill_brush seg.y seg.x_end seg.x_start
        segments with
    | none => none
    | some (c, segments) => segmentsLoop budget fuel c target_brush fill_brush segments

/-- Scanline fill `Plotter::ScanlineFill`; every loop gets the budget `fuel`. -/
def ScanlineFill (fuel : Nat) (c : Canvas) (x y : Int) (fill_brush : Char) : Option Canvas :=
  if !c.InBounds x y then some c
  else
    let target_brush := c.get x y
    if target_brush = fill_brush then some c
    else
      match seedLeftLoop fuel c y target_brush x with
      | none => none
      | some x_start =>
      let x_start := x_start + 1
      match seedRightLoop fuel c y target_brush x with
      | none => none
      | some x_end =>
      let x_end := x_end - 1
      let c := fillSpan c y x_start x_end fill_brush
      let segments : List ScanlineSegment := []
      let segments := if y > 0 then ⟨y - 1, x_start, x_end⟩ :: segments else segments
      let segments := if y < c.Height - 1 then ⟨y + 1, x_start, x_end⟩ :: segments else segments
      segmentsLoop fuel fuel c target_brush fill_brush segments

end Plotter

namespace Plotter

/-- The canvas after the guarded write of `brush` at each point of `pts`, in order. -/
def plotAll (c : Canvas) (pts : List (Int × Int)) (brush : Char) : Canvas :=
  pts.foldl (fun c p => plot c p.1 p.2 brush) c

/-- The positions at which the loop of `Plotter::DrawLineBresenham` executes its guarded
write, in order (the same loop as `DrawLineLoop`, recording the points instead of
writing them). -/
def linePoints : Nat → Int → Int → Int → Int → Int → Int → Int → Int → Int →
    Option (List (Int × Int))
  | 0, _, _, _, _, _, _, _, _, _ => none
  | fuel + 1, x1, y1, x2, y2, dx, dy, sx, sy, err =>
    if x1 = x2 ∧ y1 = y2 then some [(x1, y1)]
    else
      let e2 := 2 * err
      let err1 := if e2 > -dy then err - dy else err
      let x1' := if e2 > -dy then x1 + sx else x1
      let err2 := if e2 < dx then err1 + dx else err1
      let y1' := if e2 < dx then y1 + sy else y1
      (linePoints fuel x1' y1' x2 y2 dx dy sx sy err2).map (fun pts => (x1, y1) :: pts)

/-- What a trace `pts` of the line loop must satisfy when the loop stands at `(x, y)` with
`a` steps left along x (direction `sx`) and `b` steps left along y (direction `sy`): it
contains the current point and the end point, every point is `k ≤ a` and `l ≤ b` steps
away, and every such `k` and every such `l` occurs. -/
def LineTrace (x y sx sy : Int) (a b : Nat) (pts : List (Int × Int)) : Prop :=
  (x, y) ∈ pts ∧ (x + sx * a, y + sy * b) ∈ pts ∧
  (∀ p ∈ pts, ∃ k l : Nat, k ≤ a ∧ l ≤ b ∧ p = (x + sx * k, y + sy * l)) ∧
  (∀ k : Nat, k ≤ a → ∃ p ∈ pts, p.1 = x + sx * k) ∧
  (∀ l : Nat, l ≤ b → ∃ p ∈ pts, p.2 = y + sy * l)

end Plotter
end plotter

/-! ## Specification of the fills -/

namespace plotter

/-- Cells `(u, v)` and `(u', v')` are neighbours: one step right, left, down or up. -/
def Adjacent (u v u' v' : Int) : Prop :=
  (u' = u + 1 ∧ v' = v) ∨ (u' = u - 1 ∧ v' = v) ∨ (u' = u ∧ v' = v + 1) ∨ (u' = u ∧ v' = v - 1)

/-- Cell `(u, v)` can be reached from the seed `(x, y)` by up/down/left/right steps
through in-bounds cells of `c` that all hold the character of the seed. -/
inductive Connected (c : Canvas) (x y : Int) : Int → Int → Prop
  | seed : c.InBounds x y = true → Connected c x y x y
  | step {u v u' v' : Int} : Connected c x y u v → Adjacent u v u' v' →
      c.InBounds u' v' = true → c.get u' v' = c.get x y → Connected c x y u' v'

/-- What both fills keep true of the current canvas `ci` while filling `c0` from the seed
`(x, y)` with `f`: the dimensions are those of `c0`, and a cell either is as in `c0`, or
held the seed's character, is connected to the seed and now holds `f`. -/
structure FillState (c0 : Canvas) (x y : Int) (f : Char) (ci : Canvas) : Prop where
  wf : ci.WF
  width_eq : ci.width_ = c0.width_
  height_eq : ci.height_ = c0.height_
  background_eq : ci.background_ = c0.background_
  sound : ∀ u v, c0.InBounds u v = true →
    ci.get u v = c0.get u v ∨
      (c0.get u v = c0.get x y ∧ ci.get u v = f ∧ Connected c0 x y u v)

/-- The fill is complete: the seed is filled and no filled cell has a neighbour that
still holds the seed's character. -/
structure FillDone (c0 : Canvas) (x y : Int) (f : Char) (ci : Canvas) : Prop where
  state : FillState c0 x y f ci
  seed : ci.get x y = f
  closed : ∀ u v u' v', c0.InBounds u v = true → c0.get u v = c0.get x y → ci.get u v = f →
    Adjacent u v u' v' → c0.InBounds u' v' = true → ci.get u' v' ≠ c0.get x y

/-- Loop invariant of `FloodFillLoop` with the queue `q`. -/
structure FloodInv (c0 : Canvas) (x y : Int) (f : Char) (ci : Canvas) (q : List (Int × Int)) :
    Prop where
  state : FillState c0 x y f ci
  queued : ∀ p ∈ q, c0.InBounds p.1 p.2 = true → c0.get p.1 p.2 = c0.get x y →
    Connected c0 x y p.1 p.2
  seed : (x, y) ∈ q ∨ ci.get x y = f
  closed : ∀ u v u' v', c0.InBounds u v = true → c0.get u v = c0.get x y → ci.get u v = f →
    Adjacent u v u' v' → c0.InBounds u' v' = true → ci.get u' v' = c0.get x y → (u', v') ∈ q

/-- Loop invariant of the scanline fill with the stack `segs`: beside `FillState`, the
seed is filled or lies in a pending segment, every pending segment lies inside the
canvas, a cell of a pending segment that still holds the seed's character is connected
to the seed, and a neighbour of a filled cell that still holds the seed's character lies
in a pending segment. -/
structure ScanInv (c0 : Canvas) (x y : Int) (f : Char) (ci : Canvas)
    (segs : List ScanlineSegment) : Prop where
  state : FillState c0 x y f ci
  seed_inBounds : c0.InBounds x y = true
  seed : ci.get x y ≠ c0.get x y ∨ ∃ s ∈ segs, s.y = y ∧ s.x_start ≤ x ∧ x ≤ s.x_end
  valid : ∀ s ∈ segs, 0 ≤ s.y ∧ s.y < c0.height_ ∧ 0 ≤ s.x_start ∧ s.x_end < c0.width_
  pending : ∀ s ∈ segs, ∀ u, s.x_start ≤ u → u ≤ s.x_end → ci.get u s.y = c0.get x y →
    Connected c0 x y u s.y
  closed : ∀ u v u' v', c0.InBounds u v = true → c0.get u v = c0.get x y → ci.get u v = f →
    Adjacent u v u' v' → c0.InBounds u' v' = true → ci.get u' v' = c0.get x y →
    ∃ s ∈ segs, s.y = v' ∧ s.x_start ≤ u' ∧ u' ≤ s.x_end

end plotter

/-! ## Circles, statistics, regions and rendering -/

namespace plotter

namespace Plotter

/-- The lambda `draw_circle_points` of `Plotter::DrawCircleBresenham`: eight guarded
writes, in the order of the source. -/
def draw_circle_points (c : Canvas) (cx cy x y : Int) (brush : Char) : Canvas :=
  let c := plot c (cx + x) (cy + y) brush
  let c := plot c (cx - x) (cy + y) brush
  let c := plot c (cx + x) (cy - y) brush
  let c := plot c (cx - x) (cy - y) brush
  let c := plot c (cx + y) (cy + x) brush
  let c := plot c (cx - y) (cy + x) brush
  let c := plot c (cx + y) (cy - x) brush
  plot c (cx - y) (cy - x) brush

/-- The loop `while (y >= x) { ... }` of `Plotter::DrawCircleBresenham`; `none` when the
fuel runs out. -/
def DrawCircleLoop : Nat → Canvas → Int → Int → Int → Int → Int → Char → Option Canvas
  | 0, _, _, _, _, _, _, _ => none
  | fuel + 1, c, center_x, center_y, x, y, d, brush =>
    if y ≥ x then
      let x := x + 1
      let y' := if d > 0 then y - 1 else y
      let d' := if d > 0 then d + 4 * (x - (y - 1)) + 10 else d + 4 * x + 6
      let c := draw_circle_points c center_x center_y x y' brush
      DrawCircleLoop fuel c center_x center_y x y' d' brush
    else some c

/-- Midpoint circle `Plotter::DrawCircleBresenham`. -/
def DrawCircleBresenham (fuel : Nat) (c : Canvas) (center_x center_y radius : Int)
    (brush : Char) : Option Canvas :=
  let x : Int := 0
  let y : Int := radius
  let d : Int := 3 - 2 * radius
  let c := draw_circle_points c center_x center_y x y brush
  DrawCircleLoop fuel c center_x center_y x y d brush

/-- Body of the inner loop of the filled branch of `Plotter::DrawCircle` at offset `(x, y)`. -/
def DrawCircleFillStep (center_x center_y radius : Int) (brush : Char) (y : Int) (c : Canvas)
    (x : Int) : Canvas :=
  if x * x + y * y ≤ radius * radius then
    let px := center_x + x
    let py := center_y + y
    if c.InBounds px py then c.set px py brush else c
  else c

/-- Circle `Plotter::DrawCircle`: scan of the square `[-radius, radius]²` when `fill`,
else the midpoint stroke. -/
def DrawCircle (fuel : Nat) (c : Canvas) (center_x center_y radius : Int) (brush : Char)
    (fill : Bool) : Option Canvas :=
  if fill then
    some ((intRange (-radius) radius).foldl
      (fun c y => (intRange (-radius) radius).foldl
        (DrawCircleFillStep center_x center_y radius brush y) c) c)
  else DrawCircleBresenham fuel c center_x center_y radius brush

/-- The statement `histogram[color]++` on a `std::map<char, int>`, kept as a list of
`(key, count)` pairs in ascending key order: a missing key is inserted with count 0 and
then incremented. -/
def mapIncrement : List (Char × Int) → Char → List (Char × Int)
  | [], color => [(color, 1)]
  | (k, v) :: rest, color =>
    if color < k then (color, 1) :: (k, v) :: rest
    else if color = k then (k, v + 1) :: rest
    else (k, v) :: mapIncrement rest color

/-- Lookup `std::map::find` in the list of pairs. -/
def mapFind : List (Char × Int) → Char → Option Int
  | [], _ => none
  | (k, v) :: rest, color => if color = k then some v else mapFind rest color

/-- Histogram `Plotter::ColorHistogram(x1, y1, x2, y2)`. -/
def ColorHistogram (c : Canvas) (x1 y1 x2 y2 : Int) : List (Char × Int) :=
  (intRange y1 y2).foldl
    (fun histogram y => (intRange x1 x2).foldl
      (fun histogram x =>
        if c.InBounds x y then mapIncrement histogram (c.get x y) else histogram)
      histogram) []

/-- Histogram of the whole canvas, `Plotter::ColorHistogram()`. -/
def ColorHistogramAll (c : Canvas) : List (Char × Int) :=
  ColorHistogram c 0 0 (c.Width - 1) (c.Height - 1)

/-- State of the loop of `Plotter::MinMaxColors`. -/
structure MinMaxState where
  min_color : Char
  max_color : Char
  min_value : Int
  max_value : Int
deriving DecidableEq, Repr

/-- Body of the loop of `Plotter::MinMaxColors` at the entry `(color, weight)`. -/
def MinMaxStep (s : MinMaxState) (e : Char × Int) : MinMaxState :=
  let s := if e.2 < s.min_value then { s with min_value := e.2, min_color := e.1 } else s
  if e.2 > s.max_value then { s with max_value := e.2, max_color := e.1 } else s

/-- Extremes `Plotter::MinMaxColors`; the map is traversed in ascending key order. -/
def MinMaxColors (color_weights : List (Char × Int)) : Char × Char :=
  match color_weights with
  | [] => (' ', ' ')
  | first :: _ =>
    let s := color_weights.foldl MinMaxStep ⟨first.1, first.1, first.2, first.2⟩
    (s.min_color, s.max_color)

/-- Copy `Plotter::ExtractRegion`: a new canvas with background `' '`, written with the
unchecked `at` at every position whose source is in bounds. -/
def ExtractRegion (c : Canvas) (x1 y1 x2 y2 : Int) : Canvas :=
  let width := x2 - x1 + 1
  let height := y2 - y1 + 1
  (intRange 0 (height - 1)).foldl
    (fun region y => (intRange 0 (width - 1)).foldl
      (fun region x =>
        let src_x := x1 + x
        let src_y := y1 + y
        if c.InBounds src_x src_y then region.set x y (c.get src_x src_y) else region)
      region)
    (Canvas.new width height ' ')

/-- Body of the inner loop of `Plotter::PasteRegion`: the source is read with the checked
`at` of a `const Canvas&`, which may raise. -/
def PasteRegionStep (region : Canvas) (x y ry : Int) (c : Canvas) (rx : Int) :
    Except Canvas.Error Canvas :=
  let dest_x := x + rx
  let dest_y := y + ry
  if c.InBounds dest_x dest_y then
    match region.atConst rx ry with
    | .ok v => .ok (c.set dest_x dest_y v)
    | .error e => .error e
  else .ok c

/-- Blit `Plotter::PasteRegion`. -/
def PasteRegion (c : Canvas) (region : Canvas) (x y : Int) : Except Canvas.Error Canvas :=
  (intRange 0 (region.Height - 1)).foldlM
    (fun c ry => (intRange 0 (region.Width - 1)).foldlM (PasteRegionStep region x y ry) c) c

end Plotter

namespace Canvas

/-- Inner loop of `Canvas::Render`: `for (int j = 0; j < Width(); ++j) os << data_[i + j];`. -/
def renderRow (c : Canvas) (i : Int) : List Char :=
  (intRange 0 (c.Width - 1)).map (fun j => c.data_.getD (toSizeT (i + j)) c.background_)

/-- Outer loop of `Canvas::Render`, `for (int i = 0; i < data_.size(); i += Width())`,
appending to the stream `os`; the comparison converts `i` to `size_t`. `none` when the
fuel runs out. -/
def RenderLoop : Nat → Canvas → Int → List Char → Option (List Char)
  | 0, _, _, _ => none
  | fuel + 1, c, i, os =>
    if toSizeT i < c.data_.length then
      RenderLoop fuel c (i + c.Width) (os ++ c.renderRow i ++ ['\n'])
    else some os

/-- Output of `Canvas::Render`, the characters written to the stream. -/
def Render (fuel : Nat) (c : Canvas) : Option (List Char) :=
  RenderLoop fuel c 0 []

end Canvas

/-! ## Brightness plotter -/

namespace GrayscalePlotter

/-- Conversion of a `double` to `int`: truncation toward zero. Brightness values are
exact rationals in the embedding. -/
def truncToInt (q : ℚ) : Int := if 0 ≤ q then ⌊q⌋ else ⌈q⌉

/-- The `size_t` value `palette_.size() - 1` (it wraps to `2 ^ 64 - 1` for an empty palette). -/
def lastIndex (palette_ : List Char) : Int := ((palette_.length : Int) - 1) % 2 ^ 64

/-- Palette lookup `GrayscalePlotter::BrightnessToChar`:
`int idx = brightness * (palette_.size() - 1); return palette_[idx];`. `none` is a
product that does not fit an `int`, or an index outside the palette (both undefined in
the source). -/
def BrightnessToChar (palette_ : List Char) (brightness : ℚ) : Option Char :=
  let idx : Int := truncToInt (brightness * (lastIndex palette_ : ℚ))
  if -(2 ^ 31) ≤ idx ∧ idx < 2 ^ 31 then palette_[Canvas.toSizeT idx]? else none

end GrayscalePlotter

end plotter

namespace plotter

/-- The positions scanned by `for y in [y1, y2] for x in [x1, x2]`, in order. -/
def regionPoints (x1 y1 x2 y2 : Int) : List (Int × Int) :=
  (intRange y1 y2).flatMap (fun y => (intRange x1 x2).map (fun x => (x, y)))

/-- The number of in-bounds cells `(x, y)` with `x1 ≤ x ≤ x2`, `y1 ≤ y ≤ y2` that hold `k`. -/
def cellCount (c : Canvas) (x1 y1 x2 y2 : Int) (k : Char) : Nat :=
  ((Finset.Icc x1 x2 ×ˢ Finset.Icc y1 y2).filter
    (fun p => c.InBounds p.1 p.2 = true ∧ c.get p.1 p.2 = k)).card

/-- The keys of a `std::map` are strictly ascending. -/
def KeysAscending (h : List (Char × Int)) : Prop :=
  (h.map Prod.fst).Pairwise (fun a b => a < b)

end plotter

namespace plotter

/-- The state `s` of the loop of `MinMaxColors` is right for the entries `l` seen so far:
its minimum and maximum are entries of `l`, bound all counts of `l`, and carry the
smallest key among the entries tied for the extreme. -/
def MinMaxSeen (l : List (Char × Int)) (s : Plotter.MinMaxState) : Prop :=
  (s.min_color, s.min_value) ∈ l ∧ (s.max_color, s.max_value) ∈ l ∧
  (∀ e ∈ l, s.min_value ≤ e.2 ∧ e.2 ≤ s.max_value) ∧
  (∀ e ∈ l, e.2 = s.min_value → s.min_color ≤ e.1) ∧
  (∀ e ∈ l, e.2 = s.max_value → s.max_color ≤ e.1)

end plotter

namespace plotter

/-- The text of row `y`: its `W` characters in order, then a newline. -/
def Canvas.rowText (c : Canvas) (y : Int) : List Char :=
  (intRange 0 (c.width_ - 1)).map (fun x => c.get x y) ++ ['\n']

end plotter

namespace plotter
namespace Plotter

/-- The eight offsets from the centre at which `draw_circle_points(cx, cy, x, y)` writes,
in the order of the source. -/
def circleOffsets (p : Int × Int) : List (Int × Int) :=
  [(p.1, p.2), (-p.1, p.2), (p.1, -p.2), (-p.1, -p.2),
   (p.2, p.1), (-p.2, p.1), (p.2, -p.1), (-p.2, -p.1)]

/-- The pairs `(x, y)` with which the loop of `Plotter::DrawCircleBresenham` calls
`draw_circle_points`, in order (the same loop as `DrawCircleLoop`, recording the calls). -/
def circleTrace : Nat → Int → Int → Int → Option (List (Int × Int))
  | 0, _, _, _ => none
  | fuel + 1, x, y, d =>
    if y ≥ x then
      let x := x + 1
      let y' := if d > 0 then y - 1 else y
      let d' := if d > 0 then d + 4 * (x - (y - 1)) + 10 else d + 4 * x + 6
      (circleTrace fuel x y' d').map (fun tr => (x, y') :: tr)
    else some []

end Plotter
end plotter

namespace plotter

/-- Canvas `c'` has the width, the height and the buffer length of `c`. -/
def Canvas.SameShape (c c' : Canvas) : Prop :=
  c'.width_ = c.width_ ∧ c'.height_ = c.height_ ∧ c'.data_.length = c.data_.length

end plotter

namespace plotter

/-- The result `r` of an operation on `c` is a canvas with the width, the height and the
buffer length of `c` (`none`, a run out of fuel or an access outside the buffer, is not). -/
def Canvas.Preserved (c : Canvas) (r : Option Canvas) : Prop :=
  ∃ c', r = some c' ∧ c.SameShape c'

end plotter

namespace plotter

namespace GrayscalePlotter

/-- The statement `char_to_brightness[key] = value` on a `std::map<char, double>`, kept as a
list of `(key, value)` pairs in ascending key order: the value of an existing key is
overwritten. -/
def mapAssign : List (Char × ℚ) → Char → ℚ → List (Char × ℚ)
  | [], key, value => [(key, value)]
  | (k, v) :: rest, key, value =>
    if key < k then (key, value) :: (k, v) :: rest
    else if key = k then (k, value) :: rest
    else (k, v) :: mapAssign rest key value

/-- Lookup `std::map::find` in the list of pairs. -/
def mapFind : List (Char × ℚ) → Char → Option ℚ
  | [], _ => none
  | (k, v) :: rest, key => if key = k then some v else mapFind rest key

/-- The map `char_to_brightness` that every reader of the canvas builds first:
`for (size_t i = 0; i < palette_.size(); ++i)
char_to_brightness[palette_[i]] = static_cast<double>(i) / (palette_.size() - 1);`.
For a palette of one entry the source divides zero by zero; the embedding has 0 there. -/
def CharToBrightness (palette_ : List Char) : List (Char × ℚ) :=
  (List.range palette_.length).foldl
    (fun m i => mapAssign m (palette_.getD i ' ') ((i : ℚ) / (lastIndex palette_ : ℚ))) []

/-- The expression `it != char_to_brightness.end() ? it->second : 0.0` for the character
`pixel_char`. -/
def brightnessOf (palette_ : List Char) (pixel_char : Char) : ℚ :=
  match mapFind (CharToBrightness palette_) pixel_char with
  | some brightness => brightness
  | none => 0

/-- Reader `GrayscalePlotter::GetPixelBrightness`. The read `GetCanvas().at(x, y)` is the
checked `at` of a `const` canvas; behind the `InBounds` test it is inside the buffer of
every canvas that a constructor builds, where it is `Canvas.get`. -/
def GetPixelBrightness (c : Canvas) (palette_ : List Char) (x y : Int) : ℚ :=
  if !c.InBounds x y then 0
  else brightnessOf palette_ (c.get x y)

/-- Writer `GrayscalePlotter::SetPixelBrightness`; `none` when `BrightnessToChar` indexes
outside the palette. -/
def SetPixelBrightness (c : Canvas) (palette_ : List Char) (x y : Int) (brightness : ℚ) :
    Option Canvas :=
  if c.InBounds x y then (BrightnessToChar palette_ brightness).map (fun ch => c.set x y ch)
  else some c

/-- Matrix `GrayscalePlotter::GetBrightnessMatrix`: `Height()` rows of `Width()` entries,
`matrix[y][x]` the brightness of the cell `(x, y)`, read with the checked `at` of a
`const` canvas (inside the buffer of every canvas that a constructor builds). -/
def GetBrightnessMatrix (c : Canvas) (palette_ : List Char) : List (List ℚ) :=
  (intRange 0 (c.Height - 1)).map (fun y =>
    (intRange 0 (c.Width - 1)).map (fun x => brightnessOf palette_ (c.get x y)))

/-- Body of the loops of `GrayscalePlotter::SetPalette` at `(x, y)`:
`GetCanvas().at(x, y) = BrightnessToChar(brightness_matrix[y][x]);`. `none` is an index
outside the matrix or outside the palette. -/
def SetPaletteStep (palette_ : List Char) (brightness_matrix : List (List ℚ)) (y : Int)
    (c : Canvas) (x : Int) : Option Canvas :=
  match brightness_matrix[Canvas.toSizeT y]? with
  | none => none
  | some row =>
    match row[Canvas.toSizeT x]? with
    | none => none
    | some brightness => (BrightnessToChar palette_ brightness).map (fun ch => c.set x y ch)

/-- Palette swap `GrayscalePlotter::SetPalette`, returning the canvas and the palette in
force afterwards. The statements are in the order of the source: the assignment
`palette_ = new_palette` comes first, the call of `GetBrightnessMatrix` second. -/
def SetPalette (c : Canvas) (palette_ : List Char) (new_palette : List Char) :
    Option (Canvas × List Char) :=
  if !new_palette.isEmpty then
    let palette_ := new_palette
    let brightness_matrix := GetBrightnessMatrix c palette_
    ((intRange 0 (c.Height - 1)).foldlM
      (fun c y => (intRange 0 (c.Width - 1)).foldlM
        (SetPaletteStep palette_ brightness_matrix y) c) c).map (fun c => (c, palette_))
  else some (c, palette_)

/-- Body of the loops of `GrayscalePlotter::ApplyThreshold` at `(x, y)`. -/
def ApplyThresholdStep (palette_ : List Char) (threshold : ℚ) (y : Int) (c : Canvas) (x : Int) :
    Option Canvas :=
  let old_char := c.get x y
  match mapFind (CharToBrightness palette_) old_char with
  | some brightness =>
    let new_brightness : ℚ := if brightness ≥ threshold then 1 else 0
    (BrightnessToChar palette_ new_brightness).map (fun ch => c.set x y ch)
  | none => some c

/-- Filter `GrayscalePlotter::ApplyThreshold`. -/
def ApplyThreshold (c : Canvas) (palette_ : List Char) (threshold : ℚ) : Option Canvas :=
  (intRange 0 (c.Height - 1)).foldlM
    (fun c y => (intRange 0 (c.Width - 1)).foldlM (ApplyThresholdStep palette_ threshold y) c) c

/-- Statistics `GrayscalePlotter::GetMinMaxBrightness`; the range-based `for` visits the
buffer in order. -/
def GetMinMaxBrightness (c : Canvas) (palette_ : List Char) : ℚ × ℚ :=
  if c.Size = 0 then (0, 0)
  else
    c.data_.foldl
      (fun (s : ℚ × ℚ) pixel =>
        match mapFind (CharToBrightness palette_) pixel with
        | some brightness => (min s.1 brightness, max s.2 brightness)
        | none => s)
      (1, 0)

/-- The brightness that `GrayscalePlotter::DrawLinearGradient` computes at `(x, y)`:
`x_ratio`, `y_ratio`, `ratio` and `brightness` of the source. For `x1 = x2` or `y1 = y2`
the source divides by zero; the embedding has 0 for such a quotient. -/
def gradientBrightness (x1 y1 x2 y2 : Int) (start_brightness end_brightness : ℚ) (x y : Int) : ℚ :=
  let width := x2 - x1
  let height := y2 - y1
  let x_ratio : ℚ := ((x - x1 : Int) : ℚ) / (width : ℚ)
  let y_ratio : ℚ := ((y - y1 : Int) : ℚ) / (height : ℚ)
  let ratio : ℚ := (x_ratio + y_ratio) / 2
  start_brightness + ratio * (end_brightness - start_brightness)

/-- Body of the loops of `GrayscalePlotter::DrawLinearGradient` at `(x, y)`. -/
def DrawLinearGradientStep (palette_ : List Char) (x1 y1 x2 y2 : Int)
    (start_brightness end_brightness : ℚ) (y : Int) (c : Canvas) (x : Int) : Option Canvas :=
  if !c.InBounds x y then some c
  else
    (BrightnessToChar palette_
      (gradientBrightness x1 y1 x2 y2 start_brightness end_brightness x y)).map
      (fun ch => c.set x y ch)

/-- Gradient `GrayscalePlotter::DrawLinearGradient`; `none` when `BrightnessToChar` indexes
outside the palette. -/
def DrawLinearGradient (c : Canvas) (palette_ : List Char) (x1 y1 x2 y2 : Int)
    (start_brightness end_brightness : ℚ) : Option Canvas :=
  (intRange y1 y2).foldlM
    (fun c y => (intRange x1 x2).foldlM
      (DrawLinearGradientStep palette_ x1 y1 x2 y2 start_brightness end_brightness y) c) c

/-- The error of the kernel functions, `std::invalid_argument("Kernel size must be odd")`. -/
inductive KernelError where
  | invalid_argument
deriving DecidableEq, Repr

/-- Kernel `GrayscalePlotter::CreateBoxKernel`: `size` rows of `size` entries
`1.0 / (size * size)`; the function has no `throw`. A negative `size`, for which the
allocation fails in the source, is not modelled. -/
def CreateBoxKernel (size : Int) : Except KernelError (List (List ℚ)) :=
  let value : ℚ := 1 / ((size * size : Int) : ℚ)
  .ok (List.replicate size.toNat (List.replicate size.toNat value))

/-- Kernel `GrayscalePlotter::CreateGaussianKernel`. The function `std::exp` on `double` is
the parameter `exp`. -/
def CreateGaussianKernel (exp : ℚ → ℚ) (size : Int) (sigma : ℚ) :
    Except KernelError (List (List ℚ)) :=
  if Int.tmod size 2 = 0 then .error .invalid_argument
  else
    let center := Int.tdiv size 2
    let kernel : List (List ℚ) :=
      (intRange 0 (size - 1)).map (fun i =>
        (intRange 0 (size - 1)).map (fun j =>
          let x := i - center
          let y := j - center
          exp (((-(x * x + y * y) : Int) : ℚ) / (2 * sigma * sigma))))
    let sum : ℚ := (kernel.map List.sum).sum
    .ok (kernel.map (fun row => row.map (fun v => v / sum)))

/-- Reflection of a sample coordinate in `GrayscalePlotter::Convolve`, for `len` the width
or the height: `if (src < 0) src = -src; if (src >= len) src = 2 * len - src - 1;`. -/
def reflect (len src : Int) : Int :=
  let src := if src < 0 then -src else src
  if src ≥ len then 2 * len - src - 1 else src

/-- `std::clamp(v, lo, hi)`. -/
def clamp (v lo hi : ℚ) : ℚ := if v < lo then lo else if hi < v then hi else v

/-- Body of the two inner loops of `GrayscalePlotter::Convolve` for the pixel `(x, y)` and
the kernel entry `(kx, ky)`. A kernel row that is shorter than the kernel is high is
read outside its storage by the source; the embedding reads the weight 0 there. -/
def ConvolveStep (c : Canvas) (palette_ : List Char) (kernel : List (List ℚ)) (offset : Int)
    (x y ky : Int) (sum : ℚ) (kx : Int) : ℚ :=
  let src_x := reflect c.Width (x + kx - offset)
  let src_y := reflect c.Height (y + ky - offset)
  if c.InBounds src_x src_y then
    let pixel_brightness := GetPixelBrightness c palette_ src_x src_y
    sum + pixel_brightness * (kernel.getD ky.toNat []).getD kx.toNat 0
  else sum

/-- Convolution `GrayscalePlotter::Convolve`. -/
def Convolve (c : Canvas) (palette_ : List Char) (kernel : List (List ℚ)) :
    Except KernelError (List (List ℚ)) :=
  let kernel_size : Int := kernel.length
  if Int.tmod kernel_size 2 = 0 then .error .invalid_argument
  else
    let offset := Int.tdiv kernel_size 2
    .ok ((intRange 0 (c.Height - 1)).map (fun y =>
      (intRange 0 (c.Width - 1)).map (fun x =>
        let sum : ℚ := (intRange 0 (kernel_size - 1)).foldl
          (fun sum ky => (intRange 0 (kernel_size - 1)).foldl
            (ConvolveStep c palette_ kernel offset x y ky) sum) 0
        clamp sum 0 1)))

end GrayscalePlotter

/-! ## Cursors -/

/-- Cursor `Canvas::RowIterator`: the members `row_` and `col_`. -/
structure RowIterator where
  row_ : Int
  col_ : Int
deriving DecidableEq, Repr

/-- Cursor `Canvas::ColumnIterator`: the members `col_` and `row_`. -/
structure ColumnIterator where
  col_ : Int
  row_ : Int
deriving DecidableEq, Repr

/-- Cursor `Canvas::PixelIterator`: the member `pos_`. -/
structure PixelIterator where
  pos_ : Nat
deriving DecidableEq, Repr

namespace Canvas

/-- Cursor `Canvas::RowBegin(row)`, `RowIterator(this, 0, row)`: the constructor takes
`(canvas, column, row)`. -/
def RowBegin (row : Int) : RowIterator := ⟨row, 0⟩

/-- Cursor `Canvas::ColBegin(col)`, `ColumnIterator(this, col, 0)`. -/
def ColBegin (col : Int) : ColumnIterator := ⟨col, 0⟩

/-- Cursor `Canvas::begin()`, `PixelIterator(this, 0)`. -/
def begin : PixelIterator := ⟨0⟩

end Canvas

namespace RowIterator

/-- Read `operator*`: `canvas_->at(row_, col_)`, the non-`const` `at(x, y)` called with
`x = row_` and `y = col_`. -/
def deref (it : RowIterator) (c : Canvas) : Option Char := c.atMut it.row_ it.col_

/-- Read `operator[](shift)`: `canvas_->at(row_, col_ + shift)`. -/
def index (it : RowIterator) (c : Canvas) (shift : Int) : Option Char :=
  c.atMut it.row_ (it.col_ + shift)

/-- Step `operator++`: `++col_`. -/
def next (it : RowIterator) : RowIterator := { it with col_ := it.col_ + 1 }

end RowIterator

namespace ColumnIterator

/-- Read `operator*`: `canvas_->at(row_, col_)`. -/
def deref (it : ColumnIterator) (c : Canvas) : Option Char := c.atMut it.row_ it.col_

/-- Read `operator[](shift)`: `canvas_->at(row_ + shift, col_)`. -/
def index (it : ColumnIterator) (c : Canvas) (shift : Int) : Option Char :=
  c.atMut (it.row_ + shift) it.col_

/-- Step `operator++`: `++row_`. -/
def next (it : ColumnIterator) : ColumnIterator := { it with row_ := it.row_ + 1 }

end ColumnIterator

namespace PixelIterator

/-- Read `operator[](shift)`: `canvas_->data_[pos_ + shift]`, the sum taken in `size_t`. -/
def index (it : PixelIterator) (c : Canvas) (shift : Int) : Option Char :=
  c.data_[Canvas.toSizeT ((it.pos_ : Int) + shift)]?

end PixelIterator

end plotter

/-! ## Basic facts about the canvas -/

namespace plotter

namespace Canvas

theorem inBounds_iff (c : Canvas) (x y : Int) :
    c.InBounds x y = true ↔ 0 ≤ x ∧ x < c.width_ ∧ 0 ≤ y ∧ y < c.height_ := by
  simp [InBounds, Width, Height, and_assoc]

theorem offset_bounds {c : Canvas} (h : c.WF) {x y : Int} (hb : c.InBounds x y = true) :
    0 ≤ x + y * c.width_ ∧ x + y * c.width_ < c.width_ * c.height_ := by
  obtain ⟨hx0, hx1, hy0, hy1⟩ := (inBounds_iff c x y).1 hb
  have h1 : 0 ≤ y * c.width_ := mul_nonneg hy0 h.width_nonneg
  have h2 : (y + 1) * c.width_ ≤ c.height_ * c.width_ :=
    mul_le_mul_of_nonneg_right (by omega) h.width_nonneg
  constructor
  · omega
  · nlinarith

theorem offset_inj {c : Canvas} {x y x' y' : Int}
    (hb : c.InBounds x y = true) (hb' : c.InBounds x' y' = true)
    (he : x + y * c.width_ = x' + y' * c.width_) : x = x' ∧ y = y' := by
  obtain ⟨hx0, hx1, hy0, hy1⟩ := (inBounds_iff c x y).1 hb
  obtain ⟨hx0', hx1', hy0', hy1'⟩ := (inBounds_iff c x' y').1 hb'
  have hy : y = y' := by
    rcases lt_trichotomy y y' with hlt | heq | hgt
    · exfalso
      have : (y + 1) * c.width_ ≤ y' * c.width_ :=
        mul_le_mul_of_nonneg_right (by omega) (by omega)
      nlinarith
    · exact heq
    · exfalso
      have : (y' + 1) * c.width_ ≤ y * c.width_ :=
        mul_le_mul_of_nonneg_right (by omega) (by omega)
      nlinarith
  subst hy
  exact ⟨by omega, rfl⟩

theorem toSizeT_eq {i : Int} (h0 : 0 ≤ i) (h1 : i < 2 ^ 31) : toSizeT i = i.toNat := by
  unfold toSizeT
  rw [Int.emod_eq_of_lt h0 (by omega)]

theorem shift_eq {c : Canvas} (h : c.WF) {x y : Int} (hb : c.InBounds x y = true) :
    c.CalculateShift x y = (x + y * c.width_).toNat := by
  have hb2 := offset_bounds h hb
  have := h.size_lt
  unfold CalculateShift Width
  exact toSizeT_eq hb2.1 (by omega)

theorem shift_lt {c : Canvas} (h : c.WF) {x y : Int} (hb : c.InBounds x y = true) :
    c.CalculateShift x y < c.data_.length := by
  have hb2 := offset_bounds h hb
  have := h.length_eq
  rw [shift_eq h hb]
  omega

theorem shift_inj {c : Canvas} (h : c.WF) {x y x' y' : Int}
    (hb : c.InBounds x y = true) (hb' : c.InBounds x' y' = true)
    (he : c.CalculateShift x y = c.CalculateShift x' y') : x = x' ∧ y = y' := by
  rw [shift_eq h hb, shift_eq h hb'] at he
  have h1 := offset_bounds h hb
  have h2 := offset_bounds h hb'
  exact offset_inj hb hb' (by omega)

@[simp] theorem set_width (c : Canvas) (x y : Int) (v : Char) : (c.set x y v).width_ = c.width_ := rfl
@[simp] theorem set_height (c : Canvas) (x y : Int) (v : Char) : (c.set x y v).height_ = c.height_ := rfl
@[simp] theorem set_background (c : Canvas) (x y : Int) (v : Char) :
    (c.set x y v).background_ = c.background_ := rfl
@[simp] theorem set_inBounds (c : Canvas) (x y : Int) (v : Char) (a b : Int) :
    (c.set x y v).InBounds a b = c.InBounds a b := rfl
@[simp] theorem set_shift (c : Canvas) (x y : Int) (v : Char) (a b : Int) :
    (c.set x y v).CalculateShift a b = c.CalculateShift a b := rfl

theorem set_wf {c : Canvas} (h : c.WF) (x y : Int) (v : Char) : (c.set x y v).WF :=
  ⟨h.width_nonneg, h.height_nonneg, h.size_lt, by simpa [set] using h.length_eq⟩

theorem get_set {c : Canvas} (h : c.WF) {x y a b : Int} (v : Char)
    (hb : c.InBounds x y = true) (hab : c.InBounds a b = true) :
    (c.set x y v).get a b = if a = x ∧ b = y then v else c.get a b := by
  unfold get
  simp only [set_shift, set_background]
  simp only [set]
  by_cases hxy : a = x ∧ b = y
  · obtain ⟨rfl, rfl⟩ := hxy
    simp [List.getD_eq_getElem?_getD, shift_lt h hb]
  · have hne : c.CalculateShift x y ≠ c.CalculateShift a b := by
      intro he
      have := shift_inj h hb hab he
      exact hxy ⟨this.1.symm, this.2.symm⟩
    simp [List.getD_eq_getElem?_getD, List.getElem?_set_ne hne, hxy]

end Canvas
end plotter

/-! ## Region fill and checked access -/

namespace plotter

/-- C3 (the code at the scenario of the claim): on `Canvas(3,3,'.')` the call
`FillRegion(0,0,2,1,'#')` fills the buffer offsets 0 to 5, so rows 0 and 1 both read
`###`; row 1 is not left as `...`. -/
theorem C3_fillRegion_scenario :
    Canvas.FillRegion (Canvas.new 3 3 '.') 0 0 2 1 '#'
      = some ⟨3, 3, '.', ['#', '#', '#', '#', '#', '#', '.', '.', '.']⟩ := by
  decide

/-- C4: when `y1 ≥ y2` the loop of `FillRegion` never runs, so the call returns the
canvas unchanged, whatever the x coordinates and the fill character are. -/
theorem C4_fillRegion_noop (c : Canvas) (x1 y1 x2 y2 : Int) (fill_char : Char)
    (h : y2 ≤ y1) : c.FillRegion x1 y1 x2 y2 fill_char = some c := by
  have h0 : (y2 - y1).toNat = 0 := by omega
  unfold Canvas.FillRegion
  rw [h0]
  rfl

/-- C4 at a concrete input: a single-row region on a 3x3 canvas, x range out of bounds. -/
theorem C4_fillRegion_noop_witness :
    (1 : Int) ≤ 1 ∧
    Canvas.FillRegion (Canvas.new 3 3 '.') (-7) 1 9 1 '#' = some (Canvas.new 3 3 '.') :=
  ⟨by decide, C4_fillRegion_noop (Canvas.new 3 3 '.') (-7) 1 9 1 '#' (by decide)⟩

/-- C5 (the code at a position outside the canvas): on a 3x3 canvas `(3,0)` and `(-1,1)`
are not `InBounds`, yet the checked `at` does not fail there: it checks the flat offset
only and returns the cells at offsets 3 and 2; the non-`const` overload checks nothing. -/
theorem C5_at_outside_no_error :
    let c : Canvas := ⟨3, 3, ' ', ['a', 'b', 'c', 'd', 'e', 'f', 'g', 'h', 'i']⟩
    c.InBounds 3 0 = false ∧ c.atConst 3 0 = .ok 'd' ∧ c.atMut 3 0 = some 'd' ∧
    c.InBounds (-1) 1 = false ∧ c.atConst (-1) 1 = .ok 'c' ∧
    c.atConst (-1) 0 = .error .out_of_range := by
  refine ⟨by decide, rfl, by decide, by decide, rfl, rfl⟩

/-- C6 (the code at out-of-bounds rectangles): a filled `DrawRectangle` does not clip.
On a 3x3 canvas the corners `(0,0)`, `(5,5)` make `std::fill` run past the end of the
buffer, the corner `(-1,0)` makes it start before the buffer, and the in-bounds
rectangle `(1,0)-(1,2)` overwrites cells outside the rectangle. -/
theorem C6_filled_rectangle_not_clipped :
    Plotter.DrawRectangle 0 (Canvas.new 3 3 '.') 0 0 5 5 '#' true = none ∧
    Plotter.DrawRectangle 0 (Canvas.new 3 3 '.') (-1) 0 1 1 '#' true = none ∧
    Plotter.DrawRectangle 0 (Canvas.new 3 3 '.') 1 0 1 2 '#' true
      = some ⟨3, 3, '.', ['.', '#', '#', '#', '#', '#', '#', '#', '.']⟩ := by
  refine ⟨?_, ?_, ?_⟩
  · decide
  · rfl
  · decide

end plotter

/-! ## Guarded writes -/

namespace plotter
namespace Plotter

@[simp] theorem plot_width (c : Canvas) (x y : Int) (b : Char) : (plot c x y b).width_ = c.width_ := by
  unfold plot; split <;> rfl
@[simp] theorem plot_height (c : Canvas) (x y : Int) (b : Char) : (plot c x y b).height_ = c.height_ := by
  unfold plot; split <;> rfl
@[simp] theorem plot_background (c : Canvas) (x y : Int) (b : Char) :
    (plot c x y b).background_ = c.background_ := by
  unfold plot; split <;> rfl
@[simp] theorem plot_inBounds (c : Canvas) (x y : Int) (b : Char) (u v : Int) :
    (plot c x y b).InBounds u v = c.InBounds u v := by
  unfold plot; split <;> rfl

theorem plot_wf {c : Canvas} (h : c.WF) (x y : Int) (b : Char) : (plot c x y b).WF := by
  unfold plot; split
  · exact Canvas.set_wf h x y b
  · exact h

theorem get_plot {c : Canvas} (h : c.WF) (x y : Int) (b : Char) {u v : Int}
    (huv : c.InBounds u v = true) :
    (plot c x y b).get u v = if u = x ∧ v = y then b else c.get u v := by
  unfold plot
  by_cases hxy : c.InBounds x y = true
  · rw [if_pos hxy, Canvas.get_set h b hxy huv]
  · rw [if_neg hxy]
    have : ¬ (u = x ∧ v = y) := by
      rintro ⟨rfl, rfl⟩
      exact hxy huv
    rw [if_neg this]

@[simp] theorem plotAll_nil (c : Canvas) (b : Char) : plotAll c [] b = c := rfl
@[simp] theorem plotAll_cons (c : Canvas) (p : Int × Int) (pts : List (Int × Int)) (b : Char) :
    plotAll c (p :: pts) b = plotAll (plot c p.1 p.2 b) pts b := rfl

theorem plotAll_append (c : Canvas) (p q : List (Int × Int)) (b : Char) :
    plotAll c (p ++ q) b = plotAll (plotAll c p b) q b := by
  simp [plotAll, List.foldl_append]

theorem plotAll_dims (c : Canvas) (pts : List (Int × Int)) (b : Char) :
    (plotAll c pts b).width_ = c.width_ ∧ (plotAll c pts b).height_ = c.height_ ∧
    (plotAll c pts b).background_ = c.background_ := by
  induction pts generalizing c with
  | nil => simp
  | cons p pts ih =>
    obtain ⟨h1, h2, h3⟩ := ih (plot c p.1 p.2 b)
    simp [h1, h2, h3]

theorem plotAll_inBounds (c : Canvas) (pts : List (Int × Int)) (b : Char) (u v : Int) :
    (plotAll c pts b).InBounds u v = c.InBounds u v := by
  obtain ⟨h1, h2, _⟩ := plotAll_dims c pts b
  simp [Canvas.InBounds, Canvas.Width, Canvas.Height, h1, h2]

theorem plotAll_wf {c : Canvas} (h : c.WF) (pts : List (Int × Int)) (b : Char) :
    (plotAll c pts b).WF := by
  induction pts generalizing c with
  | nil => simpa using h
  | cons p pts ih => exact ih (plot_wf h p.1 p.2 b)

theorem get_plotAll {c : Canvas} (h : c.WF) (pts : List (Int × Int)) (b : Char) {u v : Int}
    (huv : c.InBounds u v = true) :
    (plotAll c pts b).get u v = if (u, v) ∈ pts then b else c.get u v := by
  induction pts generalizing c with
  | nil => simp
  | cons p pts ih =>
    rw [plotAll_cons, ih (plot_wf h p.1 p.2 b) (by simpa using huv), get_plot h _ _ _ huv]
    by_cases h1 : (u, v) ∈ pts
    · simp [h1]
    · by_cases h2 : u = p.1 ∧ v = p.2
      · have : (u, v) = p := by obtain ⟨rfl, rfl⟩ := h2; rfl
        simp [h2, this]
      · have : (u, v) ≠ p := by
          rintro rfl
          exact h2 ⟨rfl, rfl⟩
        simp [h1, h2, this]

theorem drawLineLoop_eq_points (fuel : Nat) (c : Canvas) (x1 y1 x2 y2 dx dy sx sy err : Int)
    (brush : Char) :
    DrawLineLoop fuel c x1 y1 x2 y2 dx dy sx sy err brush
      = (linePoints fuel x1 y1 x2 y2 dx dy sx sy err).map (fun pts => plotAll c pts brush) := by
  induction fuel generalizing c x1 y1 err with
  | zero => rfl
  | succ n ih =>
    unfold DrawLineLoop linePoints
    by_cases hend : x1 = x2 ∧ y1 = y2
    · simp [hend]
    · simp only [hend, if_false]
      rw [ih]
      simp only [Option.map_map]
      rfl

end Plotter
end plotter

/-! ## The Bresenham loop -/

namespace plotter
namespace Plotter

theorem lineTrace_done (x y sx sy : Int) : LineTrace x y sx sy 0 0 [(x, y)] := by
  refine ⟨by simp, by simp, ?_, ?_, ?_⟩
  · intro p hp
    refine ⟨0, 0, le_refl _, le_refl _, ?_⟩
    simpa using hp
  · intro k hk
    have : k = 0 := by omega
    subst this
    exact ⟨(x, y), by simp, by simp⟩
  · intro l hl
    have : l = 0 := by omega
    subst this
    exact ⟨(x, y), by simp, by simp⟩

theorem lineTrace_step (x y sx sy : Int) (a b i j : Nat) (hi : i ≤ 1) (hj : j ≤ 1)
    (pts : List (Int × Int)) (h : LineTrace (x + sx * i) (y + sy * j) sx sy a b pts) :
    LineTrace x y sx sy (a + i) (b + j) ((x, y) :: pts) := by
  obtain ⟨_, hend, hbox, hcx, hcy⟩ := h
  refine ⟨by simp, ?_, ?_, ?_, ?_⟩
  · have e1 : x + sx * ((a + i : Nat) : Int) = x + sx * i + sx * a := by push_cast; ring
    have e2 : y + sy * ((b + j : Nat) : Int) = y + sy * j + sy * b := by push_cast; ring
    rw [e1, e2]
    exact List.mem_cons_of_mem _ hend
  · intro p hp
    rcases List.mem_cons.1 hp with rfl | hp
    · exact ⟨0, 0, Nat.zero_le _, Nat.zero_le _, by simp⟩
    · obtain ⟨k, l, hk, hl, rfl⟩ := hbox p hp
      refine ⟨k + i, l + j, by omega, by omega, ?_⟩
      push_cast
      congr 1 <;> ring
  · intro k hk
    by_cases hk0 : k = 0
    · subst hk0
      exact ⟨(x, y), by simp, by simp⟩
    · have hik : i ≤ k := by omega
      obtain ⟨p, hp, he⟩ := hcx (k - i) (by omega)
      refine ⟨p, List.mem_cons_of_mem _ hp, ?_⟩
      rw [he]
      have : ((k - i : Nat) : Int) = (k : Int) - i := by omega
      rw [this]; ring
  · intro l hl
    by_cases hl0 : l = 0
    · subst hl0
      exact ⟨(x, y), by simp, by simp⟩
    · have hjl : j ≤ l := by omega
      obtain ⟨p, hp, he⟩ := hcy (l - j) (by omega)
      refine ⟨p, List.mem_cons_of_mem _ hp, ?_⟩
      rw [he]
      have : ((l - j : Nat) : Int) = (l : Int) - j := by omega
      rw [this]; ring

theorem linePoints_spec (x2 y2 dx dy sx sy : Int) (hsx : sx = 1 ∨ sx = -1)
    (hsy : sy = 1 ∨ sy = -1) :
    ∀ (fuel a b : Nat) (x y err : Int),
      x2 = x + sx * a → y2 = y + sy * b → (a : Int) ≤ dx → (b : Int) ≤ dy →
      err = dx - dy + a * dy - b * dx → a + b + 1 ≤ fuel →
      ∃ pts, linePoints fuel x y x2 y2 dx dy sx sy err = some pts ∧
        LineTrace x y sx sy a b pts := by
  intro fuel
  induction fuel with
  | zero => intro a b x y err _ _ _ _ _ hf; omega
  | succ n ih =>
    intro a b x y err hx hy ha hb herr hf
    unfold linePoints
    by_cases hfin : x = x2 ∧ y = y2
    · have ha0 : a = 0 := by
        have : sx * (a : Int) = 0 := by omega
        rcases hsx with h | h <;> rw [h] at this <;> omega
      have hb0 : b = 0 := by
        have : sy * (b : Int) = 0 := by omega
        rcases hsy with h | h <;> rw [h] at this <;> omega
      subst ha0; subst hb0
      rw [if_pos hfin]
      exact ⟨_, rfl, lineTrace_done x y sx sy⟩
    · rw [if_neg hfin]
      have hab : a ≠ 0 ∨ b ≠ 0 := by
        by_contra hc
        push_neg at hc
        obtain ⟨ha0, hb0⟩ := hc
        subst ha0; subst hb0
        apply hfin
        simp at hx hy
        exact ⟨hx.symm, hy.symm⟩
      have hdx : 0 ≤ dx := by omega
      have hdy : 0 ≤ dy := by omega
      have hP : 0 ≤ (a : Int) * dy := mul_nonneg (by omega) hdy
      have hQ : 0 ≤ (b : Int) * dx := mul_nonneg (by omega) hdx
      -- a step along x needs a step left along x
      have hxs : 2 * err > -dy → a ≠ 0 := by
        intro h ha0
        subst ha0
        have hb1 : 1 ≤ b := by omega
        have : dx ≤ (b : Int) * dx := by
          have := mul_le_mul_of_nonneg_right (show (1 : Int) ≤ (b : Int) by omega) hdx
          simpa using this
        simp at herr
        omega
      have hys : 2 * err < dx → b ≠ 0 := by
        intro h hb0
        subst hb0
        have ha1 : 1 ≤ a := by omega
        have : dy ≤ (a : Int) * dy := by
          have := mul_le_mul_of_nonneg_right (show (1 : Int) ≤ (a : Int) by omega) hdy
          simpa using this
        simp at herr
        omega
      have hsome : 2 * err > -dy ∨ 2 * err < dx := by
        by_contra hc
        push_neg at hc
        have h0 : dx = 0 := by omega
        have h1 : dy = 0 := by omega
        omega
      by_cases hX : 2 * err > -dy <;> by_cases hY : 2 * err < dx
      · -- both steps
        have ha1 := hxs hX
        have hb1 := hys hY
        obtain ⟨pts, hpts, htr⟩ := ih (a - 1) (b - 1) (x + sx) (y + sy) (err - dy + dx)
          (by rw [hx]; have : ((a - 1 : Nat) : Int) = (a : Int) - 1 := by omega
              rw [this]; ring)
          (by rw [hy]; have : ((b - 1 : Nat) : Int) = (b : Int) - 1 := by omega
              rw [this]; ring)
          (by omega) (by omega)
          (by have e1 : ((a - 1 : Nat) : Int) = (a : Int) - 1 := by omega
              have e2 : ((b - 1 : Nat) : Int) = (b : Int) - 1 := by omega
              rw [e1, e2, herr]; ring)
          (by omega)
        simp only [hX, hY, if_true]
        rw [hpts]
        refine ⟨_, rfl, ?_⟩
        have := lineTrace_step x y sx sy (a - 1) (b - 1) 1 1 (le_refl _) (le_refl _) pts
          (by simpa using htr)
        have e1 : a - 1 + 1 = a := by omega
        have e2 : b - 1 + 1 = b := by omega
        rwa [e1, e2] at this
      · -- a step along x only
        have ha1 := hxs hX
        obtain ⟨pts, hpts, htr⟩ := ih (a - 1) b (x + sx) y (err - dy)
          (by rw [hx]; have : ((a - 1 : Nat) : Int) = (a : Int) - 1 := by omega
              rw [this]; ring)
          hy (by omega) hb
          (by have e1 : ((a - 1 : Nat) : Int) = (a : Int) - 1 := by omega
              rw [e1, herr]; ring)
          (by omega)
        simp only [hX, hY, if_true, if_false]
        rw [hpts]
        refine ⟨_, rfl, ?_⟩
        have := lineTrace_step x y sx sy (a - 1) b 1 0 (le_refl _) (Nat.zero_le _) pts
          (by simpa using htr)
        have e1 : a - 1 + 1 = a := by omega
        rwa [e1] at this
      · -- a step along y only
        have hb1 := hys hY
        obtain ⟨pts, hpts, htr⟩ := ih a (b - 1) x (y + sy) (err + dx)
          hx
          (by rw [hy]; have : ((b - 1 : Nat) : Int) = (b : Int) - 1 := by omega
              rw [this]; ring)
          ha (by omega)
          (by have e2 : ((b - 1 : Nat) : Int) = (b : Int) - 1 := by omega
              rw [e2, herr]; ring)
          (by omega)
        simp only [hX, hY, if_true, if_false]
        rw [hpts]
        refine ⟨_, rfl, ?_⟩
        have := lineTrace_step x y sx sy a (b - 1) 0 1 (Nat.zero_le _) (le_refl _) pts
          (by simpa using htr)
        have e2 : b - 1 + 1 = b := by omega
        rwa [e2] at this
      · exact absurd (hsome.resolve_left hX) hY

/-- The trace of a whole line: with fuel for `|x2 - x1| + |y2 - y1| + 1` iterations the
loop breaks, and its trace holds both end points, stays in the bounding box and meets
every column and every row of the bounding box. -/
theorem drawLine_points (c : Canvas) (x1 y1 x2 y2 : Int) (brush : Char) (fuel : Nat)
    (hfuel : |x2 - x1| + |y2 - y1| + 1 ≤ (fuel : Int)) :
    ∃ pts, DrawLine fuel c x1 y1 x2 y2 brush = some (plotAll c pts brush) ∧
      (x1, y1) ∈ pts ∧ (x2, y2) ∈ pts ∧
      (∀ p ∈ pts, min x1 x2 ≤ p.1 ∧ p.1 ≤ max x1 x2 ∧ min y1 y2 ≤ p.2 ∧ p.2 ≤ max y1 y2) ∧
      (∀ u, min x1 x2 ≤ u → u ≤ max x1 x2 → ∃ p ∈ pts, p.1 = u) ∧
      (∀ v, min y1 y2 ≤ v → v ≤ max y1 y2 → ∃ p ∈ pts, p.2 = v) := by
  unfold DrawLine DrawLineBresenham
  simp only [drawLineLoop_eq_points]
  set sx : Int := if x1 < x2 then 1 else -1 with hsx
  set sy : Int := if y1 < y2 then 1 else -1 with hsy
  have hsx' : sx = 1 ∨ sx = -1 := by rw [hsx]; split <;> simp
  have hsy' : sy = 1 ∨ sy = -1 := by rw [hsy]; split <;> simp
  have habsx : |x2 - x1| = sx * (x2 - x1) := by
    rw [hsx]; split
    · rw [abs_of_pos (by omega)]; ring
    · rw [abs_of_nonpos (by omega)]; ring
  have habsy : |y2 - y1| = sy * (y2 - y1) := by
    rw [hsy]; split
    · rw [abs_of_pos (by omega)]; ring
    · rw [abs_of_nonpos (by omega)]; ring
  have hax : 0 ≤ |x2 - x1| := abs_nonneg _
  have hay : 0 ≤ |y2 - y1| := abs_nonneg _
  have hca : ((|x2 - x1|).toNat : Int) = |x2 - x1| := Int.toNat_of_nonneg hax
  have hcb : ((|y2 - y1|).toNat : Int) = |y2 - y1| := Int.toNat_of_nonneg hay
  have hss : sx * sx = 1 := by rcases hsx' with h | h <;> rw [h] <;> norm_num
  have htt : sy * sy = 1 := by rcases hsy' with h | h <;> rw [h] <;> norm_num
  have hx2 : x2 = x1 + sx * |x2 - x1| := by
    rw [habsx, ← mul_assoc, hss]; ring
  have hy2 : y2 = y1 + sy * |y2 - y1| := by
    rw [habsy, ← mul_assoc, htt]; ring
  obtain ⟨pts, hpts, htr⟩ := linePoints_spec x2 y2 |x2 - x1| |y2 - y1| sx sy hsx' hsy' fuel
    (|x2 - x1|).toNat (|y2 - y1|).toNat x1 y1 (|x2 - x1| - |y2 - y1|)
    (by rw [hca]; exact hx2) (by rw [hcb]; exact hy2) (by omega) (by omega)
    (by rw [hca, hcb]; ring) (by omega)
  obtain ⟨hstart, hend, hbox, hcx, hcy⟩ := htr
  rw [hca, hcb] at hend
  rw [← hx2, ← hy2] at hend
  refine ⟨pts, by rw [hpts]; rfl, hstart, hend, ?_, ?_, ?_⟩
  · intro p hp
    obtain ⟨k, l, hk, hl, rfl⟩ := hbox p hp
    have hk' : (k : Int) ≤ |x2 - x1| := by omega
    have hl' : (l : Int) ≤ |y2 - y1| := by omega
    simp only
    refine ⟨?_, ?_, ?_, ?_⟩
    · rcases hsx' with h | h <;> rw [h] at hx2 ⊢ <;> omega
    · rcases hsx' with h | h <;> rw [h] at hx2 ⊢ <;> omega
    · rcases hsy' with h | h <;> rw [h] at hy2 ⊢ <;> omega
    · rcases hsy' with h | h <;> rw [h] at hy2 ⊢ <;> omega
  · intro u hu1 hu2
    obtain ⟨p, hp, he⟩ := hcx (sx * (u - x1)).toNat
      (by rcases hsx' with h | h <;> rw [h] at hx2 ⊢ <;> omega)
    refine ⟨p, hp, ?_⟩
    rw [he]
    rcases hsx' with h | h <;> rw [h] at hx2 ⊢ <;> omega
  · intro v hv1 hv2
    obtain ⟨p, hp, he⟩ := hcy (sy * (v - y1)).toNat
      (by rcases hsy' with h | h <;> rw [h] at hy2 ⊢ <;> omega)
    refine ⟨p, hp, ?_⟩
    rw [he]
    rcases hsy' with h | h <;> rw [h] at hy2 ⊢ <;> omega

/-- A horizontal line, in either direction: exactly the in-bounds cells of row `y`
between the two columns are set to the brush. -/
theorem drawLine_horizontal {c : Canvas} (hc : c.WF) (x1 x2 y : Int) (brush : Char) (fuel : Nat)
    (hfuel : |x2 - x1| + 1 ≤ (fuel : Int)) :
    ∃ c', DrawLine fuel c x1 y x2 y brush = some c' ∧ c'.WF ∧
      c'.width_ = c.width_ ∧ c'.height_ = c.height_ ∧
      ∀ u v, c.InBounds u v = true →
        c'.get u v = if v = y ∧ min x1 x2 ≤ u ∧ u ≤ max x1 x2 then brush else c.get u v := by
  obtain ⟨pts, hrun, -, -, hbox, hcx, -⟩ :=
    drawLine_points c x1 y x2 y brush fuel (by simpa using hfuel)
  refine ⟨_, hrun, plotAll_wf hc _ _, (plotAll_dims c pts brush).1, (plotAll_dims c pts brush).2.1, ?_⟩
  intro u v huv
  rw [get_plotAll hc pts brush huv]
  have hiff : (u, v) ∈ pts ↔ (v = y ∧ min x1 x2 ≤ u ∧ u ≤ max x1 x2) := by
    constructor
    · intro h
      have := hbox _ h
      simp only [min_self, max_self] at this
      exact ⟨by omega, this.1, this.2.1⟩
    · rintro ⟨rfl, h1, h2⟩
      obtain ⟨p, hp, he⟩ := hcx u h1 h2
      have := hbox p hp
      simp only [min_self, max_self] at this
      have hp2 : p = (u, v) := Prod.ext he (by simp only; omega)
      rw [← hp2]; exact hp
  by_cases h : (u, v) ∈ pts
  · rw [if_pos h, if_pos (hiff.1 h)]
  · rw [if_neg h, if_neg (fun h' => h (hiff.2 h'))]

/-- A vertical line, in either direction: exactly the in-bounds cells of column `x`
between the two rows are set to the brush. -/
theorem drawLine_vertical {c : Canvas} (hc : c.WF) (x y1 y2 : Int) (brush : Char) (fuel : Nat)
    (hfuel : |y2 - y1| + 1 ≤ (fuel : Int)) :
    ∃ c', DrawLine fuel c x y1 x y2 brush = some c' ∧ c'.WF ∧
      c'.width_ = c.width_ ∧ c'.height_ = c.height_ ∧
      ∀ u v, c.InBounds u v = true →
        c'.get u v = if u = x ∧ min y1 y2 ≤ v ∧ v ≤ max y1 y2 then brush else c.get u v := by
  obtain ⟨pts, hrun, -, -, hbox, -, hcy⟩ :=
    drawLine_points c x y1 x y2 brush fuel (by simpa using hfuel)
  refine ⟨_, hrun, plotAll_wf hc _ _, (plotAll_dims c pts brush).1, (plotAll_dims c pts brush).2.1, ?_⟩
  intro u v huv
  rw [get_plotAll hc pts brush huv]
  have hiff : (u, v) ∈ pts ↔ (u = x ∧ min y1 y2 ≤ v ∧ v ≤ max y1 y2) := by
    constructor
    · intro h
      have := hbox _ h
      simp only [min_self, max_self] at this
      exact ⟨by omega, this.2.2.1, this.2.2.2⟩
    · rintro ⟨rfl, h1, h2⟩
      obtain ⟨p, hp, he⟩ := hcy v h1 h2
      have := hbox p hp
      simp only [min_self, max_self] at this
      have hp2 : p = (u, v) := Prod.ext (by simp only; omega) he
      rw [← hp2]; exact hp
  by_cases h : (u, v) ∈ pts
  · rw [if_pos h, if_pos (hiff.1 h)]
  · rw [if_neg h, if_neg (fun h' => h (hiff.2 h'))]

theorem inBounds_of_dims {c c' : Canvas} (hw : c'.width_ = c.width_) (hh : c'.height_ = c.height_)
    (u v : Int) : c'.InBounds u v = c.InBounds u v := by
  simp [Canvas.InBounds, Canvas.Width, Canvas.Height, hw, hh]

end Plotter
end plotter

/-! ## Lines and rectangle outlines -/

namespace plotter

/-- C7: for every pair of integer end points the Bresenham loop of `DrawLine` terminates
(fuel for `|x2 - x1| + |y2 - y1| + 1` iterations is enough); the cells it plots are the
points `pts`, which contain both end points and lie in the bounding box of the end
points; so an end point that is in bounds holds the brush afterwards, and every cell
outside the bounding box is unchanged. -/
theorem C7_drawLine_terminates (c : Canvas) (hc : c.WF) (x1 y1 x2 y2 : Int) (brush : Char)
    (fuel : Nat) (hfuel : |x2 - x1| + |y2 - y1| + 1 ≤ (fuel : Int)) :
    ∃ pts, Plotter.DrawLine fuel c x1 y1 x2 y2 brush = some (Plotter.plotAll c pts brush) ∧
      (x1, y1) ∈ pts ∧ (x2, y2) ∈ pts ∧
      (∀ p ∈ pts, min x1 x2 ≤ p.1 ∧ p.1 ≤ max x1 x2 ∧ min y1 y2 ≤ p.2 ∧ p.2 ≤ max y1 y2) ∧
      (c.InBounds x1 y1 = true → (Plotter.plotAll c pts brush).get x1 y1 = brush) ∧
      (c.InBounds x2 y2 = true → (Plotter.plotAll c pts brush).get x2 y2 = brush) ∧
      (∀ u v, c.InBounds u v = true →
        ¬ (min x1 x2 ≤ u ∧ u ≤ max x1 x2 ∧ min y1 y2 ≤ v ∧ v ≤ max y1 y2) →
        (Plotter.plotAll c pts brush).get u v = c.get u v) := by
  obtain ⟨pts, hrun, h1, h2, hbox, -, -⟩ :=
    Plotter.drawLine_points c x1 y1 x2 y2 brush fuel hfuel
  refine ⟨pts, hrun, h1, h2, hbox, ?_, ?_, ?_⟩
  · intro hb
    rw [Plotter.get_plotAll hc pts brush hb, if_pos h1]
  · intro hb
    rw [Plotter.get_plotAll hc pts brush hb, if_pos h2]
  · intro u v hb hout
    rw [Plotter.get_plotAll hc pts brush hb, if_neg]
    intro hmem
    exact hout (hbox _ hmem)

/-- C7 at a concrete input: the line from `(7,4)` to `(1,1)` on an 8x5 canvas. -/
theorem C7_drawLine_terminates_witness :
    (Canvas.new 8 5 '.').WF ∧ |(1 : Int) - 7| + |(1 : Int) - 4| + 1 ≤ ((10 : Nat) : Int) ∧
    ∃ pts, Plotter.DrawLine 10 (Canvas.new 8 5 '.') 7 4 1 1 '#'
        = some (Plotter.plotAll (Canvas.new 8 5 '.') pts '#') ∧
      ((7 : Int), (4 : Int)) ∈ pts ∧ ((1 : Int), (1 : Int)) ∈ pts ∧
      (∀ p ∈ pts, min 7 1 ≤ p.1 ∧ p.1 ≤ max 7 1 ∧ min 4 1 ≤ p.2 ∧ p.2 ≤ max 4 1) ∧
      ((Canvas.new 8 5 '.').InBounds 7 4 = true →
        (Plotter.plotAll (Canvas.new 8 5 '.') pts '#').get 7 4 = '#') ∧
      ((Canvas.new 8 5 '.').InBounds 1 1 = true →
        (Plotter.plotAll (Canvas.new 8 5 '.') pts '#').get 1 1 = '#') ∧
      (∀ u v, (Canvas.new 8 5 '.').InBounds u v = true →
        ¬ (min 7 1 ≤ u ∧ u ≤ max 7 1 ∧ min 4 1 ≤ v ∧ v ≤ max 4 1) →
        (Plotter.plotAll (Canvas.new 8 5 '.') pts '#').get u v
          = (Canvas.new 8 5 '.').get u v) :=
  ⟨⟨by decide, by decide, by decide, by decide⟩, by decide,
    C7_drawLine_terminates (Canvas.new 8 5 '.') ⟨by decide, by decide, by decide, by decide⟩
      7 4 1 1 '#' 10 (by decide)⟩

/-- C8: a horizontal line `DrawLine(x1,y,x2,y,brush)`, in either direction, sets to the
brush exactly the in-bounds cells `(u,y)` with `min x1 x2 ≤ u ≤ max x1 x2` and leaves
every other cell unchanged; symmetrically for a vertical line; and `DrawLine(0,0,5,0)`
on a canvas at least 6 wide paints exactly the six cells `(0,0)..(5,0)`. -/
theorem C8_axis_parallel_lines (c : Canvas) (hc : c.WF) (brush : Char) (fuel : Nat) :
    (∀ x1 x2 y : Int, |x2 - x1| + 1 ≤ (fuel : Int) →
      ∃ c', Plotter.DrawLine fuel c x1 y x2 y brush = some c' ∧
        c'.width_ = c.width_ ∧ c'.height_ = c.height_ ∧
        ∀ u v, c.InBounds u v = true →
          c'.get u v = if v = y ∧ min x1 x2 ≤ u ∧ u ≤ max x1 x2 then brush else c.get u v) ∧
    (∀ x y1 y2 : Int, |y2 - y1| + 1 ≤ (fuel : Int) →
      ∃ c', Plotter.DrawLine fuel c x y1 x y2 brush = some c' ∧
        c'.width_ = c.width_ ∧ c'.height_ = c.height_ ∧
        ∀ u v, c.InBounds u v = true →
          c'.get u v = if u = x ∧ min y1 y2 ≤ v ∧ v ≤ max y1 y2 then brush else c.get u v) ∧
    (6 ≤ c.width_ → 1 ≤ c.height_ → 6 ≤ fuel →
      ∃ c', Plotter.DrawLine fuel c 0 0 5 0 brush = some c' ∧
        (∀ u : Int, 0 ≤ u → u ≤ 5 → c.InBounds u 0 = true ∧ c'.get u 0 = brush) ∧
        ∀ u v, c.InBounds u v = true → ¬ (v = 0 ∧ 0 ≤ u ∧ u ≤ 5) → c'.get u v = c.get u v) := by
  refine ⟨?_, ?_, ?_⟩
  · intro x1 x2 y hf
    obtain ⟨c', h1, -, h2, h3, h4⟩ := Plotter.drawLine_horizontal hc x1 x2 y brush fuel hf
    exact ⟨c', h1, h2, h3, h4⟩
  · intro x y1 y2 hf
    obtain ⟨c', h1, -, h2, h3, h4⟩ := Plotter.drawLine_vertical hc x y1 y2 brush fuel hf
    exact ⟨c', h1, h2, h3, h4⟩
  · intro hw hh hf
    obtain ⟨c', h1, -, -, -, h4⟩ := Plotter.drawLine_horizontal hc 0 5 0 brush fuel
      (by norm_num; omega)
    refine ⟨c', h1, ?_, ?_⟩
    · intro u hu0 hu5
      have hb : c.InBounds u 0 = true := by
        rw [Canvas.inBounds_iff]; omega
      refine ⟨hb, ?_⟩
      rw [h4 u 0 hb, if_pos]
      exact ⟨rfl, by simp; omega, by simp; omega⟩
    · intro u v hb hn
      rw [h4 u v hb, if_neg]
      intro h
      apply hn
      refine ⟨h.1, ?_, ?_⟩
      · have := h.2.1; simp at this; omega
      · have := h.2.2; simp at this; omega

/-- C8 at a concrete input: the line from `(0,0)` to `(5,0)` on an 8x3 canvas. -/
theorem C8_axis_parallel_lines_witness :
    (Canvas.new 8 3 '.').WF ∧ |(5 : Int) - 0| + 1 ≤ ((6 : Nat) : Int) ∧
    ∃ c', Plotter.DrawLine 6 (Canvas.new 8 3 '.') 0 0 5 0 '#' = some c' ∧
      c'.width_ = (Canvas.new 8 3 '.').width_ ∧ c'.height_ = (Canvas.new 8 3 '.').height_ ∧
      ∀ u v, (Canvas.new 8 3 '.').InBounds u v = true →
        c'.get u v = if v = 0 ∧ min 0 5 ≤ u ∧ u ≤ max 0 5 then '#'
          else (Canvas.new 8 3 '.').get u v :=
  ⟨⟨by decide, by decide, by decide, by decide⟩, by decide,
    (C8_axis_parallel_lines (Canvas.new 8 3 '.') ⟨by decide, by decide, by decide, by decide⟩
      '#' 6).1 0 5 0 (by decide)⟩

/-- C9: `DrawRectangle` with `fill = false` paints exactly the perimeter: afterwards an
in-bounds cell holds the brush if it lies on one of the four edges of the rectangle
spanned by `(x1,y1)` and `(x2,y2)`, and keeps its previous character otherwise
(interior and exterior cells alike). -/
theorem C9_rectangle_outline (c : Canvas) (hc : c.WF) (x1 y1 x2 y2 : Int) (brush : Char)
    (fuel : Nat) (hfx : |x2 - x1| + 1 ≤ (fuel : Int)) (hfy : |y2 - y1| + 1 ≤ (fuel : Int)) :
    ∃ c', Plotter.DrawRectangle fuel c x1 y1 x2 y2 brush false = some c' ∧
      c'.width_ = c.width_ ∧ c'.height_ = c.height_ ∧
      ∀ u v, c.InBounds u v = true →
        c'.get u v =
          if ((v = y1 ∨ v = y2) ∧ min x1 x2 ≤ u ∧ u ≤ max x1 x2) ∨
             ((u = x1 ∨ u = x2) ∧ min y1 y2 ≤ v ∧ v ≤ max y1 y2)
          then brush else c.get u v := by
  have hfx' : |x1 - x2| + 1 ≤ (fuel : Int) := by rw [abs_sub_comm]; exact hfx
  have hfy' : |y1 - y2| + 1 ≤ (fuel : Int) := by rw [abs_sub_comm]; exact hfy
  obtain ⟨c1, e1, wf1, w1, h1, g1⟩ := Plotter.drawLine_horizontal hc x1 x2 y1 brush fuel hfx
  obtain ⟨c2, e2, wf2, w2, h2, g2⟩ := Plotter.drawLine_vertical wf1 x2 y1 y2 brush fuel hfy
  obtain ⟨c3, e3, wf3, w3, h3, g3⟩ := Plotter.drawLine_horizontal wf2 x2 x1 y2 brush fuel hfx'
  obtain ⟨c4, e4, wf4, w4, h4, g4⟩ := Plotter.drawLine_vertical wf3 x1 y2 y1 brush fuel hfy'
  refine ⟨c4, ?_, by omega, by omega, ?_⟩
  · simp [Plotter.DrawRectangle, e1, e2, e3, e4]
  · intro u v hb
    have hb1 : c1.InBounds u v = true := by rw [Plotter.inBounds_of_dims w1 h1]; exact hb
    have hb2 : c2.InBounds u v = true := by rw [Plotter.inBounds_of_dims w2 h2]; exact hb1
    have hb3 : c3.InBounds u v = true := by rw [Plotter.inBounds_of_dims w3 h3]; exact hb2
    rw [g4 u v hb3, g3 u v hb2, g2 u v hb1, g1 u v hb]
    split_ifs <;> first | rfl | (exfalso; omega)

/-- C9 at a concrete input: the outline from `(6,3)` to `(1,1)` on an 8x5 canvas. -/
theorem C9_rectangle_outline_witness :
    (Canvas.new 8 5 '.').WF ∧ |(1 : Int) - 6| + 1 ≤ ((6 : Nat) : Int) ∧
    |(1 : Int) - 3| + 1 ≤ ((6 : Nat) : Int) ∧
    ∃ c', Plotter.DrawRectangle 6 (Canvas.new 8 5 '.') 6 3 1 1 '#' false = some c' ∧
      c'.width_ = (Canvas.new 8 5 '.').width_ ∧ c'.height_ = (Canvas.new 8 5 '.').height_ ∧
      ∀ u v, (Canvas.new 8 5 '.').InBounds u v = true →
        c'.get u v =
          if ((v = 3 ∨ v = 1) ∧ min 6 1 ≤ u ∧ u ≤ max 6 1) ∨
             ((u = 6 ∨ u = 1) ∧ min 3 1 ≤ v ∧ v ≤ max 3 1)
          then '#' else (Canvas.new 8 5 '.').get u v :=
  ⟨⟨by decide, by decide, by decide, by decide⟩, by decide, by decide,
    C9_rectangle_outline (Canvas.new 8 5 '.') ⟨by decide, by decide, by decide, by decide⟩
      6 3 1 1 '#' 6 (by decide) (by decide)⟩

end plotter

/-! ## Triangle fill -/

namespace plotter

theorem mem_intRange (lo hi x : Int) : x ∈ intRange lo hi ↔ lo ≤ x ∧ x ≤ hi := by
  unfold intRange
  simp only [List.mem_map, List.mem_range]
  constructor
  · rintro ⟨k, hk, rfl⟩
    omega
  · rintro ⟨h1, h2⟩
    exact ⟨(x - lo).toNat, by omega, by omega⟩

namespace Plotter

theorem foldl_plotAll {α : Type} (l : List α) (f : α → List (Int × Int)) (c : Canvas) (b : Char) :
    l.foldl (fun c a => plotAll c (f a) b) c = plotAll c (l.flatMap f) b := by
  induction l generalizing c with
  | nil => rfl
  | cons a l ih =>
    rw [List.foldl_cons, ih, List.flatMap_cons, plotAll_append]

theorem foldl_plot_filter (l : List Int) (P : Int → Bool) (y : Int) (c : Canvas) (b : Char) :
    l.foldl (fun c x => if P x then plot c x y b else c) c
      = plotAll c ((l.filter P).map (fun x => (x, y))) b := by
  induction l generalizing c with
  | nil => rfl
  | cons a l ih =>
    rw [List.foldl_cons, ih]
    by_cases h : P a = true
    · simp [List.filter_cons, h]
    · simp [List.filter_cons, h]

/-- The inside test of `FillTriangle` as one boolean. -/
theorem fillTriangleStep_eq (x1 y1 x2 y2 x3 y3 : Int) (brush : Char) (y : Int) (c : Canvas)
    (x : Int) :
    FillTriangleStep x1 y1 x2 y2 x3 y3 brush y c x
      = if (decide (edge_function x1 y1 x2 y2 x y ≥ 0) && decide (edge_function x2 y2 x3 y3 x y ≥ 0)
          && decide (edge_function x3 y3 x1 y1 x y ≥ 0)) = true
        then plot c x y brush else c := by
  unfold FillTriangleStep plot
  by_cases hb : c.InBounds x y = true
  · simp [hb]
  · simp [hb]

end Plotter

/-- C10: `DrawTriangle` with `fill = true` sets an in-bounds cell `(u,v)` to the brush if
and only if it lies in the bounding box of the three vertices and the three edge
functions `E(a,b,p) = (px-ax)(by-ay) - (py-ay)(bx-ax)` of the directed edges `v1->v2`,
`v2->v3`, `v3->v1` are all `≥ 0` there; every other cell keeps its character. -/
theorem C10_triangle_fill (c : Canvas) (hc : c.WF) (x1 y1 x2 y2 x3 y3 : Int) (brush : Char)
    (fuel : Nat) :
    ∃ c', Plotter.DrawTriangle fuel c x1 y1 x2 y2 x3 y3 brush true = some c' ∧
      c'.width_ = c.width_ ∧ c'.height_ = c.height_ ∧
      ∀ u v, c.InBounds u v = true →
        c'.get u v =
          if (min x1 (min x2 x3) ≤ u ∧ u ≤ max x1 (max x2 x3)) ∧
             (min y1 (min y2 y3) ≤ v ∧ v ≤ max y1 (max y2 y3)) ∧
             0 ≤ (u - x1) * (y2 - y1) - (v - y1) * (x2 - x1) ∧
             0 ≤ (u - x2) * (y3 - y2) - (v - y2) * (x3 - x2) ∧
             0 ≤ (u - x3) * (y1 - y3) - (v - y3) * (x1 - x3)
          then brush else c.get u v := by
  refine ⟨Plotter.FillTriangle c x1 y1 x2 y2 x3 y3 brush, by simp [Plotter.DrawTriangle], ?_⟩
  have key : Plotter.FillTriangle c x1 y1 x2 y2 x3 y3 brush
      = Plotter.plotAll c ((intRange (min y1 (min y2 y3)) (max y1 (max y2 y3))).flatMap
          (fun y => ((intRange (min x1 (min x2 x3)) (max x1 (max x2 x3))).filter
            (fun x => decide (Plotter.edge_function x1 y1 x2 y2 x y ≥ 0) &&
              decide (Plotter.edge_function x2 y2 x3 y3 x y ≥ 0) &&
              decide (Plotter.edge_function x3 y3 x1 y1 x y ≥ 0))).map (fun x => (x, y)))) brush := by
    unfold Plotter.FillTriangle
    dsimp only
    rw [← Plotter.foldl_plotAll]
    congr 1
    funext c y
    have hstep : Plotter.FillTriangleStep x1 y1 x2 y2 x3 y3 brush y
        = fun c x => if (decide (Plotter.edge_function x1 y1 x2 y2 x y ≥ 0) &&
              decide (Plotter.edge_function x2 y2 x3 y3 x y ≥ 0) &&
              decide (Plotter.edge_function x3 y3 x1 y1 x y ≥ 0)) = true
            then Plotter.plot c x y brush else c := by
      funext c x
      exact Plotter.fillTriangleStep_eq x1 y1 x2 y2 x3 y3 brush y c x
    rw [hstep]
    exact Plotter.foldl_plot_filter _ _ y c brush
  rw [key]
  refine ⟨(Plotter.plotAll_dims _ _ _).1, (Plotter.plotAll_dims _ _ _).2.1, ?_⟩
  intro u v hb
  rw [Plotter.get_plotAll hc _ _ hb]
  congr 1
  simp only [List.mem_flatMap, List.mem_map, List.mem_filter, mem_intRange, Prod.mk.injEq,
    Bool.and_eq_true, decide_eq_true_eq, Plotter.edge_function, ge_iff_le, eq_iff_iff]
  constructor
  · rintro ⟨y, hy, x, ⟨hx, hE⟩, rfl, rfl⟩
    exact ⟨hx, hy, hE.1.1, hE.1.2, hE.2⟩
  · rintro ⟨hx, hy, h1, h2, h3⟩
    exact ⟨v, hy, u, ⟨hx, ⟨h1, h2⟩, h3⟩, rfl, rfl⟩

/-- C10 at a concrete input: a triangle with a vertex outside an 8x5 canvas. -/
theorem C10_triangle_fill_witness :
    (Canvas.new 8 5 '.').WF ∧
    ∃ c', Plotter.DrawTriangle 0 (Canvas.new 8 5 '.') 0 0 0 4 9 0 '#' true = some c' ∧
      c'.width_ = (Canvas.new 8 5 '.').width_ ∧ c'.height_ = (Canvas.new 8 5 '.').height_ ∧
      ∀ u v, (Canvas.new 8 5 '.').InBounds u v = true →
        c'.get u v =
          if (min 0 (min 0 9) ≤ u ∧ u ≤ max 0 (max 0 9)) ∧
             (min 0 (min 4 0) ≤ v ∧ v ≤ max 0 (max 4 0)) ∧
             0 ≤ (u - 0) * (4 - 0) - (v - 0) * (0 - 0) ∧
             0 ≤ (u - 0) * (0 - 4) - (v - 4) * (9 - 0) ∧
             0 ≤ (u - 9) * (0 - 0) - (v - 0) * (0 - 9)
          then '#' else (Canvas.new 8 5 '.').get u v :=
  ⟨⟨by decide, by decide, by decide, by decide⟩,
    C10_triangle_fill (Canvas.new 8 5 '.') ⟨by decide, by decide, by decide, by decide⟩
      0 0 0 4 9 0 '#' 0⟩

end plotter

/-! ## Flood fill -/

namespace plotter

theorem Canvas.get_eq_getElem {c : Canvas} (h : c.WF) {x y : Int} (hb : c.InBounds x y = true) :
    c.data_[c.CalculateShift x y]? = some (c.get x y) := by
  unfold Canvas.get
  simp [List.getD_eq_getElem?_getD, Canvas.shift_lt h hb]

/-- Overwriting a cell that holds `t` with another character removes one `t` from the buffer. -/
theorem Canvas.count_set_target {c : Canvas} (h : c.WF) {x y : Int} (hb : c.InBounds x y = true)
    {t f : Char} (ht : c.get x y = t) (hf : f ≠ t) :
    (c.set x y f).data_.count t + 1 = c.data_.count t := by
  have hlt := Canvas.shift_lt h hb
  have hd : c.data_[c.CalculateShift x y] = t := by
    have := Canvas.get_eq_getElem h hb
    rw [List.getElem?_eq_getElem hlt, ht] at this
    exact Option.some.inj this
  have hpos : 0 < c.data_.count t := by
    rw [List.count_pos_iff]
    rw [← hd]
    exact List.getElem_mem _
  simp only [Canvas.set]
  rw [List.count_set _ _ _ _ hlt]
  simp [hd, hf]
  omega

namespace FillState

variable {c0 ci : Canvas} {x y : Int} {f : Char}

theorem inBounds_eq (h : FillState c0 x y f ci) (u v : Int) : ci.InBounds u v = c0.InBounds u v :=
  Plotter.inBounds_of_dims h.width_eq h.height_eq u v

/-- A cell of the current canvas that holds the seed's character held it at the start. -/
theorem target_orig (h : FillState c0 x y f ci) (hf : f ≠ c0.get x y) {u v : Int}
    (hb : c0.InBounds u v = true) (ht : ci.get u v = c0.get x y) : c0.get u v = c0.get x y := by
  rcases h.sound u v hb with h1 | ⟨_, h2, _⟩
  · rw [← h1]; exact ht
  · rw [h2] at ht; exact absurd ht hf

theorem init (hc : c0.WF) : FillState c0 x y f c0 :=
  ⟨hc, rfl, rfl, rfl, fun _ _ _ => Or.inl rfl⟩

/-- Filling one more connected cell that holds the seed's character. -/
theorem set_cell (h : FillState c0 x y f ci) {a b : Int} (hb : c0.InBounds a b = true)
    (horig : c0.get a b = c0.get x y) (hconn : Connected c0 x y a b) :
    FillState c0 x y f (ci.set a b f) := by
  refine ⟨Canvas.set_wf h.wf a b f, h.width_eq, h.height_eq, h.background_eq, ?_⟩
  intro u v huv
  have hb' : ci.InBounds a b = true := by rw [h.inBounds_eq]; exact hb
  have huv' : ci.InBounds u v = true := by rw [h.inBounds_eq]; exact huv
  rw [Canvas.get_set h.wf f hb' huv']
  by_cases he : u = a ∧ v = b
  · obtain ⟨rfl, rfl⟩ := he
    right
    exact ⟨horig, by simp, hconn⟩
  · rw [if_neg he]
    exact h.sound u v huv

end FillState

/-- A complete fill is the fill of the connected component of the seed. -/
theorem FillDone.get_eq {c0 ci : Canvas} {x y : Int} {f : Char} (h : FillDone c0 x y f ci)
    {u v : Int} (hb : c0.InBounds u v = true) :
    (Connected c0 x y u v → ci.get u v = f) ∧
    (¬ Connected c0 x y u v → ci.get u v = c0.get u v) := by
  have hall : ∀ u v, Connected c0 x y u v →
      c0.InBounds u v = true ∧ c0.get u v = c0.get x y ∧ ci.get u v = f := by
    intro u v hconn
    induction hconn with
    | seed hs => exact ⟨hs, rfl, h.seed⟩
    | step hprev hadj hb' ht ih =>
      rename_i u1 v1 u2 v2
      obtain ⟨hb1, ht1, hf1⟩ := ih
      refine ⟨hb', ht, ?_⟩
      rcases h.state.sound u2 v2 hb' with h1 | ⟨_, h2, _⟩
      · exfalso
        apply h.closed u1 v1 u2 v2 hb1 ht1 hf1 hadj hb'
        rw [h1, ht]
      · exact h2
  refine ⟨fun hconn => (hall u v hconn).2.2, fun hconn => ?_⟩
  rcases h.state.sound u v hb with h1 | ⟨_, _, h3⟩
  · exact h1
  · exact absurd h3 hconn

namespace Plotter

theorem floodFillLoop_spec {c0 : Canvas} {x y : Int} {f : Char} (hf : f ≠ c0.get x y)
    (hs : c0.InBounds x y = true) :
    ∀ (fuel : Nat) (ci : Canvas) (q : List (Int × Int)), FloodInv c0 x y f ci q →
      4 * ci.data_.count (c0.get x y) + q.length ≤ fuel →
      ∃ c', FloodFillLoop fuel ci q (c0.get x y) f = some c' ∧ FillDone c0 x y f c' := by
  intro fuel
  induction fuel with
  | zero =>
    intro ci q hinv hfuel
    cases q with
    | nil =>
      refine ⟨ci, by simp [FloodFillLoop], hinv.state, ?_, ?_⟩
      · rcases hinv.seed with h | h
        · simp at h
        · exact h
      · intro u v u' v' hb ht hv hadj hb' ht'
        have := hinv.closed u v u' v' hb ht hv hadj hb' ht'
        simp at this
    | cons e rest => simp at hfuel
  | succ n ih =>
    intro ci q hinv hfuel
    cases q with
    | nil =>
      refine ⟨ci, by simp [FloodFillLoop], hinv.state, ?_, ?_⟩
      · rcases hinv.seed with h | h
        · simp at h
        · exact h
      · intro u v u' v' hb ht hv hadj hb' ht'
        have := hinv.closed u v u' v' hb ht hv hadj hb' ht'
        simp at this
    | cons e rest =>
      obtain ⟨cx, cy⟩ := e
      simp only [List.length_cons] at hfuel
      by_cases hcond : ci.InBounds cx cy = true ∧ ci.get cx cy = c0.get x y
      · -- the cell is filled and its four neighbours are queued
        obtain ⟨hcb, hct⟩ := hcond
        have hcb0 : c0.InBounds cx cy = true := by rw [← hinv.state.inBounds_eq]; exact hcb
        have horig := hinv.state.target_orig hf hcb0 hct
        have hconn := hinv.queued (cx, cy) (by simp) hcb0 horig
        have hstep : FloodFillLoop (n + 1) ci ((cx, cy) :: rest) (c0.get x y) f
            = FloodFillLoop n (ci.set cx cy f)
                (rest ++ [(cx + 1, cy), (cx - 1, cy), (cx, cy + 1), (cx, cy - 1)])
                (c0.get x y) f := by
          simp [FloodFillLoop, hcb, hct]
        rw [hstep]
        have hget : ∀ u v, c0.InBounds u v = true →
            (ci.set cx cy f).get u v = if u = cx ∧ v = cy then f else ci.get u v := by
          intro u v huv
          exact Canvas.get_set hinv.state.wf f hcb (by rw [hinv.state.inBounds_eq]; exact huv)
        apply ih
        · refine ⟨hinv.state.set_cell hcb0 horig hconn, ?_, ?_, ?_⟩
          · intro p hp hpb hpt
            rcases List.mem_append.1 hp with hp | hp
            · exact hinv.queued p (List.mem_cons_of_mem _ hp) hpb hpt
            · refine Connected.step hconn ?_ hpb hpt
              simp only [List.mem_cons, List.mem_singleton, List.not_mem_nil, or_false] at hp
              unfold Adjacent
              rcases hp with h | h | h | h <;> rw [h] <;> simp
          · rcases hinv.seed with h | h
            · rcases List.mem_cons.1 h with h | h
              · right
                rw [hget x y hs]
                have h1 : x = cx := congrArg Prod.fst h
                have h2 : y = cy := congrArg Prod.snd h
                simp [h1, h2]
              · left
                exact List.mem_append_left _ h
            · right
              rw [hget x y hs]
              split
              · rfl
              · exact h
          · intro u v u' v' hb ht hv hadj hb' ht'
            rw [hget u' v' hb'] at ht'
            have hne : ¬ (u' = cx ∧ v' = cy) := by
              intro he
              rw [if_pos he] at ht'
              exact hf ht'
            rw [if_neg hne] at ht'
            rw [hget u v hb] at hv
            by_cases he : u = cx ∧ v = cy
            · obtain ⟨rfl, rfl⟩ := he
              apply List.mem_append_right
              simp only [List.mem_cons, List.mem_singleton, List.not_mem_nil, or_false,
                Prod.mk.injEq]
              exact hadj
            · rw [if_neg he] at hv
              have := hinv.closed u v u' v' hb ht hv hadj hb' ht'
              rcases List.mem_cons.1 this with h | h
              · exact absurd ⟨congrArg Prod.fst h, congrArg Prod.snd h⟩ hne
              · exact List.mem_append_left _ h
        · have := Canvas.count_set_target hinv.state.wf hcb hct hf
          simp only [List.length_append, List.length_cons, List.length_nil]
          omega
      · -- the cell is skipped
        have hstep : FloodFillLoop (n + 1) ci ((cx, cy) :: rest) (c0.get x y) f
            = FloodFillLoop n ci rest (c0.get x y) f := by
          have : (!ci.InBounds cx cy || ci.get cx cy != c0.get x y) = true := by
            by_cases hb : ci.InBounds cx cy = true
            · have : ci.get cx cy ≠ c0.get x y := fun h => hcond ⟨hb, h⟩
              simp [hb, this]
            · simp [hb]
          simp [FloodFillLoop, this]
        rw [hstep]
        apply ih
        · refine ⟨hinv.state, ?_, ?_, ?_⟩
          · intro p hp
            exact hinv.queued p (List.mem_cons_of_mem _ hp)
          · rcases hinv.seed with h | h
            · rcases List.mem_cons.1 h with h | h
              · right
                have h1 : x = cx := congrArg Prod.fst h
                have h2 : y = cy := congrArg Prod.snd h
                subst h1; subst h2
                rcases hinv.state.sound x y hs with h1 | ⟨_, h2, _⟩
                · exfalso
                  exact hcond ⟨by rw [hinv.state.inBounds_eq]; exact hs, h1⟩
                · exact h2
              · left; exact h
            · right; exact h
          · intro u v u' v' hb ht hv hadj hb' ht'
            have := hinv.closed u v u' v' hb ht hv hadj hb' ht'
            rcases List.mem_cons.1 this with h | h
            · exfalso
              have h1 : u' = cx := congrArg Prod.fst h
              have h2 : v' = cy := congrArg Prod.snd h
              subst h1; subst h2
              exact hcond ⟨by rw [hinv.state.inBounds_eq]; exact hb', ht'⟩
            · exact h
        · omega

/-- With fuel for `4 * W * H + 1` iterations the flood fill of an in-bounds seed with a
new character returns, and the fill is complete. -/
theorem floodFill_done {c : Canvas} (hc : c.WF) {x y : Int} {f : Char}
    (hs : c.InBounds x y = true) (hf : f ≠ c.get x y) (fuel : Nat)
    (hfuel : 4 * (c.width_ * c.height_) + 1 ≤ (fuel : Int)) :
    ∃ c', FloodFill fuel c x y f = some c' ∧ FillDone c x y f c' := by
  have hrun : FloodFill fuel c x y f = FloodFillLoop fuel c [(x, y)] (c.get x y) f := by
    unfold FloodFill
    simp [hs, Ne.symm hf]
  rw [hrun]
  apply floodFillLoop_spec hf hs
  · refine ⟨FillState.init hc, ?_, Or.inl (by simp), ?_⟩
    · intro p hp _ _
      simp only [List.mem_singleton] at hp
      subst hp
      exact Connected.seed hs
    · intro u v u' v' _ ht hv _ _ _
      rw [ht] at hv
      exact absurd hv.symm hf
  · have h1 := List.count_le_length (c.get x y) c.data_
    have h2 := hc.length_eq
    simp only [List.length_singleton]
    omega

end Plotter

/-- C2: `FloodFill(x,y,fill)` recolours exactly the 4-connected component of the seed.
With enough fuel the call returns; for an in-bounds seed whose character differs from
`fill`, a cell holds `fill` afterwards if it is connected to the seed through in-bounds
cells that held the seed's character, and keeps its character otherwise; with the seed
out of bounds, or `fill` equal to the seed's character, the canvas is unchanged. -/
theorem C2_floodFill_component (c : Canvas) (hc : c.WF) (x y : Int) (fill : Char) (fuel : Nat)
    (hfuel : 4 * (c.width_ * c.height_) + 1 ≤ (fuel : Int)) :
    ∃ c', Plotter.FloodFill fuel c x y fill = some c' ∧
      c'.width_ = c.width_ ∧ c'.height_ = c.height_ ∧
      (c.InBounds x y = true → fill ≠ c.get x y → ∀ u v, c.InBounds u v = true →
        (Connected c x y u v → c'.get u v = fill) ∧
        (¬ Connected c x y u v → c'.get u v = c.get u v)) ∧
      (c.InBounds x y = false ∨ fill = c.get x y → c' = c) := by
  by_cases hs : c.InBounds x y = true
  · by_cases hf : fill = c.get x y
    · refine ⟨c, ?_, rfl, rfl, fun _ h => absurd hf h, fun _ => rfl⟩
      unfold Plotter.FloodFill
      simp [hs, hf]
    · obtain ⟨c', hrun, hdone⟩ := Plotter.floodFill_done hc hs hf fuel hfuel
      refine ⟨c', hrun, hdone.state.width_eq, hdone.state.height_eq, ?_, ?_⟩
      · intro _ _ u v hb
        exact hdone.get_eq hb
      · rintro (h | h)
        · rw [hs] at h; exact absurd h (by simp)
        · exact absurd h hf
  · refine ⟨c, ?_, rfl, rfl, fun h => absurd h hs, fun _ => rfl⟩
    unfold Plotter.FloodFill
    simp [hs]

/-- C2 at a concrete input: a 4x3 canvas split by a wall, seed in the left part. -/
theorem C2_floodFill_component_witness :
    (⟨4, 3, ' ', "..#.####..#.".toList⟩ : Canvas).WF ∧
    4 * ((⟨4, 3, ' ', "..#.####..#.".toList⟩ : Canvas).width_ *
      (⟨4, 3, ' ', "..#.####..#.".toList⟩ : Canvas).height_) + 1 ≤ ((49 : Nat) : Int) ∧
    ∃ c', Plotter.FloodFill 49 ⟨4, 3, ' ', "..#.####..#.".toList⟩ 0 0 'F' = some c' ∧
      c'.width_ = (⟨4, 3, ' ', "..#.####..#.".toList⟩ : Canvas).width_ ∧
      c'.height_ = (⟨4, 3, ' ', "..#.####..#.".toList⟩ : Canvas).height_ ∧
      ((⟨4, 3, ' ', "..#.####..#.".toList⟩ : Canvas).InBounds 0 0 = true →
        'F' ≠ (⟨4, 3, ' ', "..#.####..#.".toList⟩ : Canvas).get 0 0 →
        ∀ u v, (⟨4, 3, ' ', "..#.####..#.".toList⟩ : Canvas).InBounds u v = true →
          (Connected ⟨4, 3, ' ', "..#.####..#.".toList⟩ 0 0 u v → c'.get u v = 'F') ∧
          (¬ Connected ⟨4, 3, ' ', "..#.####..#.".toList⟩ 0 0 u v →
            c'.get u v = (⟨4, 3, ' ', "..#.####..#.".toList⟩ : Canvas).get u v)) ∧
      ((⟨4, 3, ' ', "..#.####..#.".toList⟩ : Canvas).InBounds 0 0 = false ∨
        'F' = (⟨4, 3, ' ', "..#.####..#.".toList⟩ : Canvas).get 0 0 →
        c' = ⟨4, 3, ' ', "..#.####..#.".toList⟩) :=
  ⟨⟨by decide, by decide, by decide, by decide⟩, by decide,
    C2_floodFill_component ⟨4, 3, ' ', "..#.####..#.".toList⟩
      ⟨by decide, by decide, by decide, by decide⟩ 0 0 'F' 49 (by decide)⟩

end plotter

/-! ## Scanline fill: the scanning loops -/

namespace plotter
namespace Plotter

theorem seedLeftLoop_spec (c : Canvas) (y : Int) (t : Char) :
    ∀ (fuel : Nat) (x : Int), -1 ≤ x → x + 2 ≤ (fuel : Int) →
      ∃ r, seedLeftLoop fuel c y t x = some r ∧ -1 ≤ r ∧ r ≤ x ∧
        (∀ u, r < u → u ≤ x → c.get u y = t) ∧ (0 ≤ r → c.get r y ≠ t) := by
  intro fuel
  induction fuel with
  | zero => intro x h1 h2; omega
  | succ n ih =>
    intro x h1 h2
    unfold seedLeftLoop
    by_cases hcond : x ≥ 0 ∧ c.get x y = t
    · rw [if_pos hcond]
      obtain ⟨r, hr, hr1, hr2, hr3, hr4⟩ := ih (x - 1) (by omega) (by omega)
      refine ⟨r, hr, hr1, by omega, ?_, hr4⟩
      intro u hu1 hu2
      by_cases hux : u = x
      · rw [hux]; exact hcond.2
      · exact hr3 u hu1 (by omega)
    · rw [if_neg hcond]
      refine ⟨x, rfl, h1, le_refl _, ?_, ?_⟩
      · intro u hu1 hu2; omega
      · intro h0 ht; exact hcond ⟨h0, ht⟩

theorem seedRightLoop_spec (c : Canvas) (y : Int) (t : Char) :
    ∀ (fuel : Nat) (x : Int), x ≤ c.width_ → c.width_ - x + 1 ≤ (fuel : Int) →
      ∃ r, seedRightLoop fuel c y t x = some r ∧ x ≤ r ∧ r ≤ c.width_ ∧
        (∀ u, x ≤ u → u < r → c.get u y = t) ∧ (r < c.width_ → c.get r y ≠ t) := by
  intro fuel
  induction fuel with
  | zero => intro x h1 h2; omega
  | succ n ih =>
    intro x h1 h2
    unfold seedRightLoop
    by_cases hcond : x < c.Width ∧ c.get x y = t
    · rw [if_pos hcond]
      have hw : x < c.width_ := hcond.1
      obtain ⟨r, hr, hr1, hr2, hr3, hr4⟩ := ih (x + 1) (by omega) (by omega)
      refine ⟨r, hr, by omega, hr2, ?_, hr4⟩
      intro u hu1 hu2
      by_cases hux : u = x
      · rw [hux]; exact hcond.2
      · exact hr3 u (by omega) hu2
    · rw [if_neg hcond]
      refine ⟨x, rfl, le_refl _, h1, ?_, ?_⟩
      · intro u hu1 hu2; omega
      · intro h0 ht; exact hcond ⟨h0, ht⟩

theorem extendLeftLoop_spec (c : Canvas) (y : Int) (t : Char) :
    ∀ (fuel : Nat) (x : Int), 0 ≤ x → x + 1 ≤ (fuel : Int) →
      ∃ r, extendLeftLoop fuel c y t x = some r ∧ 0 ≤ r ∧ r ≤ x ∧
        (∀ u, r ≤ u → u < x → c.get u y = t) ∧ (0 < r → c.get (r - 1) y ≠ t) := by
  intro fuel
  induction fuel with
  | zero => intro x h1 h2; omega
  | succ n ih =>
    intro x h1 h2
    unfold extendLeftLoop
    by_cases hcond : x > 0 ∧ c.get (x - 1) y = t
    · rw [if_pos hcond]
      obtain ⟨r, hr, hr1, hr2, hr3, hr4⟩ := ih (x - 1) (by omega) (by omega)
      refine ⟨r, hr, hr1, by omega, ?_, hr4⟩
      intro u hu1 hu2
      by_cases hux : u = x - 1
      · rw [hux]; exact hcond.2
      · exact hr3 u hu1 (by omega)
    · rw [if_neg hcond]
      refine ⟨x, rfl, h1, le_refl _, ?_, ?_⟩
      · intro u hu1 hu2; omega
      · intro h0 ht; exact hcond ⟨h0, ht⟩

theorem extendRightLoop_spec (c : Canvas) (y : Int) (t : Char) :
    ∀ (fuel : Nat) (x : Int), x ≤ c.width_ - 1 → c.width_ - x ≤ (fuel : Int) →
      ∃ r, extendRightLoop fuel c y t x = some r ∧ x ≤ r ∧ r ≤ c.width_ - 1 ∧
        (∀ u, x < u → u ≤ r → c.get u y = t) ∧ (r < c.width_ - 1 → c.get (r + 1) y ≠ t) := by
  intro fuel
  induction fuel with
  | zero => intro x h1 h2; omega
  | succ n ih =>
    intro x h1 h2
    unfold extendRightLoop
    by_cases hcond : x < c.Width - 1 ∧ c.get (x + 1) y = t
    · rw [if_pos hcond]
      have hw : x < c.width_ - 1 := hcond.1
      obtain ⟨r, hr, hr1, hr2, hr3, hr4⟩ := ih (x + 1) (by omega) (by omega)
      refine ⟨r, hr, by omega, hr2, ?_, hr4⟩
      intro u hu1 hu2
      by_cases hux : u = x + 1
      · rw [hux]; exact hcond.2
      · exact hr3 u (by omega) hu2
    · rw [if_neg hcond]
      refine ⟨x, rfl, le_refl _, h1, ?_, ?_⟩
      · intro u hu1 hu2; omega
      · intro h0 ht; exact hcond ⟨h0, ht⟩

theorem runEndLoop_spec (c : Canvas) (row : Int) (t : Char) (hi : Int) :
    ∀ (fuel : Nat) (x : Int), x ≤ hi + 1 → hi - x + 2 ≤ (fuel : Int) →
      ∃ r, runEndLoop fuel c row t hi x = some r ∧ x ≤ r ∧ r ≤ hi + 1 ∧
        (∀ u, x ≤ u → u < r → c.get u row = t) ∧ (r ≤ hi → c.get r row ≠ t) := by
  intro fuel
  induction fuel with
  | zero => intro x h1 h2; omega
  | succ n ih =>
    intro x h1 h2
    unfold runEndLoop
    by_cases hcond : x ≤ hi ∧ c.get x row = t
    · rw [if_pos hcond]
      obtain ⟨r, hr, hr1, hr2, hr3, hr4⟩ := ih (x + 1) (by omega) (by omega)
      refine ⟨r, hr, by omega, hr2, ?_, hr4⟩
      intro u hu1 hu2
      by_cases hux : u = x
      · rw [hux]; exact hcond.2
      · exact hr3 u (by omega) hu2
    · rw [if_neg hcond]
      refine ⟨x, rfl, le_refl _, h1, ?_, ?_⟩
      · intro u hu1 hu2; omega
      · intro h0 ht; exact hcond ⟨h0, ht⟩

/-- The scan of a neighbouring row pushes runs of the target colour inside `[x, hi]` that
together cover every cell of `[x, hi]` holding the target colour, at most one run per cell. -/
theorem scanRowLoop_spec (budget : Nat) (c : Canvas) (row : Int) (t : Char) (hi : Int) :
    ∀ (fuel : Nat) (x : Int) (segs : List ScanlineSegment), x ≤ hi + 1 →
      hi - x + 2 ≤ (budget : Int) → hi - x + 2 ≤ (fuel : Int) →
      ∃ new, scanRowLoop budget fuel c row t hi x segs = some (new ++ segs) ∧
        (∀ s ∈ new, s.y = row ∧ x ≤ s.x_start ∧ s.x_start ≤ s.x_end ∧ s.x_end ≤ hi ∧
          ∀ u, s.x_start ≤ u → u ≤ s.x_end → c.get u row = t) ∧
        (∀ u, x ≤ u → u ≤ hi → c.get u row = t →
          ∃ s ∈ new, s.y = row ∧ s.x_start ≤ u ∧ u ≤ s.x_end) ∧
        (new.length : Int) ≤ hi - x + 1 := by
  intro fuel
  induction fuel with
  | zero => intro x segs h0 h1 h2; omega
  | succ n ih =>
    intro x segs h0 h1 h2
    unfold scanRowLoop
    by_cases hx : x ≤ hi
    · rw [if_pos hx]
      by_cases ht : c.get x row = t
      · rw [if_pos ht]
        obtain ⟨r, hr, hr1, hr2, hr3, hr4⟩ := runEndLoop_spec c row t hi budget x h0 h1
        have hrx : x + 1 ≤ r := by
          by_contra hc
          have hrx' : r = x := by omega
          rw [hrx'] at hr4
          exact hr4 hx ht
        obtain ⟨new, hnew, hn1, hn2, hn3⟩ :=
          ih r (⟨row, x, r - 1⟩ :: segs) hr2 (by omega) (by omega)
        refine ⟨new ++ [⟨row, x, r - 1⟩], ?_, ?_, ?_, ?_⟩
        · simp only [hr]
          rw [hnew]
          simp
        · intro s hs
          rcases List.mem_append.1 hs with hs | hs
          · obtain ⟨a1, a2, a3, a4, a5⟩ := hn1 s hs
            exact ⟨a1, by omega, a3, a4, a5⟩
          · simp only [List.mem_singleton] at hs
            subst hs
            refine ⟨rfl, le_refl _, by simp only; omega, by simp only; omega, ?_⟩
            intro u hu1 hu2
            simp only at hu1 hu2
            exact hr3 u hu1 (by omega)
        · intro u hu1 hu2 hut
          by_cases hur : u < r
          · exact ⟨⟨row, x, r - 1⟩, by simp, rfl, hu1, by simp only; omega⟩
          · obtain ⟨s, hs, hs'⟩ := hn2 u (by omega) hu2 hut
            exact ⟨s, List.mem_append_left _ hs, hs'⟩
        · simp only [List.length_append, List.length_singleton]
          push_cast
          omega
      · rw [if_neg ht]
        obtain ⟨new, hnew, hn1, hn2, hn3⟩ := ih (x + 1) segs (by omega) (by omega) (by omega)
        refine ⟨new, hnew, ?_, ?_, by omega⟩
        · intro s hs
          obtain ⟨a1, a2, a3, a4, a5⟩ := hn1 s hs
          exact ⟨a1, by omega, a3, a4, a5⟩
        · intro u hu1 hu2 hut
          have : u ≠ x := by rintro rfl; exact ht hut
          exact hn2 u (by omega) hu2 hut
    · rw [if_neg hx]
      refine ⟨[], rfl, ?_, ?_, ?_⟩
      · intro s hs; simp at hs
      · intro u hu1 hu2; omega
      · simp; omega

end Plotter

theorem nodup_intRange (lo hi : Int) : (intRange lo hi).Nodup := by
  unfold intRange
  apply List.Nodup.map
  · intro a b h
    simp only at h
    omega
  · exact List.nodup_range _

theorem length_intRange (lo hi : Int) : (intRange lo hi).length = (hi + 1 - lo).toNat := by
  simp [intRange]

namespace Plotter

/-- Writing `f` at the in-bounds cells `(i, y)`, `i ∈ l`, one after the other. -/
theorem foldl_set_row (y : Int) (f : Char) :
    ∀ (l : List Int) (c : Canvas), c.WF → (∀ i ∈ l, c.InBounds i y = true) →
      (l.foldl (fun c i => c.set i y f) c).WF ∧
      (l.foldl (fun c i => c.set i y f) c).width_ = c.width_ ∧
      (l.foldl (fun c i => c.set i y f) c).height_ = c.height_ ∧
      (l.foldl (fun c i => c.set i y f) c).background_ = c.background_ ∧
      ∀ u v, c.InBounds u v = true →
        (l.foldl (fun c i => c.set i y f) c).get u v
          = if v = y ∧ u ∈ l then f else c.get u v := by
  intro l
  induction l with
  | nil => intro c hc _; simp [hc]
  | cons a l ih =>
    intro c hc hl
    have ha : c.InBounds a y = true := hl a (by simp)
    obtain ⟨h1, h2, h3, h4, h5⟩ := ih (c.set a y f) (Canvas.set_wf hc a y f)
      (fun i hi => by simpa using hl i (List.mem_cons_of_mem _ hi))
    rw [List.foldl_cons]
    refine ⟨h1, by simpa using h2, by simpa using h3, by simpa using h4, ?_⟩
    intro u v huv
    rw [h5 u v (by simpa using huv), Canvas.get_set hc f ha huv]
    by_cases hv : v = y
    · by_cases hu : u ∈ l
      · simp [hv, hu]
      · by_cases hua : u = a
        · simp [hv, hua]
        · simp [hv, hu, hua]
    · simp [hv]

/-- Overwriting `l.length` distinct cells that hold `t` removes that many `t` from the buffer. -/
theorem foldl_set_row_count (y : Int) {t f : Char} (hf : f ≠ t) :
    ∀ (l : List Int) (c : Canvas), c.WF → l.Nodup → (∀ i ∈ l, c.InBounds i y = true) →
      (∀ i ∈ l, c.get i y = t) →
      (l.foldl (fun c i => c.set i y f) c).data_.count t + l.length = c.data_.count t := by
  intro l
  induction l with
  | nil => intro c _ _ _ _; simp
  | cons a l ih =>
    intro c hc hnd hl ht
    have ha : c.InBounds a y = true := hl a (by simp)
    have hnd' := List.nodup_cons.1 hnd
    rw [List.foldl_cons]
    have := ih (c.set a y f) (Canvas.set_wf hc a y f) hnd'.2
      (fun i hi => by simpa using hl i (List.mem_cons_of_mem _ hi))
      (fun i hi => by
        rw [Canvas.get_set hc f ha (hl i (List.mem_cons_of_mem _ hi))]
        have hia : i ≠ a := by rintro rfl; exact hnd'.1 hi
        simp [hia, ht i (List.mem_cons_of_mem _ hi)])
    have hcnt := Canvas.count_set_target hc ha (ht a (by simp)) hf
    simp only [List.length_cons]
    omega

/-- The fill of the span `[lo, hi]` of row `y`, all of it inside the canvas. -/
theorem fillSpan_spec {c : Canvas} (hc : c.WF) (y lo hi : Int) (f : Char)
    (hy0 : 0 ≤ y) (hy1 : y < c.height_) (hlo : 0 ≤ lo) (hhi : hi < c.width_) :
    (fillSpan c y lo hi f).WF ∧ (fillSpan c y lo hi f).width_ = c.width_ ∧
    (fillSpan c y lo hi f).height_ = c.height_ ∧
    (fillSpan c y lo hi f).background_ = c.background_ ∧
    ∀ u v, c.InBounds u v = true →
      (fillSpan c y lo hi f).get u v = if v = y ∧ lo ≤ u ∧ u ≤ hi then f else c.get u v := by
  have hin : ∀ i ∈ intRange lo hi, c.InBounds i y = true := by
    intro i hi'
    rw [mem_intRange] at hi'
    rw [Canvas.inBounds_iff]
    omega
  obtain ⟨h1, h2, h3, h4, h5⟩ := foldl_set_row y f (intRange lo hi) c hc hin
  refine ⟨h1, h2, h3, h4, ?_⟩
  intro u v huv
  unfold fillSpan
  rw [h5 u v huv]
  simp only [mem_intRange]

theorem fillSpan_count {c : Canvas} (hc : c.WF) (y lo hi : Int) {t f : Char} (hf : f ≠ t)
    (hy0 : 0 ≤ y) (hy1 : y < c.height_) (hlo : 0 ≤ lo) (hhi : hi < c.width_)
    (ht : ∀ u, lo ≤ u → u ≤ hi → c.get u y = t) :
    ((fillSpan c y lo hi f).data_.count t : Int) + max 0 (hi + 1 - lo) = c.data_.count t := by
  have hin : ∀ i ∈ intRange lo hi, c.InBounds i y = true := by
    intro i hi'
    rw [mem_intRange] at hi'
    rw [Canvas.inBounds_iff]
    omega
  have := foldl_set_row_count y hf (intRange lo hi) c hc (nodup_intRange lo hi) hin
    (fun i hi' => by
      rw [mem_intRange] at hi'
      exact ht i hi'.1 hi'.2)
  rw [length_intRange] at this
  unfold fillSpan
  omega

end Plotter
end plotter

/-! ## Scanline fill: the invariant -/

namespace plotter

/-- A horizontal run of cells that hold the seed's character is connected to the seed as
soon as one of its cells is. -/
theorem connected_run {c0 : Canvas} {x y a b lo hi : Int} (ha : Connected c0 x y a b)
    (hlo : lo ≤ a) (hhi : a ≤ hi)
    (hrun : ∀ u, lo ≤ u → u ≤ hi → c0.InBounds u b = true ∧ c0.get u b = c0.get x y) :
    ∀ u, lo ≤ u → u ≤ hi → Connected c0 x y u b := by
  have key : ∀ (n : Nat) (u : Int), lo ≤ u → u ≤ hi → (u - a).natAbs = n →
      Connected c0 x y u b := by
    intro n
    induction n with
    | zero =>
      intro u _ _ hn
      have : u = a := by omega
      rw [this]; exact ha
    | succ n ih =>
      intro u h1 h2 hn
      by_cases hua : a < u
      · have hprev := ih (u - 1) (by omega) (by omega) (by omega)
        have := hrun u h1 h2
        refine Connected.step hprev ?_ this.1 this.2
        left
        exact ⟨by omega, rfl⟩
      · have hprev := ih (u + 1) (by omega) (by omega) (by omega)
        have := hrun u h1 h2
        refine Connected.step hprev ?_ this.1 this.2
        right; left
        exact ⟨by omega, rfl⟩
  intro u h1 h2
  exact key _ u h1 h2 rfl

/-- Filling a run of connected cells that held the seed's character. -/
theorem FillState.fill_run {c0 ci : Canvas} {x y : Int} {f : Char} (h : FillState c0 x y f ci)
    {row lo hi : Int} (hy0 : 0 ≤ row) (hy1 : row < c0.height_) (hlo : 0 ≤ lo)
    (hhi : hi < c0.width_)
    (hrun : ∀ u, lo ≤ u → u ≤ hi → c0.get u row = c0.get x y ∧ Connected c0 x y u row) :
    FillState c0 x y f (Plotter.fillSpan ci row lo hi f) := by
  obtain ⟨h1, h2, h3, h4, h5⟩ := Plotter.fillSpan_spec h.wf row lo hi f
    hy0 (by rw [h.height_eq]; exact hy1) hlo (by rw [h.width_eq]; exact hhi)
  refine ⟨h1, by rw [h2, h.width_eq], by rw [h3, h.height_eq], by rw [h4, h.background_eq], ?_⟩
  intro u v huv
  rw [h5 u v (by rw [h.inBounds_eq]; exact huv)]
  by_cases hin : v = row ∧ lo ≤ u ∧ u ≤ hi
  · rw [if_pos hin]
    obtain ⟨rfl, hl, hh⟩ := hin
    right
    exact ⟨(hrun u hl hh).1, rfl, (hrun u hl hh).2⟩
  · rw [if_neg hin]
    exact h.sound u v huv

/-- Only an in-bounds seed has connected cells. -/
theorem Connected.seed_inBounds {c0 : Canvas} {x y u v : Int} (h : Connected c0 x y u v) :
    c0.InBounds x y = true := by
  induction h with
  | seed hs => exact hs
  | step _ _ _ _ ih => exact ih

/-- Skipping a cell of the segment on top that does not hold the seed's character. -/
theorem ScanInv.skip {c0 ci : Canvas} {x y : Int} {f : Char} {cy cx xe : Int}
    {segs : List ScanlineSegment} (hinv : ScanInv c0 x y f ci (⟨cy, cx, xe⟩ :: segs))
    (ht : ci.get cx cy ≠ c0.get x y) : ScanInv c0 x y f ci (⟨cy, cx + 1, xe⟩ :: segs) := by
  have hv := hinv.valid ⟨cy, cx, xe⟩ (by simp)
  simp only at hv
  refine ⟨hinv.state, hinv.seed_inBounds, ?_, ?_, ?_, ?_⟩
  · rcases hinv.seed with h | ⟨s, hs, hs1, hs2, hs3⟩
    · exact Or.inl h
    · rcases List.mem_cons.1 hs with rfl | hs
      · simp only at hs1 hs2 hs3
        by_cases hxc : x = cx
        · left
          have e : ci.get x y = ci.get cx cy := by rw [hxc, ← hs1]
          rw [e]
          exact ht
        · right
          exact ⟨⟨cy, cx + 1, xe⟩, by simp, hs1, by simp only; omega, hs3⟩
      · exact Or.inr ⟨s, List.mem_cons_of_mem _ hs, hs1, hs2, hs3⟩
  · intro s hs
    rcases List.mem_cons.1 hs with rfl | hs
    · simp only; omega
    · exact hinv.valid s (List.mem_cons_of_mem _ hs)
  · intro s hs u hu1 hu2 hut
    rcases List.mem_cons.1 hs with rfl | hs
    · simp only at hu1 hu2 hut ⊢
      exact hinv.pending ⟨cy, cx, xe⟩ (by simp) u (by simp only; omega) hu2 hut
    · exact hinv.pending s (List.mem_cons_of_mem _ hs) u hu1 hu2 hut
  · intro u v u' v' hb h1 h2 hadj hb' ht'
    obtain ⟨s, hs, hs1, hs2, hs3⟩ := hinv.closed u v u' v' hb h1 h2 hadj hb' ht'
    rcases List.mem_cons.1 hs with rfl | hs
    · simp only at hs1 hs2 hs3
      have hne : u' ≠ cx := by
        rintro rfl
        rw [← hs1] at ht'
        exact ht ht'
      exact ⟨⟨cy, cx + 1, xe⟩, by simp, hs1, by simp only; omega, hs3⟩
    · exact ⟨s, List.mem_cons_of_mem _ hs, hs1, hs2, hs3⟩

/-- Dropping the segment on top once it is exhausted. -/
theorem ScanInv.drop {c0 ci : Canvas} {x y : Int} {f : Char} {cy cx xe : Int}
    {segs : List ScanlineSegment} (hinv : ScanInv c0 x y f ci (⟨cy, cx, xe⟩ :: segs))
    (hx : xe < cx) : ScanInv c0 x y f ci segs := by
  refine ⟨hinv.state, hinv.seed_inBounds, ?_, ?_, ?_, ?_⟩
  · rcases hinv.seed with h | ⟨s, hs, hs1, hs2, hs3⟩
    · exact Or.inl h
    · rcases List.mem_cons.1 hs with rfl | hs
      · simp only at hs2 hs3
        omega
      · exact Or.inr ⟨s, hs, hs1, hs2, hs3⟩
  · intro s hs
    exact hinv.valid s (List.mem_cons_of_mem _ hs)
  · intro s hs
    exact hinv.pending s (List.mem_cons_of_mem _ hs)
  · intro u v u' v' hb h1 h2 hadj hb' ht'
    obtain ⟨s, hs, hs1, hs2, hs3⟩ := hinv.closed u v u' v' hb h1 h2 hadj hb' ht'
    rcases List.mem_cons.1 hs with rfl | hs
    · simp only at hs2 hs3
      omega
    · exact ⟨s, hs, hs1, hs2, hs3⟩

/-- Filling the maximal run `[nxs, nxe]` around a cell of the segment on top and pushing
the runs `newA` of the row above and `newB` of the row below. -/
theorem ScanInv.fill_step {c0 ci : Canvas} {x y : Int} {f : Char} {cy cx xe nxs nxe : Int}
    {segs : List ScanlineSegment}
    (hinv : ScanInv c0 x y f ci (⟨cy, cx, xe⟩ :: segs)) (newA newB : List ScanlineSegment)
    (hf : f ≠ c0.get x y)
    (hcx : cx ≤ xe) (h0 : 0 ≤ nxs) (h1 : nxs ≤ cx) (h2 : cx ≤ nxe) (h3 : nxe ≤ c0.width_ - 1)
    (hrun : ∀ u, nxs ≤ u → u ≤ nxe → ci.get u cy = c0.get x y)
    (hleft : 0 < nxs → ci.get (nxs - 1) cy ≠ c0.get x y)
    (hright : nxe < c0.width_ - 1 → ci.get (nxe + 1) cy ≠ c0.get x y)
    (hA1 : ∀ s ∈ newA, 0 < cy ∧ s.y = cy - 1 ∧ nxs ≤ s.x_start ∧ s.x_end ≤ nxe)
    (hA2 : 0 < cy → ∀ u, nxs ≤ u → u ≤ nxe →
      (Plotter.fillSpan ci cy nxs nxe f).get u (cy - 1) = c0.get x y →
      ∃ s ∈ newA, s.y = cy - 1 ∧ s.x_start ≤ u ∧ u ≤ s.x_end)
    (hB1 : ∀ s ∈ newB, cy < c0.height_ - 1 ∧ s.y = cy + 1 ∧ nxs ≤ s.x_start ∧ s.x_end ≤ nxe)
    (hB2 : cy < c0.height_ - 1 → ∀ u, nxs ≤ u → u ≤ nxe →
      (Plotter.fillSpan ci cy nxs nxe f).get u (cy + 1) = c0.get x y →
      ∃ s ∈ newB, s.y = cy + 1 ∧ s.x_start ≤ u ∧ u ≤ s.x_end) :
    ScanInv c0 x y f (Plotter.fillSpan ci cy nxs nxe f)
      (⟨cy, nxe + 1, xe⟩ :: (newB ++ (newA ++ segs))) := by
  have hv := hinv.valid ⟨cy, cx, xe⟩ (by simp)
  simp only at hv
  obtain ⟨hv1, hv2, hv3, hv4⟩ := hv
  have hst := hinv.state
  -- the cells of the run are in bounds, held the seed's character and are connected
  have hinb : ∀ u, nxs ≤ u → u ≤ nxe → c0.InBounds u cy = true := by
    intro u hu1 hu2
    rw [Canvas.inBounds_iff]; omega
  have hconn : ∀ u, nxs ≤ u → u ≤ nxe → Connected c0 x y u cy := by
    apply connected_run (a := cx)
    · exact hinv.pending ⟨cy, cx, xe⟩ (by simp) cx (le_refl _) hcx (hrun cx h1 h2)
    · exact h1
    · exact h2
    · intro u hu1 hu2
      exact ⟨hinb u hu1 hu2, hst.target_orig hf (hinb u hu1 hu2) (hrun u hu1 hu2)⟩
  have hst' : FillState c0 x y f (Plotter.fillSpan ci cy nxs nxe f) :=
    hst.fill_run hv1 hv2 h0 (by omega)
      (fun u hu1 hu2 => ⟨hst.target_orig hf (hinb u hu1 hu2) (hrun u hu1 hu2), hconn u hu1 hu2⟩)
  obtain ⟨-, -, -, -, hget⟩ := Plotter.fillSpan_spec hst.wf cy nxs nxe f
    hv1 (by rw [hst.height_eq]; exact hv2) h0 (by rw [hst.width_eq]; omega)
  have hget' : ∀ u v, c0.InBounds u v = true →
      (Plotter.fillSpan ci cy nxs nxe f).get u v
        = if v = cy ∧ nxs ≤ u ∧ u ≤ nxe then f else ci.get u v :=
    fun u v huv => hget u v (by rw [hst.inBounds_eq]; exact huv)
  -- a cell that holds the seed's character after the fill held it before, outside the run
  have hkeep : ∀ u v, c0.InBounds u v = true →
      (Plotter.fillSpan ci cy nxs nxe f).get u v = c0.get x y →
      ci.get u v = c0.get x y ∧ ¬ (v = cy ∧ nxs ≤ u ∧ u ≤ nxe) := by
    intro u v huv ht
    rw [hget' u v huv] at ht
    by_cases hin : v = cy ∧ nxs ≤ u ∧ u ≤ nxe
    · rw [if_pos hin] at ht
      exact absurd ht hf
    · rw [if_neg hin] at ht
      exact ⟨ht, hin⟩
  refine ⟨hst', hinv.seed_inBounds, ?_, ?_, ?_, ?_⟩
  · -- the seed is filled or still pending
    have hseed : (Plotter.fillSpan ci cy nxs nxe f).get x y
        = if y = cy ∧ nxs ≤ x ∧ x ≤ nxe then f else ci.get x y := hget' x y hinv.seed_inBounds
    by_cases hin : y = cy ∧ nxs ≤ x ∧ x ≤ nxe
    · left
      rw [hseed, if_pos hin]
      exact hf
    · rcases hinv.seed with h | ⟨s, hs, hs1, hs2, hs3⟩
      · left
        rw [hseed, if_neg hin]
        exact h
      · right
        rcases List.mem_cons.1 hs with rfl | hs
        · simp only at hs1 hs2 hs3
          refine ⟨⟨cy, nxe + 1, xe⟩, by simp, hs1, ?_, hs3⟩
          simp only
          by_contra hc
          exact hin ⟨hs1.symm, by omega, by omega⟩
        · exact ⟨s, List.mem_cons_of_mem _
            (List.mem_append_right _ (List.mem_append_right _ hs)), hs1, hs2, hs3⟩
  · -- the segments lie inside the canvas
    intro s hs
    rcases List.mem_cons.1 hs with rfl | hs
    · simp only; omega
    · rcases List.mem_append.1 hs with hs | hs
      · obtain ⟨a1, a2, a3, a4⟩ := hB1 s hs
        omega
      · rcases List.mem_append.1 hs with hs | hs
        · obtain ⟨a1, a2, a3, a4⟩ := hA1 s hs
          omega
        · exact hinv.valid s (List.mem_cons_of_mem _ hs)
  · -- pending cells that hold the seed's character are connected
    intro s hs u hu1 hu2 hut
    rcases List.mem_cons.1 hs with rfl | hs
    · simp only at hu1 hu2 hut ⊢
      have hb : c0.InBounds u cy = true := by rw [Canvas.inBounds_iff]; omega
      exact hinv.pending ⟨cy, cx, xe⟩ (by simp) u (by simp only; omega) hu2 (hkeep u cy hb hut).1
    · rcases List.mem_append.1 hs with hs | hs
      · obtain ⟨a1, a2, a3, a4⟩ := hB1 s hs
        rw [a2] at hut ⊢
        have hb : c0.InBounds u (cy + 1) = true := by rw [Canvas.inBounds_iff]; omega
        refine Connected.step (hconn u (by omega) (by omega)) ?_ hb
          (hst'.target_orig hf hb hut)
        right; right; left
        exact ⟨rfl, rfl⟩
      · rcases List.mem_append.1 hs with hs | hs
        · obtain ⟨a1, a2, a3, a4⟩ := hA1 s hs
          rw [a2] at hut ⊢
          have hb : c0.InBounds u (cy - 1) = true := by rw [Canvas.inBounds_iff]; omega
          refine Connected.step (hconn u (by omega) (by omega)) ?_ hb
            (hst'.target_orig hf hb hut)
          right; right; right
          exact ⟨rfl, rfl⟩
        · have hv' := hinv.valid s (List.mem_cons_of_mem _ hs)
          have hb : c0.InBounds u s.y = true := by rw [Canvas.inBounds_iff]; omega
          exact hinv.pending s (List.mem_cons_of_mem _ hs) u hu1 hu2 (hkeep u s.y hb hut).1
  · -- neighbours of filled cells that hold the seed's character are pending
    intro u v u' v' hb ht hv hadj hb' ht'
    obtain ⟨hci', hout'⟩ := hkeep u' v' hb' ht'
    have hb'' := (Canvas.inBounds_iff c0 u' v').1 hb'
    by_cases hin : v = cy ∧ nxs ≤ u ∧ u ≤ nxe
    · obtain ⟨rfl, hu1, hu2⟩ := hin
      rcases hadj with ⟨e1, e2⟩ | ⟨e1, e2⟩ | ⟨e1, e2⟩ | ⟨e1, e2⟩
      · -- right neighbour
        exfalso
        subst e1; subst e2
        by_cases hlast : u = nxe
        · subst hlast
          exact hright (by omega) hci'
        · exact hout' ⟨rfl, by omega, by omega⟩
      · -- left neighbour
        exfalso
        subst e1; subst e2
        by_cases hfirst : u = nxs
        · subst hfirst
          exact hleft (by omega) hci'
        · exact hout' ⟨rfl, by omega, by omega⟩
      · -- the row below
        subst e1; subst e2
        obtain ⟨s, hs, hs'⟩ := hB2 (by omega) u' hu1 hu2 ht'
        exact ⟨s, List.mem_cons_of_mem _ (List.mem_append_left _ hs), hs'⟩
      · -- the row above
        subst e1; subst e2
        obtain ⟨s, hs, hs'⟩ := hA2 (by omega) u' hu1 hu2 ht'
        exact ⟨s, List.mem_cons_of_mem _
          (List.mem_append_right _ (List.mem_append_left _ hs)), hs'⟩
    · rw [hget' u v hb, if_neg hin] at hv
      obtain ⟨s, hs, hs1, hs2, hs3⟩ := hinv.closed u v u' v' hb ht hv hadj hb' hci'
      rcases List.mem_cons.1 hs with rfl | hs
      · simp only at hs1 hs2 hs3
        refine ⟨⟨cy, nxe + 1, xe⟩, by simp, hs1, ?_, hs3⟩
        simp only
        by_contra hc
        exact hout' ⟨hs1.symm, by omega, by omega⟩
      · exact ⟨s, List.mem_cons_of_mem _
          (List.mem_append_right _ (List.mem_append_right _ hs)), hs1, hs2, hs3⟩

end plotter

/-! ## Scanline fill: the main loops -/

namespace plotter
namespace Plotter

/-- One popped segment: the loop over it returns, keeps the invariant and does not
increase twice the number of cells holding the seed's character plus the stack height. -/
theorem segmentLoop_spec {c0 : Canvas} {x y : Int} {f : Char} (hf : f ≠ c0.get x y)
    (budget : Nat) (hbud : c0.width_ + 2 ≤ (budget : Int)) :
    ∀ (fuel : Nat) (ci : Canvas) (cy xe cx : Int) (segs : List ScanlineSegment),
      ScanInv c0 x y f ci (⟨cy, cx, xe⟩ :: segs) → 1 ≤ fuel → xe - cx + 2 ≤ (fuel : Int) →
      ∃ c' segs', segmentLoop budget fuel ci (c0.get x y) f cy xe cx segs = some (c', segs') ∧
        ScanInv c0 x y f c' segs' ∧
        2 * c'.data_.count (c0.get x y) + segs'.length
          ≤ 2 * ci.data_.count (c0.get x y) + segs.length := by
  intro fuel
  induction fuel with
  | zero => intro ci cy xe cx segs _ h1 _; omega
  | succ n ih =>
    intro ci cy xe cx segs hinv _ hfuel
    have hv := hinv.valid ⟨cy, cx, xe⟩ (by simp)
    simp only at hv
    obtain ⟨hv1, hv2, hv3, hv4⟩ := hv
    have hw := hinv.state.width_eq
    have hh := hinv.state.height_eq
    by_cases hcx : cx ≤ xe
    · by_cases ht : ci.get cx cy = c0.get x y
      · -- a run starts here
        obtain ⟨nxs, eL, l1, l2, l3, l4⟩ :=
          extendLeftLoop_spec ci cy (c0.get x y) budget cx hv3 (by omega)
        obtain ⟨nxe, eR, r1, r2, r3, r4⟩ :=
          extendRightLoop_spec ci cy (c0.get x y) budget cx (by omega) (by omega)
        have hrun : ∀ u, nxs ≤ u → u ≤ nxe → ci.get u cy = c0.get x y := by
          intro u hu1 hu2
          rcases lt_trichotomy u cx with h | h | h
          · exact l3 u hu1 h
          · rw [h]; exact ht
          · exact r3 u h hu2
        obtain ⟨w1, w2, w3, w4, -⟩ := fillSpan_spec hinv.state.wf cy nxs nxe f
          hv1 (by omega) l1 (by omega)
        have hcount := fillSpan_count hinv.state.wf cy nxs nxe hf
          hv1 (by omega) l1 (by omega) hrun
        -- the row above
        have hA : ∃ newA, (if cy > 0 then
              scanRowLoop budget budget (fillSpan ci cy nxs nxe f) (cy - 1) (c0.get x y) nxe nxs segs
            else some segs) = some (newA ++ segs) ∧
            (∀ s ∈ newA, 0 < cy ∧ s.y = cy - 1 ∧ nxs ≤ s.x_start ∧ s.x_end ≤ nxe) ∧
            (0 < cy → ∀ u, nxs ≤ u → u ≤ nxe →
              (fillSpan ci cy nxs nxe f).get u (cy - 1) = c0.get x y →
              ∃ s ∈ newA, s.y = cy - 1 ∧ s.x_start ≤ u ∧ u ≤ s.x_end) ∧
            (newA.length : Int) ≤ nxe - nxs + 1 := by
          by_cases hy : cy > 0
          · rw [if_pos hy]
            obtain ⟨new, e, p1, p2, p3⟩ := scanRowLoop_spec budget (fillSpan ci cy nxs nxe f)
              (cy - 1) (c0.get x y) nxe budget nxs segs (by omega) (by omega) (by omega)
            refine ⟨new, e, ?_, fun _ => p2, p3⟩
            intro s hs
            obtain ⟨a1, a2, a3, a4, a5⟩ := p1 s hs
            exact ⟨hy, a1, a2, a4⟩
          · rw [if_neg hy]
            refine ⟨[], rfl, ?_, ?_, by simp; omega⟩
            · intro s hs; simp at hs
            · intro h; exact absurd h hy
        obtain ⟨newA, eA, hA1, hA2, hA3⟩ := hA
        -- the row below
        have hB : ∃ newB, (if cy < (fillSpan ci cy nxs nxe f).Height - 1 then
              scanRowLoop budget budget (fillSpan ci cy nxs nxe f) (cy + 1) (c0.get x y) nxe nxs
                (newA ++ segs)
            else some (newA ++ segs)) = some (newB ++ (newA ++ segs)) ∧
            (∀ s ∈ newB, cy < c0.height_ - 1 ∧ s.y = cy + 1 ∧ nxs ≤ s.x_start ∧ s.x_end ≤ nxe) ∧
            (cy < c0.height_ - 1 → ∀ u, nxs ≤ u → u ≤ nxe →
              (fillSpan ci cy nxs nxe f).get u (cy + 1) = c0.get x y →
              ∃ s ∈ newB, s.y = cy + 1 ∧ s.x_start ≤ u ∧ u ≤ s.x_end) ∧
            (newB.length : Int) ≤ nxe - nxs + 1 := by
          have hH : (fillSpan ci cy nxs nxe f).Height = c0.height_ := by
            unfold Canvas.Height; rw [w3, hh]
          rw [hH]
          by_cases hy : cy < c0.height_ - 1
          · rw [if_pos hy]
            obtain ⟨new, e, p1, p2, p3⟩ := scanRowLoop_spec budget (fillSpan ci cy nxs nxe f)
              (cy + 1) (c0.get x y) nxe budget nxs (newA ++ segs) (by omega) (by omega) (by omega)
            refine ⟨new, e, ?_, fun _ => p2, p3⟩
            intro s hs
            obtain ⟨a1, a2, a3, a4, a5⟩ := p1 s hs
            exact ⟨hy, a1, a2, a4⟩
          · rw [if_neg hy]
            refine ⟨[], rfl, ?_, ?_, by simp; omega⟩
            · intro s hs; simp at hs
            · intro h; exact absurd h hy
        obtain ⟨newB, eB, hB1, hB2, hB3⟩ := hB
        have hinv' := hinv.fill_step newA newB hf hcx l1 l2 r1 (by omega) hrun
          (fun h => l4 h) (fun h => r4 (by omega)) hA1 hA2 hB1 hB2
        obtain ⟨c', segs', e', hi', hm'⟩ := ih (fillSpan ci cy nxs nxe f) cy xe (nxe + 1)
          (newB ++ (newA ++ segs)) hinv' (by omega) (by omega)
        refine ⟨c', segs', ?_, hi', ?_⟩
        · rw [segmentLoop]
          simp only [if_pos hcx, ht, ne_eq, not_true_eq_false, if_false, eL, eR, eA, eB]
          exact e'
        · simp only [List.length_append] at hm'
          omega
      · -- the cell is skipped
        obtain ⟨c', segs', e', hi', hm'⟩ := ih ci cy xe (cx + 1) segs (hinv.skip ht)
          (by omega) (by omega)
        refine ⟨c', segs', ?_, hi', hm'⟩
        rw [segmentLoop]
        simp only [if_pos hcx, ne_eq, ht, not_false_eq_true, if_true]
        exact e'
    · refine ⟨ci, segs, ?_, hinv.drop (by omega), le_refl _⟩
      rw [segmentLoop]
      simp only [if_neg hcx]

/-- With an empty stack the invariant says that the fill is complete. -/
theorem ScanInv.done {c0 ci : Canvas} {x y : Int} {f : Char} (hinv : ScanInv c0 x y f ci []) :
    FillDone c0 x y f ci := by
  refine ⟨hinv.state, ?_, ?_⟩
  · rcases hinv.seed with h | ⟨s, hs, _⟩
    · rcases hinv.state.sound x y hinv.seed_inBounds with h1 | ⟨_, h2, _⟩
      · exact absurd h1 h
      · exact h2
    · simp at hs
  · intro u v u' v' hb ht hv hadj hb' ht'
    obtain ⟨s, hs, _⟩ := hinv.closed u v u' v' hb ht hv hadj hb' ht'
    simp at hs

/-- The loop over the stack returns with the fill complete. -/
theorem segmentsLoop_spec {c0 : Canvas} {x y : Int} {f : Char} (hf : f ≠ c0.get x y)
    (budget : Nat) (hbud : c0.width_ + 2 ≤ (budget : Int)) :
    ∀ (fuel : Nat) (ci : Canvas) (segs : List ScanlineSegment), ScanInv c0 x y f ci segs →
      2 * ci.data_.count (c0.get x y) + segs.length ≤ fuel →
      ∃ c', segmentsLoop budget fuel ci (c0.get x y) f segs = some c' ∧ FillDone c0 x y f c' := by
  intro fuel
  induction fuel with
  | zero =>
    intro ci segs hinv hfuel
    cases segs with
    | nil => exact ⟨ci, by simp [segmentsLoop], ScanInv.done hinv⟩
    | cons s rest => simp at hfuel
  | succ n ih =>
    intro ci segs hinv hfuel
    cases segs with
    | nil => exact ⟨ci, by simp [segmentsLoop], ScanInv.done hinv⟩
    | cons s rest =>
      obtain ⟨sy, sxs, sxe⟩ := s
      have hv := hinv.valid ⟨sy, sxs, sxe⟩ (by simp)
      simp only at hv
      have hw0 : 0 ≤ c0.width_ := by
        rw [← hinv.state.width_eq]; exact hinv.state.wf.width_nonneg
      obtain ⟨c', segs', e', hi', hm'⟩ := segmentLoop_spec hf budget hbud budget ci sy sxe sxs
        rest hinv (by omega) (by omega)
      simp only [List.length_cons] at hfuel
      obtain ⟨c'', e'', hd⟩ := ih c' segs' hi' (by omega)
      refine ⟨c'', ?_, hd⟩
      rw [segmentsLoop]
      simp only [e']
      exact e''

/-- With fuel `2 * W * H + W + 2` the scanline fill of an in-bounds seed with a new
character returns, and the fill is complete. -/
theorem scanlineFill_done {c : Canvas} (hc : c.WF) {x y : Int} {f : Char}
    (hs : c.InBounds x y = true) (hf : f ≠ c.get x y) (fuel : Nat)
    (hfuel : 2 * (c.width_ * c.height_) + c.width_ + 2 ≤ (fuel : Int)) :
    ∃ c', ScanlineFill fuel c x y f = some c' ∧ FillDone c x y f c' := by
  obtain ⟨hx0, hx1, hy0, hy1⟩ := (Canvas.inBounds_iff c x y).1 hs
  have hW := hc.width_nonneg
  have hH := hc.height_nonneg
  have hWH : 0 ≤ c.width_ * c.height_ := mul_nonneg hW hH
  obtain ⟨rl, eL, l1, l2, l3, l4⟩ := seedLeftLoop_spec c y (c.get x y) fuel x (by omega)
    (by omega)
  obtain ⟨rr, eR, r1, r2, r3, r4⟩ := seedRightLoop_spec c y (c.get x y) fuel x (by omega)
    (by omega)
  have hl : rl < x := by
    by_contra hcon
    have : rl = x := by omega
    rw [this] at l4
    exact l4 hx0 rfl
  have hr : x < rr := by
    by_contra hcon
    have : rr = x := by omega
    rw [this] at r4
    exact r4 hx1 rfl
  -- the seed alone as the pending segment
  have hinit : ScanInv c x y f c [⟨y, x, x⟩] := by
    refine ⟨FillState.init hc, hs, Or.inr ⟨⟨y, x, x⟩, by simp, rfl, le_refl _, le_refl _⟩,
      ?_, ?_, ?_⟩
    · intro s hs'
      simp only [List.mem_singleton] at hs'
      subst hs'
      simp only; omega
    · intro s hs' u hu1 hu2 _
      simp only [List.mem_singleton] at hs'
      subst hs'
      simp only at hu1 hu2 ⊢
      have : u = x := by omega
      rw [this]
      exact Connected.seed hs
    · intro u v u' v' _ ht hv _ _ _
      rw [ht] at hv
      exact absurd hv.symm hf
  have hrun : ∀ u, rl + 1 ≤ u → u ≤ rr - 1 → c.get u y = c.get x y := by
    intro u hu1 hu2
    by_cases hux : u ≤ x
    · exact l3 u (by omega) hux
    · exact r3 u (by omega) (by omega)
  have hstep := hinit.fill_step
    (if y > 0 then [⟨y - 1, rl + 1, rr - 1⟩] else [])
    (if y < c.height_ - 1 then [⟨y + 1, rl + 1, rr - 1⟩] else [])
    hf (le_refl x) (show 0 ≤ rl + 1 by omega) (by omega)
    (show x ≤ rr - 1 by omega) (by omega) hrun
    (fun h => by
      have := l4 (by omega)
      simpa using this)
    (fun h => by
      have := r4 (by omega)
      simpa using this)
    (by
      intro s hs'
      by_cases hy : y > 0
      · rw [if_pos hy] at hs'
        simp only [List.mem_singleton] at hs'
        subst hs'
        exact ⟨hy, rfl, le_refl _, le_refl _⟩
      · rw [if_neg hy] at hs'
        simp at hs')
    (by
      intro hy u hu1 hu2 _
      rw [if_pos hy]
      exact ⟨⟨y - 1, rl + 1, rr - 1⟩, by simp, rfl, hu1, hu2⟩)
    (by
      intro s hs'
      by_cases hy : y < c.height_ - 1
      · rw [if_pos hy] at hs'
        simp only [List.mem_singleton] at hs'
        subst hs'
        exact ⟨hy, rfl, le_refl _, le_refl _⟩
      · rw [if_neg hy] at hs'
        simp at hs')
    (by
      intro hy u hu1 hu2 _
      rw [if_pos hy]
      exact ⟨⟨y + 1, rl + 1, rr - 1⟩, by simp, rfl, hu1, hu2⟩)
  have hinv := hstep.drop (by omega)
  obtain ⟨w1, w2, w3, w4, -⟩ := fillSpan_spec hc y (rl + 1) (rr - 1) f
    hy0 hy1 (by omega) (by omega)
  have hcount := List.count_le_length (c.get x y) (fillSpan c y (rl + 1) (rr - 1) f).data_
  have hlen := w1.length_eq
  rw [w2, w3] at hlen
  obtain ⟨c', e', hd⟩ := segmentsLoop_spec hf fuel (by omega) fuel
    (fillSpan c y (rl + 1) (rr - 1) f) _ hinv (by
      have : ((if y < c.height_ - 1 then [(⟨y + 1, rl + 1, rr - 1⟩ : ScanlineSegment)] else []) ++
          ((if y > 0 then [(⟨y - 1, rl + 1, rr - 1⟩ : ScanlineSegment)] else []) ++ [])).length
          ≤ 2 := by
        split <;> split <;> simp
      omega)
  refine ⟨c', ?_, hd⟩
  unfold ScanlineFill
  have hH' : (fillSpan c y (rl + 1) (rr - 1) f).Height = c.height_ := by
    unfold Canvas.Height; exact w3
  simp only [hs, Bool.not_true, Bool.false_eq_true, if_false, eL, eR, hH']
  rw [if_neg (Ne.symm hf)] at *
  rw [← e']
  congr 1
  by_cases h1 : y > 0 <;> by_cases h2 : y < c.height_ - 1 <;> simp [h1, h2]

end Plotter
end plotter

/-! ## The two fills agree -/

namespace plotter

/-- Two well-formed canvases of the same dimensions and background that agree on every
in-bounds cell are equal. -/
theorem Canvas.ext_cells {c1 c2 : Canvas} (h1 : c1.WF) (h2 : c2.WF)
    (hw : c1.width_ = c2.width_) (hh : c1.height_ = c2.height_)
    (hbg : c1.background_ = c2.background_)
    (hget : ∀ u v, c1.InBounds u v = true → c1.get u v = c2.get u v) : c1 = c2 := by
  have hlen : c1.data_.length = c2.data_.length := by
    have a := h1.length_eq
    have b := h2.length_eq
    rw [hw, hh] at a
    omega
  have hdata : c1.data_ = c2.data_ := by
    apply List.ext_getElem hlen
    intro i hi1 hi2
    have hiW : (i : Int) < c1.width_ * c1.height_ := by
      have := h1.length_eq
      omega
    have hWpos : 0 < c1.width_ := by
      rcases lt_or_eq_of_le h1.width_nonneg with h | h
      · exact h
      · rw [← h] at hiW
        simp at hiW
        omega
    have hx0 : 0 ≤ (i : Int) % c1.width_ := Int.emod_nonneg _ (by omega)
    have hx1 : (i : Int) % c1.width_ < c1.width_ := Int.emod_lt_of_pos _ hWpos
    have hy0 : 0 ≤ (i : Int) / c1.width_ := Int.ediv_nonneg (by omega) (by omega)
    have hy1 : (i : Int) / c1.width_ < c1.height_ := Int.ediv_lt_of_lt_mul hWpos (by
      rw [mul_comm]; exact hiW)
    have hoff : (i : Int) % c1.width_ + (i : Int) / c1.width_ * c1.width_ = i := by
      rw [mul_comm]
      exact Int.emod_add_ediv _ _
    have hb1 : c1.InBounds ((i : Int) % c1.width_) ((i : Int) / c1.width_) = true := by
      rw [Canvas.inBounds_iff]
      exact ⟨hx0, hx1, hy0, hy1⟩
    have hb2 : c2.InBounds ((i : Int) % c1.width_) ((i : Int) / c1.width_) = true := by
      rw [Plotter.inBounds_of_dims hw.symm hh.symm]
      exact hb1
    have hs1 : c1.CalculateShift ((i : Int) % c1.width_) ((i : Int) / c1.width_) = i := by
      rw [Canvas.shift_eq h1 hb1, hoff]
      simp
    have hs2 : c2.CalculateShift ((i : Int) % c1.width_) ((i : Int) / c1.width_) = i := by
      rw [Canvas.shift_eq h2 hb2, ← hw, hoff]
      simp
    have e := hget _ _ hb1
    have a1 := Canvas.get_eq_getElem h1 hb1
    have a2 := Canvas.get_eq_getElem h2 hb2
    rw [hs1, List.getElem?_eq_getElem hi1] at a1
    rw [hs2, List.getElem?_eq_getElem hi2] at a2
    rw [Option.some.inj a1, Option.some.inj a2]
    exact e
  cases c1
  cases c2
  simp only at hw hh hbg hdata
  subst hw; subst hh; subst hbg; subst hdata
  rfl

/-- C1: for every canvas, every seed (in bounds or not) and every fill character, with
enough fuel both fills return and `ScanlineFill` leaves the same canvas as `FloodFill`. -/
theorem C1_scanline_equals_flood (c : Canvas) (hc : c.WF) (x y : Int) (fill : Char) (fuel : Nat)
    (hfuel : 4 * (c.width_ * c.height_) + c.width_ + 2 ≤ (fuel : Int)) :
    Plotter.ScanlineFill fuel c x y fill = Plotter.FloodFill fuel c x y fill ∧
    ∃ c', Plotter.FloodFill fuel c x y fill = some c' := by
  have hW := hc.width_nonneg
  have hWH : 0 ≤ c.width_ * c.height_ := mul_nonneg hc.width_nonneg hc.height_nonneg
  by_cases hs : c.InBounds x y = true
  · by_cases hf : fill = c.get x y
    · have e1 : Plotter.ScanlineFill fuel c x y fill = some c := by
        unfold Plotter.ScanlineFill; simp [hs, hf]
      have e2 : Plotter.FloodFill fuel c x y fill = some c := by
        unfold Plotter.FloodFill; simp [hs, hf]
      exact ⟨by rw [e1, e2], c, e2⟩
    · obtain ⟨c1, e1, d1⟩ := Plotter.scanlineFill_done hc hs hf fuel (by omega)
      obtain ⟨c2, e2, d2⟩ := Plotter.floodFill_done hc hs hf fuel (by omega)
      refine ⟨?_, c2, e2⟩
      rw [e1, e2]
      congr 1
      apply Canvas.ext_cells d1.state.wf d2.state.wf
      · rw [d1.state.width_eq, d2.state.width_eq]
      · rw [d1.state.height_eq, d2.state.height_eq]
      · rw [d1.state.background_eq, d2.state.background_eq]
      · intro u v hb
        have hb0 : c.InBounds u v = true := by rw [← d1.state.inBounds_eq]; exact hb
        by_cases hconn : Connected c x y u v
        · rw [(d1.get_eq hb0).1 hconn, (d2.get_eq hb0).1 hconn]
        · rw [(d1.get_eq hb0).2 hconn, (d2.get_eq hb0).2 hconn]
  · have e1 : Plotter.ScanlineFill fuel c x y fill = some c := by
      unfold Plotter.ScanlineFill; simp [hs]
    have e2 : Plotter.FloodFill fuel c x y fill = some c := by
      unfold Plotter.FloodFill; simp [hs]
    exact ⟨by rw [e1, e2], c, e2⟩

/-- C1 at a concrete input: a 4x3 canvas split by a wall, seed in the left part. -/
theorem C1_scanline_equals_flood_witness :
    (⟨4, 3, ' ', "..#.####..#.".toList⟩ : Canvas).WF ∧
    4 * ((⟨4, 3, ' ', "..#.####..#.".toList⟩ : Canvas).width_ *
      (⟨4, 3, ' ', "..#.####..#.".toList⟩ : Canvas).height_) +
      (⟨4, 3, ' ', "..#.####..#.".toList⟩ : Canvas).width_ + 2 ≤ ((54 : Nat) : Int) ∧
    Plotter.ScanlineFill 54 ⟨4, 3, ' ', "..#.####..#.".toList⟩ 0 0 'F'
      = Plotter.FloodFill 54 ⟨4, 3, ' ', "..#.####..#.".toList⟩ 0 0 'F' ∧
    ∃ c', Plotter.FloodFill 54 ⟨4, 3, ' ', "..#.####..#.".toList⟩ 0 0 'F' = some c' :=
  ⟨⟨by decide, by decide, by decide, by decide⟩, by decide,
    C1_scanline_equals_flood ⟨4, 3, ' ', "..#.####..#.".toList⟩
      ⟨by decide, by decide, by decide, by decide⟩ 0 0 'F' 54 (by decide)⟩

end plotter

/-! ## Clear and filled circles -/

namespace plotter

theorem Canvas.get_of_data {c : Canvas} (h : c.WF) {x y : Int} (hb : c.InBounds x y = true)
    {v : Char} (hv : ∀ a ∈ c.data_, a = v) : c.get x y = v := by
  have h1 := Canvas.get_eq_getElem h hb
  exact hv _ (List.getElem?_mem h1)

/-- C19: after `Clear(ch)` every in-bounds cell equals `ch`, and width and height (and the
buffer length) are unchanged. -/
theorem C19_clear (c : Canvas) (hc : c.WF) (ch : Char) :
    (c.Clear ch).width_ = c.width_ ∧ (c.Clear ch).height_ = c.height_ ∧
    (c.Clear ch).data_.length = c.data_.length ∧
    ∀ x y, c.InBounds x y = true → (c.Clear ch).get x y = ch := by
  have hwf : (c.Clear ch).WF :=
    ⟨hc.width_nonneg, hc.height_nonneg, hc.size_lt, by simpa [Canvas.Clear] using hc.length_eq⟩
  refine ⟨rfl, rfl, by simp [Canvas.Clear], ?_⟩
  intro x y hb
  apply Canvas.get_of_data hwf (by exact hb)
  intro a ha
  simp only [Canvas.Clear, List.mem_map] at ha
  obtain ⟨_, _, rfl⟩ := ha
  rfl

/-- C19 at a concrete input: a 2x2 canvas. -/
theorem C19_clear_witness :
    (⟨2, 2, ' ', "ab.c".toList⟩ : Canvas).WF ∧
    ((⟨2, 2, ' ', "ab.c".toList⟩ : Canvas).Clear '#').width_
      = (⟨2, 2, ' ', "ab.c".toList⟩ : Canvas).width_ ∧
    ((⟨2, 2, ' ', "ab.c".toList⟩ : Canvas).Clear '#').height_
      = (⟨2, 2, ' ', "ab.c".toList⟩ : Canvas).height_ ∧
    ((⟨2, 2, ' ', "ab.c".toList⟩ : Canvas).Clear '#').data_.length
      = (⟨2, 2, ' ', "ab.c".toList⟩ : Canvas).data_.length ∧
    ∀ x y, (⟨2, 2, ' ', "ab.c".toList⟩ : Canvas).InBounds x y = true →
      ((⟨2, 2, ' ', "ab.c".toList⟩ : Canvas).Clear '#').get x y = '#' :=
  ⟨⟨by decide, by decide, by decide, by decide⟩,
    C19_clear ⟨2, 2, ' ', "ab.c".toList⟩ ⟨by decide, by decide, by decide, by decide⟩ '#'⟩

namespace Plotter

theorem drawCircleFillStep_eq (cx cy r : Int) (brush : Char) (y : Int) :
    DrawCircleFillStep cx cy r brush y
      = fun c x => if decide (x * x + y * y ≤ r * r) = true
          then plot c (cx + x) (cy + y) brush else c := by
  funext c x
  unfold DrawCircleFillStep plot
  by_cases h : x * x + y * y ≤ r * r
  · simp [h]
  · simp [h]

/-- Guarded writes at the filtered, shifted points of a row. -/
theorem foldl_plot_filter_map (l : List Int) (P : Int → Bool) (g : Int → Int × Int) (c : Canvas)
    (b : Char) :
    l.foldl (fun c x => if P x = true then plot c (g x).1 (g x).2 b else c) c
      = plotAll c ((l.filter P).map g) b := by
  induction l generalizing c with
  | nil => rfl
  | cons a l ih =>
    rw [List.foldl_cons, ih]
    by_cases h : P a = true
    · simp [List.filter_cons, h]
    · simp [List.filter_cons, h]

end Plotter

/-- C11: `DrawCircle` with `fill = true` sets an in-bounds cell `(u,v)` to the brush if
and only if `(u-cx)² + (v-cy)² ≤ r²` with `|u-cx| ≤ r` and `|v-cy| ≤ r`; every other cell
is unchanged; a negative radius paints nothing and radius 0 paints only the centre. -/
theorem C11_circle_fill (c : Canvas) (hc : c.WF) (cx cy r : Int) (brush : Char) (fuel : Nat) :
    ∃ c', Plotter.DrawCircle fuel c cx cy r brush true = some c' ∧
      c'.width_ = c.width_ ∧ c'.height_ = c.height_ ∧
      (∀ u v, c.InBounds u v = true →
        c'.get u v =
          if (u - cx) * (u - cx) + (v - cy) * (v - cy) ≤ r * r ∧ |u - cx| ≤ r ∧ |v - cy| ≤ r
          then brush else c.get u v) ∧
      (r < 0 → c' = c) ∧
      (r = 0 → c' = Plotter.plot c cx cy brush) := by
  have key : Plotter.DrawCircle fuel c cx cy r brush true
      = some (Plotter.plotAll c ((intRange (-r) r).flatMap
          (fun y => ((intRange (-r) r).filter
            (fun x => decide (x * x + y * y ≤ r * r))).map (fun x => (cx + x, cy + y)))) brush) := by
    unfold Plotter.DrawCircle
    simp only [if_true]
    rw [← Plotter.foldl_plotAll]
    congr 2
    funext c y
    rw [Plotter.drawCircleFillStep_eq]
    exact Plotter.foldl_plot_filter_map _ _ (fun x => (cx + x, cy + y)) c brush
  refine ⟨_, key, (Plotter.plotAll_dims _ _ _).1, (Plotter.plotAll_dims _ _ _).2.1, ?_, ?_, ?_⟩
  · intro u v hb
    rw [Plotter.get_plotAll hc _ _ hb]
    congr 1
    simp only [List.mem_flatMap, List.mem_map, List.mem_filter, mem_intRange, Prod.mk.injEq,
      decide_eq_true_eq, eq_iff_iff, abs_le]
    constructor
    · rintro ⟨y, hy, x, ⟨hx, hE⟩, rfl, rfl⟩
      refine ⟨?_, ⟨by omega, by omega⟩, ⟨by omega, by omega⟩⟩
      have e1 : cx + x - cx = x := by ring
      have e2 : cy + y - cy = y := by ring
      rw [e1, e2]; exact hE
    · rintro ⟨hE, hx, hy⟩
      exact ⟨v - cy, ⟨by omega, by omega⟩, u - cx, ⟨⟨by omega, by omega⟩, hE⟩, by ring, by ring⟩
  · intro hr
    have : intRange (-r) r = [] := by
      unfold intRange
      have : (r + 1 - -r).toNat = 0 := by omega
      rw [this]; rfl
    rw [this]
    rfl
  · intro hr
    subst hr
    have : intRange (-0) 0 = [0] := by decide
    rw [this]
    simp [Plotter.plotAll]

/-- C11 at a concrete input: radius 3 around `(4,4)` on a 9x9 canvas. -/
theorem C11_circle_fill_witness :
    (Canvas.new 9 9 '.').WF ∧
    ∃ c', Plotter.DrawCircle 0 (Canvas.new 9 9 '.') 4 4 3 '#' true = some c' ∧
      c'.width_ = (Canvas.new 9 9 '.').width_ ∧ c'.height_ = (Canvas.new 9 9 '.').height_ ∧
      (∀ u v, (Canvas.new 9 9 '.').InBounds u v = true →
        c'.get u v =
          if (u - 4) * (u - 4) + (v - 4) * (v - 4) ≤ 3 * 3 ∧ |u - 4| ≤ 3 ∧ |v - 4| ≤ 3
          then '#' else (Canvas.new 9 9 '.').get u v) ∧
      ((3 : Int) < 0 → c' = Canvas.new 9 9 '.') ∧
      ((3 : Int) = 0 → c' = Plotter.plot (Canvas.new 9 9 '.') 4 4 '#') :=
  ⟨⟨by decide, by decide, by decide, by decide⟩,
    C11_circle_fill (Canvas.new 9 9 '.') ⟨by decide, by decide, by decide, by decide⟩
      4 4 3 '#' 0⟩

end plotter

/-! ## Histogram -/

namespace plotter

theorem mem_regionPoints (x1 y1 x2 y2 : Int) (p : Int × Int) :
    p ∈ regionPoints x1 y1 x2 y2 ↔ x1 ≤ p.1 ∧ p.1 ≤ x2 ∧ y1 ≤ p.2 ∧ p.2 ≤ y2 := by
  obtain ⟨u, v⟩ := p
  simp only [regionPoints, List.mem_flatMap, List.mem_map, mem_intRange, Prod.mk.injEq]
  constructor
  · rintro ⟨y, hy, x, hx, rfl, rfl⟩
    exact ⟨hx.1, hx.2, hy.1, hy.2⟩
  · rintro ⟨h1, h2, h3, h4⟩
    exact ⟨v, ⟨h3, h4⟩, u, ⟨h1, h2⟩, rfl, rfl⟩

theorem nodup_regionPoints (x1 y1 x2 y2 : Int) : (regionPoints x1 y1 x2 y2).Nodup := by
  unfold regionPoints
  rw [List.nodup_flatMap]
  constructor
  · intro y _
    apply List.Nodup.map _ (nodup_intRange x1 x2)
    intro a b h
    exact congrArg Prod.fst h
  · apply List.Pairwise.imp _ (nodup_intRange y1 y2)
    intro a b hab
    simp only [Function.onFun]
    rw [List.disjoint_left]
    intro p hp hq
    simp only [List.mem_map] at hp hq
    obtain ⟨_, _, rfl⟩ := hp
    obtain ⟨_, _, h⟩ := hq
    exact hab (congrArg Prod.snd h).symm

theorem length_regionPoints (x1 y1 x2 y2 : Int) :
    (regionPoints x1 y1 x2 y2).length = (y2 + 1 - y1).toNat * (x2 + 1 - x1).toNat := by
  unfold regionPoints
  have key : ∀ (l : List Int),
      (l.flatMap (fun y => (intRange x1 x2).map (fun x => (x, y)))).length
        = l.length * (x2 + 1 - x1).toNat := by
    intro l
    induction l with
    | nil => simp
    | cons a l ih =>
      rw [List.flatMap_cons, List.length_append, ih, List.length_map, length_intRange,
        List.length_cons]
      ring
  rw [key, length_intRange]

/-- The count of `cellCount` as a count over the scanned positions. -/
theorem cellCount_eq_countP (c : Canvas) (x1 y1 x2 y2 : Int) (k : Char) :
    cellCount c x1 y1 x2 y2 k
      = (regionPoints x1 y1 x2 y2).countP
          (fun p => c.InBounds p.1 p.2 && decide (c.get p.1 p.2 = k)) := by
  rw [List.countP_eq_length_filter,
    ← List.toFinset_card_of_nodup ((nodup_regionPoints x1 y1 x2 y2).filter _)]
  unfold cellCount
  congr 1
  ext p
  simp only [Finset.mem_filter, Finset.mem_product, Finset.mem_Icc, List.mem_toFinset,
    List.mem_filter, mem_regionPoints, Bool.and_eq_true, decide_eq_true_eq]
  tauto

namespace Plotter

theorem mapFind_of_lt (h : List (Char × Int)) (k : Char) (hlt : ∀ e ∈ h, k < e.1) :
    mapFind h k = none := by
  induction h with
  | nil => rfl
  | cons e rest ih =>
    obtain ⟨a, v⟩ := e
    have h1 : k < a := hlt (a, v) (by simp)
    unfold mapFind
    rw [if_neg (ne_of_lt h1)]
    exact ih (fun e he => hlt e (List.mem_cons_of_mem _ he))

theorem keysAscending_cons {a : Char} {v : Int} {rest : List (Char × Int)} :
    KeysAscending ((a, v) :: rest) ↔ (∀ e ∈ rest, a < e.1) ∧ KeysAscending rest := by
  unfold KeysAscending
  simp only [List.map_cons, List.pairwise_cons, List.mem_map, forall_exists_index, and_imp]
  constructor
  · rintro ⟨h1, h2⟩
    exact ⟨fun e he => h1 e.1 e he rfl, h2⟩
  · rintro ⟨h1, h2⟩
    exact ⟨fun b e he hb => hb ▸ h1 e he, h2⟩

/-- The key set after `histogram[color]++`. -/
theorem mem_mapIncrement_key (h : List (Char × Int)) (k : Char) :
    ∀ e ∈ mapIncrement h k, e.1 = k ∨ ∃ e' ∈ h, e'.1 = e.1 := by
  induction h with
  | nil =>
    intro e he
    simp only [mapIncrement, List.mem_singleton] at he
    left; rw [he]
  | cons e0 rest ih =>
    obtain ⟨a, v⟩ := e0
    intro e he
    unfold mapIncrement at he
    split at he
    · rcases List.mem_cons.1 he with rfl | he
      · left; rfl
      · right; exact ⟨e, he, rfl⟩
    · split at he
      · rcases List.mem_cons.1 he with rfl | he
        · right; exact ⟨(a, v), by simp, rfl⟩
        · right; exact ⟨e, List.mem_cons_of_mem _ he, rfl⟩
      · rcases List.mem_cons.1 he with rfl | he
        · right; exact ⟨(a, v), by simp, rfl⟩
        · rcases ih e he with h1 | ⟨e', he', h2⟩
          · left; exact h1
          · right; exact ⟨e', List.mem_cons_of_mem _ he', h2⟩

theorem keysAscending_mapIncrement (h : List (Char × Int)) (k : Char) (hs : KeysAscending h) :
    KeysAscending (mapIncrement h k) := by
  induction h with
  | nil => simp [mapIncrement, KeysAscending]
  | cons e0 rest ih =>
    obtain ⟨a, v⟩ := e0
    obtain ⟨h1, h2⟩ := keysAscending_cons.1 hs
    unfold mapIncrement
    split
    · rename_i hlt
      rw [keysAscending_cons]
      refine ⟨?_, hs⟩
      intro e he
      rcases List.mem_cons.1 he with rfl | he
      · exact hlt
      · exact lt_trans hlt (h1 e he)
    · split
      · rw [keysAscending_cons]
        exact ⟨h1, h2⟩
      · rename_i hnlt hne
        rw [keysAscending_cons]
        refine ⟨?_, ih h2⟩
        intro e he
        rcases mem_mapIncrement_key rest k e he with h3 | ⟨e', he', h3⟩
        · rw [h3]
          exact lt_of_le_of_ne (not_lt.1 hnlt) (Ne.symm hne)
        · rw [← h3]
          exact h1 e' he'

theorem mapFind_mapIncrement (h : List (Char × Int)) (k : Char) (hs : KeysAscending h)
    (k' : Char) :
    mapFind (mapIncrement h k) k'
      = if k' = k then some ((mapFind h k).getD 0 + 1) else mapFind h k' := by
  induction h with
  | nil =>
    simp only [mapIncrement, mapFind, Option.getD_none, zero_add]
  | cons e0 rest ih =>
    obtain ⟨a, v⟩ := e0
    obtain ⟨h1, h2⟩ := keysAscending_cons.1 hs
    unfold mapIncrement
    by_cases hlt : k < a
    · rw [if_pos hlt]
      have hnone : mapFind ((a, v) :: rest) k = none := by
        apply mapFind_of_lt
        intro e he
        rcases List.mem_cons.1 he with rfl | he
        · exact hlt
        · exact lt_trans hlt (h1 e he)
      rw [hnone]
      conv_lhs => unfold mapFind
      simp
    · rw [if_neg hlt]
      by_cases hka : k = a
      · subst hka
        rw [if_pos rfl]
        by_cases hk' : k' = k
        · subst hk'
          simp [mapFind]
        · simp [mapFind, hk']
      · rw [if_neg hka]
        conv_lhs => unfold mapFind
        rw [ih h2]
        by_cases hk'a : k' = a
        · subst hk'a
          have : k' ≠ k := fun h => hka h.symm
          simp [mapFind, this]
        · by_cases hk' : k' = k
          · subst hk'
            simp [mapFind, hka]
          · simp [mapFind, hk', hk'a]

theorem values_mapIncrement (h : List (Char × Int)) (k : Char) (hp : ∀ e ∈ h, 1 ≤ e.2) :
    ∀ e ∈ mapIncrement h k, 1 ≤ e.2 := by
  induction h with
  | nil =>
    intro e he
    simp only [mapIncrement, List.mem_singleton] at he
    rw [he]
  | cons e0 rest ih =>
    obtain ⟨a, v⟩ := e0
    have hv : 1 ≤ v := hp (a, v) (by simp)
    intro e he
    unfold mapIncrement at he
    split at he
    · rcases List.mem_cons.1 he with rfl | he
      · exact le_refl _
      · exact hp e he
    · split at he
      · rcases List.mem_cons.1 he with rfl | he
        · simp only; omega
        · exact hp e (List.mem_cons_of_mem _ he)
      · rcases List.mem_cons.1 he with rfl | he
        · exact hv
        · exact ih (fun e he => hp e (List.mem_cons_of_mem _ he)) e he

theorem sum_mapIncrement (h : List (Char × Int)) (k : Char) :
    ((mapIncrement h k).map Prod.snd).sum = (h.map Prod.snd).sum + 1 := by
  induction h with
  | nil => simp [mapIncrement]
  | cons e0 rest ih =>
    obtain ⟨a, v⟩ := e0
    unfold mapIncrement
    split
    · simp; ring
    · split
      · simp; ring
      · simp only [List.map_cons, List.sum_cons, ih]; ring

end Plotter
end plotter

namespace plotter
namespace Plotter

theorem foldl_regionPoints {α : Type} (g : α → Int × Int → α) (x1 y1 x2 y2 : Int) (init : α) :
    (intRange y1 y2).foldl (fun acc y => (intRange x1 x2).foldl (fun acc x => g acc (x, y)) acc)
      init = (regionPoints x1 y1 x2 y2).foldl g init := by
  unfold regionPoints
  generalize intRange y1 y2 = rows
  induction rows generalizing init with
  | nil => rfl
  | cons y rows ih =>
    rw [List.foldl_cons, List.flatMap_cons, List.foldl_append, List.foldl_map]
    exact ih _

theorem mapFind_mem (h : List (Char × Int)) (k : Char) (v : Int) (hf : mapFind h k = some v) :
    (k, v) ∈ h := by
  induction h with
  | nil => simp [mapFind] at hf
  | cons e rest ih =>
    obtain ⟨a, w⟩ := e
    unfold mapFind at hf
    split at hf
    · rename_i hka
      have : w = v := Option.some.inj hf
      rw [hka, this]
      exact List.mem_cons_self _ _
    · exact List.mem_cons_of_mem _ (ih hf)

/-- The histogram after scanning the positions `pts`, starting from the map `h`. -/
theorem histogram_fold (c : Canvas) :
    ∀ (pts : List (Int × Int)) (h : List (Char × Int)), KeysAscending h →
      (∀ e ∈ h, 1 ≤ e.2) →
      KeysAscending (pts.foldl (fun h p =>
        if c.InBounds p.1 p.2 then mapIncrement h (c.get p.1 p.2) else h) h) ∧
      (∀ e ∈ pts.foldl (fun h p =>
        if c.InBounds p.1 p.2 then mapIncrement h (c.get p.1 p.2) else h) h, 1 ≤ e.2) ∧
      (∀ k, (mapFind (pts.foldl (fun h p =>
          if c.InBounds p.1 p.2 then mapIncrement h (c.get p.1 p.2) else h) h) k).getD 0
        = (mapFind h k).getD 0
          + (pts.countP (fun p => c.InBounds p.1 p.2 && decide (c.get p.1 p.2 = k)) : Nat)) ∧
      ((pts.foldl (fun h p =>
          if c.InBounds p.1 p.2 then mapIncrement h (c.get p.1 p.2) else h) h).map Prod.snd).sum
        = (h.map Prod.snd).sum + (pts.countP (fun p => c.InBounds p.1 p.2) : Nat) := by
  intro pts
  induction pts with
  | nil =>
    intro h hs hp
    refine ⟨hs, hp, ?_, ?_⟩
    · intro k; simp
    · simp
  | cons p pts ih =>
    intro h hs hp
    rw [List.foldl_cons]
    by_cases hb : c.InBounds p.1 p.2 = true
    · rw [if_pos hb]
      obtain ⟨a1, a2, a3, a4⟩ := ih (mapIncrement h (c.get p.1 p.2))
        (keysAscending_mapIncrement h _ hs) (values_mapIncrement h _ hp)
      refine ⟨a1, a2, ?_, ?_⟩
      · intro k
        rw [a3 k, mapFind_mapIncrement h _ hs k, List.countP_cons]
        by_cases hk : k = c.get p.1 p.2
        · subst hk
          simp [hb]
          ring
        · have hk' : ¬ c.get p.1 p.2 = k := fun h => hk h.symm
          simp [hb, hk, hk']
      · rw [a4, sum_mapIncrement, List.countP_cons]
        simp [hb]
        ring
    · rw [if_neg hb]
      obtain ⟨a1, a2, a3, a4⟩ := ih h hs hp
      refine ⟨a1, a2, ?_, ?_⟩
      · intro k
        rw [a3 k, List.countP_cons]
        simp [hb]
      · rw [a4, List.countP_cons]
        simp [hb]

theorem colorHistogram_eq (c : Canvas) (x1 y1 x2 y2 : Int) :
    ColorHistogram c x1 y1 x2 y2
      = (regionPoints x1 y1 x2 y2).foldl (fun h p =>
          if c.InBounds p.1 p.2 then mapIncrement h (c.get p.1 p.2) else h) [] := by
  unfold ColorHistogram
  exact foldl_regionPoints (fun h p =>
    if c.InBounds p.1 p.2 then mapIncrement h (c.get p.1 p.2) else h) x1 y1 x2 y2 []

end Plotter

/-- C13: `ColorHistogram(x1,y1,x2,y2)` maps each character `k` to the number of in-bounds
cells of the region that hold `k`; a character that does not occur is absent, every
stored count is at least 1 and the keys are ascending; the no-argument form is the
histogram of the whole canvas and its counts sum to `W * H`. -/
theorem C13_histogram (c : Canvas) (hc : c.WF) (x1 y1 x2 y2 : Int) :
    (∀ k, Plotter.mapFind (Plotter.ColorHistogram c x1 y1 x2 y2) k
      = if 0 < cellCount c x1 y1 x2 y2 k then some (cellCount c x1 y1 x2 y2 k : Int)
        else none) ∧
    (∀ e ∈ Plotter.ColorHistogram c x1 y1 x2 y2, 1 ≤ e.2) ∧
    KeysAscending (Plotter.ColorHistogram c x1 y1 x2 y2) ∧
    Plotter.ColorHistogramAll c = Plotter.ColorHistogram c 0 0 (c.width_ - 1) (c.height_ - 1) ∧
    ((Plotter.ColorHistogramAll c).map Prod.snd).sum = c.width_ * c.height_ := by
  have hnil : KeysAscending [] := by simp [KeysAscending]
  obtain ⟨a1, a2, a3, -⟩ := Plotter.histogram_fold c (regionPoints x1 y1 x2 y2) [] hnil
    (by intro e he; simp at he)
  rw [← Plotter.colorHistogram_eq] at a1 a2 a3
  refine ⟨?_, a2, a1, rfl, ?_⟩
  · intro k
    have h3 := a3 k
    rw [← cellCount_eq_countP] at h3
    simp only [Plotter.mapFind, Option.getD_none, zero_add] at h3
    cases hfind : Plotter.mapFind (Plotter.ColorHistogram c x1 y1 x2 y2) k with
    | none =>
      rw [hfind] at h3
      simp only [Option.getD_none] at h3
      have : cellCount c x1 y1 x2 y2 k = 0 := by omega
      simp [this]
    | some v =>
      rw [hfind] at h3
      simp only [Option.getD_some] at h3
      have hv := a2 _ (Plotter.mapFind_mem _ _ _ hfind)
      simp only at hv
      have : 0 < cellCount c x1 y1 x2 y2 k := by omega
      rw [if_pos this, h3]
  · obtain ⟨-, -, -, a4⟩ := Plotter.histogram_fold c
      (regionPoints 0 0 (c.width_ - 1) (c.height_ - 1)) [] hnil (by intro e he; simp at he)
    have hall : Plotter.ColorHistogramAll c
        = (regionPoints 0 0 (c.width_ - 1) (c.height_ - 1)).foldl (fun h p =>
            if c.InBounds p.1 p.2 then Plotter.mapIncrement h (c.get p.1 p.2) else h) [] :=
      Plotter.colorHistogram_eq c 0 0 (c.width_ - 1) (c.height_ - 1)
    rw [hall, a4]
    have hcount : (regionPoints 0 0 (c.width_ - 1) (c.height_ - 1)).countP
        (fun p => c.InBounds p.1 p.2)
        = (regionPoints 0 0 (c.width_ - 1) (c.height_ - 1)).length := by
      rw [List.countP_eq_length]
      intro p hp
      rw [mem_regionPoints] at hp
      rw [Canvas.inBounds_iff]
      omega
    rw [hcount, length_regionPoints]
    have hW := hc.width_nonneg
    have hH := hc.height_nonneg
    have e1 : ((c.height_ - 1 + 1 - 0).toNat : Int) = c.height_ := by omega
    have e2 : ((c.width_ - 1 + 1 - 0).toNat : Int) = c.width_ := by omega
    push_cast
    rw [e1, e2]
    simp
    ring

/-- C13 at a concrete input: a 3x2 canvas and a region reaching outside it. -/
theorem C13_histogram_witness :
    (⟨3, 2, ' ', "ab#a.a".toList⟩ : Canvas).WF ∧
    (∀ k, Plotter.mapFind (Plotter.ColorHistogram ⟨3, 2, ' ', "ab#a.a".toList⟩ 0 0 5 1) k
      = if 0 < cellCount ⟨3, 2, ' ', "ab#a.a".toList⟩ 0 0 5 1 k
        then some (cellCount ⟨3, 2, ' ', "ab#a.a".toList⟩ 0 0 5 1 k : Int) else none) ∧
    (∀ e ∈ Plotter.ColorHistogram ⟨3, 2, ' ', "ab#a.a".toList⟩ 0 0 5 1, 1 ≤ e.2) ∧
    KeysAscending (Plotter.ColorHistogram ⟨3, 2, ' ', "ab#a.a".toList⟩ 0 0 5 1) ∧
    Plotter.ColorHistogramAll ⟨3, 2, ' ', "ab#a.a".toList⟩
      = Plotter.ColorHistogram ⟨3, 2, ' ', "ab#a.a".toList⟩ 0 0
          ((⟨3, 2, ' ', "ab#a.a".toList⟩ : Canvas).width_ - 1)
          ((⟨3, 2, ' ', "ab#a.a".toList⟩ : Canvas).height_ - 1) ∧
    ((Plotter.ColorHistogramAll ⟨3, 2, ' ', "ab#a.a".toList⟩).map Prod.snd).sum
      = (⟨3, 2, ' ', "ab#a.a".toList⟩ : Canvas).width_
        * (⟨3, 2, ' ', "ab#a.a".toList⟩ : Canvas).height_ :=
  ⟨⟨by decide, by decide, by decide, by decide⟩,
    C13_histogram ⟨3, 2, ' ', "ab#a.a".toList⟩ ⟨by decide, by decide, by decide, by decide⟩
      0 0 5 1⟩

end plotter

/-! ## Extremes of a histogram -/

namespace plotter
namespace Plotter

theorem minMaxSeen_step (pre : List (Char × Int)) (e : Char × Int) (s : MinMaxState)
    (hle : ∀ e' ∈ pre, e'.1 ≤ e.1) (h : MinMaxSeen pre s) :
    MinMaxSeen (pre ++ [e]) (MinMaxStep s e) := by
  obtain ⟨h1, h2, h3, h4, h5⟩ := h
  have hmin := hle _ h1
  have hmax := hle _ h2
  simp only at hmin hmax
  have hb := h3 _ h1
  simp only at hb
  unfold MinMaxStep
  by_cases ha : e.2 < s.min_value
  · have hnb : ¬ e.2 > s.max_value := by omega
    simp only [ha, if_true, hnb, if_false]
    refine ⟨by simp, by simp [h2], ?_, ?_, ?_⟩
    · intro e' he'
      rcases List.mem_append.1 he' with he' | he'
      · have := h3 e' he'
        simp only; omega
      · simp only [List.mem_singleton] at he'
        subst he'
        simp only; omega
    · intro e' he' heq
      simp only at heq ⊢
      rcases List.mem_append.1 he' with he' | he'
      · have := h3 e' he'
        omega
      · simp only [List.mem_singleton] at he'
        rw [he']
    · intro e' he' heq
      simp only at heq ⊢
      rcases List.mem_append.1 he' with he' | he'
      · exact h5 e' he' heq
      · simp only [List.mem_singleton] at he'
        subst he'
        omega
  · simp only [ha, if_false]
    by_cases hc : e.2 > s.max_value
    · simp only [hc, if_true]
      refine ⟨by simp [h1], by simp, ?_, ?_, ?_⟩
      · intro e' he'
        rcases List.mem_append.1 he' with he' | he'
        · have := h3 e' he'
          simp only; omega
        · simp only [List.mem_singleton] at he'
          subst he'
          simp only; omega
      · intro e' he' heq
        simp only at heq ⊢
        rcases List.mem_append.1 he' with he' | he'
        · exact h4 e' he' heq
        · simp only [List.mem_singleton] at he'
          subst he'
          omega
      · intro e' he' heq
        simp only at heq ⊢
        rcases List.mem_append.1 he' with he' | he'
        · have := h3 e' he'
          omega
        · simp only [List.mem_singleton] at he'
          rw [he']
    · simp only [hc, if_false]
      refine ⟨by simp [h1], by simp [h2], ?_, ?_, ?_⟩
      · intro e' he'
        rcases List.mem_append.1 he' with he' | he'
        · exact h3 e' he'
        · simp only [List.mem_singleton] at he'
          subst he'
          omega
      · intro e' he' heq
        rcases List.mem_append.1 he' with he' | he'
        · exact h4 e' he' heq
        · simp only [List.mem_singleton] at he'
          subst he'
          exact hmin
      · intro e' he' heq
        rcases List.mem_append.1 he' with he' | he'
        · exact h5 e' he' heq
        · simp only [List.mem_singleton] at he'
          subst he'
          exact hmax

theorem minMaxSeen_fold :
    ∀ (post pre : List (Char × Int)) (s : MinMaxState),
      ((pre ++ post).map Prod.fst).Pairwise (fun a b => a ≤ b) → MinMaxSeen pre s →
      MinMaxSeen (pre ++ post) (post.foldl MinMaxStep s) := by
  intro post
  induction post with
  | nil => intro pre s _ h; simpa using h
  | cons e post ih =>
    intro pre s hp h
    have hsplit : pre ++ e :: post = (pre ++ [e]) ++ post := by simp
    rw [List.foldl_cons, hsplit]
    apply ih
    · rw [← hsplit]; exact hp
    · apply minMaxSeen_step pre e s _ h
      intro e' he'
      rw [List.map_append, List.pairwise_append] at hp
      exact hp.2.2 e'.1 (List.mem_map_of_mem _ he') e.1 (by simp)

end Plotter

/-- C14: for a non-empty histogram `MinMaxColors` returns a key with the minimum count and
a key with the maximum count, and among the keys tied for the minimum (resp. maximum)
the smallest one; for the empty histogram it returns `(' ', ' ')`. -/
theorem C14_minMaxColors (h : List (Char × Int)) (hs : KeysAscending h) :
    (h = [] → Plotter.MinMaxColors h = (' ', ' ')) ∧
    (h ≠ [] → ∃ vmin vmax : Int,
      ((Plotter.MinMaxColors h).1, vmin) ∈ h ∧ ((Plotter.MinMaxColors h).2, vmax) ∈ h ∧
      (∀ e ∈ h, vmin ≤ e.2 ∧ e.2 ≤ vmax) ∧
      (∀ e ∈ h, e.2 = vmin → (Plotter.MinMaxColors h).1 ≤ e.1) ∧
      (∀ e ∈ h, e.2 = vmax → (Plotter.MinMaxColors h).2 ≤ e.1)) := by
  constructor
  · rintro rfl
    rfl
  · intro hne
    cases h with
    | nil => exact absurd rfl hne
    | cons first rest =>
      have hp : (([first] ++ first :: rest).map Prod.fst).Pairwise (fun a b => a ≤ b) := by
        unfold KeysAscending at hs
        simp only [List.map_cons, List.pairwise_cons] at hs
        simp only [List.singleton_append, List.map_cons, List.pairwise_cons, List.mem_cons,
          forall_eq_or_imp, le_refl, true_and]
        refine ⟨fun a ha => le_of_lt (hs.1 a ha), fun a ha => le_of_lt (hs.1 a ha), ?_⟩
        exact hs.2.imp (fun hab => le_of_lt hab)
      have hinit : MinMaxSeen [first] ⟨first.1, first.1, first.2, first.2⟩ := by
        refine ⟨by simp, by simp, ?_, ?_, ?_⟩
        · intro e he
          simp only [List.mem_singleton] at he
          subst he
          exact ⟨le_refl _, le_refl _⟩
        · intro e he _
          simp only [List.mem_singleton] at he
          subst he
          exact le_refl _
        · intro e he _
          simp only [List.mem_singleton] at he
          subst he
          exact le_refl _
      obtain ⟨h1, h2, h3, h4, h5⟩ := Plotter.minMaxSeen_fold (first :: rest) [first] _ hp hinit
      have hsub : ∀ e, e ∈ [first] ++ first :: rest ↔ e ∈ first :: rest := by
        intro e; simp
      refine ⟨_, _, (hsub _).1 h1, (hsub _).1 h2, fun e he => h3 e ((hsub e).2 he),
        fun e he => h4 e ((hsub e).2 he), fun e he => h5 e ((hsub e).2 he)⟩

/-- C14 at a concrete input: three keys, two of them tied for the minimum. -/
theorem C14_minMaxColors_witness :
    KeysAscending [('#', 1), ('.', 1), ('a', 3)] ∧
    (([('#', 1), ('.', 1), ('a', 3)] : List (Char × Int)) = [] →
      Plotter.MinMaxColors [('#', 1), ('.', 1), ('a', 3)] = (' ', ' ')) ∧
    (([('#', 1), ('.', 1), ('a', 3)] : List (Char × Int)) ≠ [] → ∃ vmin vmax : Int,
      ((Plotter.MinMaxColors [('#', 1), ('.', 1), ('a', 3)]).1, vmin)
        ∈ ([('#', 1), ('.', 1), ('a', 3)] : List (Char × Int)) ∧
      ((Plotter.MinMaxColors [('#', 1), ('.', 1), ('a', 3)]).2, vmax)
        ∈ ([('#', 1), ('.', 1), ('a', 3)] : List (Char × Int)) ∧
      (∀ e ∈ ([('#', 1), ('.', 1), ('a', 3)] : List (Char × Int)), vmin ≤ e.2 ∧ e.2 ≤ vmax) ∧
      (∀ e ∈ ([('#', 1), ('.', 1), ('a', 3)] : List (Char × Int)), e.2 = vmin →
        (Plotter.MinMaxColors [('#', 1), ('.', 1), ('a', 3)]).1 ≤ e.1) ∧
      (∀ e ∈ ([('#', 1), ('.', 1), ('a', 3)] : List (Char × Int)), e.2 = vmax →
        (Plotter.MinMaxColors [('#', 1), ('.', 1), ('a', 3)]).2 ≤ e.1)) :=
  ⟨by unfold KeysAscending; decide,
    C14_minMaxColors [('#', 1), ('.', 1), ('a', 3)] (by unfold KeysAscending; decide)⟩

end plotter

/-! ## Region extract and paste -/

namespace plotter

theorem Canvas.new_wf {w h : Int} (hw : 0 ≤ w) (hh : 0 ≤ h) (hs : w * h < 2 ^ 31) (bg : Char) :
    (Canvas.new w h bg).WF := by
  refine ⟨hw, hh, hs, ?_⟩
  have : 0 ≤ w * h := mul_nonneg hw hh
  simp only [Canvas.new, List.length_replicate]
  omega

theorem Canvas.get_new {w h : Int} (hw : 0 ≤ w) (hh : 0 ≤ h) (hs : w * h < 2 ^ 31) (bg : Char)
    {x y : Int} (hb : (Canvas.new w h bg).InBounds x y = true) :
    (Canvas.new w h bg).get x y = bg := by
  apply Canvas.get_of_data (Canvas.new_wf hw hh hs bg) hb
  intro a ha
  simp only [Canvas.new] at ha
  exact List.eq_of_mem_replicate ha

namespace Plotter

/-- A sequence of writes, `val a` at the in-bounds position `g a` for every `a` of `l`
that passes the test `P`; writes to the same position carry the same value. -/
theorem foldl_set_vals {α : Type} (g : α → Int × Int) (val : α → Char) (P : α → Bool)
    (step : Canvas → α → Canvas) (w h : Int)
    (hstep : ∀ (r : Canvas) (a : α), r.width_ = w → r.height_ = h →
      step r a = if P a = true then r.set (g a).1 (g a).2 (val a) else r) :
    ∀ (l : List α) (r : Canvas), r.WF → r.width_ = w → r.height_ = h →
      (∀ a ∈ l, P a = true → r.InBounds (g a).1 (g a).2 = true) →
      (∀ a ∈ l, ∀ b ∈ l, P a = true → P b = true → g a = g b → val a = val b) →
      (l.foldl step r).WF ∧ (l.foldl step r).width_ = w ∧ (l.foldl step r).height_ = h ∧
      (l.foldl step r).background_ = r.background_ ∧
      ∀ u v, r.InBounds u v = true →
        (∀ a ∈ l, P a = true → g a = (u, v) → (l.foldl step r).get u v = val a) ∧
        ((∀ a ∈ l, P a = true → g a ≠ (u, v)) → (l.foldl step r).get u v = r.get u v) := by
  intro l
  induction l with
  | nil =>
    intro r hr hw hh _ _
    refine ⟨hr, hw, hh, rfl, ?_⟩
    intro u v _
    exact ⟨fun a ha => by simp at ha, fun _ => rfl⟩
  | cons a l ih =>
    intro r hr hw hh hin hcons
    rw [List.foldl_cons, hstep r a hw hh]
    have hin' : ∀ b ∈ l, P b = true → r.InBounds (g b).1 (g b).2 = true :=
      fun b hb => hin b (List.mem_cons_of_mem _ hb)
    have hcons' : ∀ b ∈ l, ∀ b' ∈ l, P b = true → P b' = true → g b = g b' → val b = val b' :=
      fun b hb b' hb' => hcons b (List.mem_cons_of_mem _ hb) b' (List.mem_cons_of_mem _ hb')
    by_cases hPa : P a = true
    · rw [if_pos hPa]
      have ha := hin a (by simp) hPa
      obtain ⟨i1, i2, i3, i4, i5⟩ := ih (r.set (g a).1 (g a).2 (val a))
        (Canvas.set_wf hr _ _ _) hw hh (fun b hb hPb => by simpa using hin' b hb hPb) hcons'
      refine ⟨i1, i2, i3, by simpa using i4, ?_⟩
      intro u v huv
      obtain ⟨j1, j2⟩ := i5 u v (by simpa using huv)
      constructor
      · intro b hb hPb hgb
        by_cases hex : ∃ b' ∈ l, P b' = true ∧ g b' = (u, v)
        · obtain ⟨b', hb', hPb', hgb'⟩ := hex
          rw [j1 b' hb' hPb' hgb']
          exact hcons b' (List.mem_cons_of_mem _ hb') b hb hPb' hPb (by rw [hgb', hgb])
        · have hnone : ∀ b' ∈ l, P b' = true → g b' ≠ (u, v) :=
            fun b' hb' hPb' hg => hex ⟨b', hb', hPb', hg⟩
          rw [j2 hnone, Canvas.get_set hr _ ha huv]
          have hba : b = a := by
            rcases List.mem_cons.1 hb with h | h
            · exact h
            · exact absurd hgb (hnone b h hPb)
          subst hba
          have e1 : u = (g b).1 := by rw [hgb]
          have e2 : v = (g b).2 := by rw [hgb]
          rw [if_pos ⟨e1, e2⟩]
      · intro hnone
        rw [j2 (fun b hb => hnone b (List.mem_cons_of_mem _ hb)), Canvas.get_set hr _ ha huv]
        have hne := hnone a (by simp) hPa
        rw [if_neg]
        rintro ⟨e1, e2⟩
        exact hne (Prod.ext e1.symm e2.symm)
    · rw [if_neg hPa]
      obtain ⟨i1, i2, i3, i4, i5⟩ := ih r hr hw hh hin' hcons'
      refine ⟨i1, i2, i3, i4, ?_⟩
      intro u v huv
      obtain ⟨j1, j2⟩ := i5 u v huv
      constructor
      · intro b hb hPb hgb
        rcases List.mem_cons.1 hb with h | h
        · rw [h] at hPb; exact absurd hPb hPa
        · exact j1 b h hPb hgb
      · intro hnone
        exact j2 (fun b hb => hnone b (List.mem_cons_of_mem _ hb))

end Plotter

/-- C15: for `x1 ≤ x2` and `y1 ≤ y2`, `ExtractRegion(x1,y1,x2,y2)` returns a canvas of
width `x2-x1+1` and height `y2-y1+1` with background `' '` whose cell `(i,j)` equals the
source cell `(x1+i, y1+j)` when that position is in bounds of the source and is `' '`
otherwise. The source is an argument of the function and is not changed. -/
theorem C15_extractRegion (c : Canvas) (x1 y1 x2 y2 : Int) (hx : x1 ≤ x2) (hy : y1 ≤ y2)
    (hsize : (x2 - x1 + 1) * (y2 - y1 + 1) < 2 ^ 31) :
    (Plotter.ExtractRegion c x1 y1 x2 y2).width_ = x2 - x1 + 1 ∧
    (Plotter.ExtractRegion c x1 y1 x2 y2).height_ = y2 - y1 + 1 ∧
    (Plotter.ExtractRegion c x1 y1 x2 y2).background_ = ' ' ∧
    ((Plotter.ExtractRegion c x1 y1 x2 y2).data_.length : Int)
      = (x2 - x1 + 1) * (y2 - y1 + 1) ∧
    ∀ i j, 0 ≤ i → i < x2 - x1 + 1 → 0 ≤ j → j < y2 - y1 + 1 →
      (Plotter.ExtractRegion c x1 y1 x2 y2).get i j
        = if c.InBounds (x1 + i) (y1 + j) = true then c.get (x1 + i) (y1 + j) else ' ' := by
  have hw : 0 ≤ x2 - x1 + 1 := by omega
  have hh : 0 ≤ y2 - y1 + 1 := by omega
  have hnew := Canvas.new_wf hw hh hsize ' '
  have hrun : Plotter.ExtractRegion c x1 y1 x2 y2
      = (regionPoints 0 0 (x2 - x1 + 1 - 1) (y2 - y1 + 1 - 1)).foldl
          (fun region p => if c.InBounds (x1 + p.1) (y1 + p.2) then
            region.set p.1 p.2 (c.get (x1 + p.1) (y1 + p.2)) else region)
          (Canvas.new (x2 - x1 + 1) (y2 - y1 + 1) ' ') := by
    unfold Plotter.ExtractRegion
    dsimp only
    exact Plotter.foldl_regionPoints (fun (region : Canvas) (p : Int × Int) =>
      if c.InBounds (x1 + p.1) (y1 + p.2) then
        region.set p.1 p.2 (c.get (x1 + p.1) (y1 + p.2)) else region) _ _ _ _ _
  obtain ⟨r1, r2, r3, r4, r5⟩ := Plotter.foldl_set_vals (fun p : Int × Int => p)
    (fun p => c.get (x1 + p.1) (y1 + p.2)) (fun p => c.InBounds (x1 + p.1) (y1 + p.2))
    (fun region p => if c.InBounds (x1 + p.1) (y1 + p.2) then
      region.set p.1 p.2 (c.get (x1 + p.1) (y1 + p.2)) else region)
    (x2 - x1 + 1) (y2 - y1 + 1) (fun r a _ _ => rfl)
    (regionPoints 0 0 (x2 - x1 + 1 - 1) (y2 - y1 + 1 - 1))
    (Canvas.new (x2 - x1 + 1) (y2 - y1 + 1) ' ') hnew rfl rfl
    (by
      intro p hp _
      rw [mem_regionPoints] at hp
      rw [Canvas.inBounds_iff]
      simp only [Canvas.new]
      omega)
    (by
      intro a _ b _ _ _ hab
      have hab' : a = b := hab
      rw [hab'])
  rw [← hrun] at r1 r2 r3 r4 r5
  refine ⟨r2, r3, r4, ?_, ?_⟩
  · rw [r1.length_eq, r2, r3]
  · intro i j hi0 hi1 hj0 hj1
    have hb : (Canvas.new (x2 - x1 + 1) (y2 - y1 + 1) ' ').InBounds i j = true := by
      rw [Canvas.inBounds_iff]
      simp only [Canvas.new]
      omega
    obtain ⟨j1, j2⟩ := r5 i j hb
    by_cases hsrc : c.InBounds (x1 + i) (y1 + j) = true
    · rw [if_pos hsrc]
      exact j1 (i, j) (by rw [mem_regionPoints]; simp only; omega) hsrc rfl
    · rw [if_neg hsrc]
      rw [j2]
      · exact Canvas.get_new hw hh hsize ' ' hb
      · intro a _ hPa hga
        have hga' : a = (i, j) := hga
        rw [hga'] at hPa
        exact hsrc hPa

/-- C15 at a concrete input: a region reaching outside a 3x2 canvas. -/
theorem C15_extractRegion_witness :
    (1 : Int) ≤ 3 ∧ (0 : Int) ≤ 2 ∧ ((3 : Int) - 1 + 1) * (2 - 0 + 1) < 2 ^ 31 ∧
    (Plotter.ExtractRegion ⟨3, 2, ' ', "ab#a.a".toList⟩ 1 0 3 2).width_ = 3 - 1 + 1 ∧
    (Plotter.ExtractRegion ⟨3, 2, ' ', "ab#a.a".toList⟩ 1 0 3 2).height_ = 2 - 0 + 1 ∧
    (Plotter.ExtractRegion ⟨3, 2, ' ', "ab#a.a".toList⟩ 1 0 3 2).background_ = ' ' ∧
    ((Plotter.ExtractRegion ⟨3, 2, ' ', "ab#a.a".toList⟩ 1 0 3 2).data_.length : Int)
      = (3 - 1 + 1) * (2 - 0 + 1) ∧
    ∀ i j, 0 ≤ i → i < 3 - 1 + 1 → 0 ≤ j → j < 2 - 0 + 1 →
      (Plotter.ExtractRegion ⟨3, 2, ' ', "ab#a.a".toList⟩ 1 0 3 2).get i j
        = if (⟨3, 2, ' ', "ab#a.a".toList⟩ : Canvas).InBounds (1 + i) (0 + j) = true
          then (⟨3, 2, ' ', "ab#a.a".toList⟩ : Canvas).get (1 + i) (0 + j) else ' ' :=
  ⟨by decide, by decide, by decide,
    C15_extractRegion ⟨3, 2, ' ', "ab#a.a".toList⟩ 1 0 3 2 (by decide) (by decide) (by decide)⟩

end plotter

namespace plotter

theorem Canvas.atConst_inBounds {c : Canvas} (h : c.WF) {x y : Int} (hb : c.InBounds x y = true) :
    c.atConst x y = .ok (c.get x y) := by
  unfold Canvas.atConst
  rw [Canvas.get_eq_getElem h hb]

namespace Plotter

theorem foldlM_except_ok {α β ε : Type} (f : β → α → Except ε β) (f' : β → α → β) :
    ∀ (l : List α) (init : β), (∀ b, ∀ a ∈ l, f b a = .ok (f' b a)) →
      l.foldlM f init = .ok (l.foldl f' init) := by
  intro l
  induction l with
  | nil => intro init _; rfl
  | cons a l ih =>
    intro init h
    rw [List.foldlM_cons, h init a (by simp)]
    exact ih (f' init a) (fun b a' ha' => h b a' (List.mem_cons_of_mem _ ha'))

/-- With a well-formed region the paste never raises: it is a sequence of guarded writes. -/
theorem pasteRegion_eq {region : Canvas} (hr : region.WF) (c : Canvas) (x y : Int) :
    PasteRegion c region x y
      = .ok ((regionPoints 0 0 (region.width_ - 1) (region.height_ - 1)).foldl
          (fun c p => if c.InBounds (x + p.1) (y + p.2) then
            c.set (x + p.1) (y + p.2) (region.get p.1 p.2) else c) c) := by
  unfold PasteRegion
  rw [← foldl_regionPoints (fun (c : Canvas) (p : Int × Int) =>
    if c.InBounds (x + p.1) (y + p.2) then
      c.set (x + p.1) (y + p.2) (region.get p.1 p.2) else c)]
  apply foldlM_except_ok
  intro c' ry hry
  apply foldlM_except_ok
  intro c'' rx hrx
  rw [mem_intRange] at hry hrx
  have hb : region.InBounds rx ry = true := by
    rw [Canvas.inBounds_iff]
    unfold Canvas.Width at hrx
    unfold Canvas.Height at hry
    omega
  unfold PasteRegionStep
  simp only [Canvas.atConst_inBounds hr hb]
  split <;> rfl

end Plotter

/-- C16: after `PasteRegion(region, x, y)` every in-bounds destination cell `(x+rx, y+ry)`
with `0 ≤ rx < region.Width`, `0 ≤ ry < region.Height` holds the region's cell `(rx, ry)`,
every other cell is unchanged, and the call raises no error: region cells whose
destination is out of bounds are skipped. -/
theorem C16_pasteRegion (c region : Canvas) (hc : c.WF) (hr : region.WF) (x y : Int) :
    ∃ c', Plotter.PasteRegion c region x y = .ok c' ∧
      c'.width_ = c.width_ ∧ c'.height_ = c.height_ ∧ c'.data_.length = c.data_.length ∧
      ∀ u v, c.InBounds u v = true →
        c'.get u v =
          if x ≤ u ∧ u < x + region.width_ ∧ y ≤ v ∧ v < y + region.height_
          then region.get (u - x) (v - y) else c.get u v := by
  obtain ⟨r1, r2, r3, -, r5⟩ := Plotter.foldl_set_vals
    (fun p : Int × Int => (x + p.1, y + p.2)) (fun p => region.get p.1 p.2)
    (fun p => c.InBounds (x + p.1) (y + p.2))
    (fun c p => if c.InBounds (x + p.1) (y + p.2) then
      c.set (x + p.1) (y + p.2) (region.get p.1 p.2) else c)
    c.width_ c.height_
    (fun r a hw hh => by
      simp only [Plotter.inBounds_of_dims hw hh])
    (regionPoints 0 0 (region.width_ - 1) (region.height_ - 1)) c hc rfl rfl
    (fun p _ hP => hP)
    (by
      intro a _ b _ _ _ hab
      have h1 : x + a.1 = x + b.1 := congrArg Prod.fst hab
      have h2 : y + a.2 = y + b.2 := congrArg Prod.snd hab
      have e1 : a.1 = b.1 := by omega
      have e2 : a.2 = b.2 := by omega
      simp only [e1, e2])
  refine ⟨_, Plotter.pasteRegion_eq hr c x y, r2, r3, ?_, ?_⟩
  · have a := r1.length_eq
    have b := hc.length_eq
    rw [r2, r3] at a
    omega
  · intro u v hb
    obtain ⟨j1, j2⟩ := r5 u v hb
    by_cases hin : x ≤ u ∧ u < x + region.width_ ∧ y ≤ v ∧ v < y + region.height_
    · rw [if_pos hin]
      have := j1 (u - x, v - y) (by rw [mem_regionPoints]; simp only; omega)
        (by
          have e1 : x + (u - x) = u := by ring
          have e2 : y + (v - y) = v := by ring
          simp only [e1, e2]
          exact hb)
        (by
          apply Prod.ext
          · simp only; ring
          · simp only; ring)
      exact this
    · rw [if_neg hin]
      apply j2
      intro a ha _ hga
      rw [mem_regionPoints] at ha
      have h1 : x + a.1 = u := congrArg Prod.fst hga
      have h2 : y + a.2 = v := congrArg Prod.snd hga
      apply hin
      omega

/-- C16 at a concrete input: a 3x2 region pasted over the corner of a 4x4 canvas. -/
theorem C16_pasteRegion_witness :
    (Canvas.new 4 4 '.').WF ∧ (⟨3, 2, ' ', "ab#a.a".toList⟩ : Canvas).WF ∧
    ∃ c', Plotter.PasteRegion (Canvas.new 4 4 '.') ⟨3, 2, ' ', "ab#a.a".toList⟩ 2 3 = .ok c' ∧
      c'.width_ = (Canvas.new 4 4 '.').width_ ∧ c'.height_ = (Canvas.new 4 4 '.').height_ ∧
      c'.data_.length = (Canvas.new 4 4 '.').data_.length ∧
      ∀ u v, (Canvas.new 4 4 '.').InBounds u v = true →
        c'.get u v =
          if 2 ≤ u ∧ u < 2 + (⟨3, 2, ' ', "ab#a.a".toList⟩ : Canvas).width_ ∧ 3 ≤ v ∧
              v < 3 + (⟨3, 2, ' ', "ab#a.a".toList⟩ : Canvas).height_
          then (⟨3, 2, ' ', "ab#a.a".toList⟩ : Canvas).get (u - 2) (v - 3)
          else (Canvas.new 4 4 '.').get u v :=
  ⟨⟨by decide, by decide, by decide, by decide⟩, ⟨by decide, by decide, by decide, by decide⟩,
    C16_pasteRegion (Canvas.new 4 4 '.') ⟨3, 2, ' ', "ab#a.a".toList⟩
      ⟨by decide, by decide, by decide, by decide⟩ ⟨by decide, by decide, by decide, by decide⟩
      2 3⟩

end plotter

/-! ## Rendering -/

namespace plotter

theorem intRange_cons {lo hi : Int} (h : lo ≤ hi) : intRange lo hi = lo :: intRange (lo + 1) hi := by
  unfold intRange
  have e : (hi + 1 - lo).toNat = (hi + 1 - (lo + 1)).toNat + 1 := by omega
  rw [e, List.range_succ_eq_map, List.map_cons, List.map_map]
  congr 1
  · simp
  · apply List.map_congr_left
    intro k _
    simp only [Function.comp, Nat.succ_eq_add_one]
    push_cast
    ring

theorem intRange_empty {lo hi : Int} (h : hi < lo) : intRange lo hi = [] := by
  unfold intRange
  have e : (hi + 1 - lo).toNat = 0 := by omega
  rw [e]; rfl

namespace Canvas

theorem renderRow_eq (c : Canvas) (y : Int) :
    c.renderRow (y * c.width_) ++ ['\n'] = c.rowText y := by
  unfold renderRow rowText
  congr 1
  apply List.map_congr_left
  intro j _
  unfold get CalculateShift Width
  rw [add_comm]

theorem renderLoop_rows {c : Canvas} (hc : c.WF) (hw : 0 < c.width_) :
    ∀ (n fuel : Nat) (y : Int) (os : List Char), 0 ≤ y → y + n = c.height_ → n + 1 ≤ fuel →
      RenderLoop fuel c (y * c.width_) os
        = some (os ++ (intRange y (c.height_ - 1)).flatMap c.rowText) := by
  intro n
  induction n with
  | zero =>
    intro fuel y os hy hn hf
    obtain ⟨m, rfl⟩ : ∃ m, fuel = m + 1 := ⟨fuel - 1, by omega⟩
    simp only [Nat.cast_zero, add_zero] at hn
    have hlen := hc.length_eq
    have hs := hc.size_lt
    have hnn : 0 ≤ y * c.width_ := mul_nonneg hy (le_of_lt hw)
    have hyw : y * c.width_ = c.width_ * c.height_ := by rw [hn]; ring
    unfold RenderLoop
    rw [toSizeT_eq hnn (by omega), if_neg (by omega), intRange_empty (by omega)]
    simp
  | succ n ih =>
    intro fuel y os hy hn hf
    obtain ⟨m, rfl⟩ : ∃ m, fuel = m + 1 := ⟨fuel - 1, by omega⟩
    have hlen := hc.length_eq
    have hs := hc.size_lt
    have hnn : 0 ≤ y * c.width_ := mul_nonneg hy (le_of_lt hw)
    have hyH : y + 1 ≤ c.height_ := by push_cast at hn; omega
    have hlt : y * c.width_ < c.width_ * c.height_ := by
      have := mul_le_mul_of_nonneg_right hyH (le_of_lt hw)
      nlinarith
    unfold RenderLoop
    rw [toSizeT_eq hnn (by omega), if_pos (by omega)]
    have hnext : y * c.width_ + c.Width = (y + 1) * c.width_ := by unfold Width; ring
    rw [hnext, List.append_assoc, renderRow_eq, ih m (y + 1) _ (by omega)
      (by push_cast at hn ⊢; omega) (by omega), intRange_cons (show y ≤ c.height_ - 1 by omega)]
    simp

theorem length_rows (c : Canvas) (hw : 0 ≤ c.width_) (l : List Int) :
    ((l.flatMap c.rowText).length : Int) = l.length * (c.width_ + 1) := by
  induction l with
  | nil => simp
  | cons a l ih =>
    rw [List.flatMap_cons, List.length_append]
    push_cast
    rw [ih]
    simp only [rowText, List.length_append, List.length_map, length_intRange,
      List.length_singleton]
    push_cast
    have : ((c.width_ - 1 + 1 - 0).toNat : Int) = c.width_ := by omega
    rw [this]
    simp only [List.length_cons]
    push_cast
    ring

end Canvas

/-- C17 (where the stated form fails): a canvas of width 0 and height 3 has an empty
buffer, so the loop of `Render` over the buffer runs zero times and the output is
empty, whatever the fuel; it is never 3 newline characters. -/
theorem C17_render_zero_width_counterexample :
    (Canvas.new 0 3 '.').WF ∧
    (Canvas.new 0 3 '.').Render 1 = some [] ∧
    ¬ ∃ (fuel : Nat) (out : List Char), (Canvas.new 0 3 '.').Render fuel = some out ∧
      (out.length : Int) = (Canvas.new 0 3 '.').height_ * ((Canvas.new 0 3 '.').width_ + 1) := by
  refine ⟨⟨by decide, by decide, by decide, by decide⟩, by decide, ?_⟩
  rintro ⟨fuel, out, hrun, hlen⟩
  cases fuel with
  | zero => simp [Canvas.Render, Canvas.RenderLoop] at hrun
  | succ n =>
    have : (Canvas.new 0 3 '.').Render (n + 1) = some [] := by
      unfold Canvas.Render Canvas.RenderLoop
      rfl
    rw [this] at hrun
    have : out = [] := (Option.some.inj hrun).symm
    subst this
    simp [Canvas.new] at hlen

/-- C17 (amended): for a canvas with `W > 0`, `Render` emits exactly `H` lines, each the
`W` characters of one row in row-major order followed by a newline, `H * (W + 1)`
characters in all; for a canvas with `W = 0` it emits nothing. -/
theorem C17_render (c : Canvas) (hc : c.WF) (fuel : Nat) (hfuel : c.height_ + 1 ≤ (fuel : Int)) :
    (0 < c.width_ →
      c.Render fuel = some ((intRange 0 (c.height_ - 1)).flatMap c.rowText) ∧
      (((intRange 0 (c.height_ - 1)).flatMap c.rowText).length : Int)
        = c.height_ * (c.width_ + 1)) ∧
    (c.width_ = 0 → c.Render fuel = some []) := by
  have hH := hc.height_nonneg
  constructor
  · intro hw
    constructor
    · have := Canvas.renderLoop_rows hc hw c.height_.toNat fuel 0 [] (le_refl _) (by omega)
        (by omega)
      simp only [zero_mul, List.nil_append] at this
      exact this
    · rw [Canvas.length_rows c (le_of_lt hw), length_intRange]
      have : ((c.height_ - 1 + 1 - 0).toNat : Int) = c.height_ := by omega
      rw [this]
  · intro hw
    obtain ⟨m, rfl⟩ : ∃ m, fuel = m + 1 := ⟨fuel - 1, by omega⟩
    have hlen := hc.length_eq
    rw [hw] at hlen
    have hl0 : c.data_.length = 0 := by
      simp only [zero_mul] at hlen
      exact_mod_cast hlen
    unfold Canvas.Render Canvas.RenderLoop
    rw [if_neg (by rw [hl0]; exact Nat.not_lt_zero _)]

/-- C17 (amended) at a concrete input: a 3x2 canvas. -/
theorem C17_render_witness :
    (⟨3, 2, ' ', "ab#a.a".toList⟩ : Canvas).WF ∧
    (⟨3, 2, ' ', "ab#a.a".toList⟩ : Canvas).height_ + 1 ≤ ((3 : Nat) : Int) ∧
    ((0 < (⟨3, 2, ' ', "ab#a.a".toList⟩ : Canvas).width_ →
      (⟨3, 2, ' ', "ab#a.a".toList⟩ : Canvas).Render 3
        = some ((intRange 0 ((⟨3, 2, ' ', "ab#a.a".toList⟩ : Canvas).height_ - 1)).flatMap
            (⟨3, 2, ' ', "ab#a.a".toList⟩ : Canvas).rowText) ∧
      (((intRange 0 ((⟨3, 2, ' ', "ab#a.a".toList⟩ : Canvas).height_ - 1)).flatMap
          (⟨3, 2, ' ', "ab#a.a".toList⟩ : Canvas).rowText).length : Int)
        = (⟨3, 2, ' ', "ab#a.a".toList⟩ : Canvas).height_
          * ((⟨3, 2, ' ', "ab#a.a".toList⟩ : Canvas).width_ + 1)) ∧
    ((⟨3, 2, ' ', "ab#a.a".toList⟩ : Canvas).width_ = 0 →
      (⟨3, 2, ' ', "ab#a.a".toList⟩ : Canvas).Render 3 = some [])) :=
  ⟨⟨by decide, by decide, by decide, by decide⟩, by decide,
    C17_render ⟨3, 2, ' ', "ab#a.a".toList⟩ ⟨by decide, by decide, by decide, by decide⟩ 3
      (by decide)⟩

end plotter

/-! ## Circle stroke -/

namespace plotter
namespace Plotter

theorem draw_circle_points_eq (c : Canvas) (cx cy x y : Int) (brush : Char) :
    draw_circle_points c cx cy x y brush
      = plotAll c ((circleOffsets (x, y)).map (fun o => (cx + o.1, cy + o.2))) brush := by
  simp only [draw_circle_points, circleOffsets, List.map_cons, List.map_nil, plotAll_cons,
    plotAll_nil, sub_eq_add_neg]

theorem drawCircleLoop_eq_trace (cx cy : Int) (brush : Char) :
    ∀ (fuel : Nat) (c : Canvas) (x y d : Int),
      DrawCircleLoop fuel c cx cy x y d brush
        = (circleTrace fuel x y d).map (fun tr =>
            plotAll c ((tr.flatMap circleOffsets).map (fun o => (cx + o.1, cy + o.2))) brush) := by
  intro fuel
  induction fuel with
  | zero =>
    intro c x y d
    rw [DrawCircleLoop, circleTrace, Option.map_none']
  | succ n ih =>
    intro c x y d
    by_cases h : y ≥ x
    · rw [DrawCircleLoop, circleTrace, if_pos h, if_pos h]
      dsimp only
      rw [ih, draw_circle_points_eq, Option.map_map]
      generalize circleTrace n (x + 1) (if d > 0 then y - 1 else y)
          (if d > 0 then d + 4 * (x + 1 - (y - 1)) + 10 else d + 4 * (x + 1) + 6) = T
      cases T with
      | none => rw [Option.map_none', Option.map_none']
      | some tr =>
        rw [Option.map_some', Option.map_some', Function.comp, List.flatMap_cons,
          List.map_append, plotAll_append]
    · rw [DrawCircleLoop, circleTrace, if_neg h, if_neg h, Option.map_some',
        List.flatMap_nil, List.map_nil, plotAll_nil]

theorem circleTrace_terminates :
    ∀ (fuel : Nat) (x y d : Int), 1 ≤ fuel → y - x + 2 ≤ (fuel : Int) →
      ∃ tr, circleTrace fuel x y d = some tr := by
  intro fuel
  induction fuel with
  | zero => intro x y d h _; omega
  | succ n ih =>
    intro x y d _ hf
    unfold circleTrace
    by_cases h : y ≥ x
    · simp only [h, if_true]
      obtain ⟨tr, htr⟩ := ih (x + 1) (if d > 0 then y - 1 else y)
        (if d > 0 then d + 4 * (x + 1 - (y - 1)) + 10 else d + 4 * (x + 1) + 6)
        (by omega) (by split <;> omega)
      exact ⟨_, by rw [htr]; rfl⟩
    · simp only [h, if_false]
      exact ⟨[], rfl⟩

theorem circleOffsets_closed (p : Int × Int) (a b : Int) (h : (a, b) ∈ circleOffsets p) :
    (-a, b) ∈ circleOffsets p ∧ (a, -b) ∈ circleOffsets p ∧ (b, a) ∈ circleOffsets p := by
  simp only [circleOffsets, List.mem_cons, Prod.mk.injEq, List.mem_singleton,
    List.not_mem_nil, or_false] at h ⊢
  rcases h with h | h | h | h | h | h | h | h <;>
    (obtain ⟨rfl, rfl⟩ := h
     simp)

/-- The stroke of a circle: with enough fuel the loop returns, and the canvas is the
guarded write at the centre shifted by a list of offsets closed under the reflections. -/
theorem drawCircle_stroke (c : Canvas) (cx cy r : Int) (brush : Char) (fuel : Nat)
    (h1 : 1 ≤ fuel) (hfuel : r + 2 ≤ (fuel : Int)) :
    ∃ offs : List (Int × Int),
      DrawCircle fuel c cx cy r brush false
        = some (plotAll c (offs.map (fun o => (cx + o.1, cy + o.2))) brush) ∧
      (0, r) ∈ offs ∧
      ∀ a b, (a, b) ∈ offs → (-a, b) ∈ offs ∧ (a, -b) ∈ offs ∧ (b, a) ∈ offs := by
  obtain ⟨tr, htr⟩ := circleTrace_terminates fuel 0 r (3 - 2 * r) h1 (by omega)
  refine ⟨((0, r) :: tr).flatMap circleOffsets, ?_, ?_, ?_⟩
  · unfold DrawCircle DrawCircleBresenham
    simp only [Bool.false_eq_true, if_false]
    rw [drawCircleLoop_eq_trace, htr, draw_circle_points_eq]
    simp only [Option.map_some', List.flatMap_cons, List.map_append, plotAll_append]
  · simp [circleOffsets]
  · intro a b hab
    rw [List.mem_flatMap] at hab
    obtain ⟨p, hp, hab⟩ := hab
    obtain ⟨c1, c2, c3⟩ := circleOffsets_closed p a b hab
    exact ⟨List.mem_flatMap.2 ⟨p, hp, c1⟩, List.mem_flatMap.2 ⟨p, hp, c2⟩,
      List.mem_flatMap.2 ⟨p, hp, c3⟩⟩

end Plotter

/-- C12: the stroke of `DrawCircle` is 8-fold symmetric. For `r ≥ 0` and enough fuel the
stroke returns; the offsets `(a,b)` at which it targets the cell `(cx+a, cy+b)` are
closed under `(a,b) ↦ (-a,b)`, `(a,-b)` and `(b,a)`; hence on a canvas that held no
brush character and contains all eight reflected cells, `(cx+a, cy+b)` holds the brush
if and only if each of its reflections about the centre does. -/
theorem C12_circle_stroke_symmetric (c : Canvas) (hc : c.WF) (cx cy r : Int) (brush : Char)
    (hr : 0 ≤ r) (fuel : Nat) (hfuel : r + 2 ≤ (fuel : Int)) :
    ∃ (offs : List (Int × Int)) (c' : Canvas),
      Plotter.DrawCircle fuel c cx cy r brush false = some c' ∧
      c' = Plotter.plotAll c (offs.map (fun o => (cx + o.1, cy + o.2))) brush ∧
      (∀ a b, (a, b) ∈ offs → (-a, b) ∈ offs ∧ (a, -b) ∈ offs ∧ (b, a) ∈ offs) ∧
      ((∀ u v, c.InBounds u v = true → c.get u v ≠ brush) →
        ∀ a b,
          c.InBounds (cx + a) (cy + b) = true → c.InBounds (cx - a) (cy + b) = true →
          c.InBounds (cx + a) (cy - b) = true → c.InBounds (cx - a) (cy - b) = true →
          c.InBounds (cx + b) (cy + a) = true → c.InBounds (cx - b) (cy + a) = true →
          c.InBounds (cx + b) (cy - a) = true → c.InBounds (cx - b) (cy - a) = true →
          (c'.get (cx + a) (cy + b) = brush ↔
            (c'.get (cx - a) (cy + b) = brush ∧ c'.get (cx + a) (cy - b) = brush ∧
             c'.get (cx - a) (cy - b) = brush ∧ c'.get (cx + b) (cy + a) = brush ∧
             c'.get (cx - b) (cy + a) = brush ∧ c'.get (cx + b) (cy - a) = brush ∧
             c'.get (cx - b) (cy - a) = brush))) := by
  obtain ⟨offs, hrun, -, hclosed⟩ :=
    Plotter.drawCircle_stroke c cx cy r brush fuel (by omega) hfuel
  refine ⟨offs, _, hrun, rfl, hclosed, ?_⟩
  intro hfresh a b b1 b2 b3 b4 b5 b6 b7 b8
  -- a cell holds the brush exactly when its offset is targeted
  have key : ∀ p q, c.InBounds (cx + p) (cy + q) = true →
      ((Plotter.plotAll c (offs.map (fun o => (cx + o.1, cy + o.2))) brush).get (cx + p) (cy + q)
        = brush ↔ (p, q) ∈ offs) := by
    intro p q hb
    rw [Plotter.get_plotAll hc _ _ hb]
    have hmem : (cx + p, cy + q) ∈ offs.map (fun o => (cx + o.1, cy + o.2)) ↔ (p, q) ∈ offs := by
      simp only [List.mem_map, Prod.mk.injEq]
      constructor
      · rintro ⟨o, ho, e1, e2⟩
        have : o = (p, q) := Prod.ext (by simp only; omega) (by simp only; omega)
        rw [← this]; exact ho
      · intro h
        exact ⟨(p, q), h, rfl, rfl⟩
    by_cases h : (cx + p, cy + q) ∈ offs.map (fun o => (cx + o.1, cy + o.2))
    · rw [if_pos h]
      exact ⟨fun _ => hmem.1 h, fun _ => rfl⟩
    · rw [if_neg h]
      exact ⟨fun e => absurd e (hfresh _ _ hb), fun e => absurd (hmem.2 e) h⟩
  simp only [sub_eq_add_neg] at b2 b3 b4 b6 b7 b8 ⊢
  rw [key a b b1, key (-a) b b2, key a (-b) b3, key (-a) (-b) b4, key b a b5, key (-b) a b6,
    key b (-a) b7, key (-b) (-a) b8]
  constructor
  · intro h
    have r1 := hclosed a b h
    have r2 := hclosed (-a) b r1.1
    have r3 := hclosed b a r1.2.2
    have r4 := hclosed (-b) a r3.1
    exact ⟨r1.1, r1.2.1, r2.2.1, r1.2.2, r3.1, r3.2.1, r4.2.1⟩
  · rintro ⟨h, -⟩
    have := (hclosed (-a) b h).1
    simpa using this

/-- C12 at a concrete input: radius 3 around `(4,4)` on a 9x9 canvas. -/
theorem C12_circle_stroke_symmetric_witness :
    (Canvas.new 9 9 '.').WF ∧ (0 : Int) ≤ 3 ∧ (3 : Int) + 2 ≤ ((5 : Nat) : Int) ∧
    ∃ (offs : List (Int × Int)) (c' : Canvas),
      Plotter.DrawCircle 5 (Canvas.new 9 9 '.') 4 4 3 '#' false = some c' ∧
      c' = Plotter.plotAll (Canvas.new 9 9 '.') (offs.map (fun o => (4 + o.1, 4 + o.2))) '#' ∧
      (∀ a b, (a, b) ∈ offs → (-a, b) ∈ offs ∧ (a, -b) ∈ offs ∧ (b, a) ∈ offs) ∧
      ((∀ u v, (Canvas.new 9 9 '.').InBounds u v = true → (Canvas.new 9 9 '.').get u v ≠ '#') →
        ∀ a b,
          (Canvas.new 9 9 '.').InBounds (4 + a) (4 + b) = true →
          (Canvas.new 9 9 '.').InBounds (4 - a) (4 + b) = true →
          (Canvas.new 9 9 '.').InBounds (4 + a) (4 - b) = true →
          (Canvas.new 9 9 '.').InBounds (4 - a) (4 - b) = true →
          (Canvas.new 9 9 '.').InBounds (4 + b) (4 + a) = true →
          (Canvas.new 9 9 '.').InBounds (4 - b) (4 + a) = true →
          (Canvas.new 9 9 '.').InBounds (4 + b) (4 - a) = true →
          (Canvas.new 9 9 '.').InBounds (4 - b) (4 - a) = true →
          (c'.get (4 + a) (4 + b) = '#' ↔
            (c'.get (4 - a) (4 + b) = '#' ∧ c'.get (4 + a) (4 - b) = '#' ∧
             c'.get (4 - a) (4 - b) = '#' ∧ c'.get (4 + b) (4 + a) = '#' ∧
             c'.get (4 - b) (4 + a) = '#' ∧ c'.get (4 + b) (4 - a) = '#' ∧
             c'.get (4 - b) (4 - a) = '#'))) :=
  ⟨⟨by decide, by decide, by decide, by decide⟩, by decide, by decide,
    C12_circle_stroke_symmetric (Canvas.new 9 9 '.') ⟨by decide, by decide, by decide, by decide⟩
      4 4 3 '#' (by decide) 5 (by decide)⟩

end plotter

/-! ## The canvas invariant -/

namespace plotter

namespace Canvas

theorem sameShape_of_wf {c c' : Canvas} (h : c.WF) (h' : c'.WF) (hw : c'.width_ = c.width_)
    (hh : c'.height_ = c.height_) : c.SameShape c' := by
  refine ⟨hw, hh, ?_⟩
  have a := h.length_eq
  have b := h'.length_eq
  rw [hw, hh] at b
  omega

theorem toInt32_eq (n : Nat) (h : (n : Int) < 2 ^ 31) : toInt32 n = n := by
  unfold toInt32
  rw [Int.emod_eq_of_lt (by omega) (by omega)]
  ring

theorem fillRange_length {data d : List Char} {first last : Int} {v : Char}
    (h : fillRange data first last v = some d) : d.length = data.length := by
  unfold fillRange at h
  split at h
  · rename_i hcond
    have := Option.some.inj h
    rw [← this]
    simp only [List.length_append, List.length_take, List.length_replicate, List.length_drop]
    omega
  · exact absurd h (by simp)

theorem fillRegionLoop_zero (c : Canvas) (x1 y1 x2 y2 : Int) (v : Char) :
    FillRegionLoop 0 c x1 y1 x2 y2 v = some c := rfl

theorem fillRegionLoop_succ (n : Nat) (c : Canvas) (x1 y1 x2 y2 : Int) (v : Char) :
    FillRegionLoop (n + 1) c x1 y1 x2 y2 v
      = (fillRange c.data_ (toInt32 (c.CalculateShift x1 y1))
          (toInt32 (c.CalculateShift x2 y2 + 1)) v).bind
        (fun d => FillRegionLoop n { c with data_ := d } x1 (y1 + 1) x2 y2 v) := rfl

/-- A region fill that stays inside the buffer keeps the shape and the well-formedness. -/
theorem fillRegionLoop_shape :
    ∀ (n : Nat) (c c' : Canvas) (x1 y1 x2 y2 : Int) (v : Char), c.WF →
      FillRegionLoop n c x1 y1 x2 y2 v = some c' → c'.WF ∧ c.SameShape c' := by
  intro n
  induction n with
  | zero =>
    intro c c' x1 y1 x2 y2 v hc h
    rw [fillRegionLoop_zero] at h
    have := Option.some.inj h
    subst this
    exact ⟨hc, rfl, rfl, rfl⟩
  | succ n ih =>
    intro c c' x1 y1 x2 y2 v hc h
    rw [fillRegionLoop_succ] at h
    cases hd : fillRange c.data_ (toInt32 (c.CalculateShift x1 y1))
        (toInt32 (c.CalculateShift x2 y2 + 1)) v with
    | none =>
      rw [hd, Option.none_bind] at h
      exact absurd h (by simp)
    | some d =>
      rw [hd, Option.some_bind] at h
      have hlen := fillRange_length hd
      have hc1 : ({ c with data_ := d } : Canvas).WF :=
        ⟨hc.width_nonneg, hc.height_nonneg, hc.size_lt, by
          have := hc.length_eq
          simp only
          omega⟩
      obtain ⟨w, s1, s2, s3⟩ := ih _ c' x1 (y1 + 1) x2 y2 v hc1 h
      exact ⟨w, s1, s2, by rw [s3]; exact hlen⟩

end Canvas

namespace Plotter

/-- A loop of steps that keep the canvas well-formed with the same dimensions. -/
theorem foldl_keeps {α : Type} (step : Canvas → α → Canvas) (w h : Int)
    (hstep : ∀ (c : Canvas) (a : α), c.WF → c.width_ = w → c.height_ = h →
      (step c a).WF ∧ (step c a).width_ = w ∧ (step c a).height_ = h) :
    ∀ (l : List α) (c : Canvas), c.WF → c.width_ = w → c.height_ = h →
      (l.foldl step c).WF ∧ (l.foldl step c).width_ = w ∧ (l.foldl step c).height_ = h := by
  intro l
  induction l with
  | nil => intro c hc hw hh; exact ⟨hc, hw, hh⟩
  | cons a l ih =>
    intro c hc hw hh
    obtain ⟨s1, s2, s3⟩ := hstep c a hc hw hh
    exact ih _ s1 s2 s3

theorem fillTriangleStep_keeps (x1 y1 x2 y2 x3 y3 : Int) (brush : Char) (y : Int) (c : Canvas)
    (x : Int) (hc : c.WF) :
    (FillTriangleStep x1 y1 x2 y2 x3 y3 brush y c x).WF ∧
    (FillTriangleStep x1 y1 x2 y2 x3 y3 brush y c x).width_ = c.width_ ∧
    (FillTriangleStep x1 y1 x2 y2 x3 y3 brush y c x).height_ = c.height_ := by
  rw [fillTriangleStep_eq]
  split
  · exact ⟨plot_wf hc _ _ _, plot_width _ _ _ _, plot_height _ _ _ _⟩
  · exact ⟨hc, rfl, rfl⟩

theorem drawCircleFillStep_keeps (cx cy r : Int) (brush : Char) (y : Int) (c : Canvas)
    (x : Int) (hc : c.WF) :
    (DrawCircleFillStep cx cy r brush y c x).WF ∧
    (DrawCircleFillStep cx cy r brush y c x).width_ = c.width_ ∧
    (DrawCircleFillStep cx cy r brush y c x).height_ = c.height_ := by
  rw [drawCircleFillStep_eq]
  dsimp only
  split
  · exact ⟨plot_wf hc _ _ _, plot_width _ _ _ _, plot_height _ _ _ _⟩
  · exact ⟨hc, rfl, rfl⟩

/-- A line keeps the canvas well-formed with the same dimensions. -/
theorem drawLine_keeps {c : Canvas} (hc : c.WF) (x1 y1 x2 y2 : Int) (brush : Char) (fuel : Nat)
    (hfuel : |x2 - x1| + |y2 - y1| + 1 ≤ (fuel : Int)) :
    ∃ c', DrawLine fuel c x1 y1 x2 y2 brush = some c' ∧ c'.WF ∧
      c'.width_ = c.width_ ∧ c'.height_ = c.height_ := by
  obtain ⟨pts, hrun, -⟩ := drawLine_points c x1 y1 x2 y2 brush fuel hfuel
  exact ⟨_, hrun, plotAll_wf hc _ _, (plotAll_dims c pts brush).1, (plotAll_dims c pts brush).2.1⟩

end Plotter
end plotter
namespace plotter
namespace Canvas
/-- With both corners in bounds the region fill stays inside the buffer. -/
theorem fillRegionLoop_inBounds :
    ∀ (n : Nat) (c : Canvas) (x1 y1 x2 y2 : Int) (v : Char), c.WF →
      0 ≤ x1 → x1 < c.width_ → 0 ≤ y1 → c.InBounds x2 y2 = true → y1 + n ≤ y2 →
      ∃ c', FillRegionLoop n c x1 y1 x2 y2 v = some c' := by
  intro n
  induction n with
  | zero =>
    intro c x1 y1 x2 y2 v _ _ _ _ _ _
    exact ⟨c, fillRegionLoop_zero _ _ _ _ _ _⟩
  | succ n ih =>
    intro c x1 y1 x2 y2 v hc hx0 hx1 hy0 hb2 hn
    obtain ⟨a0, a1, b0, b1⟩ := (inBounds_iff c x2 y2).1 hb2
    have hb1 : c.InBounds x1 y1 = true := by
      rw [inBounds_iff]
      push_cast at hn
      omega
    have o1 := offset_bounds hc hb1
    have o2 := offset_bounds hc hb2
    have hs := hc.size_lt
    have hlen := hc.length_eq
    have hrow : (y1 + 1) * c.width_ ≤ y2 * c.width_ :=
      mul_le_mul_of_nonneg_right (by push_cast at hn; omega) hc.width_nonneg
    have hfill : ∃ d, fillRange c.data_ (x1 + y1 * c.width_) (x2 + y2 * c.width_ + 1) v
        = some d := by
      unfold fillRange
      rw [if_pos]
      · exact ⟨_, rfl⟩
      · have hexp : (y1 + 1) * c.width_ = y1 * c.width_ + c.width_ := by ring
        rw [hexp] at hrow
        exact ⟨o1.1, by omega, by omega⟩
    have e1 : toInt32 (c.CalculateShift x1 y1) = x1 + y1 * c.width_ := by
      rw [shift_eq hc hb1, toInt32_eq _ (by omega)]
      omega
    have e2 : toInt32 (c.CalculateShift x2 y2 + 1) = x2 + y2 * c.width_ + 1 := by
      rw [shift_eq hc hb2, toInt32_eq _ (by push_cast; omega)]
      push_cast
      omega
    obtain ⟨d, hd⟩ := hfill
    have hdl := fillRange_length hd
    have hc1 : ({ c with data_ := d } : Canvas).WF :=
      ⟨hc.width_nonneg, hc.height_nonneg, hc.size_lt, by simp only; omega⟩
    obtain ⟨c', hc'⟩ := ih { c with data_ := d } x1 (y1 + 1) x2 y2 v hc1 hx0 hx1 (by omega)
      hb2 (by push_cast at hn ⊢; omega)
    refine ⟨c', ?_⟩
    have hd' : fillRange c.data_ (toInt32 (c.CalculateShift x1 y1))
        (toInt32 (c.CalculateShift x2 y2 + 1)) v = some d :=
      (congrArg₂ (fun a b => fillRange c.data_ a b v) e1 e2).trans hd
    rw [fillRegionLoop_succ, hd', Option.some_bind]
    exact hc'

end Canvas
end plotter

namespace plotter
namespace Plotter

theorem preserved_of {c : Canvas} (hc : c.WF) {r : Option Canvas}
    (h : ∃ c', r = some c' ∧ c'.WF ∧ c'.width_ = c.width_ ∧ c'.height_ = c.height_) :
    c.Preserved r := by
  obtain ⟨c', e, w, a, b⟩ := h
  exact ⟨c', e, Canvas.sameShape_of_wf hc w a b⟩

/-- Both fills keep the canvas well-formed with the same dimensions, whatever the seed. -/
theorem floodFill_keeps {c : Canvas} (hc : c.WF) (x y : Int) (f : Char) (fuel : Nat)
    (hfuel : 4 * (c.width_ * c.height_) + 1 ≤ (fuel : Int)) :
    ∃ c', FloodFill fuel c x y f = some c' ∧ c'.WF ∧
      c'.width_ = c.width_ ∧ c'.height_ = c.height_ := by
  by_cases hb : c.InBounds x y = true
  · by_cases hf : f = c.get x y
    · refine ⟨c, ?_, hc, rfl, rfl⟩
      unfold FloodFill
      rw [if_neg (by simp [hb])]
      dsimp only
      rw [if_pos hf.symm]
    · obtain ⟨c', h, hd⟩ := floodFill_done hc hb hf fuel hfuel
      exact ⟨c', h, hd.state.wf, hd.state.width_eq, hd.state.height_eq⟩
  · refine ⟨c, ?_, hc, rfl, rfl⟩
    unfold FloodFill
    rw [if_pos (by simpa using hb)]

theorem scanlineFill_keeps {c : Canvas} (hc : c.WF) (x y : Int) (f : Char) (fuel : Nat)
    (hfuel : 2 * (c.width_ * c.height_) + c.width_ + 2 ≤ (fuel : Int)) :
    ∃ c', ScanlineFill fuel c x y f = some c' ∧ c'.WF ∧
      c'.width_ = c.width_ ∧ c'.height_ = c.height_ := by
  by_cases hb : c.InBounds x y = true
  · by_cases hf : f = c.get x y
    · refine ⟨c, ?_, hc, rfl, rfl⟩
      unfold ScanlineFill
      rw [if_neg (by simp [hb])]
      dsimp only
      rw [if_pos hf.symm]
    · obtain ⟨c', h, hd⟩ := scanlineFill_done hc hb hf fuel hfuel
      exact ⟨c', h, hd.state.wf, hd.state.width_eq, hd.state.height_eq⟩
  · refine ⟨c, ?_, hc, rfl, rfl⟩
    unfold ScanlineFill
    rw [if_pos (by simpa using hb)]

theorem fillTriangle_keeps {c : Canvas} (hc : c.WF) (x1 y1 x2 y2 x3 y3 : Int) (brush : Char) :
    (FillTriangle c x1 y1 x2 y2 x3 y3 brush).WF ∧
    (FillTriangle c x1 y1 x2 y2 x3 y3 brush).width_ = c.width_ ∧
    (FillTriangle c x1 y1 x2 y2 x3 y3 brush).height_ = c.height_ := by
  unfold FillTriangle
  dsimp only
  refine foldl_keeps _ c.width_ c.height_ ?_ _ c hc rfl rfl
  intro r y hr hw hh
  refine foldl_keeps _ c.width_ c.height_ ?_ _ r hr hw hh
  intro r' x hr' hw' hh'
  obtain ⟨s1, s2, s3⟩ := fillTriangleStep_keeps x1 y1 x2 y2 x3 y3 brush y r' x hr'
  exact ⟨s1, s2.trans hw', s3.trans hh'⟩

theorem drawCircle_fill_keeps {c : Canvas} (hc : c.WF) (cx cy r : Int) (brush : Char)
    (fuel : Nat) :
    ∃ c', DrawCircle fuel c cx cy r brush true = some c' ∧ c'.WF ∧
      c'.width_ = c.width_ ∧ c'.height_ = c.height_ := by
  unfold DrawCircle
  rw [if_pos rfl]
  refine ⟨_, rfl, ?_⟩
  refine foldl_keeps _ c.width_ c.height_ ?_ _ c hc rfl rfl
  intro r0 y hr hw hh
  refine foldl_keeps _ c.width_ c.height_ ?_ _ r0 hr hw hh
  intro r' x hr' hw' hh'
  obtain ⟨s1, s2, s3⟩ := drawCircleFillStep_keeps cx cy r brush y r' x hr'
  exact ⟨s1, s2.trans hw', s3.trans hh'⟩

theorem drawCircle_stroke_keeps {c : Canvas} (hc : c.WF) (cx cy r : Int) (brush : Char)
    (fuel : Nat) (h1 : 1 ≤ fuel) (hfuel : r + 2 ≤ (fuel : Int)) :
    ∃ c', DrawCircle fuel c cx cy r brush false = some c' ∧ c'.WF ∧
      c'.width_ = c.width_ ∧ c'.height_ = c.height_ := by
  obtain ⟨offs, hrun, -⟩ := drawCircle_stroke c cx cy r brush fuel h1 hfuel
  exact ⟨_, hrun, plotAll_wf hc _ _, (plotAll_dims c _ brush).1, (plotAll_dims c _ brush).2.1⟩

theorem pasteRegion_keeps {c region : Canvas} (hc : c.WF) (hr : region.WF) (x y : Int) :
    ∃ c', PasteRegion c region x y = .ok c' ∧ c'.WF ∧
      c'.width_ = c.width_ ∧ c'.height_ = c.height_ := by
  refine ⟨_, pasteRegion_eq hr c x y, ?_⟩
  refine foldl_keeps _ c.width_ c.height_ ?_ _ c hc rfl rfl
  intro r p hr' hw hh
  exact ⟨plot_wf hr' _ _ _, (plot_width _ _ _ _).trans hw, (plot_height _ _ _ _).trans hh⟩

/-- The four lines of a rectangle outline keep the canvas well-formed with the same
dimensions. -/
theorem drawRectangle_stroke_keeps {c : Canvas} (hc : c.WF) (x1 y1 x2 y2 : Int) (brush : Char)
    (fuel : Nat) (hfuel : |x2 - x1| + |y2 - y1| + 1 ≤ (fuel : Int)) :
    ∃ c', DrawRectangle fuel c x1 y1 x2 y2 brush false = some c' ∧ c'.WF ∧
      c'.width_ = c.width_ ∧ c'.height_ = c.height_ := by
  have hA := abs_nonneg (x2 - x1)
  have hB := abs_nonneg (y2 - y1)
  have eA : |x1 - x2| = |x2 - x1| := abs_sub_comm _ _
  have eB : |y1 - y2| = |y2 - y1| := abs_sub_comm _ _
  obtain ⟨c1, r1, w1, a1, b1⟩ := drawLine_keeps hc x1 y1 x2 y1 brush fuel
    (by rw [sub_self, abs_zero]; omega)
  obtain ⟨c2, r2, w2, a2, b2⟩ := drawLine_keeps w1 x2 y1 x2 y2 brush fuel
    (by rw [sub_self, abs_zero]; omega)
  obtain ⟨c3, r3, w3, a3, b3⟩ := drawLine_keeps w2 x2 y2 x1 y2 brush fuel
    (by rw [sub_self, abs_zero, eA]; omega)
  obtain ⟨c4, r4, w4, a4, b4⟩ := drawLine_keeps w3 x1 y2 x1 y1 brush fuel
    (by rw [sub_self, abs_zero, eB]; omega)
  refine ⟨c4, ?_, w4, by rw [a4, a3, a2, a1], by rw [b4, b3, b2, b1]⟩
  unfold DrawRectangle
  rw [if_neg (by decide), r1, Option.some_bind, r2, Option.some_bind, r3, Option.some_bind, r4]

theorem drawTriangle_stroke_keeps {c : Canvas} (hc : c.WF) (x1 y1 x2 y2 x3 y3 : Int)
    (brush : Char) (fuel : Nat)
    (h12 : |x2 - x1| + |y2 - y1| + 1 ≤ (fuel : Int))
    (h23 : |x3 - x2| + |y3 - y2| + 1 ≤ (fuel : Int))
    (h31 : |x1 - x3| + |y1 - y3| + 1 ≤ (fuel : Int)) :
    ∃ c', DrawTriangle fuel c x1 y1 x2 y2 x3 y3 brush false = some c' ∧ c'.WF ∧
      c'.width_ = c.width_ ∧ c'.height_ = c.height_ := by
  obtain ⟨c1, r1, w1, a1, b1⟩ := drawLine_keeps hc x1 y1 x2 y2 brush fuel h12
  obtain ⟨c2, r2, w2, a2, b2⟩ := drawLine_keeps w1 x2 y2 x3 y3 brush fuel h23
  obtain ⟨c3, r3, w3, a3, b3⟩ := drawLine_keeps w2 x3 y3 x1 y1 brush fuel h31
  refine ⟨c3, ?_, w3, by rw [a3, a2, a1], by rw [b3, b2, b1]⟩
  unfold DrawTriangle
  rw [if_neg (by decide), r1, Option.some_bind, r2, Option.some_bind, r3]

/-- A region fill whose two corners are in bounds returns a canvas of the same shape. -/
theorem fillRegion_keeps {c : Canvas} (hc : c.WF) (x1 y1 x2 y2 : Int) (v : Char)
    (h1 : c.InBounds x1 y1 = true) (h2 : c.InBounds x2 y2 = true) :
    ∃ c', c.FillRegion x1 y1 x2 y2 v = some c' ∧ c'.WF ∧
      c'.width_ = c.width_ ∧ c'.height_ = c.height_ := by
  obtain ⟨p0, p1, q0, q1⟩ := (Canvas.inBounds_iff c x1 y1).1 h1
  by_cases hy : y1 ≤ y2
  · obtain ⟨c', hrun⟩ := Canvas.fillRegionLoop_inBounds (y2 - y1).toNat c x1 y1 x2 y2 v hc
      p0 p1 q0 h2 (by omega)
    obtain ⟨w, s1, s2, -⟩ := Canvas.fillRegionLoop_shape _ c c' x1 y1 x2 y2 v hc hrun
    exact ⟨c', hrun, w, s1, s2⟩
  · refine ⟨c, ?_, hc, rfl, rfl⟩
    have e : (y2 - y1).toNat = 0 := by omega
    unfold Canvas.FillRegion
    rw [e, Canvas.fillRegionLoop_zero]

end Plotter

/-- C18: a canvas built with `W ≥ 0` and `H ≥ 0` has a buffer of exactly `W * H` cells,
and every mutating operation returns a canvas with the width, the height and the buffer
length of the canvas it was applied to: `Clear`, `FillRegion` with both corners in
bounds, `DrawLine`, the `DrawRectangle` outline, `DrawTriangle` (filled and outline),
`DrawCircle` (filled and outline), `FloodFill`, `ScanlineFill` and `PasteRegion`. The
loops are given the fuel with which they are shown to terminate. -/
theorem C18_canvas_invariant (c : Canvas) (hc : c.WF) :
    (∀ (W H : Int) (bg : Char), 0 ≤ W → 0 ≤ H →
      (Canvas.new W H bg).Width = W ∧ (Canvas.new W H bg).Height = H ∧
      ((Canvas.new W H bg).data_.length : Int) = W * H) ∧
    (∀ ch, c.SameShape (c.Clear ch)) ∧
    (∀ x1 y1 x2 y2 ch, c.InBounds x1 y1 = true → c.InBounds x2 y2 = true →
      c.Preserved (c.FillRegion x1 y1 x2 y2 ch)) ∧
    (∀ x1 y1 x2 y2 brush (fuel : Nat), |x2 - x1| + |y2 - y1| + 1 ≤ (fuel : Int) →
      c.Preserved (Plotter.DrawLine fuel c x1 y1 x2 y2 brush)) ∧
    (∀ x1 y1 x2 y2 brush (fuel : Nat), |x2 - x1| + |y2 - y1| + 1 ≤ (fuel : Int) →
      c.Preserved (Plotter.DrawRectangle fuel c x1 y1 x2 y2 brush false)) ∧
    (∀ x1 y1 x2 y2 x3 y3 brush (fuel : Nat),
      c.Preserved (Plotter.DrawTriangle fuel c x1 y1 x2 y2 x3 y3 brush true)) ∧
    (∀ x1 y1 x2 y2 x3 y3 brush (fuel : Nat),
      |x2 - x1| + |y2 - y1| + 1 ≤ (fuel : Int) → |x3 - x2| + |y3 - y2| + 1 ≤ (fuel : Int) →
      |x1 - x3| + |y1 - y3| + 1 ≤ (fuel : Int) →
      c.Preserved (Plotter.DrawTriangle fuel c x1 y1 x2 y2 x3 y3 brush false)) ∧
    (∀ cx cy r brush (fuel : Nat),
      c.Preserved (Plotter.DrawCircle fuel c cx cy r brush true)) ∧
    (∀ cx cy r brush (fuel : Nat), 1 ≤ fuel → r + 2 ≤ (fuel : Int) →
      c.Preserved (Plotter.DrawCircle fuel c cx cy r brush false)) ∧
    (∀ x y f (fuel : Nat), 4 * (c.width_ * c.height_) + 1 ≤ (fuel : Int) →
      c.Preserved (Plotter.FloodFill fuel c x y f)) ∧
    (∀ x y f (fuel : Nat), 2 * (c.width_ * c.height_) + c.width_ + 2 ≤ (fuel : Int) →
      c.Preserved (Plotter.ScanlineFill fuel c x y f)) ∧
    (∀ (region : Canvas) x y, region.WF →
      ∃ c', Plotter.PasteRegion c region x y = .ok c' ∧ c.SameShape c') := by
  refine ⟨?_, ?_, ?_, ?_, ?_, ?_, ?_, ?_, ?_, ?_, ?_, ?_⟩
  · intro W H bg hW hH
    refine ⟨rfl, rfl, ?_⟩
    have := mul_nonneg hW hH
    simp only [Canvas.new, List.length_replicate]
    omega
  · intro ch
    exact ⟨rfl, rfl, by simp [Canvas.Clear]⟩
  · intro x1 y1 x2 y2 ch h1 h2
    exact Plotter.preserved_of hc (Plotter.fillRegion_keeps hc x1 y1 x2 y2 ch h1 h2)
  · intro x1 y1 x2 y2 brush fuel hf
    exact Plotter.preserved_of hc (Plotter.drawLine_keeps hc x1 y1 x2 y2 brush fuel hf)
  · intro x1 y1 x2 y2 brush fuel hf
    exact Plotter.preserved_of hc (Plotter.drawRectangle_stroke_keeps hc x1 y1 x2 y2 brush fuel hf)
  · intro x1 y1 x2 y2 x3 y3 brush fuel
    refine Plotter.preserved_of hc ⟨_, ?_, Plotter.fillTriangle_keeps hc x1 y1 x2 y2 x3 y3 brush⟩
    unfold Plotter.DrawTriangle
    rw [if_pos rfl]
  · intro x1 y1 x2 y2 x3 y3 brush fuel h12 h23 h31
    exact Plotter.preserved_of hc
      (Plotter.drawTriangle_stroke_keeps hc x1 y1 x2 y2 x3 y3 brush fuel h12 h23 h31)
  · intro cx cy r brush fuel
    exact Plotter.preserved_of hc (Plotter.drawCircle_fill_keeps hc cx cy r brush fuel)
  · intro cx cy r brush fuel h1 hf
    exact Plotter.preserved_of hc (Plotter.drawCircle_stroke_keeps hc cx cy r brush fuel h1 hf)
  · intro x y f fuel hf
    exact Plotter.preserved_of hc (Plotter.floodFill_keeps hc x y f fuel hf)
  · intro x y f fuel hf
    exact Plotter.preserved_of hc (Plotter.scanlineFill_keeps hc x y f fuel hf)
  · intro region x y hr
    obtain ⟨c', h, w, a, b⟩ := Plotter.pasteRegion_keeps hc hr x y
    exact ⟨c', h, Canvas.sameShape_of_wf hc w a b⟩

/-- C18 at a concrete input: the 4x3 canvas of dots. -/
theorem C18_canvas_invariant_witness :
    (Canvas.new 4 3 '.').WF ∧ ((∀ (W H : Int) (bg : Char), 0 ≤ W → 0 ≤ H →
      (Canvas.new W H bg).Width = W ∧ (Canvas.new W H bg).Height = H ∧
      ((Canvas.new W H bg).data_.length : Int) = W * H) ∧
    (∀ ch, (Canvas.new 4 3 '.').SameShape ((Canvas.new 4 3 '.').Clear ch)) ∧
    (∀ x1 y1 x2 y2 ch, (Canvas.new 4 3 '.').InBounds x1 y1 = true → (Canvas.new 4 3 '.').InBounds x2 y2 = true →
      (Canvas.new 4 3 '.').Preserved ((Canvas.new 4 3 '.').FillRegion x1 y1 x2 y2 ch)) ∧
    (∀ x1 y1 x2 y2 brush (fuel : Nat), |x2 - x1| + |y2 - y1| + 1 ≤ (fuel : Int) →
      (Canvas.new 4 3 '.').Preserved (Plotter.DrawLine fuel (Canvas.new 4 3 '.') x1 y1 x2 y2 brush)) ∧
    (∀ x1 y1 x2 y2 brush (fuel : Nat), |x2 - x1| + |y2 - y1| + 1 ≤ (fuel : Int) →
      (Canvas.new 4 3 '.').Preserved (Plotter.DrawRectangle fuel (Canvas.new 4 3 '.') x1 y1 x2 y2 brush false)) ∧
    (∀ x1 y1 x2 y2 x3 y3 brush (fuel : Nat),
      (Canvas.new 4 3 '.').Preserved (Plotter.DrawTriangle fuel (Canvas.new 4 3 '.') x1 y1 x2 y2 x3 y3 brush true)) ∧
    (∀ x1 y1 x2 y2 x3 y3 brush (fuel : Nat),
      |x2 - x1| + |y2 - y1| + 1 ≤ (fuel : Int) → |x3 - x2| + |y3 - y2| + 1 ≤ (fuel : Int) →
      |x1 - x3| + |y1 - y3| + 1 ≤ (fuel : Int) →
      (Canvas.new 4 3 '.').Preserved (Plotter.DrawTriangle fuel (Canvas.new 4 3 '.') x1 y1 x2 y2 x3 y3 brush false)) ∧
    (∀ cx cy r brush (fuel : Nat),
      (Canvas.new 4 3 '.').Preserved (Plotter.DrawCircle fuel (Canvas.new 4 3 '.') cx cy r brush true)) ∧
    (∀ cx cy r brush (fuel : Nat), 1 ≤ fuel → r + 2 ≤ (fuel : Int) →
      (Canvas.new 4 3 '.').Preserved (Plotter.DrawCircle fuel (Canvas.new 4 3 '.') cx cy r brush false)) ∧
    (∀ x y f (fuel : Nat), 4 * ((Canvas.new 4 3 '.').width_ * (Canvas.new 4 3 '.').height_) + 1 ≤ (fuel : Int) →
      (Canvas.new 4 3 '.').Preserved (Plotter.FloodFill fuel (Canvas.new 4 3 '.') x y f)) ∧
    (∀ x y f (fuel : Nat), 2 * ((Canvas.new 4 3 '.').width_ * (Canvas.new 4 3 '.').height_) + (Canvas.new 4 3 '.').width_ + 2 ≤ (fuel : Int) →
      (Canvas.new 4 3 '.').Preserved (Plotter.ScanlineFill fuel (Canvas.new 4 3 '.') x y f)) ∧
    (∀ (region : Canvas) x y, region.WF →
      ∃ c', Plotter.PasteRegion (Canvas.new 4 3 '.') region x y = .ok c' ∧ (Canvas.new 4 3 '.').SameShape c')) :=
  ⟨⟨by decide, by decide, by decide, by decide⟩,
    C18_canvas_invariant (Canvas.new 4 3 '.') ⟨by decide, by decide, by decide, by decide⟩⟩

end plotter

/-! ## Brightness and palette -/

namespace plotter
namespace GrayscalePlotter

theorem lastIndex_eq {p : List Char} (h1 : 1 ≤ p.length) (h2 : (p.length : Int) ≤ 2 ^ 31) :
    lastIndex p = (p.length : Int) - 1 := by
  unfold lastIndex
  exact Int.emod_eq_of_lt (by omega) (by omega)

theorem lastIndex_cast {p : List Char} (h1 : 1 ≤ p.length) (h2 : (p.length : Int) ≤ 2 ^ 31) :
    ((lastIndex p : Int) : ℚ) = (p.length : ℚ) - 1 := by
  rw [lastIndex_eq h1 h2]
  push_cast
  ring

/-- For a brightness in `[0, 1]` the index `⌊b * (N - 1)⌋` lies in `[0, N - 1]`. -/
theorem floor_index_bounds (n : Nat) (h1 : 1 ≤ n) {b : ℚ} (hb0 : 0 ≤ b) (hb1 : b ≤ 1) :
    0 ≤ ⌊b * ((n : ℚ) - 1)⌋ ∧ ⌊b * ((n : ℚ) - 1)⌋ ≤ (n : Int) - 1 := by
  have hn : (0 : ℚ) ≤ (n : ℚ) - 1 := by
    have : (1 : ℚ) ≤ (n : ℚ) := by exact_mod_cast h1
    linarith
  constructor
  · exact Int.floor_nonneg.2 (mul_nonneg hb0 hn)
  · have hle : b * ((n : ℚ) - 1) ≤ (((n : Int) - 1 : Int) : ℚ) := by
      push_cast
      nlinarith
    have := Int.floor_le_floor hle
    rwa [Int.floor_intCast] at this

/-- The lookup for a brightness in `[0, 1]`: the entry at `⌊b * (N - 1)⌋`. -/
theorem brightnessToChar_eq {p : List Char} (h1 : 1 ≤ p.length) (h2 : (p.length : Int) ≤ 2 ^ 31)
    {b : ℚ} (hb0 : 0 ≤ b) (hb1 : b ≤ 1) :
    BrightnessToChar p b = p[(⌊b * ((p.length : ℚ) - 1)⌋).toNat]? := by
  obtain ⟨f0, f1⟩ := floor_index_bounds p.length h1 hb0 hb1
  have hn : (0 : ℚ) ≤ (p.length : ℚ) - 1 := by
    have : (1 : ℚ) ≤ (p.length : ℚ) := by exact_mod_cast h1
    linarith
  unfold BrightnessToChar
  dsimp only
  rw [lastIndex_cast h1 h2]
  have ht : truncToInt (b * ((p.length : ℚ) - 1)) = ⌊b * ((p.length : ℚ) - 1)⌋ :=
    if_pos (mul_nonneg hb0 hn)
  rw [ht, if_pos ⟨by omega, by omega⟩, Canvas.toSizeT_eq f0 (by omega)]

theorem brightnessToChar_some {p : List Char} (h1 : 1 ≤ p.length)
    (h2 : (p.length : Int) ≤ 2 ^ 31) {b : ℚ} (hb0 : 0 ≤ b) (hb1 : b ≤ 1) :
    ∃ ch, BrightnessToChar p b = some ch ∧ p[(⌊b * ((p.length : ℚ) - 1)⌋).toNat]? = some ch := by
  obtain ⟨f0, f1⟩ := floor_index_bounds p.length h1 hb0 hb1
  have hlt : (⌊b * ((p.length : ℚ) - 1)⌋).toNat < p.length := by omega
  refine ⟨p[(⌊b * ((p.length : ℚ) - 1)⌋).toNat], ?_, ?_⟩
  · rw [brightnessToChar_eq h1 h2 hb0 hb1]
    exact List.getElem?_eq_getElem hlt
  · exact List.getElem?_eq_getElem hlt

end GrayscalePlotter

/-- C20: for a palette of `N ≥ 1` entries (at most `2 ^ 31`, so that the index fits an
`int`) and a brightness `0 ≤ b ≤ 1`, `BrightnessToChar(b)` returns the palette entry at
index `⌊b * (N - 1)⌋`, and that index lies in `[0, N - 1]`: the palette is never indexed
out of range. `b = 0` yields the first entry and `b = 1` the last. -/
theorem C20_brightnessToChar (palette : List Char) (b : ℚ) (hN : 1 ≤ palette.length)
    (hsize : (palette.length : Int) ≤ 2 ^ 31) (hb0 : 0 ≤ b) (hb1 : b ≤ 1) :
    (∃ ch, GrayscalePlotter.BrightnessToChar palette b = some ch ∧
      palette[(⌊b * ((palette.length : ℚ) - 1)⌋).toNat]? = some ch) ∧
    0 ≤ ⌊b * ((palette.length : ℚ) - 1)⌋ ∧
    ⌊b * ((palette.length : ℚ) - 1)⌋ ≤ (palette.length : Int) - 1 ∧
    (b = 0 → GrayscalePlotter.BrightnessToChar palette b = palette[0]?) ∧
    (b = 1 → GrayscalePlotter.BrightnessToChar palette b = palette[palette.length - 1]?) := by
  obtain ⟨f0, f1⟩ := GrayscalePlotter.floor_index_bounds palette.length hN hb0 hb1
  refine ⟨GrayscalePlotter.brightnessToChar_some hN hsize hb0 hb1, f0, f1, ?_, ?_⟩
  · intro h
    rw [GrayscalePlotter.brightnessToChar_eq hN hsize hb0 hb1, h]
    simp
  · intro h
    rw [GrayscalePlotter.brightnessToChar_eq hN hsize hb0 hb1, h]
    have e : ⌊(1 : ℚ) * ((palette.length : ℚ) - 1)⌋ = (palette.length : Int) - 1 := by
      rw [one_mul]
      have : ((palette.length : ℚ) - 1) = (((palette.length : Int) - 1 : Int) : ℚ) := by
        push_cast; ring
      rw [this, Int.floor_intCast]
    rw [e]
    congr 1
    omega

/-- C20 at a concrete input: the ten-entry default palette at brightness 1/2. -/
theorem C20_brightnessToChar_witness :
    1 ≤ [' ', '.', ':', '-', '=', '+', '*', '#', '%', '@'].length ∧
    (([' ', '.', ':', '-', '=', '+', '*', '#', '%', '@'].length : Nat) : Int) ≤ 2 ^ 31 ∧
    (0 : ℚ) ≤ 1 / 2 ∧ (1 / 2 : ℚ) ≤ 1 ∧
    ((∃ ch, GrayscalePlotter.BrightnessToChar
        [' ', '.', ':', '-', '=', '+', '*', '#', '%', '@'] (1 / 2) = some ch ∧
      [' ', '.', ':', '-', '=', '+', '*', '#', '%', '@'][(⌊(1 / 2 : ℚ) *
        ((([' ', '.', ':', '-', '=', '+', '*', '#', '%', '@'].length : Nat) : ℚ) - 1)⌋).toNat]?
          = some ch) ∧
    0 ≤ ⌊(1 / 2 : ℚ) *
        ((([' ', '.', ':', '-', '=', '+', '*', '#', '%', '@'].length : Nat) : ℚ) - 1)⌋ ∧
    ⌊(1 / 2 : ℚ) * ((([' ', '.', ':', '-', '=', '+', '*', '#', '%', '@'].length : Nat) : ℚ) - 1)⌋
      ≤ (([' ', '.', ':', '-', '=', '+', '*', '#', '%', '@'].length : Nat) : Int) - 1 ∧
    ((1 / 2 : ℚ) = 0 → GrayscalePlotter.BrightnessToChar
        [' ', '.', ':', '-', '=', '+', '*', '#', '%', '@'] (1 / 2)
      = [' ', '.', ':', '-', '=', '+', '*', '#', '%', '@'][0]?) ∧
    ((1 / 2 : ℚ) = 1 → GrayscalePlotter.BrightnessToChar
        [' ', '.', ':', '-', '=', '+', '*', '#', '%', '@'] (1 / 2)
      = [' ', '.', ':', '-', '=', '+', '*', '#', '%', '@'][
          [' ', '.', ':', '-', '=', '+', '*', '#', '%', '@'].length - 1]?)) :=
  ⟨by decide, by simp, by norm_num, by norm_num,
    C20_brightnessToChar [' ', '.', ':', '-', '=', '+', '*', '#', '%', '@'] (1 / 2)
      (by decide) (by simp) (by norm_num) (by norm_num)⟩

end plotter

/-! ## The inverse mapping from characters to brightness -/

namespace plotter

theorem getElem?_intRange (lo hi : Int) (k : Nat) (h : (k : Int) ≤ hi - lo) :
    (intRange lo hi)[k]? = some (lo + k) := by
  unfold intRange
  rw [List.getElem?_map, List.getElem?_range (by omega)]
  rfl

namespace GrayscalePlotter

theorem mapFind_mapAssign (m : List (Char × ℚ)) (k : Char) (v : ℚ) (c : Char) :
    mapFind (mapAssign m k v) c = if c = k then some v else mapFind m c := by
  induction m with
  | nil => simp [mapAssign, mapFind]
  | cons e rest ih =>
    obtain ⟨k', v'⟩ := e
    unfold mapAssign
    by_cases h1 : k < k'
    · rw [if_pos h1]
      simp [mapFind]
    · rw [if_neg h1]
      by_cases h2 : k = k'
      · rw [if_pos h2]
        subst h2
        by_cases h3 : c = k
        · simp [mapFind, h3]
        · simp [mapFind, h3]
      · rw [if_neg h2]
        by_cases h3 : c = k'
        · have h4 : c ≠ k := fun e => h2 (e ▸ h3)
          simp [mapFind, h3, Ne.symm h2]
        · simp [mapFind, h3, ih]

/-- The map after the first `n` iterations of the loop that builds `char_to_brightness`:
a character is mapped to the quotient for the largest index below `n` that holds it. -/
theorem charToBrightness_fold (p : List Char) (d : ℚ) (c : Char) (n : Nat) :
    ((∀ i, i < n → p.getD i ' ' ≠ c) →
      mapFind ((List.range n).foldl
        (fun m i => mapAssign m (p.getD i ' ') ((i : ℚ) / d)) []) c = none) ∧
    (∀ i, i < n → p.getD i ' ' = c → (∀ j, i < j → j < n → p.getD j ' ' ≠ c) →
      mapFind ((List.range n).foldl
        (fun m i => mapAssign m (p.getD i ' ') ((i : ℚ) / d)) []) c = some ((i : ℚ) / d)) := by
  induction n with
  | zero =>
    constructor
    · intro _; rfl
    · intro i hi; omega
  | succ n ih =>
    rw [List.range_succ, List.foldl_append, List.foldl_cons, List.foldl_nil, mapFind_mapAssign]
    constructor
    · intro hno
      rw [if_neg (fun e => hno n (by omega) e.symm)]
      exact ih.1 (fun i hi => hno i (by omega))
    · intro i hi hc hlast
      by_cases hin : i = n
      · subst hin
        rw [if_pos hc.symm]
      · rw [if_neg (fun e => hlast n (by omega) (by omega) e.symm)]
        exact ih.2 i (by omega) hc (fun j h1 h2 => hlast j h1 (by omega))

/-- A character at index `i` of the palette and at no later index reads as `i / (N - 1)`. -/
theorem brightnessOf_last {p : List Char} (h1 : 1 ≤ p.length) (h2 : (p.length : Int) ≤ 2 ^ 31)
    {ch : Char} {i : Nat} (hi : i < p.length) (hch : p[i]? = some ch)
    (hlast : ∀ j, i < j → j < p.length → p[j]? ≠ some ch) :
    brightnessOf p ch = (i : ℚ) / ((p.length : ℚ) - 1) := by
  have key := (charToBrightness_fold p ((lastIndex p : Int) : ℚ) ch p.length).2 i hi
    (by rw [List.getD_eq_getElem?_getD, hch]; rfl)
    (by
      intro j hj1 hj2 e
      apply hlast j hj1 hj2
      rw [List.getElem?_eq_getElem hj2]
      rw [List.getD_eq_getElem?_getD, List.getElem?_eq_getElem hj2] at e
      exact congrArg some e)
  unfold brightnessOf CharToBrightness
  rw [key, lastIndex_cast h1 h2]

/-- A character that is not in the palette reads as 0. -/
theorem brightnessOf_absent {p : List Char} {ch : Char} (h : ch ∉ p) : brightnessOf p ch = 0 := by
  have key := (charToBrightness_fold p ((lastIndex p : Int) : ℚ) ch p.length).1
    (by
      intro i hi e
      apply h
      rw [List.getD_eq_getElem?_getD, List.getElem?_eq_getElem hi] at e
      have : p[i] = ch := e
      rw [← this]
      exact List.getElem_mem hi)
  unfold brightnessOf CharToBrightness
  rw [key]

/-- Every character of the palette has a last index. -/
theorem exists_last_index {p : List Char} {ch : Char} (h : ch ∈ p) :
    ∃ i, i < p.length ∧ p[i]? = some ch ∧ ∀ j, i < j → j < p.length → p[j]? ≠ some ch := by
  induction p with
  | nil => exact absurd h (List.not_mem_nil _)
  | cons a rest ih =>
    by_cases hr : ch ∈ rest
    · obtain ⟨i, hi, hch, hlast⟩ := ih hr
      refine ⟨i + 1, by simp only [List.length_cons]; omega, by simpa using hch, ?_⟩
      intro j hj1 hj2
      obtain ⟨j', rfl⟩ : ∃ j', j = j' + 1 := ⟨j - 1, by omega⟩
      simp only [List.length_cons] at hj2
      simpa using hlast j' (by omega) (by omega)
    · have ha : a = ch := by
        rcases List.mem_cons.1 h with e | e
        · exact e.symm
        · exact absurd e hr
      refine ⟨0, by simp, by simp [ha], ?_⟩
      intro j hj1 hj2 e
      obtain ⟨j', rfl⟩ : ∃ j', j = j' + 1 := ⟨j - 1, by omega⟩
      apply hr
      rw [List.getElem?_cons_succ] at e
      exact List.getElem?_mem e

/-- The brightness read for any character lies in `[0, 1]`. -/
theorem brightnessOf_bounds {p : List Char} (h1 : 2 ≤ p.length) (h2 : (p.length : Int) ≤ 2 ^ 31)
    (ch : Char) : 0 ≤ brightnessOf p ch ∧ brightnessOf p ch ≤ 1 := by
  have hn : (0 : ℚ) < (p.length : ℚ) - 1 := by
    have : (2 : ℚ) ≤ (p.length : ℚ) := by exact_mod_cast h1
    linarith
  by_cases h : ch ∈ p
  · obtain ⟨i, hi, hch, hlast⟩ := exists_last_index h
    rw [brightnessOf_last (by omega) h2 hi hch hlast]
    constructor
    · exact div_nonneg (by positivity) hn.le
    · rw [div_le_one hn]
      have : ((i : ℚ) + 1) ≤ (p.length : ℚ) := by exact_mod_cast hi
      linarith
  · rw [brightnessOf_absent h]
    exact ⟨le_refl _, zero_le_one⟩

theorem getPixelBrightness_inBounds {c : Canvas} {x y : Int} (hb : c.InBounds x y = true)
    (p : List Char) : GetPixelBrightness c p x y = brightnessOf p (c.get x y) := by
  unfold GetPixelBrightness
  rw [if_neg (by simp [hb])]

theorem getPixelBrightness_outside {c : Canvas} {x y : Int} (hb : c.InBounds x y = false)
    (p : List Char) : GetPixelBrightness c p x y = 0 := by
  unfold GetPixelBrightness
  rw [if_pos (by simp [hb])]

/-- The entry `[y][x]` of the brightness matrix. -/
theorem getBrightnessMatrix_entry (c : Canvas) (p : List Char) {x y : Int}
    (hb : c.InBounds x y = true) :
    ((GetBrightnessMatrix c p)[y.toNat]?).bind (fun row => row[x.toNat]?)
      = some (brightnessOf p (c.get x y)) := by
  obtain ⟨hx0, hx1, hy0, hy1⟩ := (Canvas.inBounds_iff c x y).1 hb
  unfold GetBrightnessMatrix
  rw [List.getElem?_map, getElem?_intRange 0 (c.Height - 1) y.toNat
    (by unfold Canvas.Height; omega)]
  simp only [Option.map_some', Option.some_bind]
  rw [List.getElem?_map, getElem?_intRange 0 (c.Width - 1) x.toNat
    (by unfold Canvas.Width; omega)]
  simp only [Option.map_some']
  have ex : (0 : Int) + (x.toNat : Int) = x := by omega
  have ey : (0 : Int) + (y.toNat : Int) = y := by omega
  rw [ex, ey]

end GrayscalePlotter

/-- C22: last-write-wins inverse mapping. For a palette of `N ≥ 2` entries, a pixel that
holds the character whose largest palette index is `i` reads as brightness `i / (N - 1)`,
through `GetPixelBrightness` and as entry `[y][x]` of `GetBrightnessMatrix`; a pixel whose
character is not in the palette reads as 0, and so does any position out of bounds. -/
theorem C22_inverse_mapping (c : Canvas) (palette : List Char) (hN : 2 ≤ palette.length)
    (hsize : (palette.length : Int) ≤ 2 ^ 31) :
    (∀ x y i, c.InBounds x y = true → i < palette.length → palette[i]? = some (c.get x y) →
      (∀ j, i < j → j < palette.length → palette[j]? ≠ some (c.get x y)) →
      GrayscalePlotter.GetPixelBrightness c palette x y = (i : ℚ) / ((palette.length : ℚ) - 1) ∧
      ((GrayscalePlotter.GetBrightnessMatrix c palette)[y.toNat]?).bind (fun row => row[x.toNat]?)
        = some ((i : ℚ) / ((palette.length : ℚ) - 1))) ∧
    (∀ x y, c.InBounds x y = true → c.get x y ∉ palette →
      GrayscalePlotter.GetPixelBrightness c palette x y = 0 ∧
      ((GrayscalePlotter.GetBrightnessMatrix c palette)[y.toNat]?).bind (fun row => row[x.toNat]?)
        = some 0) ∧
    (∀ x y, c.InBounds x y = false → GrayscalePlotter.GetPixelBrightness c palette x y = 0) := by
  refine ⟨?_, ?_, ?_⟩
  · intro x y i hb hi hch hlast
    have e := GrayscalePlotter.brightnessOf_last (by omega) hsize hi hch hlast
    rw [GrayscalePlotter.getPixelBrightness_inBounds hb,
      GrayscalePlotter.getBrightnessMatrix_entry c palette hb, e]
    exact ⟨rfl, rfl⟩
  · intro x y hb hno
    have e := GrayscalePlotter.brightnessOf_absent hno
    rw [GrayscalePlotter.getPixelBrightness_inBounds hb,
      GrayscalePlotter.getBrightnessMatrix_entry c palette hb, e]
    exact ⟨rfl, rfl⟩
  · intro x y hb
    exact GrayscalePlotter.getPixelBrightness_outside hb palette

/-- C22 at a concrete input: a palette with a repeated character on a 2x1 canvas. -/
theorem C22_inverse_mapping_witness :
    2 ≤ [' ', '+', '#', '+'].length ∧ (([' ', '+', '#', '+'].length : Nat) : Int) ≤ 2 ^ 31 ∧
    GrayscalePlotter.GetPixelBrightness ⟨2, 1, ' ', ['+', 'x']⟩ [' ', '+', '#', '+'] 0 0
      = ((3 : Nat) : ℚ) / ((([' ', '+', '#', '+'].length : Nat) : ℚ) - 1) ∧
    GrayscalePlotter.GetPixelBrightness ⟨2, 1, ' ', ['+', 'x']⟩ [' ', '+', '#', '+'] 1 0 = 0 ∧
    GrayscalePlotter.GetPixelBrightness ⟨2, 1, ' ', ['+', 'x']⟩ [' ', '+', '#', '+'] 2 0 = 0 :=
  ⟨by decide, by simp,
    ((C22_inverse_mapping ⟨2, 1, ' ', ['+', 'x']⟩ [' ', '+', '#', '+'] (by decide) (by simp)).1
      0 0 3 (by decide) (by decide) (by decide) (by
        intro j h1 h2
        simp only [List.length_cons, List.length_nil] at h2
        omega)).1,
    ((C22_inverse_mapping ⟨2, 1, ' ', ['+', 'x']⟩ [' ', '+', '#', '+'] (by decide) (by simp)).2.1
      1 0 (by decide) (by decide)).1,
    (C22_inverse_mapping ⟨2, 1, ' ', ['+', 'x']⟩ [' ', '+', '#', '+'] (by decide) (by simp)).2.2
      2 0 (by decide)⟩

end plotter

/-! ## Quantisation round trip -/

namespace plotter
namespace GrayscalePlotter

/-- Writing a brightness of `[0, 1]` at an in-bounds position stores the palette entry at
index `⌊b * (N - 1)⌋`. -/
theorem setPixelBrightness_eq {c : Canvas} {p : List Char} (h1 : 1 ≤ p.length)
    (h2 : (p.length : Int) ≤ 2 ^ 31) {x y : Int} (hb : c.InBounds x y = true) {b : ℚ}
    (hb0 : 0 ≤ b) (hb1 : b ≤ 1) :
    ∃ ch, p[(⌊b * ((p.length : ℚ) - 1)⌋).toNat]? = some ch ∧
      SetPixelBrightness c p x y b = some (c.set x y ch) := by
  obtain ⟨ch, h, hch⟩ := brightnessToChar_some h1 h2 hb0 hb1
  refine ⟨ch, hch, ?_⟩
  unfold SetPixelBrightness
  rw [if_pos hb, h, Option.map_some']

/-- The quantised value `⌊b * (N - 1)⌋ / (N - 1)` is at most `b` and less than one step
below it. -/
theorem quantised_bounds (n : Nat) (h : 2 ≤ n) (b : ℚ) :
    (⌊b * ((n : ℚ) - 1)⌋ : ℚ) / ((n : ℚ) - 1) ≤ b ∧
    b < (⌊b * ((n : ℚ) - 1)⌋ : ℚ) / ((n : ℚ) - 1) + 1 / ((n : ℚ) - 1) := by
  have hn : (0 : ℚ) < (n : ℚ) - 1 := by
    have : (2 : ℚ) ≤ (n : ℚ) := by exact_mod_cast h
    linarith
  constructor
  · rw [div_le_iff₀ hn]
    exact Int.floor_le _
  · rw [← add_div, lt_div_iff₀ hn]
    exact Int.lt_floor_add_one _

end GrayscalePlotter

/-- C21 (where the stated form fails): with the two-entry palette `{'a', 'a'}` the
brightness 0 is written as `'a'`, and `'a'` reads back as brightness 1, the value of
its last index, not as the quantised value `⌊0 * 1⌋ / 1 = 0`. -/
theorem C21_round_trip_repeated_counterexample :
    2 ≤ ['a', 'a'].length ∧ (Canvas.new 1 1 ' ').InBounds 0 0 = true ∧
    ∃ c', GrayscalePlotter.SetPixelBrightness (Canvas.new 1 1 ' ') ['a', 'a'] 0 0 0 = some c' ∧
      GrayscalePlotter.GetPixelBrightness c' ['a', 'a'] 0 0 = 1 ∧
      (1 : ℚ) ≠ (⌊(0 : ℚ) * (((['a', 'a'].length : Nat) : ℚ) - 1)⌋ : ℚ)
        / (((['a', 'a'].length : Nat) : ℚ) - 1) := by
  refine ⟨by decide, by decide, ?_⟩
  obtain ⟨ch, hch, hset⟩ := GrayscalePlotter.setPixelBrightness_eq
    (c := Canvas.new 1 1 ' ') (p := ['a', 'a']) (x := 0) (y := 0) (b := 0)
    (by decide) (by simp) (by decide) (le_refl _) zero_le_one
  have hch' : ch = 'a' := by
    simp only [zero_mul, Int.floor_zero, Int.toNat_zero, List.getElem?_cons_zero,
      Option.some.injEq] at hch
    exact hch.symm
  subst hch'
  refine ⟨_, hset, ?_, ?_⟩
  · have hb : ((Canvas.new 1 1 ' ').set 0 0 'a').InBounds 0 0 = true := by decide
    have hget : ((Canvas.new 1 1 ' ').set 0 0 'a').get 0 0 = 'a' := by decide
    rw [GrayscalePlotter.getPixelBrightness_inBounds hb, hget,
      GrayscalePlotter.brightnessOf_last (p := ['a', 'a']) (i := 1) (by decide) (by simp)
        (by decide) (by decide)
        (by
          intro j h1 h2
          simp only [List.length_cons, List.length_nil] at h2
          omega)]
    norm_num
  · norm_num

/-- C21 (amended): for a palette of `N ≥ 2` pairwise distinct entries, an in-bounds
`(x, y)` and `b` in `[0, 1]`, `SetPixelBrightness(x, y, b)` followed by
`GetPixelBrightness(x, y)` returns the quantised value `q = ⌊b * (N - 1)⌋ / (N - 1)`,
and `q ≤ b < q + 1 / (N - 1)`. -/
theorem C21_round_trip (c : Canvas) (hc : c.WF) (palette : List Char)
    (hN : 2 ≤ palette.length) (hsize : (palette.length : Int) ≤ 2 ^ 31)
    (hdistinct : palette.Nodup) (x y : Int) (hb : c.InBounds x y = true) (b : ℚ)
    (hb0 : 0 ≤ b) (hb1 : b ≤ 1) :
    ∃ c', GrayscalePlotter.SetPixelBrightness c palette x y b = some c' ∧
      GrayscalePlotter.GetPixelBrightness c' palette x y
        = (⌊b * ((palette.length : ℚ) - 1)⌋ : ℚ) / ((palette.length : ℚ) - 1) ∧
      (⌊b * ((palette.length : ℚ) - 1)⌋ : ℚ) / ((palette.length : ℚ) - 1) ≤ b ∧
      b < (⌊b * ((palette.length : ℚ) - 1)⌋ : ℚ) / ((palette.length : ℚ) - 1)
        + 1 / ((palette.length : ℚ) - 1) := by
  obtain ⟨ch, hch, hset⟩ := GrayscalePlotter.setPixelBrightness_eq (c := c) (by omega) hsize hb
    hb0 hb1
  obtain ⟨f0, f1⟩ := GrayscalePlotter.floor_index_bounds palette.length (by omega) hb0 hb1
  obtain ⟨q1, q2⟩ := GrayscalePlotter.quantised_bounds palette.length hN b
  refine ⟨_, hset, ?_, q1, q2⟩
  have hb' : (c.set x y ch).InBounds x y = true := hb
  have hget : (c.set x y ch).get x y = ch := by
    rw [Canvas.get_set hc ch hb hb, if_pos ⟨rfl, rfl⟩]
  have hlt : (⌊b * ((palette.length : ℚ) - 1)⌋).toNat < palette.length := by omega
  rw [GrayscalePlotter.getPixelBrightness_inBounds hb', hget,
    GrayscalePlotter.brightnessOf_last (by omega) hsize hlt hch
      (by
        intro j hj1 hj2 e
        rw [List.getElem?_eq_getElem hlt] at hch
        rw [List.getElem?_eq_getElem hj2] at e
        have e1 : palette[j] = palette[(⌊b * ((palette.length : ℚ) - 1)⌋).toNat] :=
          (Option.some.inj e).trans (Option.some.inj hch).symm
        have := (List.Nodup.getElem_inj_iff hdistinct).1 e1
        omega)]
  congr 1
  have : ((⌊b * ((palette.length : ℚ) - 1)⌋).toNat : Int) = ⌊b * ((palette.length : ℚ) - 1)⌋ :=
    Int.toNat_of_nonneg f0
  exact_mod_cast congrArg (fun z : Int => (z : ℚ)) this

/-- C21 (amended) at a concrete input: brightness 1/2 under a three-entry palette. -/
theorem C21_round_trip_witness :
    (Canvas.new 2 2 '.').WF ∧ 2 ≤ [' ', '+', '#'].length ∧
    (([' ', '+', '#'].length : Nat) : Int) ≤ 2 ^ 31 ∧ [' ', '+', '#'].Nodup ∧
    (Canvas.new 2 2 '.').InBounds 1 0 = true ∧ (0 : ℚ) ≤ 1 / 2 ∧ (1 / 2 : ℚ) ≤ 1 ∧
    ∃ c', GrayscalePlotter.SetPixelBrightness (Canvas.new 2 2 '.') [' ', '+', '#'] 1 0 (1 / 2)
        = some c' ∧
      GrayscalePlotter.GetPixelBrightness c' [' ', '+', '#'] 1 0
        = (⌊(1 / 2 : ℚ) * ((([' ', '+', '#'].length : Nat) : ℚ) - 1)⌋ : ℚ)
          / ((([' ', '+', '#'].length : Nat) : ℚ) - 1) ∧
      (⌊(1 / 2 : ℚ) * ((([' ', '+', '#'].length : Nat) : ℚ) - 1)⌋ : ℚ)
          / ((([' ', '+', '#'].length : Nat) : ℚ) - 1) ≤ 1 / 2 ∧
      (1 / 2 : ℚ) < (⌊(1 / 2 : ℚ) * ((([' ', '+', '#'].length : Nat) : ℚ) - 1)⌋ : ℚ)
          / ((([' ', '+', '#'].length : Nat) : ℚ) - 1)
        + 1 / ((([' ', '+', '#'].length : Nat) : ℚ) - 1) :=
  ⟨⟨by decide, by decide, by decide, by decide⟩, by decide, by simp, by decide, by decide,
    by norm_num, by norm_num,
    C21_round_trip (Canvas.new 2 2 '.') ⟨by decide, by decide, by decide, by decide⟩
      [' ', '+', '#'] (by decide) (by simp) (by decide) 1 0 (by decide) (1 / 2)
      (by norm_num) (by norm_num)⟩

end plotter

/-! ## Loops over the cells of a canvas -/

namespace plotter
namespace Plotter

/-- A loop in which every step succeeds, as long as an invariant of the state holds. -/
theorem foldlM_option_inv {α β : Type} (Inv : β → Prop) (f : β → α → Option β) (f' : β → α → β)
    (hinv : ∀ b a, Inv b → Inv (f' b a)) :
    ∀ (l : List α) (init : β), Inv init → (∀ b, Inv b → ∀ a ∈ l, f b a = some (f' b a)) →
      l.foldlM f init = some (l.foldl f' init) := by
  intro l
  induction l with
  | nil => intro init _ _; rfl
  | cons a l ih =>
    intro init h0 h
    rw [List.foldlM_cons, h init h0 a (by simp)]
    exact ih (f' init a) (hinv _ _ h0) (fun b hb a' ha' => h b hb a' (List.mem_cons_of_mem _ ha'))

theorem foldl_inv {α β : Type} (Inv : β → Prop) (f' : β → α → β)
    (hinv : ∀ b a, Inv b → Inv (f' b a)) :
    ∀ (l : List α) (init : β), Inv init → Inv (l.foldl f' init) := by
  intro l
  induction l with
  | nil => intro init h; exact h
  | cons a l ih => intro init h; exact ih _ (hinv _ _ h)

/-- Two nested loops, rows outermost, whose body on a canvas of width `w` and height `h`
writes `val (x, y)` at `(x, y)` when `P (x, y)` holds and does nothing otherwise: the
loops return the canvas after the same writes in the order of `regionPoints`. -/
theorem foldlM_cells (w h x1 y1 x2 y2 : Int) (hi : Canvas → Int)
    (hhi : ∀ b : Canvas, b.width_ = w → b.height_ = h → hi b = x2)
    (step : Int → Canvas → Int → Option Canvas) (P : Int × Int → Bool) (val : Int × Int → Char)
    (hstep : ∀ (b : Canvas) (x y : Int), b.width_ = w → b.height_ = h →
      x1 ≤ x → x ≤ x2 → y1 ≤ y → y ≤ y2 →
      step y b x = some (if P (x, y) = true then b.set x y (val (x, y)) else b))
    (c : Canvas) (hw : c.width_ = w) (hh : c.height_ = h) :
    (intRange y1 y2).foldlM (fun c y => (intRange x1 (hi c)).foldlM (step y) c) c
      = some ((regionPoints x1 y1 x2 y2).foldl
          (fun b p => if P p = true then b.set p.1 p.2 (val p) else b) c) := by
  have hg : ∀ (b : Canvas) (p : Int × Int), (b.width_ = w ∧ b.height_ = h) →
      ((if P p = true then b.set p.1 p.2 (val p) else b).width_ = w ∧
       (if P p = true then b.set p.1 p.2 (val p) else b).height_ = h) := by
    intro b p hb
    split
    · exact hb
    · exact hb
  rw [← foldl_regionPoints (fun (b : Canvas) (p : Int × Int) =>
    if P p = true then b.set p.1 p.2 (val p) else b)]
  refine foldlM_option_inv (fun b : Canvas => b.width_ = w ∧ b.height_ = h) _ _ ?_ _ c ⟨hw, hh⟩ ?_
  · intro b y hb
    exact foldl_inv (fun b : Canvas => b.width_ = w ∧ b.height_ = h) _
      (fun b' x hb' => hg b' (x, y) hb') _ b hb
  · intro b hb y hy
    rw [hhi b hb.1 hb.2]
    refine foldlM_option_inv (fun b : Canvas => b.width_ = w ∧ b.height_ = h) _ _
      (fun b' x hb' => hg b' (x, y) hb') _ b hb ?_
    intro b' hb' x hx
    rw [mem_intRange] at hx hy
    exact hstep b' x y hb'.1 hb'.2 hx.1 hx.2 hy.1 hy.2

/-- The canvas after writing `val p` at every position `p` of a rectangle that passes the
test `P`, all of them in bounds. -/
theorem cells_get {c : Canvas} (hc : c.WF) (P : Int × Int → Bool) (val : Int × Int → Char)
    (x1 y1 x2 y2 : Int)
    (hin : ∀ p ∈ regionPoints x1 y1 x2 y2, P p = true → c.InBounds p.1 p.2 = true) :
    ((regionPoints x1 y1 x2 y2).foldl
      (fun b p => if P p = true then b.set p.1 p.2 (val p) else b) c).WF ∧
    ((regionPoints x1 y1 x2 y2).foldl
      (fun b p => if P p = true then b.set p.1 p.2 (val p) else b) c).width_ = c.width_ ∧
    ((regionPoints x1 y1 x2 y2).foldl
      (fun b p => if P p = true then b.set p.1 p.2 (val p) else b) c).height_ = c.height_ ∧
    ∀ u v, c.InBounds u v = true →
      ((regionPoints x1 y1 x2 y2).foldl
        (fun b p => if P p = true then b.set p.1 p.2 (val p) else b) c).get u v
        = if x1 ≤ u ∧ u ≤ x2 ∧ y1 ≤ v ∧ v ≤ y2 ∧ P (u, v) = true then val (u, v)
          else c.get u v := by
  obtain ⟨r1, r2, r3, -, r5⟩ := foldl_set_vals (fun p : Int × Int => p) val P
    (fun b p => if P p = true then b.set p.1 p.2 (val p) else b) c.width_ c.height_
    (fun r a _ _ => rfl) (regionPoints x1 y1 x2 y2) c hc rfl rfl hin
    (fun a _ b _ _ _ hab => by
      have hab' : a = b := hab
      rw [hab'])
  refine ⟨r1, r2, r3, ?_⟩
  intro u v hb
  obtain ⟨j1, j2⟩ := r5 u v hb
  by_cases hcond : x1 ≤ u ∧ u ≤ x2 ∧ y1 ≤ v ∧ v ≤ y2 ∧ P (u, v) = true
  · rw [if_pos hcond]
    exact j1 (u, v) (by rw [mem_regionPoints]; exact ⟨hcond.1, hcond.2.1, hcond.2.2.1, hcond.2.2.2.1⟩)
      hcond.2.2.2.2 rfl
  · rw [if_neg hcond]
    apply j2
    intro a ha hPa hga
    have hga' : a = (u, v) := hga
    subst hga'
    rw [mem_regionPoints] at ha
    exact hcond ⟨ha.1, ha.2.1, ha.2.2.1, ha.2.2.2, hPa⟩

end Plotter

theorem list_set_getElem_self {α : Type} :
    ∀ (l : List α) (n : Nat) (h : n < l.length), l.set n (l.get ⟨n, h⟩) = l
  | _ :: _, 0, _ => rfl
  | a :: l, n + 1, h => by
    have := list_set_getElem_self l n (by simpa using h)
    simpa using this

/-- Writing back the character that a cell holds changes nothing. -/
theorem Canvas.set_get_self (c : Canvas) (x y : Int) : c.set x y (c.get x y) = c := by
  unfold Canvas.set Canvas.get
  have : c.data_.set (c.CalculateShift x y) (c.data_.getD (c.CalculateShift x y) c.background_)
      = c.data_ := by
    by_cases h : c.CalculateShift x y < c.data_.length
    · rw [List.getD_eq_getElem?_getD, List.getElem?_eq_getElem h]
      exact list_set_getElem_self _ _ h
    · exact List.set_eq_of_length_le (by omega)
  rw [this]

/-- In a well-formed canvas with a cell, every coordinate of a cell fits an `int`. -/
theorem Canvas.coords_lt {c : Canvas} (hc : c.WF) {x y : Int} (hb : c.InBounds x y = true) :
    x < 2 ^ 31 ∧ y < 2 ^ 31 := by
  obtain ⟨hx0, hx1, hy0, hy1⟩ := (Canvas.inBounds_iff c x y).1 hb
  have hs := hc.size_lt
  have h1 : c.width_ * 1 ≤ c.width_ * c.height_ :=
    mul_le_mul_of_nonneg_left (by omega) hc.width_nonneg
  have h2 : 1 * c.height_ ≤ c.width_ * c.height_ :=
    mul_le_mul_of_nonneg_right (by omega) hc.height_nonneg
  constructor <;> omega

end plotter

/-! ## Palette swap -/

namespace plotter
namespace GrayscalePlotter

/-- The character that the brightness of a palette character is painted with is that
character. -/
theorem brightnessToChar_brightnessOf_mem {p : List Char} (h1 : 2 ≤ p.length)
    (h2 : (p.length : Int) ≤ 2 ^ 31) {ch : Char} (h : ch ∈ p) :
    BrightnessToChar p (brightnessOf p ch) = some ch := by
  obtain ⟨b0, b1⟩ := brightnessOf_bounds h1 h2 ch
  rw [brightnessToChar_eq (by omega) h2 b0 b1]
  obtain ⟨i, hi, hch, hlast⟩ := exists_last_index h
  rw [brightnessOf_last (by omega) h2 hi hch hlast]
  have hn : ((p.length : ℚ) - 1) ≠ 0 := by
    have : (2 : ℚ) ≤ (p.length : ℚ) := by exact_mod_cast h1
    intro e
    linarith
  rw [div_mul_cancel₀ _ hn]
  have : ⌊(i : ℚ)⌋ = (i : Int) := by
    have e : (i : ℚ) = ((i : Int) : ℚ) := by push_cast; rfl
    rw [e, Int.floor_intCast]
  rw [this, Int.toNat_ofNat]
  exact hch

/-- The brightness of a character outside the palette is painted with the first entry. -/
theorem brightnessToChar_brightnessOf_absent {p : List Char} (h1 : 1 ≤ p.length)
    (h2 : (p.length : Int) ≤ 2 ^ 31) {ch : Char} (h : ch ∉ p) :
    BrightnessToChar p (brightnessOf p ch) = p[0]? := by
  rw [brightnessOf_absent h, brightnessToChar_eq h1 h2 (le_refl _) zero_le_one]
  simp

/-- The body of the repaint loop of `SetPalette` at a cell of the canvas `c` from which
the matrix was taken. -/
theorem setPaletteStep_eq {c : Canvas} (hc : c.WF) (p : List Char) {x y : Int}
    (hb : c.InBounds x y = true) (b : Canvas) :
    SetPaletteStep p (GetBrightnessMatrix c p) y b x
      = (BrightnessToChar p (brightnessOf p (c.get x y))).map (fun ch => b.set x y ch) := by
  obtain ⟨hx0, hx1, hy0, hy1⟩ := (Canvas.inBounds_iff c x y).1 hb
  obtain ⟨lx, ly⟩ := Canvas.coords_lt hc hb
  have hrow : (GetBrightnessMatrix c p)[Canvas.toSizeT y]?
      = some ((intRange 0 (c.Width - 1)).map (fun x => brightnessOf p (c.get x y))) := by
    unfold GetBrightnessMatrix
    rw [Canvas.toSizeT_eq hy0 ly, List.getElem?_map, getElem?_intRange 0 (c.Height - 1) y.toNat
      (by unfold Canvas.Height; omega)]
    have ey : (0 : Int) + (y.toNat : Int) = y := by omega
    rw [ey]
    rfl
  have hcell : ((intRange 0 (c.Width - 1)).map (fun x => brightnessOf p (c.get x y)))[
      Canvas.toSizeT x]? = some (brightnessOf p (c.get x y)) := by
    rw [Canvas.toSizeT_eq hx0 lx, List.getElem?_map, getElem?_intRange 0 (c.Width - 1) x.toNat
      (by unfold Canvas.Width; omega)]
    have ex : (0 : Int) + (x.toNat : Int) = x := by omega
    rw [ex]
    rfl
  unfold SetPaletteStep
  simp only [hrow, hcell]

/-- What `SetPalette` does: the brightness matrix is taken under the new palette, so a
pixel whose character is in the new palette keeps its character, and any other pixel
gets the first entry of the new palette. -/
theorem setPalette_eq {c : Canvas} (hc : c.WF) (old new : List Char) (h1 : 2 ≤ new.length)
    (h2 : (new.length : Int) ≤ 2 ^ 31) :
    ∃ c', SetPalette c old new = some (c', new) ∧ c'.WF ∧
      c'.width_ = c.width_ ∧ c'.height_ = c.height_ ∧
      ∀ u v, c.InBounds u v = true →
        (c.get u v ∈ new → c'.get u v = c.get u v) ∧
        (c.get u v ∉ new → new[0]? = some (c'.get u v)) := by
  have hne : (!new.isEmpty) = true := by
    cases new with
    | nil => simp at h1
    | cons a l => rfl
  have hval : ∀ ch : Char, ∃ r, BrightnessToChar new (brightnessOf new ch) = some r := by
    intro ch
    obtain ⟨b0, b1⟩ := brightnessOf_bounds h1 h2 ch
    obtain ⟨r, hr, -⟩ := brightnessToChar_some (by omega) h2 b0 b1
    exact ⟨r, hr⟩
  have hloop := Plotter.foldlM_cells c.width_ c.height_ 0 0 (c.width_ - 1) (c.height_ - 1)
    (fun b => b.Width - 1) (fun b hw _ => by simp only [Canvas.Width, hw])
    (SetPaletteStep new (GetBrightnessMatrix c new)) (fun _ => true)
    (fun q => (BrightnessToChar new (brightnessOf new (c.get q.1 q.2))).getD ' ')
    (by
      intro b x y _ _ hx0 hx1 hy0 hy1
      have hb : c.InBounds x y = true := by
        rw [Canvas.inBounds_iff]; omega
      rw [setPaletteStep_eq hc new hb b, if_pos rfl]
      obtain ⟨r, hr⟩ := hval (c.get x y)
      simp only [hr, Option.map_some', Option.getD_some])
    c rfl rfl
  obtain ⟨g1, g2, g3, g4⟩ := Plotter.cells_get hc (fun _ => true)
    (fun q => (BrightnessToChar new (brightnessOf new (c.get q.1 q.2))).getD ' ')
    0 0 (c.width_ - 1) (c.height_ - 1)
    (by
      intro q hq _
      rw [mem_regionPoints] at hq
      rw [Canvas.inBounds_iff]; omega)
  refine ⟨_, ?_, g1, g2, g3, ?_⟩
  · unfold SetPalette
    rw [if_pos hne]
    dsimp only
    have e : c.Height - 1 = c.height_ - 1 := rfl
    rw [e, hloop, Option.map_some']
  · intro u v hb
    obtain ⟨hx0, hx1, hy0, hy1⟩ := (Canvas.inBounds_iff c u v).1 hb
    rw [g4 u v hb, if_pos ⟨hx0, by omega, hy0, by omega, rfl⟩]
    dsimp only
    constructor
    · intro hmem
      rw [brightnessToChar_brightnessOf_mem h1 h2 hmem, Option.getD_some]
    · intro hno
      rw [brightnessToChar_brightnessOf_absent (by omega) h2 hno]
      have h0 : 0 < new.length := by omega
      rw [List.getElem?_eq_getElem h0, Option.getD_some]

end GrayscalePlotter

/-- C23 (divergence): `SetPalette` assigns the new palette before it captures the
brightness matrix, so the matrix is computed under the new palette and a pixel whose
character is in the new palette keeps its character. On the 2x1 canvas `+#` under the
palette `{' ', '+', '#'}` the pixels have brightness 1/2 and 1; after the swap to the
ten-entry palette they should hold the entries of index `⌊1/2 * 9⌋ = 4` and
`⌊1 * 9⌋ = 9`, that is `=` and `@`; the code leaves `+` and `#`. -/
theorem C23_setPalette_uses_new_palette :
    GrayscalePlotter.GetPixelBrightness ⟨2, 1, ' ', ['+', '#']⟩ [' ', '+', '#'] 0 0 = 1 / 2 ∧
    GrayscalePlotter.GetPixelBrightness ⟨2, 1, ' ', ['+', '#']⟩ [' ', '+', '#'] 1 0 = 1 ∧
    [' ', '.', ':', '-', '=', '+', '*', '#', '%', '@'][(⌊(1 / 2 : ℚ) * (10 - 1)⌋).toNat]?
      = some '=' ∧
    [' ', '.', ':', '-', '=', '+', '*', '#', '%', '@'][(⌊(1 : ℚ) * (10 - 1)⌋).toNat]?
      = some '@' ∧
    ∃ c', GrayscalePlotter.SetPalette ⟨2, 1, ' ', ['+', '#']⟩ [' ', '+', '#']
        [' ', '.', ':', '-', '=', '+', '*', '#', '%', '@']
        = some (c', [' ', '.', ':', '-', '=', '+', '*', '#', '%', '@']) ∧
      c'.get 0 0 = '+' ∧ c'.get 1 0 = '#' := by
  have hwf : (⟨2, 1, ' ', ['+', '#']⟩ : Canvas).WF := ⟨by decide, by decide, by decide, by decide⟩
  refine ⟨?_, ?_, ?_, ?_, ?_⟩
  · rw [GrayscalePlotter.getPixelBrightness_inBounds (by decide)]
    have hg : (⟨2, 1, ' ', ['+', '#']⟩ : Canvas).get 0 0 = '+' := by decide
    rw [hg, GrayscalePlotter.brightnessOf_last (p := [' ', '+', '#']) (i := 1) (by decide)
      (by simp) (by decide) (by decide)
      (by
        intro j h1 h2
        simp only [List.length_cons, List.length_nil] at h2
        have : j = 2 := by omega
        subst this
        decide)]
    norm_num
  · rw [GrayscalePlotter.getPixelBrightness_inBounds (by decide)]
    have hg : (⟨2, 1, ' ', ['+', '#']⟩ : Canvas).get 1 0 = '#' := by decide
    rw [hg, GrayscalePlotter.brightnessOf_last (p := [' ', '+', '#']) (i := 2) (by decide)
      (by simp) (by decide) (by decide)
      (by
        intro j h1 h2
        simp only [List.length_cons, List.length_nil] at h2
        omega)]
    norm_num
  · have : ⌊(1 / 2 : ℚ) * (10 - 1)⌋ = 4 := by
      rw [Int.floor_eq_iff]
      norm_num
    rw [this]
    rfl
  · have : ⌊(1 : ℚ) * (10 - 1)⌋ = 9 := by
      rw [Int.floor_eq_iff]
      norm_num
    rw [this]
    rfl
  · obtain ⟨c', hrun, -, -, -, hcells⟩ := GrayscalePlotter.setPalette_eq hwf [' ', '+', '#']
      [' ', '.', ':', '-', '=', '+', '*', '#', '%', '@'] (by decide) (by simp)
    refine ⟨c', hrun, ?_, ?_⟩
    · exact (hcells 0 0 (by decide)).1 (by decide)
    · exact (hcells 1 0 (by decide)).1 (by decide)

end plotter

/-! ## Threshold -/

namespace plotter
namespace GrayscalePlotter

theorem mapFind_last {p : List Char} (h1 : 1 ≤ p.length) (h2 : (p.length : Int) ≤ 2 ^ 31)
    {ch : Char} {i : Nat} (hi : i < p.length) (hch : p[i]? = some ch)
    (hlast : ∀ j, i < j → j < p.length → p[j]? ≠ some ch) :
    mapFind (CharToBrightness p) ch = some ((i : ℚ) / ((p.length : ℚ) - 1)) := by
  have key := (charToBrightness_fold p ((lastIndex p : Int) : ℚ) ch p.length).2 i hi
    (by rw [List.getD_eq_getElem?_getD, hch]; rfl)
    (by
      intro j hj1 hj2 e
      apply hlast j hj1 hj2
      rw [List.getElem?_eq_getElem hj2]
      rw [List.getD_eq_getElem?_getD, List.getElem?_eq_getElem hj2] at e
      exact congrArg some e)
  unfold CharToBrightness
  rw [key, lastIndex_cast h1 h2]

theorem mapFind_absent {p : List Char} {ch : Char} (h : ch ∉ p) :
    mapFind (CharToBrightness p) ch = none := by
  have key := (charToBrightness_fold p ((lastIndex p : Int) : ℚ) ch p.length).1
    (by
      intro i hi e
      apply h
      rw [List.getD_eq_getElem?_getD, List.getElem?_eq_getElem hi] at e
      have : p[i] = ch := e
      rw [← this]
      exact List.getElem_mem hi)
  unfold CharToBrightness
  exact key

theorem foldl_skip {α β : Type} (f : β → α → β) (hf : ∀ b a, f b a = b) :
    ∀ (l : List α) (init : β), l.foldl f init = init := by
  intro l
  induction l with
  | nil => intro init; rfl
  | cons a l ih => intro init; rw [List.foldl_cons, hf, ih]

/-- Under a palette of two characters the body of the threshold loop leaves the canvas as
it is. -/
theorem applyThresholdStep_two (p0 p1 : Char) (t : ℚ) (ht0 : 0 < t)
    (ht1 : t ≤ 1) (y : Int) (b : Canvas) (x : Int) :
    ApplyThresholdStep [p0, p1] t y b x = some b := by
  have hlen : (([p0, p1] : List Char).length : ℚ) - 1 = 1 := by
    simp only [List.length_cons, List.length_nil]; norm_num
  have e1 : BrightnessToChar [p0, p1] 1 = some p1 := by
    rw [brightnessToChar_eq (by simp) (by simp) zero_le_one (le_refl _), hlen]
    simp
  have e0 : BrightnessToChar [p0, p1] 0 = some p0 := by
    rw [brightnessToChar_eq (by simp) (by simp) (le_refl _) zero_le_one]
    simp
  unfold ApplyThresholdStep
  dsimp only
  by_cases h1 : b.get x y = p1
  · have hf : mapFind (CharToBrightness [p0, p1]) (b.get x y) = some 1 := by
      rw [mapFind_last (p := [p0, p1]) (i := 1) (by simp) (by simp) (by simp)
        (by rw [h1]; rfl)
        (by
          intro j hj1 hj2
          simp only [List.length_cons, List.length_nil] at hj2
          omega), hlen]
      norm_num
    simp only [hf]
    rw [if_pos ht1, e1, Option.map_some', ← h1, Canvas.set_get_self]
  · by_cases h0 : b.get x y = p0
    · have hf : mapFind (CharToBrightness [p0, p1]) (b.get x y) = some 0 := by
        rw [mapFind_last (p := [p0, p1]) (i := 0) (by simp) (by simp) (by simp)
          (by rw [h0]; rfl)
          (by
            intro j hj1 hj2
            simp only [List.length_cons, List.length_nil] at hj2
            have : j = 1 := by omega
            subst this
            simp only [List.getElem?_cons_succ, List.getElem?_cons_zero, ne_eq,
              Option.some.injEq]
            exact fun e => h1 e.symm), hlen]
        norm_num
      simp only [hf]
      rw [if_neg (not_le.2 ht0), e0, Option.map_some', ← h0, Canvas.set_get_self]
    · have hf : mapFind (CharToBrightness [p0, p1]) (b.get x y) = none := by
        apply mapFind_absent
        simp only [List.mem_cons, List.mem_singleton, List.not_mem_nil, or_false, not_or]
        exact ⟨h0, h1⟩
      simp only [hf]

end GrayscalePlotter

/-- C24: under a palette of two characters (distinct or not) and a threshold `0 < t ≤ 1`,
`ApplyThreshold(t)` returns every canvas as it was: a pixel that holds the second entry
has brightness 1 and is repainted with it, a pixel that holds only the first entry has
brightness 0 and is repainted with it, and any other pixel is skipped. -/
theorem C24_threshold_two_entry (c : Canvas) (p0 p1 : Char) (t : ℚ)
    (ht0 : 0 < t) (ht1 : t ≤ 1) :
    GrayscalePlotter.ApplyThreshold c [p0, p1] t = some c := by
  have hloop := Plotter.foldlM_cells c.width_ c.height_ 0 0 (c.width_ - 1) (c.height_ - 1)
    (fun b => b.Width - 1) (fun b hw _ => by simp only [Canvas.Width, hw])
    (GrayscalePlotter.ApplyThresholdStep [p0, p1] t) (fun _ => false) (fun _ => ' ')
    (by
      intro b x y _ _ _ _ _ _
      rw [GrayscalePlotter.applyThresholdStep_two p0 p1 t ht0 ht1 y b x]
      rfl)
    c rfl rfl
  unfold GrayscalePlotter.ApplyThreshold
  have e : c.Height - 1 = c.height_ - 1 := rfl
  rw [e, hloop]
  congr 1
  exact GrayscalePlotter.foldl_skip _ (by intro b a; rfl) _ _

/-- C24 at the scenario of the spec: the palette `{' ', '#'}`, the filled circle of
radius 3 around `(5, 5)` painted with brightness 1 (the character `#`) on the 10x10
canvas of blanks, threshold 1/2. -/
theorem C24_threshold_two_entry_witness :
    (0 : ℚ) < 1 / 2 ∧ (1 / 2 : ℚ) ≤ 1 ∧
    (Plotter.DrawCircle 0 (Canvas.new 10 10 ' ') 5 5 3 '#' true).bind
        (fun c => GrayscalePlotter.ApplyThreshold c [' ', '#'] (1 / 2))
      = Plotter.DrawCircle 0 (Canvas.new 10 10 ' ') 5 5 3 '#' true := by
  refine ⟨by norm_num, by norm_num, ?_⟩
  unfold Plotter.DrawCircle
  rw [if_pos rfl, Option.some_bind]
  exact C24_threshold_two_entry _ ' ' '#' (1 / 2) (by norm_num) (by norm_num)

end plotter

/-! ## Convolution -/

namespace plotter
namespace GrayscalePlotter

theorem reflect_inside {len src : Int} (h0 : 0 ≤ src) (h1 : src < len) : reflect len src = src := by
  unfold reflect
  dsimp only
  rw [if_neg (by omega), if_neg (by omega)]

theorem clamp_inside {v : ℚ} (h0 : 0 ≤ v) (h1 : v ≤ 1) : clamp v 0 1 = v := by
  unfold clamp
  rw [if_neg (not_lt.2 h0), if_neg (not_lt.2 h1)]

/-- The sum that `Convolve` forms at an in-bounds pixel for the kernel `[[1]]`. -/
theorem convolve_identity_cell (c : Canvas) (p : List Char) {x y : Int}
    (hb : c.InBounds x y = true) :
    (intRange 0 (1 - 1)).foldl
      (fun sum ky => (intRange 0 (1 - 1)).foldl (ConvolveStep c p [[1]] (Int.tdiv 1 2) x y ky) sum)
      0 = brightnessOf p (c.get x y) := by
  obtain ⟨hx0, hx1, hy0, hy1⟩ := (Canvas.inBounds_iff c x y).1 hb
  have hr : intRange 0 (1 - 1) = [0] := by decide
  have hd : Int.tdiv 1 2 = 0 := by decide
  rw [hr, hd]
  simp only [List.foldl_cons, List.foldl_nil]
  unfold ConvolveStep
  have ex : x + 0 - 0 = x := by omega
  have ey : y + 0 - 0 = y := by omega
  simp only [ex, ey]
  rw [@reflect_inside c.Width x hx0 hx1, @reflect_inside c.Height y hy0 hy1, if_pos hb,
    getPixelBrightness_inBounds hb]
  simp

end GrayscalePlotter

/-- C25: for every canvas and every palette of `N ≥ 2` entries, `Convolve` with the 1x1
kernel `[[1]]` raises no error and returns the matrix of `GetBrightnessMatrix()`: `H`
rows of `W` entries whose entry `[y][x]` is `GetPixelBrightness(x, y)`. -/
theorem C25_convolve_identity (c : Canvas) (palette : List Char) (hN : 2 ≤ palette.length)
    (hsize : (palette.length : Int) ≤ 2 ^ 31) :
    GrayscalePlotter.Convolve c palette [[1]]
      = .ok (GrayscalePlotter.GetBrightnessMatrix c palette) ∧
    (GrayscalePlotter.GetBrightnessMatrix c palette).length = c.height_.toNat ∧
    (∀ row ∈ GrayscalePlotter.GetBrightnessMatrix c palette, row.length = c.width_.toNat) ∧
    ∀ x y, c.InBounds x y = true →
      ((GrayscalePlotter.GetBrightnessMatrix c palette)[y.toNat]?).bind (fun row => row[x.toNat]?)
        = some (GrayscalePlotter.GetPixelBrightness c palette x y) := by
  refine ⟨?_, ?_, ?_, ?_⟩
  · unfold GrayscalePlotter.Convolve GrayscalePlotter.GetBrightnessMatrix
    simp only [List.length_singleton, Nat.cast_one]
    rw [if_neg (by decide)]
    congr 1
    apply List.map_congr_left
    intro y hy
    apply List.map_congr_left
    intro x hx
    rw [mem_intRange] at hx hy
    have hb : c.InBounds x y = true := by
      rw [Canvas.inBounds_iff]
      unfold Canvas.Width at hx
      unfold Canvas.Height at hy
      omega
    rw [GrayscalePlotter.convolve_identity_cell c palette hb]
    obtain ⟨b0, b1⟩ := GrayscalePlotter.brightnessOf_bounds hN hsize (c.get x y)
    exact GrayscalePlotter.clamp_inside b0 b1
  · unfold GrayscalePlotter.GetBrightnessMatrix
    rw [List.length_map, length_intRange]
    unfold Canvas.Height
    congr 1
    omega
  · intro row hrow
    unfold GrayscalePlotter.GetBrightnessMatrix at hrow
    rw [List.mem_map] at hrow
    obtain ⟨y, -, rfl⟩ := hrow
    rw [List.length_map, length_intRange]
    unfold Canvas.Width
    congr 1
    omega
  · intro x y hb
    rw [GrayscalePlotter.getBrightnessMatrix_entry c palette hb,
      GrayscalePlotter.getPixelBrightness_inBounds hb]

/-- C25 at a concrete input: a 2x2 canvas under a three-entry palette. -/
theorem C25_convolve_identity_witness :
    2 ≤ [' ', '+', '#'].length ∧ (([' ', '+', '#'].length : Nat) : Int) ≤ 2 ^ 31 ∧
    GrayscalePlotter.Convolve ⟨2, 2, ' ', ['#', ' ', '+', 'x']⟩ [' ', '+', '#'] [[1]]
      = .ok (GrayscalePlotter.GetBrightnessMatrix ⟨2, 2, ' ', ['#', ' ', '+', 'x']⟩
          [' ', '+', '#']) :=
  ⟨by decide, by simp,
    (C25_convolve_identity ⟨2, 2, ' ', ['#', ' ', '+', 'x']⟩ [' ', '+', '#'] (by decide)
      (by simp)).1⟩

end plotter

/-! ## Reflective boundary handling -/

namespace plotter

/-- C26 (where the stated form fails): on a canvas of width 2, the 11x11 kernel (half-width
5) samples the coordinate `0 + 0 - 5 = -5` for the pixel column 0 and the kernel column 0.
The first test maps it to 5, and since `5 ≥ 2` the second test maps that to
`2 * 2 - 5 - 1 = -2`: a negative coordinate is not always mapped to its negation. -/
theorem C26_reflect_far_negative_counterexample :
    (0 : Int) + 0 - Int.tdiv 11 2 = -5 ∧ (-5 : Int) < 0 ∧
    GrayscalePlotter.reflect 2 (-5) = -2 ∧ GrayscalePlotter.reflect 2 (-5) ≠ -(-5) := by
  decide

/-- C26 (amended): the reflection maps a sample coordinate `s` to `s` if `0 ≤ s < L`, to
`-s` if `-L < s < 0`, to `2L + s - 1` if `s ≤ -L` and `s < 0`, and to `2L - s - 1` if
`s ≥ L` and `s ≥ 0`. For a kernel of half-width `o` with `o ≤ W - 1` and `o ≤ H - 1`,
every sample coordinate of every pixel is mapped into the canvas, so the `InBounds`
guard of `Convolve` passes and the kernel weight contributes to the sum. -/
theorem C26_reflect (c : Canvas) (palette : List Char) (kernel : List (List ℚ))
    (o x y kx ky : Int) (sum : ℚ) (ho : 0 ≤ o) (hW : o ≤ c.Width - 1) (hH : o ≤ c.Height - 1)
    (hb : c.InBounds x y = true) (hkx0 : 0 ≤ kx) (hkx1 : kx ≤ 2 * o) (hky0 : 0 ≤ ky)
    (hky1 : ky ≤ 2 * o) :
    (∀ len s : Int,
      (0 ≤ s → s < len → GrayscalePlotter.reflect len s = s) ∧
      (s < 0 → -s < len → GrayscalePlotter.reflect len s = -s) ∧
      (s < 0 → len ≤ -s → GrayscalePlotter.reflect len s = 2 * len + s - 1) ∧
      (0 ≤ s → len ≤ s → GrayscalePlotter.reflect len s = 2 * len - s - 1)) ∧
    (0 ≤ GrayscalePlotter.reflect c.Width (x + kx - o) ∧
      GrayscalePlotter.reflect c.Width (x + kx - o) < c.Width) ∧
    (0 ≤ GrayscalePlotter.reflect c.Height (y + ky - o) ∧
      GrayscalePlotter.reflect c.Height (y + ky - o) < c.Height) ∧
    c.InBounds (GrayscalePlotter.reflect c.Width (x + kx - o))
      (GrayscalePlotter.reflect c.Height (y + ky - o)) = true ∧
    GrayscalePlotter.ConvolveStep c palette kernel o x y ky sum kx
      = sum + GrayscalePlotter.GetPixelBrightness c palette
          (GrayscalePlotter.reflect c.Width (x + kx - o))
          (GrayscalePlotter.reflect c.Height (y + ky - o))
        * (kernel.getD ky.toNat []).getD kx.toNat 0 := by
  have hmap : ∀ len s : Int,
      (0 ≤ s → s < len → GrayscalePlotter.reflect len s = s) ∧
      (s < 0 → -s < len → GrayscalePlotter.reflect len s = -s) ∧
      (s < 0 → len ≤ -s → GrayscalePlotter.reflect len s = 2 * len + s - 1) ∧
      (0 ≤ s → len ≤ s → GrayscalePlotter.reflect len s = 2 * len - s - 1) := by
    intro len s
    unfold GrayscalePlotter.reflect
    dsimp only
    refine ⟨?_, ?_, ?_, ?_⟩
    · intro h0 h1
      have e : (if s < 0 then -s else s) = s := if_neg (by omega)
      rw [e]
      exact if_neg (by omega)
    · intro h0 h1
      have e : (if s < 0 then -s else s) = -s := if_pos h0
      rw [e]
      exact if_neg (by omega)
    · intro h0 h1
      have e : (if s < 0 then -s else s) = -s := if_pos h0
      rw [e, if_pos (by omega)]
      omega
    · intro h0 h1
      have e : (if s < 0 then -s else s) = s := if_neg (by omega)
      rw [e]
      exact if_pos (by omega)
  have hrange : ∀ len s : Int, 0 ≤ o → o ≤ len - 1 → -o ≤ s → s ≤ len - 1 + o →
      0 ≤ GrayscalePlotter.reflect len s ∧ GrayscalePlotter.reflect len s < len := by
    intro len s h0 h1 h2 h3
    obtain ⟨m1, m2, m3, m4⟩ := hmap len s
    by_cases hs : s < 0
    · rw [m2 hs (by omega)]
      omega
    · by_cases hl : s < len
      · rw [m1 (by omega) hl]
        omega
      · rw [m4 (by omega) (by omega)]
        omega
  obtain ⟨hx0, hx1, hy0, hy1⟩ := (Canvas.inBounds_iff c x y).1 hb
  have rx := hrange c.Width (x + kx - o) ho hW (by omega) (by unfold Canvas.Width; omega)
  have ry := hrange c.Height (y + ky - o) ho hH (by omega) (by unfold Canvas.Height; omega)
  have hin : c.InBounds (GrayscalePlotter.reflect c.Width (x + kx - o))
      (GrayscalePlotter.reflect c.Height (y + ky - o)) = true := by
    rw [Canvas.inBounds_iff]
    exact ⟨rx.1, rx.2, ry.1, ry.2⟩
  refine ⟨hmap, rx, ry, hin, ?_⟩
  unfold GrayscalePlotter.ConvolveStep
  dsimp only
  rw [if_pos hin]

/-- C26 (amended) at a concrete input: the 3x3 kernel (half-width 1) at the corner pixel
`(0, 0)` of a 3x2 canvas, kernel entry `(0, 0)`. -/
theorem C26_reflect_witness :
    (0 : Int) ≤ 1 ∧ (1 : Int) ≤ (⟨3, 2, ' ', "ab#a.a".toList⟩ : Canvas).Width - 1 ∧
    (1 : Int) ≤ (⟨3, 2, ' ', "ab#a.a".toList⟩ : Canvas).Height - 1 ∧
    (⟨3, 2, ' ', "ab#a.a".toList⟩ : Canvas).InBounds 0 0 = true ∧
    (⟨3, 2, ' ', "ab#a.a".toList⟩ : Canvas).InBounds
      (GrayscalePlotter.reflect (⟨3, 2, ' ', "ab#a.a".toList⟩ : Canvas).Width (0 + 0 - 1))
      (GrayscalePlotter.reflect (⟨3, 2, ' ', "ab#a.a".toList⟩ : Canvas).Height (0 + 0 - 1))
        = true :=
  ⟨by decide, by decide, by decide, by decide,
    (C26_reflect ⟨3, 2, ' ', "ab#a.a".toList⟩ [' ', '#'] [[1, 1, 1], [1, 1, 1], [1, 1, 1]]
      1 0 0 0 0 0 (by decide) (by decide) (by decide) (by decide) (by decide) (by decide)
      (by decide) (by decide)).2.2.2.1⟩

end plotter

/-! ## Kernel construction -/

namespace plotter

/-- C27 (divergence): `CreateBoxKernel` has no test of its argument and never raises.
For the even size 2 it returns the 2x2 kernel of weights 1/4, where
`CreateGaussianKernel` raises the invalid-size error for the same size, and `Convolve`
raises it for the kernel so obtained. -/
theorem C27_boxKernel_even_not_rejected :
    Int.tmod 2 2 = 0 ∧
    GrayscalePlotter.CreateBoxKernel 2 = .ok [[1 / 4, 1 / 4], [1 / 4, 1 / 4]] ∧
    (∀ size : Int, ∃ kernel, GrayscalePlotter.CreateBoxKernel size = .ok kernel) ∧
    (∀ (exp : ℚ → ℚ) (sigma : ℚ),
      GrayscalePlotter.CreateGaussianKernel exp 2 sigma = .error .invalid_argument) ∧
    (∀ (c : Canvas) (palette : List Char),
      GrayscalePlotter.Convolve c palette [[1 / 4, 1 / 4], [1 / 4, 1 / 4]]
        = .error .invalid_argument) := by
  refine ⟨by decide, ?_, ?_, ?_, ?_⟩
  · unfold GrayscalePlotter.CreateBoxKernel
    norm_num [List.replicate]
  · intro size
    exact ⟨_, rfl⟩
  · intro exp sigma
    unfold GrayscalePlotter.CreateGaussianKernel
    rw [if_pos (by decide)]
  · intro c palette
    unfold GrayscalePlotter.Convolve
    simp only [List.length_cons, List.length_nil]
    rw [if_pos (by decide)]

end plotter

/-! ## Brightness statistics -/

namespace plotter

/-- The characters of the buffer of a well-formed canvas are the characters of its cells. -/
theorem Canvas.mem_data_iff {c : Canvas} (hc : c.WF) (ch : Char) :
    ch ∈ c.data_ ↔ ∃ x y, c.InBounds x y = true ∧ c.get x y = ch := by
  constructor
  · intro h
    obtain ⟨i, hi, hget⟩ := List.getElem_of_mem h
    have hiW : (i : Int) < c.width_ * c.height_ := by
      have := hc.length_eq
      omega
    have hWpos : 0 < c.width_ := by
      rcases lt_or_eq_of_le hc.width_nonneg with h | h
      · exact h
      · rw [← h] at hiW
        simp at hiW
        omega
    have hx0 : 0 ≤ (i : Int) % c.width_ := Int.emod_nonneg _ (by omega)
    have hx1 : (i : Int) % c.width_ < c.width_ := Int.emod_lt_of_pos _ hWpos
    have hy0 : 0 ≤ (i : Int) / c.width_ := Int.ediv_nonneg (by omega) (by omega)
    have hy1 : (i : Int) / c.width_ < c.height_ := Int.ediv_lt_of_lt_mul hWpos (by
      rw [mul_comm]; exact hiW)
    have hoff : (i : Int) % c.width_ + (i : Int) / c.width_ * c.width_ = i := by
      rw [mul_comm]
      exact Int.emod_add_ediv _ _
    have hb : c.InBounds ((i : Int) % c.width_) ((i : Int) / c.width_) = true := by
      rw [Canvas.inBounds_iff]
      exact ⟨hx0, hx1, hy0, hy1⟩
    have hs : c.CalculateShift ((i : Int) % c.width_) ((i : Int) / c.width_) = i := by
      rw [Canvas.shift_eq hc hb, hoff]
      simp
    have a := Canvas.get_eq_getElem hc hb
    rw [hs, List.getElem?_eq_getElem hi] at a
    exact ⟨_, _, hb, by rw [← Option.some.inj a, hget]⟩
  · rintro ⟨x, y, hb, rfl⟩
    exact List.getElem?_mem (Canvas.get_eq_getElem hc hb)

namespace GrayscalePlotter

/-- The lookup in `char_to_brightness` finds exactly the characters of the palette, with
the brightness that the readers return. -/
theorem mapFind_eq {p : List Char} (h1 : 1 ≤ p.length) (h2 : (p.length : Int) ≤ 2 ^ 31)
    (ch : Char) :
    mapFind (CharToBrightness p) ch = if ch ∈ p then some (brightnessOf p ch) else none := by
  by_cases h : ch ∈ p
  · rw [if_pos h]
    obtain ⟨i, hi, hch, hlast⟩ := exists_last_index h
    rw [mapFind_last h1 h2 hi hch hlast, brightnessOf_last h1 h2 hi hch hlast]
  · rw [if_neg h]
    exact mapFind_absent h

/-- The state of the loop of `GetMinMaxBrightness` after the pixels `l`. -/
theorem minMax_fold {p : List Char} (h1 : 2 ≤ p.length) (h2 : (p.length : Int) ≤ 2 ^ 31)
    (l : List Char) :
    ((∀ ch ∈ l, ch ∉ p) →
      l.foldl (fun (s : ℚ × ℚ) pixel =>
        match mapFind (CharToBrightness p) pixel with
        | some brightness => (min s.1 brightness, max s.2 brightness)
        | none => s) (1, 0) = (1, 0)) ∧
    ((∃ ch ∈ l, ch ∈ p) →
      (∃ ch ∈ l, ch ∈ p ∧ brightnessOf p ch =
        (l.foldl (fun (s : ℚ × ℚ) pixel =>
          match mapFind (CharToBrightness p) pixel with
          | some brightness => (min s.1 brightness, max s.2 brightness)
          | none => s) (1, 0)).1) ∧
      (∃ ch ∈ l, ch ∈ p ∧ brightnessOf p ch =
        (l.foldl (fun (s : ℚ × ℚ) pixel =>
          match mapFind (CharToBrightness p) pixel with
          | some brightness => (min s.1 brightness, max s.2 brightness)
          | none => s) (1, 0)).2) ∧
      (∀ ch ∈ l, ch ∈ p →
        (l.foldl (fun (s : ℚ × ℚ) pixel =>
          match mapFind (CharToBrightness p) pixel with
          | some brightness => (min s.1 brightness, max s.2 brightness)
          | none => s) (1, 0)).1 ≤ brightnessOf p ch ∧
        brightnessOf p ch ≤
          (l.foldl (fun (s : ℚ × ℚ) pixel =>
            match mapFind (CharToBrightness p) pixel with
            | some brightness => (min s.1 brightness, max s.2 brightness)
            | none => s) (1, 0)).2)) := by
  induction l using List.reverseRecOn with
  | nil =>
    constructor
    · intro _; rfl
    · rintro ⟨ch, hch, -⟩
      exact absurd hch (List.not_mem_nil _)
  | append_singleton l a ih =>
    rw [List.foldl_append, List.foldl_cons, List.foldl_nil]
    generalize hs : l.foldl (fun (s : ℚ × ℚ) pixel =>
        match mapFind (CharToBrightness p) pixel with
        | some brightness => (min s.1 brightness, max s.2 brightness)
        | none => s) (1, 0) = s at ih ⊢
    obtain ⟨ih1, ih2⟩ := ih
    rw [mapFind_eq (by omega) h2 a]
    by_cases ha : a ∈ p
    · rw [if_pos ha]
      dsimp only
      obtain ⟨b0, b1⟩ := brightnessOf_bounds h1 h2 a
      constructor
      · intro hno
        exact absurd ha (hno a (by simp))
      · intro _
        by_cases hex : ∃ ch ∈ l, ch ∈ p
        · obtain ⟨⟨cl, hcl, hclp, hlo⟩, ⟨ch, hch, hchp, hhi⟩, hall⟩ := ih2 hex
          refine ⟨?_, ?_, ?_⟩
          · rcases le_total s.1 (brightnessOf p a) with hle | hle
            · exact ⟨cl, by simp [hcl], hclp, by rw [min_eq_left hle]; exact hlo⟩
            · exact ⟨a, by simp, ha, by rw [min_eq_right hle]⟩
          · rcases le_total s.2 (brightnessOf p a) with hle | hle
            · exact ⟨a, by simp, ha, by rw [max_eq_right hle]⟩
            · exact ⟨ch, by simp [hch], hchp, by rw [max_eq_left hle]; exact hhi⟩
          · intro c' hc' hc'p
            rcases List.mem_append.1 hc' with hin | hin
            · obtain ⟨a1, a2⟩ := hall c' hin hc'p
              exact ⟨le_trans (min_le_left _ _) a1, le_trans a2 (le_max_left _ _)⟩
            · have : c' = a := by simpa using hin
              subst this
              exact ⟨min_le_right _ _, le_max_right _ _⟩
        · have hs0 : s = (1, 0) := ih1 (fun ch hch hp => hex ⟨ch, hch, hp⟩)
          subst hs0
          dsimp only
          rw [min_eq_right b1, max_eq_right b0]
          refine ⟨⟨a, by simp, ha, rfl⟩, ⟨a, by simp, ha, rfl⟩, ?_⟩
          intro c' hc' hc'p
          rcases List.mem_append.1 hc' with hin | hin
          · exact absurd ⟨c', hin, hc'p⟩ hex
          · have : c' = a := by simpa using hin
            subst this
            exact ⟨le_refl _, le_refl _⟩
    · rw [if_neg ha]
      dsimp only
      constructor
      · intro hno
        exact ih1 (fun ch hch => hno ch (by simp [hch]))
      · rintro ⟨ch, hch, hchp⟩
        have hex : ∃ ch ∈ l, ch ∈ p := by
          rcases List.mem_append.1 hch with hin | hin
          · exact ⟨ch, hin, hchp⟩
          · have : ch = a := by simpa using hin
            subst this
            exact absurd hchp ha
        obtain ⟨⟨cl, hcl, hclp, hlo⟩, ⟨ch', hch', hchp', hhi⟩, hall⟩ := ih2 hex
        refine ⟨⟨cl, by simp [hcl], hclp, hlo⟩, ⟨ch', by simp [hch'], hchp', hhi⟩, ?_⟩
        intro c' hc' hc'p
        rcases List.mem_append.1 hc' with hin | hin
        · exact hall c' hin hc'p
        · have : c' = a := by simpa using hin
          subst this
          exact absurd hc'p ha

end GrayscalePlotter

/-- C28: statistics ignore unrecognised pixels. For a palette of `N ≥ 2` entries,
`GetMinMaxBrightness` returns `(0, 0)` on an empty canvas; `(1, 0)` on a non-empty
canvas with no pixel of the palette; and otherwise `(lo, hi)` with `lo` and `hi` the
brightness of two recognised pixels and `lo ≤ b ≤ hi` for the brightness `b` of every
recognised pixel, so `lo ≤ hi`. -/
theorem C28_minMaxBrightness (c : Canvas) (hc : c.WF) (palette : List Char)
    (hN : 2 ≤ palette.length) (hsize : (palette.length : Int) ≤ 2 ^ 31) :
    (c.Size = 0 → GrayscalePlotter.GetMinMaxBrightness c palette = (0, 0)) ∧
    (c.Size ≠ 0 → (∀ x y, c.InBounds x y = true → c.get x y ∉ palette) →
      GrayscalePlotter.GetMinMaxBrightness c palette = (1, 0)) ∧
    (c.Size ≠ 0 → (∃ x y, c.InBounds x y = true ∧ c.get x y ∈ palette) →
      (∃ x y, c.InBounds x y = true ∧ c.get x y ∈ palette ∧
        GrayscalePlotter.GetPixelBrightness c palette x y
          = (GrayscalePlotter.GetMinMaxBrightness c palette).1) ∧
      (∃ x y, c.InBounds x y = true ∧ c.get x y ∈ palette ∧
        GrayscalePlotter.GetPixelBrightness c palette x y
          = (GrayscalePlotter.GetMinMaxBrightness c palette).2) ∧
      (∀ x y, c.InBounds x y = true → c.get x y ∈ palette →
        (GrayscalePlotter.GetMinMaxBrightness c palette).1
          ≤ GrayscalePlotter.GetPixelBrightness c palette x y ∧
        GrayscalePlotter.GetPixelBrightness c palette x y
          ≤ (GrayscalePlotter.GetMinMaxBrightness c palette).2) ∧
      (GrayscalePlotter.GetMinMaxBrightness c palette).1
        ≤ (GrayscalePlotter.GetMinMaxBrightness c palette).2) := by
  obtain ⟨f1, f2⟩ := GrayscalePlotter.minMax_fold hN hsize c.data_
  refine ⟨?_, ?_, ?_⟩
  · intro h0
    unfold GrayscalePlotter.GetMinMaxBrightness
    rw [if_pos h0]
  · intro h0 hno
    unfold GrayscalePlotter.GetMinMaxBrightness
    rw [if_neg h0]
    apply f1
    intro ch hch
    obtain ⟨x, y, hb, rfl⟩ := (Canvas.mem_data_iff hc ch).1 hch
    exact hno x y hb
  · intro h0 hex
    have hres : GrayscalePlotter.GetMinMaxBrightness c palette
        = c.data_.foldl (fun (s : ℚ × ℚ) pixel =>
          match GrayscalePlotter.mapFind (GrayscalePlotter.CharToBrightness palette) pixel with
          | some brightness => (min s.1 brightness, max s.2 brightness)
          | none => s) (1, 0) := by
      unfold GrayscalePlotter.GetMinMaxBrightness
      rw [if_neg h0]
    rw [hres]
    obtain ⟨x0, y0, hb0, hp0⟩ := hex
    obtain ⟨⟨cl, hcl, hclp, hlo⟩, ⟨ch, hch, hchp, hhi⟩, hall⟩ :=
      f2 ⟨c.get x0 y0, (Canvas.mem_data_iff hc _).2 ⟨x0, y0, hb0, rfl⟩, hp0⟩
    obtain ⟨xl, yl, hbl, hgl⟩ := (Canvas.mem_data_iff hc cl).1 hcl
    obtain ⟨xh, yh, hbh, hgh⟩ := (Canvas.mem_data_iff hc ch).1 hch
    refine ⟨⟨xl, yl, hbl, by rw [hgl]; exact hclp, ?_⟩, ⟨xh, yh, hbh, by rw [hgh]; exact hchp, ?_⟩,
      ?_, ?_⟩
    · rw [GrayscalePlotter.getPixelBrightness_inBounds hbl, hgl]
      exact hlo
    · rw [GrayscalePlotter.getPixelBrightness_inBounds hbh, hgh]
      exact hhi
    · intro x y hb hp
      rw [GrayscalePlotter.getPixelBrightness_inBounds hb]
      exact hall _ ((Canvas.mem_data_iff hc _).2 ⟨x, y, hb, rfl⟩) hp
    · have := hall _ ((Canvas.mem_data_iff hc _).2 ⟨x0, y0, hb0, rfl⟩) hp0
      exact le_trans this.1 this.2

/-- C28 at a concrete input: a 2x2 canvas with one pixel outside the palette. -/
theorem C28_minMaxBrightness_witness :
    (⟨2, 2, ' ', ['#', '+', '+', 'x']⟩ : Canvas).WF ∧ 2 ≤ [' ', '+', '#'].length ∧
    (([' ', '+', '#'].length : Nat) : Int) ≤ 2 ^ 31 ∧
    (⟨2, 2, ' ', ['#', '+', '+', 'x']⟩ : Canvas).Size ≠ 0 ∧
    (∃ x y, (⟨2, 2, ' ', ['#', '+', '+', 'x']⟩ : Canvas).InBounds x y = true ∧
      (⟨2, 2, ' ', ['#', '+', '+', 'x']⟩ : Canvas).get x y ∈ [' ', '+', '#']) ∧
    (GrayscalePlotter.GetMinMaxBrightness ⟨2, 2, ' ', ['#', '+', '+', 'x']⟩ [' ', '+', '#']).1
      ≤ (GrayscalePlotter.GetMinMaxBrightness ⟨2, 2, ' ', ['#', '+', '+', 'x']⟩
          [' ', '+', '#']).2 :=
  ⟨⟨by decide, by decide, by decide, by decide⟩, by decide, by simp, by decide,
    ⟨0, 0, by decide, by decide⟩,
    ((C28_minMaxBrightness ⟨2, 2, ' ', ['#', '+', '+', 'x']⟩
      ⟨by decide, by decide, by decide, by decide⟩ [' ', '+', '#'] (by decide) (by simp)).2.2
        (by decide) ⟨0, 0, by decide, by decide⟩).2.2.2⟩

end plotter

/-! ## Cursors -/

namespace plotter

/-- C29 (divergence): the row and column cursors pass `(row_, col_)` to `at(x, y)`, whose
first argument is the column: `RowBegin(r)[k]` reads the cell `x = r, y = k` and
`ColBegin(c)[k]` reads the cell `x = k, y = c`. On the 3x2 canvas with the rows `abc`
and `def`, `RowBegin(0)[1]` (and `RowBegin(0)` advanced once) reads `d`, the cell
`(0, 1)`, not `b`, the cell `(1, 0)`; `ColBegin(0)[1]` reads `b`, not `d`. The flat
cursor `begin()[k]` reads the buffer offset `k`. -/
theorem C29_cursors_transposed :
    (⟨3, 2, ' ', "abcdef".toList⟩ : Canvas).get 1 0 = 'b' ∧
    (⟨3, 2, ' ', "abcdef".toList⟩ : Canvas).get 0 1 = 'd' ∧
    (Canvas.RowBegin 0).index ⟨3, 2, ' ', "abcdef".toList⟩ 1 = some 'd' ∧
    (Canvas.RowBegin 0).next.deref ⟨3, 2, ' ', "abcdef".toList⟩ = some 'd' ∧
    (Canvas.ColBegin 0).index ⟨3, 2, ' ', "abcdef".toList⟩ 1 = some 'b' ∧
    (Canvas.ColBegin 0).next.deref ⟨3, 2, ' ', "abcdef".toList⟩ = some 'b' ∧
    (∀ (c : Canvas) (r k : Int), (Canvas.RowBegin r).index c k = c.atMut r k) ∧
    (∀ (c : Canvas) (col k : Int), (Canvas.ColBegin col).index c k = c.atMut k col) ∧
    (∀ (c : Canvas) (k : Nat), (k : Int) < 2 ^ 64 →
      Canvas.begin.index c k = c.data_[k]?) := by
  refine ⟨by decide, by decide, by decide, by decide, by decide, by decide, ?_, ?_, ?_⟩
  · intro c r k
    unfold Canvas.RowBegin RowIterator.index
    simp
  · intro c col k
    unfold Canvas.ColBegin ColumnIterator.index
    simp
  · intro c k hk
    unfold Canvas.begin PixelIterator.index Canvas.toSizeT
    have e : (((0 : Nat) : Int) + (k : Int)) % 2 ^ 64 = (k : Int) := by
      rw [Int.emod_eq_of_lt (by omega) (by omega)]
      omega
    rw [e]
    simp

end plotter

/-! ## Triangle fill and vertex order -/

namespace plotter
namespace Plotter

/-- The filled triangle, cell by cell. -/
theorem fillTriangle_spec {c : Canvas} (hc : c.WF) (x1 y1 x2 y2 x3 y3 : Int) (brush : Char) :
    (FillTriangle c x1 y1 x2 y2 x3 y3 brush).WF ∧
    (FillTriangle c x1 y1 x2 y2 x3 y3 brush).width_ = c.width_ ∧
    (FillTriangle c x1 y1 x2 y2 x3 y3 brush).height_ = c.height_ ∧
    (FillTriangle c x1 y1 x2 y2 x3 y3 brush).background_ = c.background_ ∧
    ∀ u v, c.InBounds u v = true →
      (FillTriangle c x1 y1 x2 y2 x3 y3 brush).get u v =
        if (min x1 (min x2 x3) ≤ u ∧ u ≤ max x1 (max x2 x3)) ∧
           (min y1 (min y2 y3) ≤ v ∧ v ≤ max y1 (max y2 y3)) ∧
           0 ≤ edge_function x1 y1 x2 y2 u v ∧
           0 ≤ edge_function x2 y2 x3 y3 u v ∧
           0 ≤ edge_function x3 y3 x1 y1 u v
        then brush else c.get u v := by
  have key : FillTriangle c x1 y1 x2 y2 x3 y3 brush
      = plotAll c ((intRange (min y1 (min y2 y3)) (max y1 (max y2 y3))).flatMap
          (fun y => ((intRange (min x1 (min x2 x3)) (max x1 (max x2 x3))).filter
            (fun x => decide (edge_function x1 y1 x2 y2 x y ≥ 0) &&
              decide (edge_function x2 y2 x3 y3 x y ≥ 0) &&
              decide (edge_function x3 y3 x1 y1 x y ≥ 0))).map (fun x => (x, y)))) brush := by
    unfold FillTriangle
    dsimp only
    rw [← foldl_plotAll]
    congr 1
    funext c y
    have hstep : FillTriangleStep x1 y1 x2 y2 x3 y3 brush y
        = fun c x => if (decide (edge_function x1 y1 x2 y2 x y ≥ 0) &&
              decide (edge_function x2 y2 x3 y3 x y ≥ 0) &&
              decide (edge_function x3 y3 x1 y1 x y ≥ 0)) = true
            then plot c x y brush else c := by
      funext c x
      exact fillTriangleStep_eq x1 y1 x2 y2 x3 y3 brush y c x
    rw [hstep]
    exact foldl_plot_filter _ _ y c brush
  rw [key]
  refine ⟨plotAll_wf hc _ _, (plotAll_dims _ _ _).1, (plotAll_dims _ _ _).2.1,
    (plotAll_dims _ _ _).2.2, ?_⟩
  intro u v hb
  rw [get_plotAll hc _ _ hb]
  congr 1
  simp only [List.mem_flatMap, List.mem_map, List.mem_filter, mem_intRange, Prod.mk.injEq,
    Bool.and_eq_true, decide_eq_true_eq, ge_iff_le, eq_iff_iff]
  constructor
  · rintro ⟨y, hy, x, ⟨hx, hE⟩, rfl, rfl⟩
    exact ⟨hx, hy, hE.1.1, hE.1.2, hE.2⟩
  · rintro ⟨hx, hy, h1, h2, h3⟩
    exact ⟨v, hy, u, ⟨hx, ⟨h1, h2⟩, h3⟩, rfl, rfl⟩

/-- The three edge functions sum to the same value at every point. -/
theorem edge_function_sum (x1 y1 x2 y2 x3 y3 x y : Int) :
    edge_function x1 y1 x2 y2 x y + edge_function x2 y2 x3 y3 x y
      + edge_function x3 y3 x1 y1 x y
      = (x3 - x1) * (y2 - y1) - (y3 - y1) * (x2 - x1) := by
  unfold edge_function
  ring

/-- A triangle of negative orientation paints nothing. -/
theorem fillTriangle_negative {c : Canvas} (hc : c.WF) (x1 y1 x2 y2 x3 y3 : Int) (brush : Char)
    (hD : (x3 - x1) * (y2 - y1) - (y3 - y1) * (x2 - x1) < 0) :
    FillTriangle c x1 y1 x2 y2 x3 y3 brush = c := by
  obtain ⟨w, a, b, g, cells⟩ := fillTriangle_spec hc x1 y1 x2 y2 x3 y3 brush
  apply Canvas.ext_cells w hc a b g
  intro u v hb
  have hb' : c.InBounds u v = true := by
    rw [← inBounds_of_dims a b]; exact hb
  rw [cells u v hb', if_neg]
  rintro ⟨-, -, e1, e2, e3⟩
  have := edge_function_sum x1 y1 x2 y2 x3 y3 u v
  omega

/-- A triangle of non-negative orientation paints its in-bounds vertices. -/
theorem fillTriangle_vertices {c : Canvas} (hc : c.WF) (x1 y1 x2 y2 x3 y3 : Int) (brush : Char)
    (hD : 0 ≤ (x3 - x1) * (y2 - y1) - (y3 - y1) * (x2 - x1)) :
    (c.InBounds x1 y1 = true → (FillTriangle c x1 y1 x2 y2 x3 y3 brush).get x1 y1 = brush) ∧
    (c.InBounds x2 y2 = true → (FillTriangle c x1 y1 x2 y2 x3 y3 brush).get x2 y2 = brush) ∧
    (c.InBounds x3 y3 = true → (FillTriangle c x1 y1 x2 y2 x3 y3 brush).get x3 y3 = brush) := by
  obtain ⟨-, -, -, -, cells⟩ := fillTriangle_spec hc x1 y1 x2 y2 x3 y3 brush
  have hbx : ∀ u, (u = x1 ∨ u = x2 ∨ u = x3) →
      min x1 (min x2 x3) ≤ u ∧ u ≤ max x1 (max x2 x3) := by
    intro u hu
    simp only [min_le_iff, le_max_iff]
    rcases hu with h | h | h <;> subst h <;> simp
  have hby : ∀ v, (v = y1 ∨ v = y2 ∨ v = y3) →
      min y1 (min y2 y3) ≤ v ∧ v ≤ max y1 (max y2 y3) := by
    intro v hv
    simp only [min_le_iff, le_max_iff]
    rcases hv with h | h | h <;> subst h <;> simp
  refine ⟨?_, ?_, ?_⟩
  · intro hb
    rw [cells x1 y1 hb, if_pos]
    refine ⟨hbx x1 (Or.inl rfl), hby y1 (Or.inl rfl), ?_, ?_, ?_⟩
    · unfold edge_function; ring_nf; exact le_refl _
    · have := edge_function_sum x1 y1 x2 y2 x3 y3 x1 y1
      have e1 : edge_function x1 y1 x2 y2 x1 y1 = 0 := by unfold edge_function; ring
      have e3 : edge_function x3 y3 x1 y1 x1 y1 = 0 := by unfold edge_function; ring
      omega
    · have e3 : edge_function x3 y3 x1 y1 x1 y1 = 0 := by unfold edge_function; ring
      omega
  · intro hb
    rw [cells x2 y2 hb, if_pos]
    refine ⟨hbx x2 (Or.inr (Or.inl rfl)), hby y2 (Or.inr (Or.inl rfl)), ?_, ?_, ?_⟩
    · have e1 : edge_function x1 y1 x2 y2 x2 y2 = 0 := by unfold edge_function; ring
      omega
    · have e2 : edge_function x2 y2 x3 y3 x2 y2 = 0 := by unfold edge_function; ring
      omega
    · have := edge_function_sum x1 y1 x2 y2 x3 y3 x2 y2
      have e1 : edge_function x1 y1 x2 y2 x2 y2 = 0 := by unfold edge_function; ring
      have e2 : edge_function x2 y2 x3 y3 x2 y2 = 0 := by unfold edge_function; ring
      omega
  · intro hb
    rw [cells x3 y3 hb, if_pos]
    refine ⟨hbx x3 (Or.inr (Or.inr rfl)), hby y3 (Or.inr (Or.inr rfl)), ?_, ?_, ?_⟩
    · have := edge_function_sum x1 y1 x2 y2 x3 y3 x3 y3
      have e2 : edge_function x2 y2 x3 y3 x3 y3 = 0 := by unfold edge_function; ring
      have e3 : edge_function x3 y3 x1 y1 x3 y3 = 0 := by unfold edge_function; ring
      omega
    · have e2 : edge_function x2 y2 x3 y3 x3 y3 = 0 := by unfold edge_function; ring
      omega
    · have e3 : edge_function x3 y3 x1 y1 x3 y3 = 0 := by unfold edge_function; ring
      omega

end Plotter

/-- C30 (where the stated form fails): the triangle `(10,10), (12,10), (10,12)` is not
degenerate (`D = -4`), but it lies outside the 3x3 canvas, so the filled triangle and
the one with the first two vertices swapped both leave the canvas as it was: the swap
does not change the result. -/
theorem C30_swap_off_canvas_counterexample :
    ((10 : Int) - 10) * (10 - 10) - (12 - 10) * (12 - 10) ≠ 0 ∧
    Plotter.DrawTriangle 0 (Canvas.new 3 3 '.') 10 10 12 10 10 12 '#' true
      = some (Canvas.new 3 3 '.') ∧
    Plotter.DrawTriangle 0 (Canvas.new 3 3 '.') 12 10 10 10 10 12 '#' true
      = some (Canvas.new 3 3 '.') := by
  refine ⟨by decide, by decide, by decide⟩

/-- C30 (amended): with `D = (x3-x1)(y2-y1) - (y3-y1)(x2-x1)`, the three edge functions
sum to `D` at every point; if `D < 0` the filled `DrawTriangle` leaves the whole canvas
unchanged, and if `D ≥ 0` every in-bounds vertex is painted. Hence, for `D ≠ 0` and a
vertex that is in bounds and does not already hold the brush, swapping two vertices
changes the result. -/
theorem C30_triangle_winding (c : Canvas) (hc : c.WF) (x1 y1 x2 y2 x3 y3 : Int) (brush : Char)
    (fuel : Nat) :
    (∀ x y, Plotter.edge_function x1 y1 x2 y2 x y + Plotter.edge_function x2 y2 x3 y3 x y
        + Plotter.edge_function x3 y3 x1 y1 x y
      = (x3 - x1) * (y2 - y1) - (y3 - y1) * (x2 - x1)) ∧
    ((x3 - x1) * (y2 - y1) - (y3 - y1) * (x2 - x1) < 0 →
      Plotter.DrawTriangle fuel c x1 y1 x2 y2 x3 y3 brush true = some c) ∧
    (0 ≤ (x3 - x1) * (y2 - y1) - (y3 - y1) * (x2 - x1) →
      ∃ c', Plotter.DrawTriangle fuel c x1 y1 x2 y2 x3 y3 brush true = some c' ∧
        (c.InBounds x1 y1 = true → c'.get x1 y1 = brush) ∧
        (c.InBounds x2 y2 = true → c'.get x2 y2 = brush) ∧
        (c.InBounds x3 y3 = true → c'.get x3 y3 = brush)) ∧
    ((x3 - x1) * (y2 - y1) - (y3 - y1) * (x2 - x1) ≠ 0 →
      ((c.InBounds x1 y1 = true ∧ c.get x1 y1 ≠ brush) ∨
       (c.InBounds x2 y2 = true ∧ c.get x2 y2 ≠ brush) ∨
       (c.InBounds x3 y3 = true ∧ c.get x3 y3 ≠ brush)) →
      Plotter.DrawTriangle fuel c x1 y1 x2 y2 x3 y3 brush true
        ≠ Plotter.DrawTriangle fuel c x2 y2 x1 y1 x3 y3 brush true ∧
      Plotter.DrawTriangle fuel c x1 y1 x2 y2 x3 y3 brush true
        ≠ Plotter.DrawTriangle fuel c x1 y1 x3 y3 x2 y2 brush true ∧
      Plotter.DrawTriangle fuel c x1 y1 x2 y2 x3 y3 brush true
        ≠ Plotter.DrawTriangle fuel c x3 y3 x2 y2 x1 y1 brush true) := by
  have hrun : ∀ a1 b1 a2 b2 a3 b3 : Int,
      Plotter.DrawTriangle fuel c a1 b1 a2 b2 a3 b3 brush true
        = some (Plotter.FillTriangle c a1 b1 a2 b2 a3 b3 brush) := by
    intro a1 b1 a2 b2 a3 b3
    unfold Plotter.DrawTriangle
    rw [if_pos rfl]
  -- a triangle of positive orientation differs from one of negative orientation that
  -- shares a vertex which is in bounds and does not hold the brush
  have hdiff : ∀ a1 b1 a2 b2 a3 b3 d1 e1 d2 e2 d3 e3 : Int,
      0 ≤ (a3 - a1) * (b2 - b1) - (b3 - b1) * (a2 - a1) →
      (d3 - d1) * (e2 - e1) - (e3 - e1) * (d2 - d1) < 0 →
      ((c.InBounds a1 b1 = true ∧ c.get a1 b1 ≠ brush) ∨
       (c.InBounds a2 b2 = true ∧ c.get a2 b2 ≠ brush) ∨
       (c.InBounds a3 b3 = true ∧ c.get a3 b3 ≠ brush)) →
      Plotter.FillTriangle c a1 b1 a2 b2 a3 b3 brush
        ≠ Plotter.FillTriangle c d1 e1 d2 e2 d3 e3 brush := by
    intro a1 b1 a2 b2 a3 b3 d1 e1 d2 e2 d3 e3 hpos hneg hv heq
    rw [Plotter.fillTriangle_negative hc d1 e1 d2 e2 d3 e3 brush hneg] at heq
    obtain ⟨v1, v2, v3⟩ := Plotter.fillTriangle_vertices hc a1 b1 a2 b2 a3 b3 brush hpos
    rw [heq] at v1 v2 v3
    rcases hv with ⟨hb, hne⟩ | ⟨hb, hne⟩ | ⟨hb, hne⟩
    · exact hne (v1 hb)
    · exact hne (v2 hb)
    · exact hne (v3 hb)
  refine ⟨fun x y => Plotter.edge_function_sum x1 y1 x2 y2 x3 y3 x y, ?_, ?_, ?_⟩
  · intro hD
    rw [hrun, Plotter.fillTriangle_negative hc x1 y1 x2 y2 x3 y3 brush hD]
  · intro hD
    exact ⟨_, hrun _ _ _ _ _ _, Plotter.fillTriangle_vertices hc x1 y1 x2 y2 x3 y3 brush hD⟩
  · intro hD hv
    have s1 : (x3 - x2) * (y1 - y2) - (y3 - y2) * (x1 - x2)
        = -((x3 - x1) * (y2 - y1) - (y3 - y1) * (x2 - x1)) := by ring
    have s2 : (x2 - x1) * (y3 - y1) - (y2 - y1) * (x3 - x1)
        = -((x3 - x1) * (y2 - y1) - (y3 - y1) * (x2 - x1)) := by ring
    have s3 : (x1 - x3) * (y2 - y3) - (y1 - y3) * (x2 - x3)
        = -((x3 - x1) * (y2 - y1) - (y3 - y1) * (x2 - x1)) := by ring
    have hv2 : (c.InBounds x2 y2 = true ∧ c.get x2 y2 ≠ brush) ∨
        (c.InBounds x1 y1 = true ∧ c.get x1 y1 ≠ brush) ∨
        (c.InBounds x3 y3 = true ∧ c.get x3 y3 ≠ brush) := by tauto
    have hv3 : (c.InBounds x1 y1 = true ∧ c.get x1 y1 ≠ brush) ∨
        (c.InBounds x3 y3 = true ∧ c.get x3 y3 ≠ brush) ∨
        (c.InBounds x2 y2 = true ∧ c.get x2 y2 ≠ brush) := by tauto
    have hv4 : (c.InBounds x3 y3 = true ∧ c.get x3 y3 ≠ brush) ∨
        (c.InBounds x2 y2 = true ∧ c.get x2 y2 ≠ brush) ∨
        (c.InBounds x1 y1 = true ∧ c.get x1 y1 ≠ brush) := by tauto
    simp only [hrun, ne_eq, Option.some.injEq]
    rcases lt_or_gt_of_ne hD with hneg | hpos
    · refine ⟨?_, ?_, ?_⟩
      · exact fun e => hdiff x2 y2 x1 y1 x3 y3 x1 y1 x2 y2 x3 y3 (by omega) hneg hv2 e.symm
      · exact fun e => hdiff x1 y1 x3 y3 x2 y2 x1 y1 x2 y2 x3 y3 (by omega) hneg hv3 e.symm
      · exact fun e => hdiff x3 y3 x2 y2 x1 y1 x1 y1 x2 y2 x3 y3 (by omega) hneg hv4 e.symm
    · refine ⟨?_, ?_, ?_⟩
      · exact hdiff x1 y1 x2 y2 x3 y3 x2 y2 x1 y1 x3 y3 (by omega) (by omega) hv
      · exact hdiff x1 y1 x2 y2 x3 y3 x1 y1 x3 y3 x2 y2 (by omega) (by omega) hv
      · exact hdiff x1 y1 x2 y2 x3 y3 x3 y3 x2 y2 x1 y1 (by omega) (by omega) hv

/-- C30 (amended) at a concrete input: the triangle `(1,1), (1,4), (5,1)` on a 7x6 canvas
of dots, and the same triangle with the first two vertices swapped. -/
theorem C30_triangle_winding_witness :
    (Canvas.new 7 6 '.').WF ∧
    ((5 : Int) - 1) * (4 - 1) - (1 - 1) * (1 - 1) ≠ 0 ∧
    ((Canvas.new 7 6 '.').InBounds 1 1 = true ∧ (Canvas.new 7 6 '.').get 1 1 ≠ '#') ∧
    Plotter.DrawTriangle 0 (Canvas.new 7 6 '.') 1 1 1 4 5 1 '#' true
      ≠ Plotter.DrawTriangle 0 (Canvas.new 7 6 '.') 1 4 1 1 5 1 '#' true :=
  ⟨⟨by decide, by decide, by decide, by decide⟩, by decide, ⟨by decide, by decide⟩,
    ((C30_triangle_winding (Canvas.new 7 6 '.') ⟨by decide, by decide, by decide, by decide⟩
      1 1 1 4 5 1 '#' 0).2.2.2 (by decide) (Or.inl ⟨by decide, by decide⟩)).1⟩

end plotter

/-! ## Extract and paste -/

namespace plotter
namespace Plotter

/-- The extracted region, cell by cell. -/
theorem extractRegion_spec (c : Canvas) (x1 y1 x2 y2 : Int) (hx : x1 ≤ x2) (hy : y1 ≤ y2)
    (hsize : (x2 - x1 + 1) * (y2 - y1 + 1) < 2 ^ 31) :
    (ExtractRegion c x1 y1 x2 y2).WF ∧
    (ExtractRegion c x1 y1 x2 y2).width_ = x2 - x1 + 1 ∧
    (ExtractRegion c x1 y1 x2 y2).height_ = y2 - y1 + 1 ∧
    ∀ i j, 0 ≤ i → i < x2 - x1 + 1 → 0 ≤ j → j < y2 - y1 + 1 →
      c.InBounds (x1 + i) (y1 + j) = true →
      (ExtractRegion c x1 y1 x2 y2).get i j = c.get (x1 + i) (y1 + j) := by
  have hw : 0 ≤ x2 - x1 + 1 := by omega
  have hh : 0 ≤ y2 - y1 + 1 := by omega
  have hnew := Canvas.new_wf hw hh hsize ' '
  have hrun : ExtractRegion c x1 y1 x2 y2
      = (regionPoints 0 0 (x2 - x1 + 1 - 1) (y2 - y1 + 1 - 1)).foldl
          (fun region p => if (fun q : Int × Int => c.InBounds (x1 + q.1) (y1 + q.2)) p = true
            then region.set p.1 p.2 ((fun q : Int × Int => c.get (x1 + q.1) (y1 + q.2)) p)
            else region)
          (Canvas.new (x2 - x1 + 1) (y2 - y1 + 1) ' ') := by
    unfold ExtractRegion
    dsimp only
    exact foldl_regionPoints (fun (region : Canvas) (p : Int × Int) =>
      if c.InBounds (x1 + p.1) (y1 + p.2) then
        region.set p.1 p.2 (c.get (x1 + p.1) (y1 + p.2)) else region) _ _ _ _ _
  obtain ⟨g1, g2, g3, g4⟩ := cells_get hnew
    (fun q : Int × Int => c.InBounds (x1 + q.1) (y1 + q.2))
    (fun q : Int × Int => c.get (x1 + q.1) (y1 + q.2))
    0 0 (x2 - x1 + 1 - 1) (y2 - y1 + 1 - 1)
    (by
      intro p hp _
      rw [mem_regionPoints] at hp
      rw [Canvas.inBounds_iff]
      simp only [Canvas.new]
      omega)
  rw [← hrun] at g1 g2 g3 g4
  refine ⟨g1, g2, g3, ?_⟩
  intro i j hi0 hi1 hj0 hj1 hsrc
  have hb : (Canvas.new (x2 - x1 + 1) (y2 - y1 + 1) ' ').InBounds i j = true := by
    rw [Canvas.inBounds_iff]
    simp only [Canvas.new]
    omega
  rw [g4 i j hb, if_pos ⟨hi0, by omega, hj0, by omega, hsrc⟩]

theorem foldl_fixed {α β : Type} (f : β → α → β) (b : β) :
    ∀ (l : List α), (∀ a ∈ l, f b a = b) → l.foldl f b = b := by
  intro l
  induction l with
  | nil => intro _; rfl
  | cons a l ih =>
    intro h
    rw [List.foldl_cons, h a (by simp)]
    exact ih (fun a' ha' => h a' (List.mem_cons_of_mem _ ha'))

end Plotter

/-- C31: extract/paste round trip. For `x1 ≤ x2` and `y1 ≤ y2` (the rectangle may lie
partly or wholly outside the canvas), `PasteRegion(ExtractRegion(x1,y1,x2,y2), x1, y1)`
raises no error and returns the canvas as it was: every cell is unchanged. -/
theorem C31_extract_paste (c : Canvas) (x1 y1 x2 y2 : Int) (hx : x1 ≤ x2) (hy : y1 ≤ y2)
    (hsize : (x2 - x1 + 1) * (y2 - y1 + 1) < 2 ^ 31) :
    Plotter.PasteRegion c (Plotter.ExtractRegion c x1 y1 x2 y2) x1 y1 = .ok c := by
  obtain ⟨rwf, rw_, rh, rget⟩ := Plotter.extractRegion_spec c x1 y1 x2 y2 hx hy hsize
  rw [Plotter.pasteRegion_eq rwf c x1 y1]
  congr 1
  apply Plotter.foldl_fixed
  intro p hp
  rw [mem_regionPoints] at hp
  by_cases hb : c.InBounds (x1 + p.1) (y1 + p.2) = true
  · rw [if_pos hb, rget p.1 p.2 (by omega) (by omega) (by omega) (by omega) hb]
    exact Canvas.set_get_self c _ _
  · rw [if_neg hb]

/-- C31 at a concrete input: a rectangle that reaches outside a 3x2 canvas. -/
theorem C31_extract_paste_witness :
    (1 : Int) ≤ 4 ∧ (-1 : Int) ≤ 1 ∧ ((4 : Int) - 1 + 1) * (1 - (-1) + 1) < 2 ^ 31 ∧
    Plotter.PasteRegion ⟨3, 2, ' ', "abcdef".toList⟩
      (Plotter.ExtractRegion ⟨3, 2, ' ', "abcdef".toList⟩ 1 (-1) 4 1) 1 (-1)
      = .ok ⟨3, 2, ' ', "abcdef".toList⟩ :=
  ⟨by decide, by decide, by decide,
    C31_extract_paste ⟨3, 2, ' ', "abcdef".toList⟩ 1 (-1) 4 1 (by decide) (by decide)
      (by decide)⟩

end plotter

/-! ## Region fill as a flat run -/

namespace plotter
namespace Canvas

/-- The offset of a position whose flat offset lies in `[0, 2 ^ 31)`, converted to `int`. -/
theorem toInt32_shift (c : Canvas) (x y : Int) (h0 : 0 ≤ x + y * c.width_)
    (h1 : x + y * c.width_ < 2 ^ 31) :
    toInt32 (c.CalculateShift x y) = x + y * c.width_ := by
  unfold CalculateShift Width
  rw [toSizeT_eq h0 h1, toInt32_eq _ (by omega)]
  omega

theorem toInt32_shift_succ (c : Canvas) (x y : Int) (h0 : 0 ≤ x + y * c.width_)
    (h1 : x + y * c.width_ + 1 < 2 ^ 31) :
    toInt32 (c.CalculateShift x y + 1) = x + y * c.width_ + 1 := by
  unfold CalculateShift Width
  rw [toSizeT_eq h0 (by omega), toInt32_eq _ (by push_cast; omega)]
  push_cast
  omega

/-- The buffer after `std::fill` on a valid range, element by element. -/
theorem fillRange_spec (data : List Char) (first last : Int) (v : Char) (h0 : 0 ≤ first)
    (h1 : first ≤ last) (h2 : last ≤ data.length) :
    ∃ d, fillRange data first last v = some d ∧ d.length = data.length ∧
      ∀ i : Nat, d[i]? = if first ≤ i ∧ (i : Int) < last then some v else data[i]? := by
  refine ⟨_, if_pos ⟨h0, h1, h2⟩, ?_, ?_⟩
  · simp only [List.length_append, List.length_take, List.length_replicate, List.length_drop]
    omega
  · intro i
    by_cases hi1 : (i : Int) < first
    · rw [if_neg (by omega), List.append_assoc, List.getElem?_append_left (by
        simp only [List.length_take]; omega), List.getElem?_take_of_lt (by omega)]
    · by_cases hi2 : (i : Int) < last
      · rw [if_pos ⟨by omega, hi2⟩, List.append_assoc, List.getElem?_append_right (by
          simp only [List.length_take]; omega), List.getElem?_append_left (by
          simp only [List.length_take, List.length_replicate]; omega)]
        rw [List.getElem?_replicate]
        rw [if_pos (by simp only [List.length_take]; omega)]
      · rw [if_neg (by omega), List.getElem?_append_right (by
          simp only [List.length_append, List.length_take, List.length_replicate]; omega),
          List.getElem?_drop]
        congr 1
        simp only [List.length_append, List.length_take, List.length_replicate]
        omega

/-- Filling a range that already holds the value changes nothing. -/
theorem fillRange_same (data : List Char) (first last : Int) (v : Char) (h0 : 0 ≤ first)
    (h1 : first ≤ last) (h2 : last ≤ data.length)
    (hv : ∀ i : Nat, first ≤ i → (i : Int) < last → data[i]? = some v) :
    fillRange data first last v = some data := by
  obtain ⟨d, hd, hlen, hget⟩ := fillRange_spec data first last v h0 h1 h2
  rw [hd]
  congr 1
  apply List.ext_getElem?
  intro i
  rw [hget i]
  split
  · rename_i h
    exact (hv i h.1 h.2).symm
  · rfl

/-- The iterations of the region fill after the first one change nothing: the range of
each lies inside the range of the first. -/
theorem fillRegionLoop_same :
    ∀ (n : Nat) (c : Canvas) (x1 y1 x2 y2 : Int) (v : Char), c.WF →
      0 ≤ x1 + y1 * c.width_ → 0 ≤ x2 + y2 * c.width_ →
      x2 + y2 * c.width_ < c.width_ * c.height_ →
      (1 ≤ n → x1 + (y1 + n - 1) * c.width_ ≤ x2 + y2 * c.width_ + 1) →
      (∀ i : Nat, x1 + y1 * c.width_ ≤ i → (i : Int) ≤ x2 + y2 * c.width_ →
        c.data_[i]? = some v) →
      FillRegionLoop n c x1 y1 x2 y2 v = some c := by
  intro n
  induction n with
  | zero =>
    intro c x1 y1 x2 y2 v _ _ _ _ _ _
    exact fillRegionLoop_zero _ _ _ _ _ _
  | succ n ih =>
    intro c x1 y1 x2 y2 v hc h0 hR h2 h3 hv
    have hs := hc.size_lt
    have hlen := hc.length_eq
    have hW := hc.width_nonneg
    have h3' := h3 (by omega)
    have hexp : (y1 + ((n + 1 : Nat) : Int) - 1) * c.width_ = y1 * c.width_ + n * c.width_ := by
      push_cast; ring
    have hnW : 0 ≤ (n : Int) * c.width_ := mul_nonneg (by omega) hW
    rw [hexp] at h3'
    have hfill : fillRange c.data_ (x1 + y1 * c.width_) (x2 + y2 * c.width_ + 1) v
        = some c.data_ :=
      fillRange_same _ _ _ _ h0 (by omega) (by omega) (fun i hi1 hi2 => hv i hi1 (by omega))
    have hnext : FillRegionLoop n c x1 (y1 + 1) x2 y2 v = some c := by
      apply ih c x1 (y1 + 1) x2 y2 v hc
      · have : (y1 + 1) * c.width_ = y1 * c.width_ + c.width_ := by ring
        omega
      · exact hR
      · exact h2
      · intro hn
        have e : (y1 + 1 + (n : Int) - 1) * c.width_ = y1 * c.width_ + n * c.width_ := by ring
        rw [e]
        exact h3'
      · intro i hi1 hi2
        apply hv i _ hi2
        have : (y1 + 1) * c.width_ = y1 * c.width_ + c.width_ := by ring
        omega
    have hfill' : fillRange c.data_ (toInt32 (c.CalculateShift x1 y1))
        (toInt32 (c.CalculateShift x2 y2 + 1)) v = some c.data_ :=
      (congrArg₂ (fun a b => fillRange c.data_ a b v) (toInt32_shift c x1 y1 h0 (by omega))
        (toInt32_shift_succ c x2 y2 (by omega) (by omega))).trans hfill
    rw [fillRegionLoop_succ, hfill', Option.some_bind]
    exact hnext

end Canvas

/-- C32 (where the stated form fails): on the 4x4 canvas, `FillRegion(9, 0, 0, 3, c)` meets
the conditions `y1 < y2` and `0 ≤ x1 + y1*W ≤ x2 + y2*W < W*H` (the offsets are 9 and
12), but the third iteration calls `std::fill` from offset `9 + 2*4 = 17` to offset 13,
a range that starts after its end and after the buffer: the call does not return a
canvas. -/
theorem C32_fillRegion_reversed_range_counterexample :
    (0 : Int) < 3 ∧ (0 : Int) ≤ 9 + 0 * (Canvas.new 4 4 '.').Width ∧
    (9 : Int) + 0 * (Canvas.new 4 4 '.').Width ≤ 0 + 3 * (Canvas.new 4 4 '.').Width ∧
    (0 : Int) + 3 * (Canvas.new 4 4 '.').Width
      < (Canvas.new 4 4 '.').Width * (Canvas.new 4 4 '.').Height ∧
    (Canvas.new 4 4 '.').FillRegion 9 0 0 3 '#' = none := by
  refine ⟨by decide, by decide, by decide, by decide, ?_⟩
  decide

/-- C32 (amended): `FillRegion` fills one contiguous run of the flat buffer. Whenever
`y1 < y2`, `0 ≤ x1 + y1*W ≤ x2 + y2*W < W*H` and the start offset of the last iteration
does not pass the end, `x1 + (y2-1)*W ≤ x2 + y2*W + 1`, the call sets exactly the buffer
offsets from `x1 + y1*W` through `x2 + y2*W` to the fill character and leaves all other
offsets unchanged; `DrawRectangle` with `fill = true` has the same effect. -/
theorem C32_fillRegion_flat_run (c : Canvas) (hc : c.WF) (x1 y1 x2 y2 : Int) (v : Char)
    (fuel : Nat) (hy : y1 < y2) (h0 : 0 ≤ x1 + y1 * c.width_)
    (h1 : x1 + y1 * c.width_ ≤ x2 + y2 * c.width_)
    (h2 : x2 + y2 * c.width_ < c.width_ * c.height_)
    (h3 : x1 + (y2 - 1) * c.width_ ≤ x2 + y2 * c.width_ + 1) :
    ∃ c', c.FillRegion x1 y1 x2 y2 v = some c' ∧
      Plotter.DrawRectangle fuel c x1 y1 x2 y2 v true = some c' ∧
      c'.width_ = c.width_ ∧ c'.height_ = c.height_ ∧ c'.data_.length = c.data_.length ∧
      ∀ i : Nat, c'.data_[i]? =
        if x1 + y1 * c.width_ ≤ i ∧ (i : Int) ≤ x2 + y2 * c.width_ then some v
        else c.data_[i]? := by
  have hs := hc.size_lt
  have hlen := hc.length_eq
  have hW := hc.width_nonneg
  obtain ⟨d, hd, hdlen, hdget⟩ := Canvas.fillRange_spec c.data_ (x1 + y1 * c.width_)
    (x2 + y2 * c.width_ + 1) v h0 (by omega) (by omega)
  obtain ⟨m, hm⟩ : ∃ m : Nat, (y2 - y1).toNat = m + 1 := ⟨(y2 - y1).toNat - 1, by omega⟩
  have hmy : (m : Int) = y2 - y1 - 1 := by omega
  have hc1 : ({ c with data_ := d } : Canvas).WF :=
    ⟨hc.width_nonneg, hc.height_nonneg, hc.size_lt, by simp only; omega⟩
  have hrest : Canvas.FillRegionLoop m { c with data_ := d } x1 (y1 + 1) x2 y2 v
      = some { c with data_ := d } := by
    apply Canvas.fillRegionLoop_same m _ x1 (y1 + 1) x2 y2 v hc1
    · have : (y1 + 1) * c.width_ = y1 * c.width_ + c.width_ := by ring
      simp only
      omega
    · simp only
      omega
    · exact h2
    · intro _
      have e : (y1 + 1 + (m : Int) - 1) = y2 - 1 := by omega
      simp only
      rw [e]
      exact h3
    · intro i hi1 hi2
      simp only at hi1 hi2 ⊢
      have : (y1 + 1) * c.width_ = y1 * c.width_ + c.width_ := by ring
      rw [hdget i, if_pos ⟨by omega, by omega⟩]
  have hrun : c.FillRegion x1 y1 x2 y2 v = some { c with data_ := d } := by
    have hd' : Canvas.fillRange c.data_ (Canvas.toInt32 (c.CalculateShift x1 y1))
        (Canvas.toInt32 (c.CalculateShift x2 y2 + 1)) v = some d :=
      (congrArg₂ (fun a b => Canvas.fillRange c.data_ a b v)
        (Canvas.toInt32_shift c x1 y1 h0 (by omega))
        (Canvas.toInt32_shift_succ c x2 y2 (by omega) (by omega))).trans hd
    unfold Canvas.FillRegion
    rw [hm, Canvas.fillRegionLoop_succ, hd', Option.some_bind]
    exact hrest
  refine ⟨{ c with data_ := d }, hrun, ?_, rfl, rfl, hdlen, ?_⟩
  · unfold Plotter.DrawRectangle
    rw [if_pos rfl]
    exact hrun
  · intro i
    rw [hdget i]
    by_cases hi : x1 + y1 * c.width_ ≤ i ∧ (i : Int) ≤ x2 + y2 * c.width_
    · rw [if_pos ⟨hi.1, by omega⟩, if_pos hi]
    · rw [if_neg (fun h => hi ⟨h.1, by omega⟩), if_neg hi]

/-- C32 (amended) at a concrete input: `FillRegion(1, 0, 1, 2)` on a 3x3 canvas fills the
offsets 1 to 7. -/
theorem C32_fillRegion_flat_run_witness :
    (Canvas.new 3 3 '.').WF ∧ (0 : Int) < 2 ∧
    (0 : Int) ≤ 1 + 0 * (Canvas.new 3 3 '.').width_ ∧
    (1 : Int) + 0 * (Canvas.new 3 3 '.').width_ ≤ 1 + 2 * (Canvas.new 3 3 '.').width_ ∧
    (1 : Int) + 2 * (Canvas.new 3 3 '.').width_
      < (Canvas.new 3 3 '.').width_ * (Canvas.new 3 3 '.').height_ ∧
    (1 : Int) + (2 - 1) * (Canvas.new 3 3 '.').width_
      ≤ 1 + 2 * (Canvas.new 3 3 '.').width_ + 1 ∧
    ∃ c', (Canvas.new 3 3 '.').FillRegion 1 0 1 2 '#' = some c' ∧
      Plotter.DrawRectangle 0 (Canvas.new 3 3 '.') 1 0 1 2 '#' true = some c' ∧
      c'.width_ = (Canvas.new 3 3 '.').width_ ∧ c'.height_ = (Canvas.new 3 3 '.').height_ ∧
      c'.data_.length = (Canvas.new 3 3 '.').data_.length ∧
      ∀ i : Nat, c'.data_[i]? =
        if 1 + 0 * (Canvas.new 3 3 '.').width_ ≤ (i : Int) ∧
            (i : Int) ≤ 1 + 2 * (Canvas.new 3 3 '.').width_ then some '#'
        else (Canvas.new 3 3 '.').data_[i]? :=
  ⟨⟨by decide, by decide, by decide, by decide⟩, by decide, by decide, by decide, by decide,
    by decide,
    C32_fillRegion_flat_run (Canvas.new 3 3 '.') ⟨by decide, by decide, by decide, by decide⟩
      1 0 1 2 '#' 0 (by decide) (by decide) (by decide) (by decide) (by decide)⟩

end plotter

/-! ## The stroke of radius zero -/

namespace plotter
namespace Plotter

/-- The calls of `draw_circle_points` in the loop of the stroke of radius 0: one, with
`(x, y) = (1, -1)`. -/
theorem circleTrace_zero (n : Nat) : circleTrace (n + 2) 0 0 3 = some [(1, -1)] := by
  rw [circleTrace, if_pos (by decide)]
  dsimp only
  rw [if_pos (by decide), if_pos (by decide)]
  have e : circleTrace (n + 1) (0 + 1) (0 - 1) (3 + 4 * (0 + 1 - (0 - 1)) + 10) = some [] := by
    rw [circleTrace, if_neg (by decide)]
  rw [e]
  rfl

/-- The stroke of radius 0 as a sequence of guarded writes. -/
theorem drawCircle_stroke_zero (c : Canvas) (cx cy : Int) (brush : Char) (n : Nat) :
    DrawCircle (n + 2) c cx cy 0 brush false
      = some (plotAll c
          ((circleOffsets (0, 0) ++ circleOffsets (1, -1)).map (fun o => (cx + o.1, cy + o.2)))
          brush) := by
  unfold DrawCircle DrawCircleBresenham
  simp only [Bool.false_eq_true, if_false]
  have e3 : (3 : Int) - 2 * 0 = 3 := by decide
  rw [e3, drawCircleLoop_eq_trace, circleTrace_zero, Option.map_some', draw_circle_points_eq,
    List.flatMap_cons, List.flatMap_nil, List.append_nil, List.map_append, plotAll_append]

/-- The fill of radius 0 is one guarded write at the centre. -/
theorem drawCircle_fill_zero (c : Canvas) (cx cy : Int) (brush : Char) (fuel : Nat) :
    DrawCircle fuel c cx cy 0 brush true = some (plotAll c [(cx, cy)] brush) := by
  unfold DrawCircle
  rw [if_pos rfl]
  have hr : intRange (-0) 0 = [0] := by decide
  rw [hr]
  simp only [List.foldl_cons, List.foldl_nil, plotAll_cons, plotAll_nil]
  unfold DrawCircleFillStep plot
  simp

end Plotter

/-- C33: radius-0 stroke. With fuel for two tests of the loop, `DrawCircle(cx, cy, 0,
brush, fill = false)` returns, and it paints exactly five cells (where they are in
bounds): the centre and its four diagonal neighbours, because the loop body runs once
after the initial plot. The radius-0 fill paints only the centre; so the two results
differ as soon as a diagonal neighbour is in bounds and does not hold the brush. -/
theorem C33_radius_zero_stroke (c : Canvas) (hc : c.WF) (cx cy : Int) (brush : Char)
    (fuel : Nat) (hfuel : 2 ≤ fuel) :
    ∃ cs cf,
      Plotter.DrawCircle fuel c cx cy 0 brush false = some cs ∧
      Plotter.DrawCircle fuel c cx cy 0 brush true = some cf ∧
      (∀ u v, c.InBounds u v = true →
        cs.get u v =
          if (u = cx ∧ v = cy) ∨ (u = cx + 1 ∧ v = cy + 1) ∨ (u = cx - 1 ∧ v = cy + 1) ∨
             (u = cx + 1 ∧ v = cy - 1) ∨ (u = cx - 1 ∧ v = cy - 1)
          then brush else c.get u v) ∧
      (∀ u v, c.InBounds u v = true →
        cf.get u v = if u = cx ∧ v = cy then brush else c.get u v) ∧
      (((c.InBounds (cx + 1) (cy + 1) = true ∧ c.get (cx + 1) (cy + 1) ≠ brush) ∨
        (c.InBounds (cx - 1) (cy + 1) = true ∧ c.get (cx - 1) (cy + 1) ≠ brush) ∨
        (c.InBounds (cx + 1) (cy - 1) = true ∧ c.get (cx + 1) (cy - 1) ≠ brush) ∨
        (c.InBounds (cx - 1) (cy - 1) = true ∧ c.get (cx - 1) (cy - 1) ≠ brush)) →
        cs ≠ cf) := by
  obtain ⟨n, rfl⟩ : ∃ n, fuel = n + 2 := ⟨fuel - 2, by omega⟩
  have hs : ∀ u v, c.InBounds u v = true →
      (Plotter.plotAll c ((Plotter.circleOffsets (0, 0) ++ Plotter.circleOffsets (1, -1)).map
        (fun o => (cx + o.1, cy + o.2))) brush).get u v =
        if (u = cx ∧ v = cy) ∨ (u = cx + 1 ∧ v = cy + 1) ∨ (u = cx - 1 ∧ v = cy + 1) ∨
           (u = cx + 1 ∧ v = cy - 1) ∨ (u = cx - 1 ∧ v = cy - 1)
        then brush else c.get u v := by
    intro u v hb
    rw [Plotter.get_plotAll hc _ _ hb]
    congr 1
    simp only [Plotter.circleOffsets, List.cons_append, List.nil_append, List.map_cons,
      List.map_nil, List.mem_cons, Prod.mk.injEq, List.mem_singleton, List.not_mem_nil,
      or_false, eq_iff_iff]
    constructor
    · intro h
      rcases h with h | h | h | h | h | h | h | h | h | h | h | h | h | h | h | h <;>
        (obtain ⟨h1, h2⟩ := h
         omega)
    · intro h
      rcases h with h | h | h | h | h <;> omega
  have hf : ∀ u v, c.InBounds u v = true →
      (Plotter.plotAll c [(cx, cy)] brush).get u v
        = if u = cx ∧ v = cy then brush else c.get u v := by
    intro u v hb
    rw [Plotter.get_plotAll hc _ _ hb]
    congr 1
    simp
  refine ⟨_, _, Plotter.drawCircle_stroke_zero c cx cy brush n,
    Plotter.drawCircle_fill_zero c cx cy brush (n + 2), hs, hf, ?_⟩
  intro hv heq
  have key : ∀ u v, c.InBounds u v = true → c.get u v ≠ brush → ¬ (u = cx ∧ v = cy) →
      ((u = cx ∧ v = cy) ∨ (u = cx + 1 ∧ v = cy + 1) ∨ (u = cx - 1 ∧ v = cy + 1) ∨
        (u = cx + 1 ∧ v = cy - 1) ∨ (u = cx - 1 ∧ v = cy - 1)) → False := by
    intro u v hb hne hnc hin
    have a := hs u v hb
    have b := hf u v hb
    rw [heq] at a
    rw [a, if_pos hin, if_neg hnc] at b
    exact hne b.symm
  rcases hv with ⟨hb, hne⟩ | ⟨hb, hne⟩ | ⟨hb, hne⟩ | ⟨hb, hne⟩
  · exact key _ _ hb hne (by omega) (Or.inr (Or.inl ⟨rfl, rfl⟩))
  · exact key _ _ hb hne (by omega) (Or.inr (Or.inr (Or.inl ⟨rfl, rfl⟩)))
  · exact key _ _ hb hne (by omega) (Or.inr (Or.inr (Or.inr (Or.inl ⟨rfl, rfl⟩))))
  · exact key _ _ hb hne (by omega) (Or.inr (Or.inr (Or.inr (Or.inr ⟨rfl, rfl⟩))))

/-- C33 at a concrete input: the centre `(1, 1)` of a 3x3 canvas of dots. -/
theorem C33_radius_zero_stroke_witness :
    (Canvas.new 3 3 '.').WF ∧ 2 ≤ 2 ∧
    ∃ cs cf,
      Plotter.DrawCircle 2 (Canvas.new 3 3 '.') 1 1 0 '#' false = some cs ∧
      Plotter.DrawCircle 2 (Canvas.new 3 3 '.') 1 1 0 '#' true = some cf ∧
      (∀ u v, (Canvas.new 3 3 '.').InBounds u v = true →
        cs.get u v =
          if (u = 1 ∧ v = 1) ∨ (u = 1 + 1 ∧ v = 1 + 1) ∨ (u = 1 - 1 ∧ v = 1 + 1) ∨
             (u = 1 + 1 ∧ v = 1 - 1) ∨ (u = 1 - 1 ∧ v = 1 - 1)
          then '#' else (Canvas.new 3 3 '.').get u v) ∧
      (∀ u v, (Canvas.new 3 3 '.').InBounds u v = true →
        cf.get u v = if u = 1 ∧ v = 1 then '#' else (Canvas.new 3 3 '.').get u v) ∧
      ((((Canvas.new 3 3 '.').InBounds (1 + 1) (1 + 1) = true ∧
          (Canvas.new 3 3 '.').get (1 + 1) (1 + 1) ≠ '#') ∨
        ((Canvas.new 3 3 '.').InBounds (1 - 1) (1 + 1) = true ∧
          (Canvas.new 3 3 '.').get (1 - 1) (1 + 1) ≠ '#') ∨
        ((Canvas.new 3 3 '.').InBounds (1 + 1) (1 - 1) = true ∧
          (Canvas.new 3 3 '.').get (1 + 1) (1 - 1) ≠ '#') ∨
        ((Canvas.new 3 3 '.').InBounds (1 - 1) (1 - 1) = true ∧
          (Canvas.new 3 3 '.').get (1 - 1) (1 - 1) ≠ '#')) →
        cs ≠ cf) :=
  ⟨⟨by decide, by decide, by decide, by decide⟩, by decide,
    C33_radius_zero_stroke (Canvas.new 3 3 '.') ⟨by decide, by decide, by decide, by decide⟩
      1 1 '#' 2 (by decide)⟩

end plotter

/-! ## Linear gradient -/

namespace plotter
namespace GrayscalePlotter

/-- The brightness of the gradient inside the rectangle lies between the two end values. -/
theorem gradientBrightness_bounds (x1 y1 x2 y2 : Int) (hx : x1 < x2) (hy : y1 < y2)
    (b0 b1 : ℚ) (x y : Int) (hx1 : x1 ≤ x) (hx2 : x ≤ x2) (hy1 : y1 ≤ y) (hy2 : y ≤ y2) :
    min b0 b1 ≤ gradientBrightness x1 y1 x2 y2 b0 b1 x y ∧
    gradientBrightness x1 y1 x2 y2 b0 b1 x y ≤ max b0 b1 := by
  have hw : (0 : ℚ) < ((x2 - x1 : Int) : ℚ) := by exact_mod_cast (by omega : (0 : Int) < x2 - x1)
  have hh : (0 : ℚ) < ((y2 - y1 : Int) : ℚ) := by exact_mod_cast (by omega : (0 : Int) < y2 - y1)
  have hxr0 : (0 : ℚ) ≤ ((x - x1 : Int) : ℚ) / ((x2 - x1 : Int) : ℚ) :=
    div_nonneg (by exact_mod_cast (by omega : (0 : Int) ≤ x - x1)) hw.le
  have hxr1 : ((x - x1 : Int) : ℚ) / ((x2 - x1 : Int) : ℚ) ≤ 1 := by
    rw [div_le_one hw]
    exact_mod_cast (by omega : x - x1 ≤ x2 - x1)
  have hyr0 : (0 : ℚ) ≤ ((y - y1 : Int) : ℚ) / ((y2 - y1 : Int) : ℚ) :=
    div_nonneg (by exact_mod_cast (by omega : (0 : Int) ≤ y - y1)) hh.le
  have hyr1 : ((y - y1 : Int) : ℚ) / ((y2 - y1 : Int) : ℚ) ≤ 1 := by
    rw [div_le_one hh]
    exact_mod_cast (by omega : y - y1 ≤ y2 - y1)
  unfold gradientBrightness
  dsimp only
  generalize ((x - x1 : Int) : ℚ) / ((x2 - x1 : Int) : ℚ) = xr at hxr0 hxr1
  generalize ((y - y1 : Int) : ℚ) / ((y2 - y1 : Int) : ℚ) = yr at hyr0 hyr1
  have hr0 : 0 ≤ (xr + yr) / 2 := by linarith
  have hr1 : (xr + yr) / 2 ≤ 1 := by linarith
  generalize (xr + yr) / 2 = r at hr0 hr1
  rcases le_total b0 b1 with h | h
  · rw [min_eq_left h, max_eq_right h]
    constructor
    · nlinarith
    · nlinarith
  · rw [min_eq_right h, max_eq_left h]
    constructor
    · nlinarith
    · nlinarith

end GrayscalePlotter

/-- C34: linear gradient stays within the palette. For a rectangle with `x1 < x2` and
`y1 < y2`, end values `b0, b1` in `[0, 1]` and a palette of `N ≥ 1` entries, the
brightness that `DrawLinearGradient` passes to `BrightnessToChar` at `(x, y)` of the
rectangle is `b0 + ((x-x1)/(x2-x1) + (y-y1)/(y2-y1))/2 * (b1-b0)`; it lies between
`min(b0, b1)` and `max(b0, b1)`, hence in `[0, 1]`, and its palette index is in range.
The call returns; every in-bounds cell of the rectangle holds the palette entry of its
brightness and every other cell is unchanged; the in-bounds corner `(x1, y1)` receives
`BrightnessToChar(b0)` and `(x2, y2)` receives `BrightnessToChar(b1)`. -/
theorem C34_linear_gradient (c : Canvas) (hc : c.WF) (palette : List Char)
    (hN : 1 ≤ palette.length) (hsize : (palette.length : Int) ≤ 2 ^ 31)
    (x1 y1 x2 y2 : Int) (hx : x1 < x2) (hy : y1 < y2) (b0 b1 : ℚ)
    (h00 : 0 ≤ b0) (h01 : b0 ≤ 1) (h10 : 0 ≤ b1) (h11 : b1 ≤ 1) :
    (∀ x y, x1 ≤ x → x ≤ x2 → y1 ≤ y → y ≤ y2 →
      GrayscalePlotter.gradientBrightness x1 y1 x2 y2 b0 b1 x y
        = b0 + (((x - x1 : Int) : ℚ) / ((x2 - x1 : Int) : ℚ)
            + ((y - y1 : Int) : ℚ) / ((y2 - y1 : Int) : ℚ)) / 2 * (b1 - b0) ∧
      min b0 b1 ≤ GrayscalePlotter.gradientBrightness x1 y1 x2 y2 b0 b1 x y ∧
      GrayscalePlotter.gradientBrightness x1 y1 x2 y2 b0 b1 x y ≤ max b0 b1 ∧
      0 ≤ GrayscalePlotter.gradientBrightness x1 y1 x2 y2 b0 b1 x y ∧
      GrayscalePlotter.gradientBrightness x1 y1 x2 y2 b0 b1 x y ≤ 1 ∧
      0 ≤ ⌊GrayscalePlotter.gradientBrightness x1 y1 x2 y2 b0 b1 x y
            * ((palette.length : ℚ) - 1)⌋ ∧
      ⌊GrayscalePlotter.gradientBrightness x1 y1 x2 y2 b0 b1 x y * ((palette.length : ℚ) - 1)⌋
        ≤ (palette.length : Int) - 1) ∧
    ∃ c', GrayscalePlotter.DrawLinearGradient c palette x1 y1 x2 y2 b0 b1 = some c' ∧
      c'.width_ = c.width_ ∧ c'.height_ = c.height_ ∧
      (∀ u v, c.InBounds u v = true →
        (x1 ≤ u ∧ u ≤ x2 ∧ y1 ≤ v ∧ v ≤ y2 →
          GrayscalePlotter.BrightnessToChar palette
            (GrayscalePlotter.gradientBrightness x1 y1 x2 y2 b0 b1 u v) = some (c'.get u v)) ∧
        (¬ (x1 ≤ u ∧ u ≤ x2 ∧ y1 ≤ v ∧ v ≤ y2) → c'.get u v = c.get u v)) ∧
      (c.InBounds x1 y1 = true →
        GrayscalePlotter.BrightnessToChar palette b0 = some (c'.get x1 y1)) ∧
      (c.InBounds x2 y2 = true →
        GrayscalePlotter.BrightnessToChar palette b1 = some (c'.get x2 y2)) := by
  have hrange : ∀ x y, x1 ≤ x → x ≤ x2 → y1 ≤ y → y ≤ y2 →
      0 ≤ GrayscalePlotter.gradientBrightness x1 y1 x2 y2 b0 b1 x y ∧
      GrayscalePlotter.gradientBrightness x1 y1 x2 y2 b0 b1 x y ≤ 1 := by
    intro x y a1 a2 a3 a4
    obtain ⟨g0, g1⟩ := GrayscalePlotter.gradientBrightness_bounds x1 y1 x2 y2 hx hy b0 b1 x y
      a1 a2 a3 a4
    exact ⟨le_trans (le_min h00 h10) g0, le_trans g1 (max_le h01 h11)⟩
  have hsome : ∀ x y, x1 ≤ x → x ≤ x2 → y1 ≤ y → y ≤ y2 →
      ∃ ch, GrayscalePlotter.BrightnessToChar palette
        (GrayscalePlotter.gradientBrightness x1 y1 x2 y2 b0 b1 x y) = some ch := by
    intro x y a1 a2 a3 a4
    obtain ⟨r0, r1⟩ := hrange x y a1 a2 a3 a4
    obtain ⟨ch, hch, -⟩ := GrayscalePlotter.brightnessToChar_some hN hsize r0 r1
    exact ⟨ch, hch⟩
  have hloop := Plotter.foldlM_cells c.width_ c.height_ x1 y1 x2 y2 (fun _ => x2)
    (fun _ _ _ => rfl)
    (GrayscalePlotter.DrawLinearGradientStep palette x1 y1 x2 y2 b0 b1)
    (fun q => c.InBounds q.1 q.2)
    (fun q => (GrayscalePlotter.BrightnessToChar palette
      (GrayscalePlotter.gradientBrightness x1 y1 x2 y2 b0 b1 q.1 q.2)).getD ' ')
    (by
      intro b x y hw hh a1 a2 a3 a4
      unfold GrayscalePlotter.DrawLinearGradientStep
      rw [Plotter.inBounds_of_dims hw hh]
      by_cases hb : c.InBounds x y = true
      · obtain ⟨ch, hch⟩ := hsome x y a1 a2 a3 a4
        rw [if_neg (by simp [hb]), if_pos hb, hch, Option.map_some']
        dsimp only
        rw [hch, Option.getD_some]
      · rw [if_pos (by simpa using hb), if_neg hb])
    c rfl rfl
  obtain ⟨g1, g2, g3, g4⟩ := Plotter.cells_get hc (fun q => c.InBounds q.1 q.2)
    (fun q => (GrayscalePlotter.BrightnessToChar palette
      (GrayscalePlotter.gradientBrightness x1 y1 x2 y2 b0 b1 q.1 q.2)).getD ' ')
    x1 y1 x2 y2 (fun q _ hq => hq)
  have hcell : ∀ u v, c.InBounds u v = true → x1 ≤ u → u ≤ x2 → y1 ≤ v → v ≤ y2 →
      GrayscalePlotter.BrightnessToChar palette
        (GrayscalePlotter.gradientBrightness x1 y1 x2 y2 b0 b1 u v)
      = some (((regionPoints x1 y1 x2 y2).foldl
          (fun b p => if (fun q : Int × Int => c.InBounds q.1 q.2) p = true then
            b.set p.1 p.2 ((fun q : Int × Int => (GrayscalePlotter.BrightnessToChar palette
              (GrayscalePlotter.gradientBrightness x1 y1 x2 y2 b0 b1 q.1 q.2)).getD ' ') p)
            else b) c).get u v) := by
    intro u v hb a1 a2 a3 a4
    rw [g4 u v hb, if_pos ⟨a1, a2, a3, a4, hb⟩]
    obtain ⟨ch, hch⟩ := hsome u v a1 a2 a3 a4
    dsimp only
    rw [hch, Option.getD_some]
  refine ⟨?_, _, hloop, g2, g3, ?_, ?_, ?_⟩
  · intro x y a1 a2 a3 a4
    obtain ⟨m0, m1⟩ := GrayscalePlotter.gradientBrightness_bounds x1 y1 x2 y2 hx hy b0 b1 x y
      a1 a2 a3 a4
    obtain ⟨r0, r1⟩ := hrange x y a1 a2 a3 a4
    obtain ⟨f0, f1⟩ := GrayscalePlotter.floor_index_bounds palette.length hN r0 r1
    exact ⟨rfl, m0, m1, r0, r1, f0, f1⟩
  · intro u v hb
    constructor
    · rintro ⟨a1, a2, a3, a4⟩
      exact hcell u v hb a1 a2 a3 a4
    · intro hout
      rw [g4 u v hb, if_neg (fun h => hout ⟨h.1, h.2.1, h.2.2.1, h.2.2.2.1⟩)]
  · intro hb
    have e : GrayscalePlotter.gradientBrightness x1 y1 x2 y2 b0 b1 x1 y1 = b0 := by
      unfold GrayscalePlotter.gradientBrightness
      simp
    rw [← hcell x1 y1 hb (le_refl _) hx.le (le_refl _) hy.le, e]
  · intro hb
    have hw : ((x2 - x1 : Int) : ℚ) ≠ 0 := by
      exact_mod_cast (by omega : x2 - x1 ≠ 0)
    have hh : ((y2 - y1 : Int) : ℚ) ≠ 0 := by
      exact_mod_cast (by omega : y2 - y1 ≠ 0)
    have e : GrayscalePlotter.gradientBrightness x1 y1 x2 y2 b0 b1 x2 y2 = b1 := by
      unfold GrayscalePlotter.gradientBrightness
      dsimp only
      rw [div_self hw, div_self hh]
      ring
    rw [← hcell x2 y2 hb hx.le (le_refl _) hy.le (le_refl _), e]

/-- C34 at a concrete input: the gradient from 0 to 1 over a 4x3 canvas under the
ten-entry palette. -/
theorem C34_linear_gradient_witness :
    (Canvas.new 4 3 '.').WF ∧ 1 ≤ [' ', '.', ':', '-', '=', '+', '*', '#', '%', '@'].length ∧
    (([' ', '.', ':', '-', '=', '+', '*', '#', '%', '@'].length : Nat) : Int) ≤ 2 ^ 31 ∧
    (0 : Int) < 3 ∧ (0 : Int) < 2 ∧ (0 : ℚ) ≤ 0 ∧ (0 : ℚ) ≤ 1 ∧ (1 : ℚ) ≤ 1 ∧
    ∃ c', GrayscalePlotter.DrawLinearGradient (Canvas.new 4 3 '.')
        [' ', '.', ':', '-', '=', '+', '*', '#', '%', '@'] 0 0 3 2 0 1 = some c' ∧
      c'.width_ = (Canvas.new 4 3 '.').width_ ∧ c'.height_ = (Canvas.new 4 3 '.').height_ ∧
      (∀ u v, (Canvas.new 4 3 '.').InBounds u v = true →
        (0 ≤ u ∧ u ≤ 3 ∧ 0 ≤ v ∧ v ≤ 2 →
          GrayscalePlotter.BrightnessToChar [' ', '.', ':', '-', '=', '+', '*', '#', '%', '@']
            (GrayscalePlotter.gradientBrightness 0 0 3 2 0 1 u v) = some (c'.get u v)) ∧
        (¬ (0 ≤ u ∧ u ≤ 3 ∧ 0 ≤ v ∧ v ≤ 2) → c'.get u v = (Canvas.new 4 3 '.').get u v)) ∧
      ((Canvas.new 4 3 '.').InBounds 0 0 = true →
        GrayscalePlotter.BrightnessToChar [' ', '.', ':', '-', '=', '+', '*', '#', '%', '@'] 0
          = some (c'.get 0 0)) ∧
      ((Canvas.new 4 3 '.').InBounds 3 2 = true →
        GrayscalePlotter.BrightnessToChar [' ', '.', ':', '-', '=', '+', '*', '#', '%', '@'] 1
          = some (c'.get 3 2)) :=
  ⟨⟨by decide, by decide, by decide, by decide⟩, by decide, by simp, by decide, by decide,
    le_refl _, zero_le_one, le_refl _,
    (C34_linear_gradient (Canvas.new 4 3 '.') ⟨by decide, by decide, by decide, by decide⟩
      [' ', '.', ':', '-', '=', '+', '*', '#', '%', '@'] (by decide) (by simp) 0 0 3 2
      (by decide) (by decide) 0 1 (le_refl _) zero_le_one zero_le_one (le_refl _)).2⟩

end plotter
